import Mathlib

/-!
# camodocal: sliding-window bundle adjustment and the per-camera acquisition thread

A shallow embedding of `src/visual_odometry/SlidingWindowBA.cc` and of
`src/calib/CamOdoThread.cc`.

Conventions of the embedding.

* `double` and `float` values are exact rationals (`ℚ`); there is no NaN, no infinity and no
  rounding.  A comparison `v.norm() > k` with `k ≥ 0` is written on squares, `normSq v > k * k`.
* Shared pointers are identifiers (`FrameId`, `FeatId`, `PointId`) into a `Graph` holding the
  objects.  A strong pointer always dereferences; a weak pointer locks only while the target is
  alive (`Graph.live2D`).
* A C++ exception (`std::vector::at` out of range) or undefined behaviour (null dereference,
  dereferencing `end()`) makes an operation return `none`.
* The only unbounded loop, the behind-camera prune inside `addFrame`, takes a fuel argument and
  returns `none` when the fuel runs out.
* Verbose-only code (`mVerbose`) prints and changes no state; it is left out.
* Library and repository code that is not part of the two embedded files (camera model, OpenCV,
  Eigen decompositions, ceres, `SparseGraph.h` accessors) is a field of `Ext`.
-/

namespace Camodocal

/-! ## Linear algebra over exact scalars -/

abbrev FrameId := Nat
abbrev FeatId := Nat
abbrev PointId := Nat

structure Vec2 where
  x : ℚ
  y : ℚ
deriving DecidableEq

structure Vec3 where
  x : ℚ
  y : ℚ
  z : ℚ
deriving DecidableEq

structure Vec4 where
  x : ℚ
  y : ℚ
  z : ℚ
  w : ℚ
deriving DecidableEq

/-- Row-major 3x3 matrix (`Eigen::Matrix3d`). -/
structure Mat3 where
  r0 : Vec3
  r1 : Vec3
  r2 : Vec3
deriving DecidableEq

/-- Row-major 4x4 matrix (`Eigen::Matrix4d`). -/
structure Mat4 where
  r0 : Vec4
  r1 : Vec4
  r2 : Vec4
  r3 : Vec4
deriving DecidableEq

/-- Quaternion in Eigen's constructor order `(w, x, y, z)`. -/
structure Quat where
  w : ℚ
  x : ℚ
  y : ℚ
  z : ℚ
deriving DecidableEq

def Vec2.sub (a b : Vec2) : Vec2 := ⟨a.x - b.x, a.y - b.y⟩

/-- Squared Euclidean norm; `v.norm() > k` is `normSq v > k * k` for `k ≥ 0`. -/
def Vec2.normSq (a : Vec2) : ℚ := a.x * a.x + a.y * a.y

def Vec3.zero : Vec3 := ⟨0, 0, 0⟩

def Vec3.add (a b : Vec3) : Vec3 := ⟨a.x + b.x, a.y + b.y, a.z + b.z⟩

def Vec3.neg (a : Vec3) : Vec3 := ⟨-a.x, -a.y, -a.z⟩

def Vec3.dot (a b : Vec3) : ℚ := a.x * b.x + a.y * b.y + a.z * b.z

def Vec4.dot (a b : Vec4) : ℚ := a.x * b.x + a.y * b.y + a.z * b.z + a.w * b.w

def Vec4.sub (a b : Vec4) : Vec4 := ⟨a.x - b.x, a.y - b.y, a.z - b.z, a.w - b.w⟩

def Vec4.smul (a : Vec4) (k : ℚ) : Vec4 := ⟨a.x * k, a.y * k, a.z * k, a.w * k⟩

def Mat3.identity : Mat3 := ⟨⟨1, 0, 0⟩, ⟨0, 1, 0⟩, ⟨0, 0, 1⟩⟩

def Mat3.neg (m : Mat3) : Mat3 := ⟨m.r0.neg, m.r1.neg, m.r2.neg⟩

def Mat3.mulVec (m : Mat3) (v : Vec3) : Vec3 := ⟨m.r0.dot v, m.r1.dot v, m.r2.dot v⟩

def Mat3.col0 (m : Mat3) : Vec3 := ⟨m.r0.x, m.r1.x, m.r2.x⟩

def Mat3.col1 (m : Mat3) : Vec3 := ⟨m.r0.y, m.r1.y, m.r2.y⟩

def Mat3.col2 (m : Mat3) : Vec3 := ⟨m.r0.z, m.r1.z, m.r2.z⟩

def Mat3.mul (a b : Mat3) : Mat3 :=
  ⟨⟨a.r0.dot b.col0, a.r0.dot b.col1, a.r0.dot b.col2⟩,
   ⟨a.r1.dot b.col0, a.r1.dot b.col1, a.r1.dot b.col2⟩,
   ⟨a.r2.dot b.col0, a.r2.dot b.col1, a.r2.dot b.col2⟩⟩

def Mat4.col0 (m : Mat4) : Vec4 := ⟨m.r0.x, m.r1.x, m.r2.x, m.r3.x⟩

def Mat4.col1 (m : Mat4) : Vec4 := ⟨m.r0.y, m.r1.y, m.r2.y, m.r3.y⟩

def Mat4.col2 (m : Mat4) : Vec4 := ⟨m.r0.z, m.r1.z, m.r2.z, m.r3.z⟩

def Mat4.col3 (m : Mat4) : Vec4 := ⟨m.r0.w, m.r1.w, m.r2.w, m.r3.w⟩

def Mat4.mulVec (m : Mat4) (v : Vec4) : Vec4 := ⟨m.r0.dot v, m.r1.dot v, m.r2.dot v, m.r3.dot v⟩

def Mat4.rowMul (r : Vec4) (b : Mat4) : Vec4 := ⟨r.dot b.col0, r.dot b.col1, r.dot b.col2, r.dot b.col3⟩

def Mat4.mul (a b : Mat4) : Mat4 :=
  ⟨Mat4.rowMul a.r0 b, Mat4.rowMul a.r1 b, Mat4.rowMul a.r2 b, Mat4.rowMul a.r3 b⟩

/-- `H.block<3,3>(0,0)`. -/
def Mat4.block33 (m : Mat4) : Mat3 :=
  ⟨⟨m.r0.x, m.r0.y, m.r0.z⟩, ⟨m.r1.x, m.r1.y, m.r1.z⟩, ⟨m.r2.x, m.r2.y, m.r2.z⟩⟩

/-- `H.block<3,1>(0,3)`. -/
def Mat4.block31 (m : Mat4) : Vec3 := ⟨m.r0.w, m.r1.w, m.r2.w⟩

/-- `P.block<3,1>(0,0)` of a 4-vector. -/
def Vec4.head3 (v : Vec4) : Vec3 := ⟨v.x, v.y, v.z⟩

/-- `Eigen::Quaterniond::Identity()`. -/
def Quat.identity : Quat := ⟨1, 0, 0, 0⟩

/-- `Eigen::Quaterniond::conjugate()`. -/
def Quat.conjugate (q : Quat) : Quat := ⟨q.w, -q.x, -q.y, -q.z⟩

/-- Quaternion product `a * b` (Hamilton product, as in Eigen). -/
def Quat.mul (a b : Quat) : Quat :=
  ⟨a.w * b.w - a.x * b.x - a.y * b.y - a.z * b.z,
   a.w * b.x + a.x * b.w + a.y * b.z - a.z * b.y,
   a.w * b.y + a.y * b.w + a.z * b.x - a.x * b.z,
   a.w * b.z + a.z * b.w + a.x * b.y - a.y * b.x⟩

/-- `Eigen::Quaterniond::toRotationMatrix()`: Eigen's polynomial formula, no normalisation. -/
def Quat.toRotationMatrix (q : Quat) : Mat3 :=
  let tx := 2 * q.x
  let ty := 2 * q.y
  let tz := 2 * q.z
  let twx := tx * q.w
  let twy := ty * q.w
  let twz := tz * q.w
  let txx := tx * q.x
  let txy := ty * q.x
  let txz := tz * q.x
  let tyy := ty * q.y
  let tyz := tz * q.y
  let tzz := tz * q.z
  ⟨⟨1 - (tyy + tzz), txy - twz, txz + twy⟩,
   ⟨txy + twz, 1 - (txx + tzz), tyz - twx⟩,
   ⟨txz - twy, tyz + twx, 1 - (txx + tyy)⟩⟩

/-! ## Data model (`sparse_graph/SparseGraph.h`, as used by the two embedded files) -/

/-- `Pose`: a rotation, a translation and a time stamp.  Also the type of `m_T_cam_odo`. -/
structure Pose where
  rotation : Quat
  translation : Vec3
  timeStamp : Nat
deriving DecidableEq

/-- `Odometry`: the system pose of a frame, `position()` and `attitude()` (yaw, pitch, roll). -/
structure Odometry where
  position : Vec3
  attitude : Vec3
  timeStamp : Nat
deriving DecidableEq

/-- `Point2DFeature`: `keypoint().pt`, the strong link `feature3D()` (nullable), the weak
    links `prevMatches()` and the two best-match indices (`-1` is "none"). -/
structure Point2DFeature where
  keypoint : Vec2
  feature3D : Option PointId
  prevMatches : List FeatId
  bestPrevMatchId : Int
  bestNextMatchId : Int
deriving DecidableEq

/-- `Point3DFeature`: `point()` and the weak observer list `features2D()`. -/
structure Point3DFeature where
  point : Vec3
  features2D : List FeatId
deriving DecidableEq

/-- `Frame`: `cameraPose()` and `systemPose()` are nullable shared pointers, `features2D()` is
    a vector of strong pointers. -/
structure Frame where
  cameraPose : Option Pose
  systemPose : Option Odometry
  features2D : List FeatId
deriving DecidableEq

/-- Update of a store at one identifier. -/
def upd {α : Type} (f : Nat → α) (a : Nat) (v : α) : Nat → α :=
  fun b => if b = a then v else f b

/-- The object graph: every `Frame`, `Point2DFeature` and `Point3DFeature` of the program.
    `live2D` tells whether a weak pointer to a 2D feature still locks; `nextPoint` is the
    identifier the next `new Point3DFeature` gets. -/
structure Graph where
  frames : FrameId → Frame
  features : FeatId → Point2DFeature
  live2D : FeatId → Bool
  points : PointId → Point3DFeature
  nextPoint : PointId

/-- The estimation mode is an `int`; every test in the source is `mMode == VO` or
    `mMode == ODOMETRY`, so any other value is one further case. -/
inductive Mode where
  | VO
  | ODOMETRY
  | other
deriving DecidableEq

/-- The members of `SlidingWindowBA` that `addFrame` reads or writes. -/
structure SlidingWindowBA where
  m_N : Int
  m_n : Int
  mMode : Mode
  mFrameCount : Nat
  mWindow : List FrameId
  m_T_cam_odo : Pose
deriving DecidableEq

/-- An estimator together with the object graph it works on. -/
structure World where
  ba : SlidingWindowBA
  g : Graph

/-! ## External collaborators -/

/-- One residual block handed to ceres by `optimize()`: the observing frame, the observed 2D
    feature and the 3D point it is linked to. -/
structure ResidualBlock where
  frame : FrameId
  feature : FeatId
  point : PointId
deriving DecidableEq

/-- The problem `optimize()` builds: its residual blocks in insertion order, and the window
    frames on which `SetParameterBlockConstant` is called for the camera pose. -/
structure CeresProblem where
  residuals : List ResidualBlock
  constantFrames : List FrameId
  quaternionExtrinsic : Bool
deriving DecidableEq

/-- The values ceres leaves in the parameter blocks. -/
structure CeresSolution where
  rotation : FrameId → Quat
  translation : FrameId → Vec3
  point : PointId → Vec3
  extrinsicRotation : Quat
  extrinsicTranslation : Vec3

/-- Code outside the two embedded files, taken as parameters: the camera model
    (`camera_models/Camera.h`), `Pose` and `Odometry` members (`sparse_graph`), Eigen
    decompositions, `gpl/EigenUtils.h`, libm, the five-point and PnP solvers (OpenCV) and the
    ceres solver. -/
structure Ext where
  spaceToPlane : Vec3 → Vec2
  liftProjective : Vec2 → Vec3
  cameraReprojectionError : Vec3 → Quat → Vec3 → Vec2 → ℚ
  newPose : Pose
  poseToMatrix : Pose → Mat4
  odometryToMatrix : Odometry → Mat4
  quatOfMat : Mat3 → Quat
  inverse : Mat4 → Mat4
  jacobiSvdV3 : Mat4 → Vec4
  homogeneousTransform : Mat3 → Vec3 → Mat4
  RotationToAngleAxis : Mat3 → Vec3
  AngleAxisToQuaternion : Vec3 → Quat
  cos : ℚ → ℚ
  sin : ℚ → ℚ
  findEssentialMat : List Vec2 → List Vec2 → ℚ → Mat3 × List Bool
  recoverPose : Mat3 → List Vec2 → List Vec2 → List Bool → Mat3 × Vec3 × List Bool
  solvePnPRansac : List Vec3 → List Vec2 → Vec3 → Vec3 → ℚ → Vec3 × Vec3
  ceresSolve : CeresProblem → World → CeresSolution

/-! ## Constants set by the constructor (`SlidingWindowBA.cc`, lines 23-30) -/

def kMinDisparity : ℚ := 3

def kNominalFocalLength : ℚ := 300

def kReprojErrorThresh : ℚ := 2

def kTVTReprojErrorThresh : ℚ := 3

def kMin2D2DFeatureCorrespondences : Nat := 10

def kMin2D3DFeatureCorrespondences : Nat := 10

/-- Conversion of an `int` to `size_t` (64 bit), as in `mWindow.size() > m_N`. -/
def toSizeT (i : Int) : Nat := (i % 18446744073709551616).toNat

/-- The constructor: an empty window and a frame count of zero.  `globalCameraPose` arrives
    already split into the rotation and translation of `m_T_cam_odo`. -/
def SlidingWindowBA.construct (N n : Int) (mode : Mode) (T_cam_odo : Pose) : SlidingWindowBA :=
  { m_N := N, m_n := n, mMode := mode, mFrameCount := 0, mWindow := [], m_T_cam_odo := T_cam_odo }

/-- `SlidingWindowBA::clear`. -/
def SlidingWindowBA.clear (ba : SlidingWindowBA) : SlidingWindowBA :=
  { ba with mFrameCount := 0, mWindow := [] }

/-- `SlidingWindowBA::windowSize`. -/
def SlidingWindowBA.windowSize (ba : SlidingWindowBA) : Nat := ba.mWindow.length

/-- `SlidingWindowBA::empty`. -/
def SlidingWindowBA.empty (ba : SlidingWindowBA) : Bool := ba.mWindow.isEmpty

/-- `World.clear`: `clear()` on the estimator of a world. -/
def World.clear (w : World) : World := { w with ba := w.ba.clear }

/-! ## Graph updates -/

def Graph.setFeature3D (g : Graph) (f : FeatId) (p : Option PointId) : Graph :=
  let ft := g.features f
  { g with features := upd g.features f { ft with feature3D := p } }

/-- `point->features2D().push_back(f)`. -/
def Graph.pushObserver (g : Graph) (p : PointId) (f : FeatId) : Graph :=
  let pt := g.points p
  { g with points := upd g.points p { pt with features2D := pt.features2D ++ [f] } }

/-- `Point3DFeaturePtr point3D(new Point3DFeature); point3D->point() = P;`. -/
def Graph.allocPoint (g : Graph) (P : Vec3) : Graph :=
  { g with points := upd g.points g.nextPoint ⟨P, []⟩, nextPoint := g.nextPoint + 1 }

/-- Lines 322-332 and 655-667: a new 3D point observed by `f0` then `f1`, both linked to it. -/
def Graph.linkNewPoint (g : Graph) (P : Vec3) (f0 f1 : FeatId) : Graph :=
  let id := g.nextPoint
  ((((g.allocPoint P).pushObserver id f0).setFeature3D f0 (some id)).pushObserver id
    f1).setFeature3D f1 (some id)

/-- Lines 348-349, 468-469, 685-686: `f0->bestNextMatchId() = -1; f1->bestPrevMatchId() = -1`. -/
def Graph.sever (g : Graph) (f0 f1 : FeatId) : Graph :=
  let a := g.features f0
  let g1 : Graph := { g with features := upd g.features f0 { a with bestNextMatchId := -1 } }
  let b := g1.features f1
  { g1 with features := upd g1.features f1 { b with bestPrevMatchId := -1 } }

def Graph.setCameraPose (g : Graph) (F : FrameId) (p : Option Pose) : Graph :=
  let fr := g.frames F
  { g with frames := upd g.frames F { fr with cameraPose := p } }

/-- `weak.lock()`: the target if it is still alive. -/
def Graph.lock (g : Graph) (f : FeatId) : Option FeatId :=
  if g.live2D f then some f else none

/-- Modelled from the spec: `Point2DFeature::prevMatch()` (declared in
    `sparse_graph/SparseGraph.h`, not among the sources) is the weak link to the observation of
    the same point in the previous frame, the entry of `prevMatches()` selected by the
    best-match index.  An index outside the vector is an exception (`none`). -/
def Point2DFeature.prevMatch (f : Point2DFeature) : Option FeatId :=
  if f.bestPrevMatchId < 0 then none else f.prevMatches[f.bestPrevMatchId.toNat]?

/-! ## `findFeatureCorrespondences` (lines 1120-1171) -/

/-- The inner loop, lines 1141-1156: `hops` steps back from `cur`, `acc` being `pt[j..]`.
    The outer `Option` is the exception of `prevMatch()`, the inner one is
    `foundCorrespondences`. -/
def chainBack (g : Graph) : Nat → FeatId → List FeatId → Option (Option (List FeatId))
  | 0, _, acc => some (some acc)
  | j + 1, cur, acc =>
    if (g.features cur).prevMatches.isEmpty ∨ (g.features cur).bestPrevMatchId = -1 then
      some none
    else
      match (g.features cur).prevMatch with
      | none => none
      | some weak =>
        match g.lock weak with
        | none => some none
        | some prev => chainBack g j prev (prev :: acc)

/-- The outer loop, lines 1134-1170, returning the chains it pushes. -/
def findLoop (g : Graph) (hops : Nat) : List FeatId → Option (List (List FeatId))
  | [] => some []
  | f :: fs =>
    match chainBack g hops f [f] with
    | none => none
    | some r =>
      match findLoop g hops fs with
      | none => none
      | some rest =>
        match r with
        | none => some rest
        | some c => some (c :: rest)

/-- `SlidingWindowBA::findFeatureCorrespondences`; the result is the output vector
    `correspondences` after the call. -/
def findFeatureCorrespondences (g : Graph) (features : List FeatId) (nViews : Int)
    (correspondences : List (List FeatId)) : Option (List (List FeatId)) :=
  if nViews < 2 then some correspondences
  else (findLoop g (nViews - 1).toNat features).map (fun found => correspondences ++ found)

/-- A two-view correspondence `fc` as the pair `(fc.at(0), fc.at(1))`.  `addFrame` also
    writes `imagePoints[j]` for every `j < fc.size()` into a two-element array, so any size
    other than two is an exception or an out-of-bounds write. -/
def asPair : List FeatId → Option (FeatId × FeatId)
  | [a, b] => some (a, b)
  | _ => none

def asPairs : List (List FeatId) → Option (List (FeatId × FeatId))
  | [] => some []
  | fc :: rest =>
    match asPair fc with
    | none => none
    | some pr =>
      match asPairs rest with
      | none => none
      | some prs => some (pr :: prs)

/-! ## Projection and triangulation (lines 1173-1308) -/

/-- `SlidingWindowBA::project3DPoint`: `none` is the return value `false`. -/
def project3DPoint (ext : Ext) (q : Quat) (t : Vec3) (src : Vec3) : Option Vec2 :=
  let P := (q.toRotationMatrix.mulVec src).add t
  if P.z < 0 then none else some (ext.spaceToPlane P)

/-- `SlidingWindowBA::rectifyImagePoint`. -/
def rectifyImagePoint (ext : Ext) (src : Vec2) : Vec2 :=
  let P := ext.liftProjective src
  ⟨P.x / P.z, P.y / P.z⟩

/-- `SlidingWindowBA::rectifyImagePoints`. -/
def rectifyImagePoints (ext : Ext) (src : List Vec2) : List Vec2 :=
  src.map (rectifyImagePoint ext)

/-- `T.block<3,4>(0,0)` keeps the first three rows of `T`; the rows of the result are read
    through `Mat4.r0`, `Mat4.r1`, `Mat4.r2`.  One iteration of the loop of `triangulatePoints`,
    lines 1258-1306: the scene point if it is kept. -/
def triangulateOne (ext : Ext) (mode : Mode) (q1 : Quat) (t1 : Vec3) (q2 : Quat) (t2 : Vec3)
    (p1_cv p2_cv : Vec2) : Option Vec3 :=
  let P1 := ext.homogeneousTransform q1.toRotationMatrix t1
  let P2 := ext.homogeneousTransform q2.toRotationMatrix t2
  let rect_p1 := rectifyImagePoint ext p1_cv
  let rect_p2 := rectifyImagePoint ext p2_cv
  let J : Mat4 :=
    ⟨(P1.r2.smul rect_p1.x).sub P1.r0, (P1.r2.smul rect_p1.y).sub P1.r1,
     (P2.r2.smul rect_p2.x).sub P2.r0, (P2.r2.smul rect_p2.y).sub P2.r1⟩
  let V := ext.jacobiSvdV3 J
  let P : Vec4 := ⟨V.x / V.w, V.y / V.w, V.z / V.w, V.w / V.w⟩
  match project3DPoint ext q1 t1 P.head3 with
  | none => none
  | some p1 =>
    match project3DPoint ext q2 t2 P.head3 with
    | none => none
    | some p2 =>
      if mode = Mode.VO then
        if (p1.sub p1_cv).normSq > kTVTReprojErrorThresh * kTVTReprojErrorThresh then none
        else if (p2.sub p2_cv).normSq > kTVTReprojErrorThresh * kTVTReprojErrorThresh then none
        else if (p1.sub p2).normSq < kMinDisparity * kMinDisparity then none
        else some P.head3
      else some P.head3

/-- The loop of `triangulatePoints` from index `i` on; `imagePoints2.at(i)` may throw. -/
def triangulateFrom (ext : Ext) (mode : Mode) (q1 : Quat) (t1 : Vec3) (q2 : Quat) (t2 : Vec3)
    (imagePoints2 : List Vec2) : Nat → List Vec2 → Option (List (Vec3 × Nat))
  | _, [] => some []
  | i, p1 :: rest =>
    match imagePoints2[i]? with
    | none => none
    | some p2 =>
      match triangulateFrom ext mode q1 t1 q2 t2 imagePoints2 (i + 1) rest with
      | none => none
      | some tl =>
        match triangulateOne ext mode q1 t1 q2 t2 p1 p2 with
        | none => some tl
        | some P => some ((P, i) :: tl)

/-- `SlidingWindowBA::triangulatePoints`: the pairs `(points3D[k], inliers[k])` it pushes. -/
def triangulatePoints (ext : Ext) (mode : Mode) (q1 : Quat) (t1 : Vec3)
    (imagePoints1 : List Vec2) (q2 : Quat) (t2 : Vec3) (imagePoints2 : List Vec2) :
    Option (List (Vec3 × Nat)) :=
  triangulateFrom ext mode q1 t1 q2 t2 imagePoints2 0 imagePoints1

/-! ## Reprojection error (lines 963-1118, and `CamOdoThread.cc`, lines 80-138) -/

/-- `SlidingWindowBA::reprojectionError`, the pose-anchored helper (lines 1099-1118). -/
def reprojectionError (ext : Ext) (P : Vec3) (cam_odo_q : Quat) (cam_odo_t : Vec3)
    (odo_p : Vec3) (odo_att : Vec3) (observed_p : Vec2) : ℚ :=
  let q_z : Quat := ⟨ext.cos (odo_att.x / 2), 0, 0, ext.sin (odo_att.x / 2)⟩
  let q_y : Quat := ⟨ext.cos (odo_att.y / 2), 0, ext.sin (odo_att.y / 2), 0⟩
  let q_x : Quat := ⟨ext.cos (odo_att.z / 2), ext.sin (odo_att.z / 2), 0, 0⟩
  let odo_q := (q_z.mul q_y).mul q_x
  let odo_t := odo_p
  let cam_q := cam_odo_q.conjugate.mul odo_q.conjugate
  let cam_t :=
    cam_odo_q.conjugate.toRotationMatrix.neg.mulVec
      (odo_q.conjugate.toRotationMatrix.neg.mulVec odo_t)
  ext.cameraReprojectionError P cam_q cam_t observed_p

/-- `std::numeric_limits<double>::max()`. -/
def DBL_MAX : ℚ := (2 ^ 53 - 1) * 2 ^ 971

/-- `std::numeric_limits<double>::min()`, the smallest positive normal double. -/
def DBL_MIN : ℚ := 1 / 2 ^ 1022

/-- The four locals `minError`, `maxError`, `count`, `totalError` of the error loops. -/
structure ErrAcc where
  minError : ℚ
  maxError : ℚ
  count : Nat
  totalError : ℚ
deriving DecidableEq

def ErrAcc.init : ErrAcc := ⟨DBL_MAX, DBL_MIN, 0, 0⟩

/-- Lines 1074-1083. -/
def ErrAcc.add (a : ErrAcc) (error : ℚ) : ErrAcc :=
  { minError := if a.minError > error then error else a.minError
    maxError := if a.maxError < error then error else a.maxError
    count := a.count + 1
    totalError := a.totalError + error }

/-- Lines 1087-1096: the values left in `(minError, maxError, avgError)`. -/
def ErrAcc.result (a : ErrAcc) : ℚ × ℚ × ℚ :=
  if a.count = 0 then (0, 0, 0) else (a.minError, a.maxError, a.totalError / a.count)

/-- Lines 1056-1072: the error of one 3D-backed observation of frame `F`. -/
def observationError (ext : Ext) (w : World) (F : FrameId) (f : FeatId) (p : PointId) :
    Option ℚ :=
  if w.ba.mMode = Mode.VO then
    match (w.g.frames F).cameraPose with
    | none => none
    | some pose =>
      some (ext.cameraReprojectionError (w.g.points p).point pose.rotation pose.translation
        (w.g.features f).keypoint)
  else
    match (w.g.frames F).systemPose with
    | none => none
    | some sp =>
      some (reprojectionError ext (w.g.points p).point w.ba.m_T_cam_odo.rotation
        w.ba.m_T_cam_odo.translation sp.position sp.attitude (w.g.features f).keypoint)

/-- The loop over the features of one frame (lines 1046-1084). -/
def frameErrors (ext : Ext) (w : World) (F : FrameId) : ErrAcc → List FeatId → Option ErrAcc
  | acc, [] => some acc
  | acc, f :: fs =>
    match (w.g.features f).feature3D with
    | none => frameErrors ext w F acc fs
    | some p =>
      match observationError ext w F f p with
      | none => none
      | some e => frameErrors ext w F (acc.add e) fs

/-- The loop over the window (lines 1040-1085). -/
def windowErrors (ext : Ext) (w : World) : ErrAcc → List FrameId → Option ErrAcc
  | acc, [] => some acc
  | acc, F :: Fs =>
    match frameErrors ext w F acc (w.g.frames F).features2D with
    | none => none
    | some acc1 => windowErrors ext w acc1 Fs

/-- `SlidingWindowBA::windowReprojectionError`: `(minError, maxError, avgError)`. -/
def windowReprojectionError (ext : Ext) (w : World) : Option (ℚ × ℚ × ℚ) :=
  (windowErrors ext w ErrAcc.init w.ba.mWindow).map ErrAcc.result

/-- `SlidingWindowBA::frameReprojectionError`; `std::advance` past the end is undefined. -/
def frameReprojectionError (ext : Ext) (w : World) (windowIdx : Nat) : Option (ℚ × ℚ × ℚ) :=
  match w.ba.mWindow[windowIdx]? with
  | none => none
  | some F => (frameErrors ext w F ErrAcc.init (w.g.frames F).features2D).map ErrAcc.result

/-- The innermost loop of `CamOdoThread::reprojectionError` (lines 99-124). -/
def CamOdoThread.featureErrors (ext : Ext) (g : Graph) (F : FrameId) :
    ErrAcc → List FeatId → Option ErrAcc
  | acc, [] => some acc
  | acc, f :: fs =>
    match (g.features f).feature3D with
    | none => CamOdoThread.featureErrors ext g F acc fs
    | some p =>
      match (g.frames F).cameraPose with
      | none => none
      | some pose =>
        CamOdoThread.featureErrors ext g F
          (acc.add (ext.cameraReprojectionError (g.points p).point pose.rotation
            pose.translation (g.features f).keypoint)) fs

/-- The loop over the frames of one segment (lines 93-125). -/
def CamOdoThread.segmentErrors (ext : Ext) (g : Graph) : ErrAcc → List FrameId → Option ErrAcc
  | acc, [] => some acc
  | acc, F :: Fs =>
    match CamOdoThread.featureErrors ext g F acc (g.frames F).features2D with
    | none => none
    | some acc1 => CamOdoThread.segmentErrors ext g acc1 Fs

/-- The loop over `m_frameSegments` (lines 89-126). -/
def CamOdoThread.segmentsErrors (ext : Ext) (g : Graph) :
    ErrAcc → List (List FrameId) → Option ErrAcc
  | acc, [] => some acc
  | acc, seg :: segs =>
    match CamOdoThread.segmentErrors ext g acc seg with
    | none => none
    | some acc1 => CamOdoThread.segmentsErrors ext g acc1 segs

/-- `CamOdoThread::reprojectionError` on the member `m_frameSegments`. -/
def CamOdoThread.reprojectionError (ext : Ext) (g : Graph)
    (m_frameSegments : List (List FrameId)) : Option (ℚ × ℚ × ℚ) :=
  (CamOdoThread.segmentsErrors ext g ErrAcc.init m_frameSegments).map ErrAcc.result

/-! ## `optimize` (lines 1399-1544) -/

/-- The residual blocks of one frame (lines 1420-1462), one per 3D-backed feature. -/
def frameResiduals (g : Graph) (F : FrameId) : List FeatId → List ResidualBlock
  | [] => []
  | f :: fs =>
    match (g.features f).feature3D with
    | none => frameResiduals g F fs
    | some p => ⟨F, f, p⟩ :: frameResiduals g F fs

/-- The residual blocks of the window, or `none` if a parameter block of a frame with a
    residual is read through a null pose pointer (`frame->cameraPose()->rotationData()`,
    `frame->systemPose()->positionData()`). -/
def windowResiduals (w : World) : List FrameId → Option (List ResidualBlock)
  | [] => some []
  | F :: Fs =>
    let rs := frameResiduals w.g F (w.g.frames F).features2D
    let defined : Bool :=
      rs.isEmpty ||
        (if w.ba.mMode = Mode.VO then (w.g.frames F).cameraPose.isSome
         else (w.g.frames F).systemPose.isSome)
    if defined then
      match windowResiduals w Fs with
      | none => none
      | some rest => some (rs ++ rest)
    else none

/-- Lines 1493-1535: the frames the two loops visit, the first `m_N - m_n` of the window if
    the window is longer than that and the first one otherwise (`none`: `*it` on an empty
    window).  `int` arithmetic is taken without overflow. -/
def fixedPrefix (ba : SlidingWindowBA) : Option (List FrameId) :=
  if ba.mWindow.length > toSizeT (ba.m_N - ba.m_n) then
    some (ba.mWindow.take (ba.m_N - ba.m_n).toNat)
  else
    match ba.mWindow with
    | [] => none
    | F :: _ => some [F]

/-- The frames whose camera pose blocks are set constant: the visited prefix in VO mode (a null
    `cameraPose()` there is a null dereference), none in the other modes. -/
def constantFrames (w : World) : Option (List FrameId) :=
  match fixedPrefix w.ba with
  | none => none
  | some fixed =>
    if w.ba.mMode = Mode.VO then
      if fixed.all (fun F => (w.g.frames F).cameraPose.isSome) then some fixed else none
    else some []

/-- The problem built by `optimize()`. -/
def buildProblem (w : World) : Option CeresProblem :=
  match windowResiduals w w.ba.mWindow with
  | none => none
  | some rs =>
    match constantFrames w with
    | none => none
    | some fixed => some ⟨rs, fixed, decide (w.ba.mMode = Mode.ODOMETRY)⟩

/-- The values ceres writes back.  In VO mode: rotation and translation of every frame with
    a residual block that was not set constant.  In the other modes: `m_T_cam_odo` (the
    system poses are constant).  In every mode: the position of every point with a residual. -/
def applySolution (w : World) (prob : CeresProblem) (sol : CeresSolution) : World :=
  let inProblem : FrameId → Bool := fun F => prob.residuals.any (fun r => r.frame = F)
  let pointInProblem : PointId → Bool := fun p => prob.residuals.any (fun r => r.point = p)
  let frames : FrameId → Frame := fun F =>
    if w.ba.mMode = Mode.VO ∧ inProblem F = true ∧ F ∉ prob.constantFrames then
      let fr := w.g.frames F
      { fr with cameraPose := fr.cameraPose.map (fun ps =>
          { ps with rotation := sol.rotation F, translation := sol.translation F }) }
    else w.g.frames F
  let points : PointId → Point3DFeature := fun p =>
    if pointInProblem p = true then
      let pt := w.g.points p
      { pt with point := sol.point p }
    else w.g.points p
  let T := w.ba.m_T_cam_odo
  let T1 : Pose :=
    if w.ba.mMode = Mode.VO ∨ prob.residuals.isEmpty then T
    else { T with rotation := sol.extrinsicRotation, translation := sol.extrinsicTranslation }
  let ba := w.ba
  let g := w.g
  { ba := { ba with m_T_cam_odo := T1 }, g := { g with frames := frames, points := points } }

/-- `SlidingWindowBA::optimize`. -/
def optimize (ext : Ext) (w : World) : Option World :=
  match buildProblem w with
  | none => none
  | some prob => some (applySolution w prob (ext.ceresSolve prob w))

/-! ## The behind-camera prune (lines 789-847) -/

/-- Lines 808-822: the point `p` in the camera frame of window frame `F`. -/
def cameraFramePoint (ext : Ext) (w : World) (F : FrameId) (p : PointId) : Option Vec3 :=
  if w.ba.mMode = Mode.VO then
    match (w.g.frames F).cameraPose with
    | none => none
    | some pose =>
      some ((pose.rotation.toRotationMatrix.mulVec (w.g.points p).point).add pose.translation)
  else
    match (w.g.frames F).systemPose with
    | none => none
    | some sp =>
      let X := (w.g.points p).point
      let P := (Mat4.mul (ext.inverse (ext.poseToMatrix w.ba.m_T_cam_odo))
        (ext.inverse (ext.odometryToMatrix sp))).mulVec ⟨X.x, X.y, X.z, 1⟩
      some P.head3

/-- Lines 832-838: every observer of the point that still locks loses its 3D link. -/
def unlinkObservers (g : Graph) : List FeatId → Graph
  | [] => g
  | o :: os =>
    match g.lock o with
    | none => unlinkObservers g os
    | some f => unlinkObservers (g.setFeature3D f none) os

/-- The `while (itF2D != features2D.end())` loop of one frame (lines 798-846); the list is
    what remains from `itF2D` on.  The second component collects the points pruned, one entry
    per `++nPrunedScenePoints`. -/
def pruneFeatures (ext : Ext) (F : FrameId) :
    Nat → World → List FeatId → List PointId → Option (World × List PointId)
  | 0, _, _, _ => none
  | _ + 1, w, [], pruned => some (w, pruned)
  | fuel + 1, w, f :: rest, pruned =>
    match (w.g.features f).feature3D with
    | none => pruneFeatures ext F fuel w rest pruned
    | some p =>
      match cameraFramePoint ext w F p with
      | none => none
      | some P_cam =>
        if P_cam.z < 0 then
          pruneFeatures ext F fuel
            { w with g := unlinkObservers w.g (w.g.points p).features2D } (f :: rest)
            (pruned ++ [p])
        else pruneFeatures ext F fuel w rest pruned

/-- The loop over the window (lines 791-847); every frame gets the same fuel. -/
def pruneWindow (ext : Ext) (fuel : Nat) :
    World → List FrameId → List PointId → Option (World × List PointId)
  | w, [], pruned => some (w, pruned)
  | w, F :: Fs, pruned =>
    match pruneFeatures ext F fuel w (w.g.frames F).features2D pruned with
    | none => none
    | some (w1, pruned1) => pruneWindow ext fuel w1 Fs pruned1

/-- Lines 700-723: does some 2D feature of a window frame carry a 3D link? -/
def runOptimization (w : World) : Bool :=
  w.ba.mWindow.any fun F => (w.g.frames F).features2D.any fun f =>
    (w.g.features f).feature3D.isSome

/-! ## `addFrame` (lines 44-870) -/

/-- Lines 57-60: `while (mWindow.size() > m_N) mWindow.pop_front();`. -/
def popFrontWhile (N : Nat) : List FrameId → List FrameId
  | [] => []
  | F :: Fs => if (F :: Fs).length > N then popFrontWhile N Fs else F :: Fs

/-- Lines 160-169: the correspondences whose entry in row 0 of `inliers` is non-zero, from
    column `i` on; `featureCorrespondences.at(i)` may throw. -/
def selectInliers (featureCorrespondences : List (FeatId × FeatId)) :
    Nat → List Bool → Option (List (FeatId × FeatId))
  | _, [] => some []
  | i, b :: bs =>
    if b = false then selectInliers featureCorrespondences (i + 1) bs
    else
      match featureCorrespondences[i]? with
      | none => none
      | some fc =>
        match selectInliers featureCorrespondences (i + 1) bs with
        | none => none
        | some rest => some (fc :: rest)

/-- Lines 194-210 and 541-557: the two poses handed to `triangulatePoints`. -/
def triangulationPoses (ext : Ext) (w : World) (framePrev frameCurr : FrameId) :
    Option ((Quat × Vec3) × (Quat × Vec3)) :=
  if w.ba.mMode = Mode.VO then
    match (w.g.frames framePrev).cameraPose, (w.g.frames frameCurr).cameraPose with
    | some pp, some pc => some ((pp.rotation, pp.translation), (pc.rotation, pc.translation))
    | _, _ => none
  else
    match (w.g.frames framePrev).systemPose, (w.g.frames frameCurr).systemPose with
    | some sp, some sc =>
      let H_odo_cam := ext.inverse (ext.poseToMatrix w.ba.m_T_cam_odo)
      let H1 := Mat4.mul H_odo_cam (ext.inverse (ext.odometryToMatrix sp))
      let H2 := Mat4.mul H_odo_cam (ext.inverse (ext.odometryToMatrix sc))
      some ((ext.quatOfMat H1.block33, H1.block31), (ext.quatOfMat H2.block33, H2.block31))
    | _, _ => none

/-- Lines 313-333 and 653-670: one new 3D point per triangulated pair, linked to both
    features of correspondence `indices.at(i)`. -/
def linkTriangulated (correspondences : List (FeatId × FeatId)) :
    Graph → List (Vec3 × Nat) → Option Graph
  | g, [] => some g
  | g, (P, idx) :: rest =>
    match correspondences[idx]? with
    | none => none
    | some (f0, f1) => linkTriangulated correspondences (g.linkNewPoint P f0 f1) rest

/-- Lines 335-350 and 672-687: sever every correspondence whose later feature has no 3D
    link. -/
def severUntriangulated : Graph → List (FeatId × FeatId) → Graph
  | g, [] => g
  | g, (f0, f1) :: rest =>
    if (g.features f1).feature3D.isSome then severUntriangulated g rest
    else severUntriangulated (g.sever f0 f1) rest

/-- What a stage of `addFrame` hands on: `ok = false` is an early `return false`; `Rt` is the
    value written so far to the output arguments `R`, `t` (`none`: not written). -/
structure StageResult where
  ok : Bool
  world : World
  Rt : Option (Mat3 × Vec3)

/-- Lines 127-158: the pose of the second frame.  In VO mode it comes from the essential
    matrix and is written to `R`, `t`; in the other modes every correspondence is an inlier. -/
def bootstrapPose (ext : Ext) (w : World) (frameCurr : FrameId)
    (featureCorrespondences : List (FeatId × FeatId)) :
    Option (World × List Bool × Option (Mat3 × Vec3)) :=
  if w.ba.mMode = Mode.VO then
    let imagePoints0 := featureCorrespondences.map (fun fc => (w.g.features fc.1).keypoint)
    let imagePoints1 := featureCorrespondences.map (fun fc => (w.g.features fc.2).keypoint)
    let rect0 := rectifyImagePoints ext imagePoints0
    let rect1 := rectifyImagePoints ext imagePoints1
    let E := ext.findEssentialMat rect0 rect1 (kReprojErrorThresh / kNominalFocalLength)
    let Rti := ext.recoverPose E.1 rect0 rect1 E.2
    match (w.g.frames frameCurr).cameraPose with
    | none => none
    | some pose =>
      let pose1 : Pose :=
        { pose with rotation := ext.quatOfMat Rti.1, translation := Rti.2.1 }
      some ({ w with g := w.g.setCameraPose frameCurr (some pose1) },
            Rti.2.2, some (Rti.1, Rti.2.1))
  else some (w, List.replicate featureCorrespondences.length true, none)

/-- Lines 190-210 and 517-557: `triangulatePoints` on the key points of the given
    correspondences, between the previous and the current frame. -/
def triangulateCorrespondences (ext : Ext) (w : World) (framePrev frameCurr : FrameId)
    (correspondences : List (FeatId × FeatId)) : Option (List (Vec3 × Nat)) :=
  match triangulationPoses ext w framePrev frameCurr with
  | none => none
  | some (pose1, pose2) =>
    triangulatePoints ext w.ba.mMode pose1.1 pose1.2
      (correspondences.map (fun fc => (w.g.features fc.1).keypoint)) pose2.1 pose2.2
      (correspondences.map (fun fc => (w.g.features fc.2).keypoint))

/-- Lines 160-351: inlier selection, triangulation, the test on the number of points, the new
    3D points and the severing of what was not triangulated. -/
def bootstrapStructure (ext : Ext) (w1 : World) (frameCurr framePrev : FrameId)
    (featureCorrespondences : List (FeatId × FeatId)) (inliers : List Bool)
    (Rt : Option (Mat3 × Vec3)) : Option StageResult :=
  match selectInliers featureCorrespondences 0 inliers with
  | none => none
  | some inlierFeatureCorrespondences =>
    match triangulateCorrespondences ext w1 framePrev frameCurr
        inlierFeatureCorrespondences with
    | none => none
    | some points3D =>
      if points3D.length < kMin2D3DFeatureCorrespondences then some ⟨false, w1, Rt⟩
      else
        match linkTriangulated inlierFeatureCorrespondences w1.g points3D with
        | none => none
        | some g2 =>
          some ⟨true, { w1 with g := severUntriangulated g2 featureCorrespondences }, Rt⟩

/-- Lines 96-99 and 359-360: the two-view correspondences ending at the current frame. -/
def twoViewCorrespondences (w : World) (frameCurr : FrameId) : Option (List (FeatId × FeatId)) :=
  match findFeatureCorrespondences w.g (w.g.frames frameCurr).features2D 2 [] with
  | none => none
  | some found => asPairs found

/-- Lines 93-351, the second frame. -/
def bootstrap (ext : Ext) (w : World) (frameCurr framePrev : FrameId) : Option StageResult :=
  match twoViewCorrespondences w frameCurr with
  | none => none
  | some featureCorrespondences =>
    if featureCorrespondences.length < kMin2D2DFeatureCorrespondences then
      some ⟨false, w, none⟩
    else
      match bootstrapPose ext w frameCurr featureCorrespondences with
      | none => none
      | some (w1, inliers, Rt) =>
        bootstrapStructure ext w1 frameCurr framePrev featureCorrespondences inliers Rt

/-- Lines 367-389: the correspondences whose earlier feature has a 3D point, and the others. -/
def partitionTriangulated (g : Graph) :
    List (FeatId × FeatId) → List (FeatId × FeatId) × List (FeatId × FeatId)
  | [] => ([], [])
  | fc :: rest =>
    let r := partitionTriangulated g rest
    if (g.features fc.1).feature3D.isSome then (fc :: r.1, r.2) else (r.1, fc :: r.2)

/-- Lines 440-476: a correspondence with a 3D point is severed when, in VO mode, its error
    exceeds `kReprojErrorThresh`; otherwise the later feature joins the 3D point. -/
def checkTriangulated (ext : Ext) (frameCurr : FrameId) :
    World → List (FeatId × FeatId) → Option World
  | w, [] => some w
  | w, (f0, f1) :: rest =>
    match (w.g.features f0).feature3D with
    | none => none
    | some p =>
      match observationError ext w frameCurr f1 p with
      | none => none
      | some error =>
        if w.ba.mMode = Mode.VO ∧ error > kReprojErrorThresh then
          checkTriangulated ext frameCurr { w with g := w.g.sever f0 f1 } rest
        else
          checkTriangulated ext frameCurr
            { w with g := (w.g.setFeature3D f1 (some p)).pushObserver p f1 } rest

/-- Lines 391-438: in VO mode the pose of the current frame from PnP, or `false` when there
    are too few 2D-3D correspondences; nothing in the other modes. -/
def steadyPose (ext : Ext) (w : World) (frameCurr framePrev : FrameId) (R_rel : Mat3)
    (triFeatureCorrespondences : List (FeatId × FeatId)) : Option (Bool × World) :=
  let scenePoints := triFeatureCorrespondences.filterMap (fun fc =>
    (w.g.features fc.1).feature3D.map (fun p => (w.g.points p).point))
  let imagePoints := triFeatureCorrespondences.map (fun fc => (w.g.features fc.2).keypoint)
  if w.ba.mMode = Mode.VO then
    if scenePoints.length < kMin2D3DFeatureCorrespondences then some (false, w)
    else
      match (w.g.frames framePrev).cameraPose, (w.g.frames frameCurr).cameraPose with
      | some pp, some pc =>
        let sol := ext.solvePnPRansac scenePoints (rectifyImagePoints ext imagePoints)
          (ext.RotationToAngleAxis (R_rel.mul pp.rotation.toRotationMatrix)) pp.translation
          (kReprojErrorThresh / kNominalFocalLength)
        let pose1 : Pose :=
          { pc with rotation := ext.AngleAxisToQuaternion sol.1, translation := sol.2 }
        some (true, { w with g := w.g.setCameraPose frameCurr (some pose1) })
      | _, _ => none
  else some (true, w)

/-- Lines 517-688: triangulation of the correspondences that have no 3D point yet. -/
def steadyNew (ext : Ext) (w2 : World) (frameCurr framePrev : FrameId)
    (untriFeatureCorrespondences : List (FeatId × FeatId)) : Option World :=
  if untriFeatureCorrespondences.isEmpty then some w2
  else
    match triangulateCorrespondences ext w2 framePrev frameCurr
        untriFeatureCorrespondences with
    | none => none
    | some points3D =>
      match linkTriangulated untriFeatureCorrespondences w2.g points3D with
      | none => none
      | some g3 => some { w2 with g := severUntriangulated g3 untriFeatureCorrespondences }

/-- Lines 352-689, the third and later frames. -/
def steady (ext : Ext) (w : World) (frameCurr framePrev : FrameId) (R_rel : Mat3) :
    Option StageResult :=
  match twoViewCorrespondences w frameCurr with
  | none => none
  | some featureCorrespondences =>
    let parts := partitionTriangulated w.g featureCorrespondences
    match steadyPose ext w frameCurr framePrev R_rel parts.1 with
    | none => none
    | some (false, w1) => some ⟨false, w1, none⟩
    | some (true, w1) =>
      match checkTriangulated ext frameCurr w1 parts.1 with
      | none => none
      | some w2 =>
        match steadyNew ext w2 frameCurr framePrev parts.2 with
        | none => none
        | some w3 => some ⟨true, w3, none⟩

/-- What `addFrame` leaves behind: the return value, the world, the value written to the
    output arguments `R` and `t` (`none`: left unwritten), and two observations of the run that
    are not program state: how often `optimize()` was called and which 3D points the
    behind-camera prune unlinked (one entry per `++nPrunedScenePoints`). -/
structure AddFrameResult where
  ret : Bool
  world : World
  Rt : Option (Mat3 × Vec3)
  nOptimize : Nat
  pruned : List PointId

/-- Lines 700-869: optimisation, the behind-camera prune and the final write of `R`, `t`. -/
def finish (ext : Ext) (fuel : Nat) (w : World) (frameCurr : FrameId)
    (Rt : Option (Mat3 × Vec3)) : Option AddFrameResult :=
  let run := runOptimization w
  match (if run then optimize ext w else some w) with
  | none => none
  | some w1 =>
    match pruneWindow ext fuel w1 w1.ba.mWindow [] with
    | none => none
    | some (w2, pruned) =>
      if w2.ba.mMode = Mode.VO then
        match (w2.g.frames frameCurr).cameraPose with
        | none => none
        | some pose =>
          some ⟨true, w2, some (pose.rotation.toRotationMatrix, pose.translation),
            if run then 1 else 0, pruned⟩
      else some ⟨true, w2, Rt, if run then 1 else 0, pruned⟩

/-- Lines 49-62: the new frame gets a fresh `Pose` in VO mode, enters the window, the oldest
    frames leave while the window is longer than `m_N`, and the frame count goes up. -/
def enterWindow (ext : Ext) (w : World) (frame : FrameId) : World :=
  let g := if w.ba.mMode = Mode.VO then w.g.setCameraPose frame (some ext.newPose) else w.g
  let ba := w.ba
  { ba := { ba with mWindow := popFrontWhile (toSizeT ba.m_N) (ba.mWindow ++ [frame]),
                    mFrameCount := ba.mFrameCount + 1 },
    g := g }

/-- Lines 85-89: in VO mode the pose of the current frame is predicted from the previous
    frame and the relative motion. -/
def predictPose (ext : Ext) (w0 : World) (frameCurr framePrev : FrameId) (R_rel : Mat3)
    (t_rel : Vec3) : Option World :=
  if w0.ba.mMode = Mode.VO then
    match (w0.g.frames framePrev).cameraPose, (w0.g.frames frameCurr).cameraPose with
    | some pp, some pc =>
      let pose1 : Pose :=
        { pc with rotation := (ext.quatOfMat R_rel).mul pp.rotation,
                  translation := (R_rel.mulVec pp.translation).add t_rel }
      some { w0 with g := w0.g.setCameraPose frameCurr (some pose1) }
    | _, _ => none
  else some w0

/-- Lines 69-81: the first frame. -/
def firstFrame (w0 : World) (frameCurr : FrameId) : Option AddFrameResult :=
  if w0.ba.mMode = Mode.VO then
    match (w0.g.frames frameCurr).cameraPose with
    | none => none
    | some pose =>
      let pose1 : Pose := { pose with rotation := Quat.identity, translation := Vec3.zero }
      some ⟨true, { w0 with g := w0.g.setCameraPose frameCurr (some pose1) },
        some (pose1.rotation.toRotationMatrix, pose1.translation), 0, []⟩
  else some ⟨true, w0, none, 0, []⟩

/-- Lines 83-870: the second and later frames. -/
def laterFrame (ext : Ext) (fuel : Nat) (w0 : World) (frameCurr : FrameId) (R_rel : Mat3)
    (t_rel : Vec3) : Option AddFrameResult :=
  match w0.ba.mWindow.reverse[1]? with
  | none => none
  | some framePrev =>
    match predictPose ext w0 frameCurr framePrev R_rel t_rel with
    | none => none
    | some w1 =>
      match (if w1.ba.mFrameCount = 2 then bootstrap ext w1 frameCurr framePrev
             else steady ext w1 frameCurr framePrev R_rel) with
      | none => none
      | some stage =>
        if stage.ok then finish ext fuel stage.world frameCurr stage.Rt
        else some ⟨false, stage.world, stage.Rt, 0, []⟩

/-- `SlidingWindowBA::addFrame(frame, R_rel, t_rel, R, t)`. -/
def addFrame (ext : Ext) (fuel : Nat) (w : World) (frame : FrameId) (R_rel : Mat3)
    (t_rel : Vec3) : Option AddFrameResult :=
  let w0 := enterWindow ext w frame
  if w0.ba.mFrameCount = 1 then firstFrame w0 frame
  else laterFrame ext fuel w0 frame R_rel t_rel

/-! ## Sequences of calls, and the members that steer `addFrame` -/

/-- The members other than `m_T_cam_odo`. -/
def SlidingWindowBA.ctl (ba : SlidingWindowBA) : Int × Int × Mode × Nat × List FrameId :=
  (ba.m_N, ba.m_n, ba.mMode, ba.mFrameCount, ba.mWindow)

/-- A sequence of `addFrame` calls, each given as `(frame, R_rel, t_rel)`; the return values
    are ignored. -/
def addFrames (ext : Ext) (fuel : Nat) : World → List (FrameId × Mat3 × Vec3) → Option World
  | w, [] => some w
  | w, c :: cs =>
    match addFrame ext fuel w c.1 c.2.1 c.2.2 with
    | none => none
    | some r => addFrames ext fuel r.world cs

/-! ## A concrete camera, solver stand-ins and worlds for the examples -/

def Mat4.identity : Mat4 := ⟨⟨1, 0, 0, 0⟩, ⟨0, 1, 0, 0⟩, ⟨0, 0, 1, 0⟩, ⟨0, 0, 0, 1⟩⟩

/-- The matrix `[R t; 0 0 0 1]`. -/
def Mat4.ofRigid (R : Mat3) (t : Vec3) : Mat4 :=
  ⟨⟨R.r0.x, R.r0.y, R.r0.z, t.x⟩, ⟨R.r1.x, R.r1.y, R.r1.z, t.y⟩, ⟨R.r2.x, R.r2.y, R.r2.z, t.z⟩,
   ⟨0, 0, 0, 1⟩⟩

def Mat3.transpose (m : Mat3) : Mat3 := ⟨m.col0, m.col1, m.col2⟩

/-- The inverse of a rigid transform `[R t; 0 0 0 1]` with orthonormal `R`:
    `[Rᵀ  -Rᵀ t; 0 0 0 1]`. -/
def Mat4.rigidInverse (H : Mat4) : Mat4 :=
  Mat4.ofRigid H.block33.transpose (H.block33.transpose.mulVec H.block31).neg

def det3 (a b c : Vec3) : ℚ :=
  a.x * (b.y * c.z - b.z * c.y) - a.y * (b.x * c.z - b.z * c.x) + a.z * (b.x * c.y - b.y * c.x)

/-- The vector orthogonal to the first three rows of `J` (their generalised cross product);
    when `J` is singular of rank three it spans the null space of `J`, which is the direction
    of the right singular vector of the singular value zero. -/
def Mat4.nullDirection (J : Mat4) : Vec4 :=
  ⟨-det3 ⟨J.r0.y, J.r0.z, J.r0.w⟩ ⟨J.r1.y, J.r1.z, J.r1.w⟩ ⟨J.r2.y, J.r2.z, J.r2.w⟩,
   det3 ⟨J.r0.x, J.r0.z, J.r0.w⟩ ⟨J.r1.x, J.r1.z, J.r1.w⟩ ⟨J.r2.x, J.r2.z, J.r2.w⟩,
   -det3 ⟨J.r0.x, J.r0.y, J.r0.w⟩ ⟨J.r1.x, J.r1.y, J.r1.w⟩ ⟨J.r2.x, J.r2.y, J.r2.w⟩,
   det3 ⟨J.r0.x, J.r0.y, J.r0.z⟩ ⟨J.r1.x, J.r1.y, J.r1.z⟩ ⟨J.r2.x, J.r2.y, J.r2.z⟩⟩

/-- The collaborators used by the examples: a pinhole camera of focal length 100 px with the
    principal point at the origin; rigid transforms with their exact inverse; odometry poses of
    zero attitude (so `cos` and `sin` are only needed at 0 and the rotation part is the
    identity); the null direction for a singular `J`; RANSAC stages that accept every
    correspondence; and a ceres solve that leaves every block at its initial value.
    `cameraReprojectionError` stands in for the Euclidean pixel distance with the larger of the
    two coordinate differences; no example depends on its value. -/
def Demo.ext : Ext :=
  { spaceToPlane := fun P => ⟨100 * P.x / P.z, 100 * P.y / P.z⟩
    liftProjective := fun p => ⟨p.x / 100, p.y / 100, 1⟩
    cameraReprojectionError := fun P q t obs =>
      let C := (q.toRotationMatrix.mulVec P).add t
      max |100 * C.x / C.z - obs.x| |100 * C.y / C.z - obs.y|
    newPose := ⟨Quat.identity, Vec3.zero, 0⟩
    poseToMatrix := fun ps => Mat4.ofRigid ps.rotation.toRotationMatrix ps.translation
    odometryToMatrix := fun o => Mat4.ofRigid Mat3.identity o.position
    quatOfMat := fun _ => Quat.identity
    inverse := Mat4.rigidInverse
    jacobiSvdV3 := Mat4.nullDirection
    homogeneousTransform := Mat4.ofRigid
    RotationToAngleAxis := fun _ => Vec3.zero
    AngleAxisToQuaternion := fun _ => Quat.identity
    cos := fun _ => 1
    sin := fun _ => 0
    findEssentialMat := fun a _ _ => (Mat3.identity, List.replicate a.length true)
    recoverPose := fun _ _ _ m => (Mat3.identity, ⟨1, 0, 0⟩, m)
    solvePnPRansac := fun _ _ r t _ => (r, t)
    ceresSolve := fun _ w =>
      { rotation := fun F => ((w.g.frames F).cameraPose.getD ⟨Quat.identity, Vec3.zero, 0⟩).rotation
        translation := fun F =>
          ((w.g.frames F).cameraPose.getD ⟨Quat.identity, Vec3.zero, 0⟩).translation
        point := fun p => (w.g.points p).point
        extrinsicRotation := w.ba.m_T_cam_odo.rotation
        extrinsicTranslation := w.ba.m_T_cam_odo.translation } }

/-- A graph of frames without features, each with a system pose at the origin. -/
def Demo.bareGraph : Graph :=
  { frames := fun _ => ⟨none, some ⟨Vec3.zero, Vec3.zero, 0⟩, []⟩
    features := fun _ => ⟨⟨0, 0⟩, none, [], -1, -1⟩
    live2D := fun _ => false
    points := fun _ => ⟨Vec3.zero, []⟩
    nextPoint := 0 }

/-- A freshly constructed estimator with `N = 5`, `n = 3` on the bare graph. -/
def Demo.bareWorld (mode : Mode) : World :=
  ⟨SlidingWindowBA.construct 5 3 mode ⟨Quat.identity, Vec3.zero, 0⟩, Demo.bareGraph⟩

/-- Seven calls on frames 1 to 7 with the identity as relative motion. -/
def Demo.sevenCalls : List (FrameId × Mat3 × Vec3) :=
  [1, 2, 3, 4, 5, 6, 7].map fun F => (F, Mat3.identity, Vec3.zero)

/-- The world after the first `addFrame` (frame 1) on the bare world. -/
def Demo.oneFrameWorld (mode : Mode) : World :=
  match addFrame Demo.ext 1 (Demo.bareWorld mode) 1 Mat3.identity Vec3.zero with
  | none => Demo.bareWorld mode
  | some r => r.world

/-- The scene of the examples in pose-anchored mode.  Frames 1 to 4 have the system positions
    `(0,0,0)`, `(1,0,0)`, `(0,0,3)`, `(1,0,3)` and zero attitude, the camera sits at the
    odometry origin looking along `z`.  Frame 1 has the features 0..9 and frame 2 the features
    10..19, feature `10 + i` matching feature `i`; they are the images of the points
    `(i, 0, 2)`.  Frame 3 has the single feature 20 matching feature 10, and frame 4 the single
    feature 30 matching feature 20; features 20 and 30 are the images of the point `(0, 0, 5)`. -/
def Demo.sceneGraph : Graph :=
  { frames := fun F =>
      if F = 1 then ⟨none, some ⟨⟨0, 0, 0⟩, Vec3.zero, 0⟩, [0, 1, 2, 3, 4, 5, 6, 7, 8, 9]⟩
      else if F = 2 then
        ⟨none, some ⟨⟨1, 0, 0⟩, Vec3.zero, 0⟩, [10, 11, 12, 13, 14, 15, 16, 17, 18, 19]⟩
      else if F = 3 then ⟨none, some ⟨⟨0, 0, 3⟩, Vec3.zero, 0⟩, [20]⟩
      else if F = 4 then ⟨none, some ⟨⟨1, 0, 3⟩, Vec3.zero, 0⟩, [30]⟩
      else ⟨none, none, []⟩
    features := fun f =>
      if f < 10 then ⟨⟨50 * f, 0⟩, none, [], -1, 0⟩
      else if f < 20 then ⟨⟨50 * (f - 10 : Nat) - 50, 0⟩, none, [f - 10], 0, 0⟩
      else if f = 20 then ⟨⟨0, 0⟩, none, [10], 0, 0⟩
      else if f = 30 then ⟨⟨-50, 0⟩, none, [20], 0, -1⟩
      else ⟨⟨0, 0⟩, none, [], -1, -1⟩
    live2D := fun _ => true
    points := fun _ => ⟨Vec3.zero, []⟩
    nextPoint := 0 }

/-- A freshly constructed pose-anchored estimator (`N = 5`, `n = 3`, identity camera-odometry
    transform) on the scene. -/
def Demo.sceneWorld : World :=
  ⟨SlidingWindowBA.construct 5 3 Mode.ODOMETRY ⟨Quat.identity, Vec3.zero, 0⟩, Demo.sceneGraph⟩

/-- The world after `addFrame` on the frames `1, ..., k` of the scene, with fuel 32 for the
    prune loop (the scene itself if one of the calls is undefined). -/
def Demo.sceneAfter (k : Nat) : World :=
  match addFrames Demo.ext 32 Demo.sceneWorld
      ((List.range k).map fun i => (i + 1, Mat3.identity, Vec3.zero)) with
  | none => Demo.sceneWorld
  | some w => w

/-- Two frame segments of the scene before any 3D point exists. -/
def Demo.sceneSegments : List (List FrameId) := [[1, 2], [3, 4]]

/-- The point `P` reprojects within `kTVTReprojErrorThresh` of the observed pixel in the view
    with pose `(q, t)`: `project3DPoint` succeeds and the distance of its result to the
    observation does not exceed the threshold. -/
def ReprojectsWithin (ext : Ext) (q : Quat) (t : Vec3) (P : Vec3) (observed : Vec2) : Prop :=
  ∃ p, project3DPoint ext q t P = some p ∧
    (p.sub observed).normSq ≤ kTVTReprojErrorThresh * kTVTReprojErrorThresh

/-- The collaborators of the examples, with the singular vector Eigen finds for the one
    matrix `J` of `Demo.skewViews`, rounded to six digits (the matrix is regular there, so the
    null direction is not the answer). -/
def Demo.skewExt : Ext :=
  { Demo.ext with
    jacobiSvdV3 := fun _ => ⟨337912 / 1000000, 0, 658085 / 1000000, 672859 / 1000000⟩ }

/-- Two views with identity rotation, the second camera one unit to the right, and one
    correspondence whose rays are skew: pixel `(50, 10)` in the first view and `(-50, -10)` in
    the second.  No point in front of both cameras projects to within 3 px of both. -/
def Demo.skewViews : Option (List (Vec3 × Nat)) :=
  triangulatePoints Demo.skewExt Mode.ODOMETRY Quat.identity Vec3.zero [⟨50, 10⟩]
    Quat.identity ⟨-1, 0, 0⟩ [⟨-50, -10⟩]

/-- The 3D point `p` is not behind the camera of frame `F`: its camera-frame coordinates are
    defined and the depth is not negative. -/
def InFront (ext : Ext) (w : World) (F : FrameId) (p : PointId) : Prop :=
  ∃ P, cameraFramePoint ext w F p = some P ∧ ¬ P.z < 0

/-- `g'` is `g` with the 3D link of some 2D features removed. -/
def Graph.Unlinked (g g' : Graph) : Prop :=
  g'.frames = g.frames ∧ g'.points = g.points ∧ g'.live2D = g.live2D ∧
  g'.nextPoint = g.nextPoint ∧
  ∀ f, g'.features f = g.features f ∨
    g'.features f = { g.features f with feature3D := none }

/-- Every 3D link of a 2D feature points to a 3D point that has been allocated. -/
def Graph.Allocated (g : Graph) : Prop :=
  ∀ f p, (g.features f).feature3D = some p → p < g.nextPoint

/-- `g'` comes from `g` by the structure updates of `addFrame` (new 3D points, extension of a
    3D point by one observer, severing): frames and liveness are untouched, points are only
    allocated, observer lists of allocated points only grow, and a 2D feature whose 3D link
    changed satisfies `A` and is now linked to an allocated point that lists it as observer. -/
def Graph.Grows (A : FeatId → Prop) (g g' : Graph) : Prop :=
  g'.frames = g.frames ∧ g'.live2D = g.live2D ∧ g.nextPoint ≤ g'.nextPoint ∧
  (∀ p, p < g.nextPoint → ∀ f ∈ (g.points p).features2D, f ∈ (g'.points p).features2D) ∧
  (∀ f, (g'.features f).feature3D = (g.features f).feature3D ∨
    (A f ∧ ∃ p, (g'.features f).feature3D = some p ∧ p < g'.nextPoint ∧
      f ∈ (g'.points p).features2D))

/-- The 2D feature `f` takes part in one of the correspondences `cs`. -/
def InCorrespondence (cs : List (FeatId × FeatId)) (f : FeatId) : Prop :=
  ∃ fc ∈ cs, f = fc.1 ∨ f = fc.2

/-- The pose pointers `addFrame` dereferences for the frames `Fs` are not null: the camera
    pose in VO mode, the system pose in the other modes. -/
def PosesDefined (mode : Mode) (Fs : List FrameId) (g : Graph) : Prop :=
  ∀ F ∈ Fs, if mode = Mode.VO then (g.frames F).cameraPose.isSome = true
    else (g.frames F).systemPose.isSome = true

/-- Every 2D feature of the frames `Fs` is alive and, when it has a 3D link, is listed among
    the observers of that 3D point. -/
def ObserversListed (Fs : List FrameId) (g : Graph) : Prop :=
  ∀ F ∈ Fs, ∀ f ∈ (g.frames F).features2D, g.live2D f = true ∧
    ∀ p, (g.features f).feature3D = some p → f ∈ (g.points p).features2D

/-- What `addFrame` takes for granted about the state it is called on and about the frame
    `fr` it is given; each item is a pointer or an index the code uses unchecked.
    * `capacity`: the window capacity is at least two;
    * `window`: after a first frame the window is not empty;
    * `poses`: the frames of the window have the pose of the mode (in VO mode the new frame
      gets its pose from `addFrame` itself, in the other modes it brings its system pose);
    * `listed`: the 2D features of the new frame and of the window frames are alive and are
      observers of the 3D point they are linked to;
    * `matchIndex`: a best-previous-match index that is read selects an entry of
      `prevMatches()`;
    * `allocated`: 3D links point to existing 3D points;
    * `inlierMask`: the inlier mask of the five-point stage has at most one column per
      correspondence. -/
structure WellFormed (ext : Ext) (w : World) (fr : FrameId) : Prop where
  capacity : 2 ≤ toSizeT w.ba.m_N
  window : 1 ≤ w.ba.mFrameCount → w.ba.mWindow ≠ []
  poses : PosesDefined w.ba.mMode w.ba.mWindow w.g
  newPose : w.ba.mMode ≠ Mode.VO → (w.g.frames fr).systemPose.isSome = true
  listed : ObserversListed (fr :: w.ba.mWindow) w.g
  matchIndex : ∀ f ∈ (w.g.frames fr).features2D,
    (w.g.features f).prevMatches.isEmpty = false → (w.g.features f).bestPrevMatchId ≠ -1 →
      (w.g.features f).prevMatch.isSome = true
  allocated : w.g.Allocated
  inlierMask : ∀ a b thr,
    (ext.recoverPose (ext.findEssentialMat a b thr).1 a b
      (ext.findEssentialMat a b thr).2).2.2.length ≤ a.length

/-- Lines 127-210: the scene points the second frame triangulates from the correspondences
    `cs`, on the world `w1` in which the frame has entered the window and has its predicted
    pose. -/
def bootstrapPoints (ext : Ext) (w1 : World) (frameCurr framePrev : FrameId)
    (cs : List (FeatId × FeatId)) : Option (List (Vec3 × Nat)) :=
  match bootstrapPose ext w1 frameCurr cs with
  | none => none
  | some (w2, inliers, _) =>
    match selectInliers cs 0 inliers with
    | none => none
    | some inlierFeatureCorrespondences =>
      triangulateCorrespondences ext w2 framePrev frameCurr inlierFeatureCorrespondences

/-- What the stages of `addFrame` after the window update rely on, for the frames `Fs` (the
    new frame and the window): the poses of the mode are there, every feature is a live
    observer of the 3D point it is linked to, 3D links point to allocated points, and `fuel`
    covers two rounds of the prune loop per feature of a frame and one more to leave it. -/
structure Graph.Ready (mode : Mode) (Fs : List FrameId) (fuel : Nat) (g : Graph) : Prop where
  poses : PosesDefined mode Fs g
  listed : ObserversListed Fs g
  allocated : g.Allocated
  enough : ∀ F ∈ Fs, 2 * (g.frames F).features2D.length + 1 ≤ fuel

/-- The scene of the examples in VO mode.  Frames 1 to 3 have ten features each (0..9,
    10..19, 20..29), feature `10 + i` matching feature `i` and feature `20 + i` matching
    feature `10 + i`.  The key points of frame 1 are the images of the points `(i, 0, 2)` under
    the identity pose, those of frames 2 and 3 their images under the pose with translation
    `(1, 0, 0)`, which is the pose the solver stand-ins of `Demo.ext` give both frames. -/
def Demo.voGraph : Graph :=
  { frames := fun F =>
      if F = 1 then ⟨none, none, [0, 1, 2, 3, 4, 5, 6, 7, 8, 9]⟩
      else if F = 2 then ⟨none, none, [10, 11, 12, 13, 14, 15, 16, 17, 18, 19]⟩
      else if F = 3 then ⟨none, none, [20, 21, 22, 23, 24, 25, 26, 27, 28, 29]⟩
      else ⟨none, none, []⟩
    features := fun f =>
      if f < 10 then ⟨⟨50 * f, 0⟩, none, [], -1, 0⟩
      else if f < 20 then ⟨⟨50 * (f - 10 : Nat) + 50, 0⟩, none, [f - 10], 0, 0⟩
      else if f < 30 then ⟨⟨50 * (f - 20 : Nat) + 50, 0⟩, none, [f - 10], 0, -1⟩
      else ⟨⟨0, 0⟩, none, [], -1, -1⟩
    live2D := fun _ => true
    points := fun _ => ⟨Vec3.zero, []⟩
    nextPoint := 0 }

/-- A freshly constructed VO estimator (`N = 5`, `n = 3`) on the VO scene. -/
def Demo.voWorld : World :=
  ⟨SlidingWindowBA.construct 5 3 Mode.VO ⟨Quat.identity, Vec3.zero, 0⟩, Demo.voGraph⟩

/-- The world after `addFrame` on the frames `1, ..., k` of the VO scene, with fuel 32 for the
    prune loop (the scene itself if one of the calls is undefined). -/
def Demo.voAfter (k : Nat) : World :=
  match addFrames Demo.ext 32 Demo.voWorld
      ((List.range k).map fun i => (i + 1, Mat3.identity, Vec3.zero)) with
  | none => Demo.voWorld
  | some w => w

/-- The world on which the third `addFrame` of the VO scene calls `optimize()`: frame 3 has
    entered the window, has its pose and its features are linked (lines 49-689). -/
def Demo.voThird : Option World :=
  match predictPose Demo.ext (enterWindow Demo.ext (Demo.voAfter 2) 3) 3 2 Mat3.identity
      Vec3.zero with
  | none => none
  | some w1 => (steady Demo.ext w1 3 2 Mat3.identity).map fun st => st.world

/-! ## `CamOdoThread::threadFunction` and `addCamOdoCalibData` (`CamOdoThread.cc`) -/

/-- Modelled from the spec: `PoseSource` (declared in `calib/PoseSource.h`, not among the
    sources) says where the proprioceptive pose comes from, odometry or GPS/INS; the thread
    tests `m_poseSource == ODOMETRY` and `m_poseSource == GPS_INS`. -/
inductive PoseSource where
  | ODOMETRY
  | GPS_INS
deriving DecidableEq

/-! Constants set by the constructor (`CamOdoThread.cc`, lines 47-49). -/

def k_keyFrameDistance : ℚ := 1 / 4

def k_minTrackLength : Int := 15

def k_odometryTimeout : ℚ := 4

def Vec3.sub (a b : Vec3) : Vec3 := ⟨a.x - b.x, a.y - b.y, a.z - b.z⟩

/-- The square of `norm()`. -/
def Vec3.normSq (a : Vec3) : ℚ := a.x * a.x + a.y * a.y + a.z * a.z

/-- What one pass of the acquisition loop does to the image channel, the mutexes, the shared
    buffers, the tracker and the accumulator, in program order. -/
inductive Event where
  | lockData
  | unlockData
  | notifyProcessingDone
  | lockOdometry
  | unlockOdometry
  | lockGpsIns
  | unlockGpsIns
  | findOdometry
  | interpolateOdometry
  | pushOdometry
  | findGpsIns
  | interpolatePose
  | pushGpsIns
  | usleep
  | trackerAddFrame
  | trackerGetPoses
  | addMotionSegment
deriving DecidableEq

/-- The `Frame` built on lines 327-364, as far as the thread writes or reads it again:
    `cameraPose()->timeStamp()`, `odometryMeasurement()`, `systemPose()` and
    `gpsInsMeasurement()`. -/
structure KeyFrame where
  id : FrameId
  cameraPoseTimeStamp : Nat
  odometryMeasurement : Odometry
  systemPose : Odometry
  gpsInsMeasurement : Option Pose
deriving DecidableEq

/-- The members and the locals of `threadFunction` that live across passes of the loop.
    `submitted` is an observation: the arguments `(camMotions, odoMotions)` of every call of
    `m_camOdoCalib.addMotionSegment` so far. -/
structure CamOdoThread.State where
  m_poseSource : PoseSource
  m_frameSegments : List (List FrameId)
  m_completed : Bool
  framePrev : Option KeyFrame
  odometryPoses : List Odometry
  trackBreaks : Int
  halt : Bool
  submitted : List (List Mat4 × List Mat4)
deriving DecidableEq

/-- Code of other classes the thread calls, taken as parameters: what `new Odometry` holds,
    `mat2RPY` (`gpl/EigenUtils.h`), the answer of `CamOdoCalibration::addMotionSegment`, and
    the motion count set by `setMotionCount(nMotions)`. -/
structure CamOdoThread.Collab where
  newOdometry : Odometry
  mat2RPY : Mat3 → ℚ × ℚ × ℚ
  addMotionSegment : List Mat4 → List Mat4 → Bool
  getMotionCount : Int

/-- What one pass of the loop reads from outside the thread: the stop flag after the wait for
    an image, the time stamp of the image, whether the two pose buffers have a current
    sample and whether the GPS/INS buffer is empty, what the two interpolation caches hold
    for the time stamp, the successive answers of `interpolateOdometry` and
    `interpolatePose` (each with `timeInSeconds() - timeStart` read after a failure), the
    identifier of the `Frame` allocated, the answer of `tracker.addFrame` and the camera pose
    pointer of the frame after it, `tracker.getPoses()`, `tracker.getFrames()` and
    `m_camOdoCalib.getCurrentMotionCount()`. -/
structure CamOdoThread.Tick where
  stop : Bool
  timeStamp : Nat
  odometryCurrent : Bool
  gpsInsCurrent : Bool
  gpsInsEmpty : Bool
  cachedOdometry : Option Odometry
  odometryTries : List (Option Odometry × ℚ)
  cachedGpsIns : Option Pose
  gpsInsTries : List (Option Pose × ℚ)
  frame : FrameId
  camValid : Bool
  cameraPose : Option Pose
  voPoses : List Mat4
  trackerFrames : List FrameId
  currentMotionCount : Int

/-- How a pass of the loop, or a call made in it, ends: the code went on with the new state,
    or the process ended in `exit(status)`.  Both carry the events so far. -/
inductive CamOdoThread.Step where
  | next (s : CamOdoThread.State) (events : List Event)
  | exited (status : Int) (s : CamOdoThread.State) (events : List Event)
deriving DecidableEq

/-- How an interpolation stage ends: with the shared pointer it leaves in `interpOdo` or
    `interpGpsIns` (`none` is the null pointer), or with the timeout. -/
inductive CamOdoThread.Fetched (α : Type) where
  | pointer (p : Option α) (events : List Event)
  | timeout (events : List Event)
deriving DecidableEq

/-- The loop of `addCamOdoCalibData`, lines 572-579, from index `i` for `k` more rounds: the
    lists `(odoMotions, camMotions)`; `at()` out of range throws. -/
def CamOdoThread.motions (ext : Ext) (camPoses : List Mat4) (odoPoses : List Odometry) :
    Nat → Nat → Option (List Mat4 × List Mat4)
  | _, 0 => some ([], [])
  | i, k + 1 =>
    match odoPoses[i]?, odoPoses[i - 1]?, camPoses[i]?, camPoses[i - 1]? with
    | some oi, some op, some ci, some cp =>
      match CamOdoThread.motions ext camPoses odoPoses (i + 1) k with
      | none => none
      | some (odoMotions, camMotions) =>
        let relativeOdometryPose :=
          Mat4.mul (ext.inverse (ext.odometryToMatrix oi)) (ext.odometryToMatrix op)
        let relativeCameraPose := Mat4.mul ci (ext.inverse cp)
        some (relativeOdometryPose :: odoMotions, relativeCameraPose :: camMotions)
    | _, _, _, _ => none

/-- `CamOdoThread::addCamOdoCalibData(camPoses, odoPoses, frameSegment)`, lines 549-588. -/
def CamOdoThread.addCamOdoCalibData (ext : Ext) (co : CamOdoThread.Collab)
    (s : CamOdoThread.State) (camPoses : List Mat4) (odoPoses : List Odometry)
    (frameSegment : List FrameId) : Option CamOdoThread.Step :=
  if odoPoses.length ≠ camPoses.length then some (.next s [])
  else if odoPoses.length < toSizeT k_minTrackLength then some (.next s [])
  else
    match CamOdoThread.motions ext camPoses odoPoses 1 (odoPoses.length - 1) with
    | none => none
    | some (odoMotions, camMotions) =>
      let s1 := { s with submitted := s.submitted ++ [(camMotions, odoMotions)] }
      if co.addMotionSegment camMotions odoMotions = false then
        some (.exited 0 s1 [Event.addMotionSegment])
      else
        some (.next { s1 with m_frameSegments := s1.m_frameSegments ++ [frameSegment] }
          [Event.addMotionSegment])

/-- Lines 205-217 and 375-387, the handling of a track break.  `begin() + voPoses.size() - 1`
    is an iterator of `odometryPoses` only if `1 ≤ voPoses.size() ≤ odometryPoses.size()`;
    otherwise the `erase` is undefined. -/
def CamOdoThread.trackBreak (ext : Ext) (co : CamOdoThread.Collab) (s : CamOdoThread.State)
    (tk : CamOdoThread.Tick) : Option CamOdoThread.Step :=
  let submit :=
    if s.odometryPoses.length ≥ toSizeT k_minTrackLength then
      CamOdoThread.addCamOdoCalibData ext co s tk.voPoses s.odometryPoses tk.trackerFrames
    else some (.next s [])
  match submit with
  | none => none
  | some (.exited status s1 ev) => some (.exited status s1 (Event.trackerGetPoses :: ev))
  | some (.next s1 ev) =>
    if s1.odometryPoses.isEmpty then
      some (.next { s1 with trackBreaks := s1.trackBreaks + 1 } (Event.trackerGetPoses :: ev))
    else if tk.voPoses.length = 0 ∨ s1.odometryPoses.length < tk.voPoses.length then none
    else
      let kept := s1.odometryPoses.drop (tk.voPoses.length - 1)
      some (.next { s1 with odometryPoses := kept, trackBreaks := s1.trackBreaks + 1 }
        (Event.trackerGetPoses :: ev))

/-- Lines 496-528, the end of a pass that was not left by `continue`. -/
def CamOdoThread.finishPass (co : CamOdoThread.Collab) (tk : CamOdoThread.Tick)
    (s : CamOdoThread.State) (ev : List Event) : CamOdoThread.Step :=
  let currentMotionCount : Int :=
    if s.odometryPoses.length ≥ toSizeT k_minTrackLength then (s.odometryPoses.length : Int) - 1
    else 0
  let completed : Bool :=
    if tk.currentMotionCount + currentMotionCount ≥ co.getMotionCount then true
    else s.m_completed
  .next { s with m_completed := completed } (ev ++ [Event.notifyProcessingDone])

/-- The retry loops of lines 270-279 and 292-301: `some a` when a call succeeds, `none` when
    the time read after a failed call exceeds `k_odometryTimeout`; the outer `none` when the
    answers given run out before either. -/
def CamOdoThread.retry {α : Type} (call : Event) :
    List (Option α × ℚ) → Option (Option α × List Event)
  | [] => none
  | (some a, _) :: _ => some (some a, [call])
  | (none, elapsed) :: rest =>
    if elapsed > k_odometryTimeout then some (none, [call])
    else
      match CamOdoThread.retry call rest with
      | none => none
      | some (r, ev) => some (r, call :: Event.usleep :: ev)

/-- Lines 264-284: `interpOdo`.  Outside ODOMETRY mode `find` is not evaluated and the
    pointer stays null. -/
def CamOdoThread.obtainOdometry (s : CamOdoThread.State) (tk : CamOdoThread.Tick) :
    Option (CamOdoThread.Fetched Odometry) :=
  if s.m_poseSource = PoseSource.ODOMETRY then
    match tk.cachedOdometry with
    | some o =>
      some (.pointer (some o) [Event.lockOdometry, Event.findOdometry, Event.unlockOdometry])
    | none =>
      match CamOdoThread.retry Event.interpolateOdometry tk.odometryTries with
      | none => none
      | some (none, ev) => some (.timeout ([Event.lockOdometry, Event.findOdometry] ++ ev))
      | some (some o, ev) =>
        some (.pointer (some o) ([Event.lockOdometry, Event.findOdometry] ++ ev ++
          [Event.pushOdometry, Event.unlockOdometry]))
  else some (.pointer none [Event.lockOdometry, Event.unlockOdometry])

/-- Lines 286-306: `interpGpsIns`. -/
def CamOdoThread.obtainGpsIns (s : CamOdoThread.State) (tk : CamOdoThread.Tick) :
    Option (CamOdoThread.Fetched Pose) :=
  if s.m_poseSource = PoseSource.GPS_INS ∨ tk.gpsInsEmpty = false then
    match tk.cachedGpsIns with
    | some p =>
      some (.pointer (some p) [Event.lockGpsIns, Event.findGpsIns, Event.unlockGpsIns])
    | none =>
      match CamOdoThread.retry Event.interpolatePose tk.gpsInsTries with
      | none => none
      | some (none, ev) => some (.timeout ([Event.lockGpsIns, Event.findGpsIns] ++ ev))
      | some (some p, ev) =>
        some (.pointer (some p) ([Event.lockGpsIns, Event.findGpsIns] ++ ev ++
          [Event.pushGpsIns, Event.unlockGpsIns]))
  else some (.pointer none [Event.lockGpsIns, Event.unlockGpsIns])

/-- Lines 346-362: the `Odometry` made from the GPS/INS pose. -/
def CamOdoThread.gpsInsOdometry (co : CamOdoThread.Collab) (interpGpsIns : Pose) : Odometry :=
  let yaw := (co.mat2RPY interpGpsIns.rotation.toRotationMatrix).2.2
  { position := ⟨interpGpsIns.translation.y, -interpGpsIns.translation.x,
      co.newOdometry.position.z⟩
    attitude := ⟨-yaw, co.newOdometry.attitude.y, co.newOdometry.attitude.z⟩
    timeStamp := interpGpsIns.timeStamp }

/-- Lines 327-388: the frame is built, handed to the tracker and tagged; `*interpOdo`
    (lines 337, 339), `interpGpsIns->` (line 349) and `frame->cameraPose()->` (line 364)
    dereference the pointers whatever they hold. -/
def CamOdoThread.buildFrame (ext : Ext) (co : CamOdoThread.Collab) (s : CamOdoThread.State)
    (tk : CamOdoThread.Tick) (interpOdo : Option Odometry) (interpGpsIns : Option Pose)
    (ev : List Event) : Option CamOdoThread.Step :=
  match interpOdo with
  | none => none
  | some odo =>
    let tagged : Option Odometry :=
      if s.m_poseSource = PoseSource.GPS_INS then
        interpGpsIns.map (CamOdoThread.gpsInsOdometry co)
      else some odo
    match tagged, tk.cameraPose with
    | some sys, some _ =>
      let frame : KeyFrame := ⟨tk.frame, tk.timeStamp, sys, sys, interpGpsIns⟩
      let pending := if tk.camValid then s.odometryPoses ++ [sys] else s.odometryPoses
      let s1 := { s with odometryPoses := pending, framePrev := some frame }
      if tk.camValid then
        some (CamOdoThread.finishPass co tk s1 (ev ++ [Event.trackerAddFrame]))
      else
        match CamOdoThread.trackBreak ext co s1 tk with
        | none => none
        | some (.exited status s2 e) =>
          some (.exited status s2 (ev ++ [Event.trackerAddFrame] ++ e))
        | some (.next s2 e) =>
          some (CamOdoThread.finishPass co tk s2 (ev ++ [Event.trackerAddFrame] ++ e))
    | _, _ => none

/-- Lines 308-325: the vehicle position and the key-frame test; `true` is "too near". -/
def CamOdoThread.tooNear (s : CamOdoThread.State) (pos : Vec3) : Bool :=
  match s.framePrev with
  | none => false
  | some fp =>
    decide ((pos.sub fp.systemPose.position).normSq < k_keyFrameDistance * k_keyFrameDistance)

/-- One pass of `while (!halt)` in `threadFunction`, lines 197-529, after the wait for an
    image has ended. -/
def CamOdoThread.pass (ext : Ext) (co : CamOdoThread.Collab) (s : CamOdoThread.State)
    (tk : CamOdoThread.Tick) : Option CamOdoThread.Step :=
  if tk.stop then
    match CamOdoThread.trackBreak ext co s tk with
    | none => none
    | some (.exited status s1 ev) => some (.exited status s1 ev)
    | some (.next s1 ev) => some (CamOdoThread.finishPass co tk { s1 with halt := true } ev)
  else
    let repeated : Bool :=
      match s.framePrev with
      | none => false
      | some fp => decide (tk.timeStamp = fp.cameraPoseTimeStamp)
    if repeated then
      some (.next s [Event.lockData, Event.unlockData, Event.notifyProcessingDone])
    else if s.m_poseSource = PoseSource.ODOMETRY ∧ tk.odometryCurrent = false then
      some (CamOdoThread.finishPass co tk s [Event.lockData, Event.unlockData])
    else if s.m_poseSource = PoseSource.GPS_INS ∧ tk.gpsInsCurrent = false then
      some (CamOdoThread.finishPass co tk s [Event.lockData, Event.unlockData])
    else
      match CamOdoThread.obtainOdometry s tk with
      | none => none
      | some (.timeout e1) => some (.exited 1 s ([Event.lockData, Event.unlockData] ++ e1))
      | some (.pointer interpOdo e1) =>
        match CamOdoThread.obtainGpsIns s tk with
        | none => none
        | some (.timeout e2) =>
          some (.exited 1 s ([Event.lockData, Event.unlockData] ++ e1 ++ e2))
        | some (.pointer interpGpsIns e2) =>
          let ev := [Event.lockData, Event.unlockData] ++ e1 ++ e2
          let position : Option Vec3 :=
            if s.m_poseSource = PoseSource.ODOMETRY then interpOdo.map fun o => o.position
            else interpGpsIns.map fun p => ⟨p.translation.y, -p.translation.x, p.translation.z⟩
          match position with
          | none => none
          | some pos =>
            if CamOdoThread.tooNear s pos then some (.next s (ev ++ [Event.notifyProcessingDone]))
            else CamOdoThread.buildFrame ext co s tk interpOdo interpGpsIns ev

/-- Modelled from the spec: `CamOdoCalibration::addMotionSegment` (declared in
    `calib/CamOdoCalibration.h`, not among the sources) takes two sequences of relative
    transforms and "returns false on length mismatch". -/
def CamOdoCalibration.addMotionSegment (cameraMotions proprioceptiveMotions : List Mat4) :
    Bool :=
  decide (cameraMotions.length = proprioceptiveMotions.length)

/-- Collaborators for the examples: odometry objects start at zero, `mat2RPY` answers zero
    angles, the accumulator is the one of the interface description and wants 100 motions. -/
def Demo.collab : CamOdoThread.Collab :=
  { newOdometry := ⟨Vec3.zero, Vec3.zero, 0⟩
    mat2RPY := fun _ => (0, 0, 0)
    addMotionSegment := CamOdoCalibration.addMotionSegment
    getMotionCount := 100 }

/-- The same collaborators with an accumulator that rejects the segment. -/
def Demo.rejecting : CamOdoThread.Collab :=
  { newOdometry := ⟨Vec3.zero, Vec3.zero, 0⟩
    mat2RPY := fun _ => (0, 0, 0)
    addMotionSegment := fun _ _ => false
    getMotionCount := 100 }

/-- The state of the thread when `threadFunction` enters its loop. -/
def Demo.thread (poseSource : PoseSource) : CamOdoThread.State :=
  ⟨poseSource, [], false, none, [], 0, false, []⟩

/-- The odometry sample of instant `k`: the vehicle at `(k, 0, 0)` with zero attitude. -/
def Demo.odometryAt (k : Nat) : Odometry := ⟨⟨k, 0, 0⟩, Vec3.zero, k⟩

/-- The camera pose of instant `k` as the tracker reports it: the camera at `(k, 0, 0)`. -/
def Demo.cameraAt (k : Nat) : Mat4 := Mat4.ofRigid Mat3.identity ⟨-k, 0, 0⟩

/-- The thread with the `n` pending odometry poses of the instants `0, ..., n - 1`. -/
def Demo.pending (poseSource : PoseSource) (n : Nat) : CamOdoThread.State :=
  ⟨poseSource, [], false, none, (List.range n).map Demo.odometryAt, 0, false, []⟩

/-- A pass on the image of instant `k`: both buffers have samples, nothing is cached, the
    first interpolation call succeeds, the tracker accepts the frame and reports `m` poses. -/
def Demo.tick (k m : Nat) : CamOdoThread.Tick :=
  { stop := false
    timeStamp := k
    odometryCurrent := true
    gpsInsCurrent := true
    gpsInsEmpty := false
    cachedOdometry := none
    odometryTries := [(some (Demo.odometryAt k), 0)]
    cachedGpsIns := none
    gpsInsTries := [(some ⟨Quat.identity, ⟨0, k, 0⟩, k⟩, 0)]
    frame := k
    camValid := true
    cameraPose := some ⟨Quat.identity, Vec3.zero, 0⟩
    voPoses := (List.range m).map Demo.cameraAt
    trackerFrames := List.range m
    currentMotionCount := 0 }

/-- The exit status of a step that ended the process. -/
def CamOdoThread.Step.status : CamOdoThread.Step → Option Int
  | .next _ _ => none
  | .exited status _ _ => some status

/-- The state a step leaves. -/
def CamOdoThread.Step.state : CamOdoThread.Step → CamOdoThread.State
  | .next s _ => s
  | .exited _ s _ => s

/-- The events of a step. -/
def CamOdoThread.Step.events : CamOdoThread.Step → List Event
  | .next _ ev => ev
  | .exited _ _ ev => ev

/-- The pass of `Demo.tick k m` with the stop flag set. -/
def Demo.stopTick (k m : Nat) : CamOdoThread.Tick :=
  { Demo.tick k m with stop := true }

/-- The pass of `Demo.tick k m` in which the tracker loses the track. -/
def Demo.lostTick (k m : Nat) : CamOdoThread.Tick :=
  { Demo.tick k m with camValid := false }

/-- The pass of `Demo.tick k m` in which the odometry interpolation fails and more than
    `k_odometryTimeout` seconds have gone by. -/
def Demo.lateOdometryTick (k m : Nat) : CamOdoThread.Tick :=
  { Demo.tick k m with odometryTries := [(none, 5)] }

/-- The pass of `Demo.tick k m` in which the GPS/INS interpolation fails and more than
    `k_odometryTimeout` seconds have gone by. -/
def Demo.lateGpsInsTick (k m : Nat) : CamOdoThread.Tick :=
  { Demo.tick k m with gpsInsTries := [(none, 5)] }

/-- The pass of `Demo.tick k m` in which the odometry interpolation fails once, the thread
    sleeps, and the second call succeeds. -/
def Demo.retryTick (k m : Nat) : CamOdoThread.Tick :=
  { Demo.tick k m with odometryTries := [(none, 0), (some (Demo.odometryAt k), 0)] }

/-- The pass of `Demo.tick k m` on an empty odometry buffer. -/
def Demo.emptyTick (k m : Nat) : CamOdoThread.Tick :=
  { Demo.tick k m with odometryCurrent := false }

/-- The state after a pass (the state before it if the pass is undefined). -/
def Demo.afterPass (s : CamOdoThread.State) (tk : CamOdoThread.Tick) : CamOdoThread.State :=
  match CamOdoThread.pass Demo.ext Demo.collab s tk with
  | none => s
  | some st => st.state

/-- The odometry thread after its first image (instant 1), which became a frame. -/
def Demo.moving : CamOdoThread.State :=
  Demo.afterPass (Demo.thread PoseSource.ODOMETRY) (Demo.tick 1 1)

/-- Which of the two buffer mutexes the thread holds. -/
structure Held where
  odometry : Bool
  gpsIns : Bool
deriving DecidableEq

/-- The mutexes held after an event. -/
def Held.after (h : Held) : Event → Held
  | .lockOdometry => ⟨true, h.gpsIns⟩
  | .unlockOdometry => ⟨false, h.gpsIns⟩
  | .lockGpsIns => ⟨h.odometry, true⟩
  | .unlockGpsIns => ⟨h.odometry, false⟩
  | _ => h

/-- The mutexes held after a run of events. -/
def Held.afterAll (h : Held) (ev : List Event) : Held := ev.foldl Held.after h

/-- Every `usleep` among the events, run from `h`, happens while the mutexes held satisfy
    `ok`. -/
def sleepsOnlyWhen (ok : Held → Bool) : Held → List Event → Bool
  | _, [] => true
  | h, e :: es => (decide (e ≠ Event.usleep) || ok h) && sleepsOnlyWhen ok (h.after e) es

/-- The two mutexes are never held at the same time while the events run from `h`. -/
def neverBoth : Held → List Event → Bool
  | h, [] => !(h.odometry && h.gpsIns)
  | h, e :: es => !(h.odometry && h.gpsIns) && neverBoth (h.after e) es

/-- An event that is neither a sleep nor a lock or unlock of a buffer mutex. -/
def Event.quiet : Event → Bool
  | .usleep => false
  | .lockOdometry => false
  | .unlockOdometry => false
  | .lockGpsIns => false
  | .unlockGpsIns => false
  | _ => true

/-- The events `ev`, run from the mutex state `h`, end in `h'`; every sleep among them
    happens while exactly one of the two mutexes is held, and the two are never held
    together. -/
def Locked (h : Held) (ev : List Event) (h' : Held) : Prop :=
  sleepsOnlyWhen (fun k => k.odometry != k.gpsIns) h ev = true ∧ neverBoth h ev = true ∧
    h.afterAll ev = h'

/-! ## `scenePoints` (lines 936-961) -/

/-- The pointers `scenePoints()` inserts into its set (lines 943-954): the `feature3D()` of
    every 2D feature of every window frame, a 2D feature without 3D link giving the null
    pointer (`none`).  The set is kept as a list without repetition; the iteration order of
    `boost::unordered_set` is unspecified. -/
def scenePointSet (w : World) : List (Option PointId) :=
  (w.ba.mWindow.flatMap fun F =>
    (w.g.frames F).features2D.map fun f => (w.g.features f).feature3D).dedup

/-- Lines 956-959: `(*it)->point()` for every pointer of the set, the null pointer like the
    others. -/
def derefPoints (g : Graph) : List (Option PointId) → Option (List Vec3)
  | [] => some []
  | none :: _ => none
  | some p :: rest =>
    match derefPoints g rest with
    | none => none
    | some ps => some ((g.points p).point :: ps)

/-- `SlidingWindowBA::scenePoints`. -/
def scenePoints (w : World) : Option (List Vec3) := derefPoints w.g (scenePointSet w)

/-- Following the claim's words: the camera model evaluated at the world-to-camera transform
    `inverse(T_cam_odo) * inverse(systemPose)`, whose rotation is
    `conj(q_cam_odo) * conj(q_odo)` and whose translation is minus that rotation applied to
    the odometry position minus `conj(q_cam_odo)` applied to the extrinsic translation. -/
def reprojectionErrorSpec (ext : Ext) (P : Vec3) (cam_odo_q : Quat) (cam_odo_t : Vec3)
    (odo_p : Vec3) (odo_att : Vec3) (observed_p : Vec2) : ℚ :=
  let q_z : Quat := ⟨ext.cos (odo_att.x / 2), 0, 0, ext.sin (odo_att.x / 2)⟩
  let q_y : Quat := ⟨ext.cos (odo_att.y / 2), 0, ext.sin (odo_att.y / 2), 0⟩
  let q_x : Quat := ⟨ext.cos (odo_att.z / 2), ext.sin (odo_att.z / 2), 0, 0⟩
  let odo_q := (q_z.mul q_y).mul q_x
  let cam_q := cam_odo_q.conjugate.mul odo_q.conjugate
  let cam_t :=
    (cam_q.toRotationMatrix.mulVec odo_p).neg.add
      (cam_odo_q.conjugate.toRotationMatrix.mulVec cam_odo_t).neg
  ext.cameraReprojectionError P cam_q cam_t observed_p

/-- A freshly constructed pose-anchored estimator with the capacity `N = -1` on the bare
    graph. -/
def Demo.negativeWorld : World :=
  ⟨SlidingWindowBA.construct (-1) 3 Mode.ODOMETRY ⟨Quat.identity, Vec3.zero, 0⟩, Demo.bareGraph⟩

/-- A freshly constructed pose-anchored estimator with the capacity `N` on the bare graph,
    after `addFrame` on frame 1 (the fresh estimator if that call is undefined). -/
def Demo.smallWorld (N : Int) : World :=
  match addFrames Demo.ext 1
      ⟨SlidingWindowBA.construct N 3 Mode.ODOMETRY ⟨Quat.identity, Vec3.zero, 0⟩,
        Demo.bareGraph⟩ [(1, Mat3.identity, Vec3.zero)] with
  | none => ⟨SlidingWindowBA.construct N 3 Mode.ODOMETRY ⟨Quat.identity, Vec3.zero, 0⟩,
      Demo.bareGraph⟩
  | some w => w


/-! ## Match chains, in the words of the specification -/

/-- Following the specification's words: `chain` is the backward match chain of `nViews` features
    that ends with `f`.  Every element `j` after the first has a non-empty previous-match list
    and a best-previous-match index other than none, and element `j - 1` is its previous
    match, still alive. -/
def IsMatchChain (g : Graph) (nViews : Nat) (f : FeatId) (chain : List FeatId) : Prop :=
  chain.length = nViews ∧ chain.getLast? = some f ∧
  ∀ j a b, chain[j]? = some a → chain[j + 1]? = some b →
    (g.features b).prevMatches ≠ [] ∧ (g.features b).bestPrevMatchId ≠ -1 ∧
    (g.features b).prevMatch = some a ∧ g.live2D a = true

/-- Following the specification's words: `chains` holds, in the order of `features`, one
    chain for each feature that has one and nothing for the others. -/
inductive Selected (g : Graph) (nViews : Nat) : List FeatId → List (List FeatId) → Prop
  | nil : Selected g nViews [] []
  | keep (f : FeatId) (fs : List FeatId) (c : List FeatId) (cs : List (List FeatId)) :
      IsMatchChain g nViews f c → Selected g nViews fs cs →
      Selected g nViews (f :: fs) (c :: cs)
  | skip (f : FeatId) (fs : List FeatId) (cs : List (List FeatId)) :
      (∀ c, ¬ IsMatchChain g nViews f c) → Selected g nViews fs cs →
      Selected g nViews (f :: fs) cs

/-- The match links of `g'` are those of `g`, except that best-match indices may have been
    set to none (`-1`): what `addFrame` does to the match chain. -/
def Graph.KeepsMatches (g g' : Graph) : Prop :=
  g'.live2D = g.live2D ∧ ∀ f,
    (g'.features f).prevMatches = (g.features f).prevMatches ∧
    (g'.features f).keypoint = (g.features f).keypoint ∧
    ((g'.features f).bestPrevMatchId = (g.features f).bestPrevMatchId ∨
      (g'.features f).bestPrevMatchId = -1) ∧
    ((g'.features f).bestNextMatchId = (g.features f).bestNextMatchId ∨
      (g'.features f).bestNextMatchId = -1)

/-- A sequence of `addFrame` calls, each given as `(frame, R_rel, t_rel)`, with the values the
    calls return. -/
def addFramesRets (ext : Ext) (fuel : Nat) :
    World → List (FrameId × Mat3 × Vec3) → Option (World × List Bool)
  | w, [] => some (w, [])
  | w, c :: cs =>
    match addFrame ext fuel w c.1 c.2.1 c.2.2 with
    | none => none
    | some r =>
      match addFramesRets ext fuel r.world cs with
      | none => none
      | some (w', rets) => some (w', r.ret :: rets)

/-! ## The state of a correspondence after the triangulation stage -/

/-- The correspondences are one-to-one: the earlier features are pairwise different, so are
    the later ones, and no feature is an earlier and a later one. -/
def OneToOne (cs : List (FeatId × FeatId)) : Prop :=
  (cs.map Prod.fst).Nodup ∧ (cs.map Prod.snd).Nodup ∧ ∀ c ∈ cs, ∀ d ∈ cs, c.1 ≠ d.2

/-- The correspondence `fc` is severed: the best-next-match index of its earlier feature and
    the best-previous-match index of its later feature are both none. -/
def Graph.Severed (g : Graph) (fc : FeatId × FeatId) : Prop :=
  (g.features fc.1).bestNextMatchId = -1 ∧ (g.features fc.2).bestPrevMatchId = -1

/-- Both features of the correspondence `fc` are linked to the 3D point `p`, which lists
    both as observers. -/
def Graph.Joined (g : Graph) (fc : FeatId × FeatId) (p : PointId) : Prop :=
  (g.features fc.1).feature3D = some p ∧ (g.features fc.2).feature3D = some p ∧
  fc.1 ∈ (g.points p).features2D ∧ fc.2 ∈ (g.points p).features2D

/-- Every 2D feature with a 3D link is in the observer list of that 3D point. -/
def Graph.Observed (g : Graph) : Prop :=
  ∀ f p, (g.features f).feature3D = some p → f ∈ (g.points p).features2D

/-- The pose-anchored scene with one more frame: frame 5 stands at the origin and has the
    single feature 40, which matches feature 10 of frame 2 but lies at pixel `(100, 0)`, far
    from the image of the 3D point of feature 10. -/
def Demo.driftGraph : Graph :=
  { Demo.sceneGraph with
    frames := fun F =>
      if F = 5 then ⟨none, some ⟨⟨0, 0, 0⟩, Vec3.zero, 0⟩, [40]⟩ else Demo.sceneGraph.frames F
    features := fun f =>
      if f = 40 then ⟨⟨100, 0⟩, none, [10], 0, -1⟩ else Demo.sceneGraph.features f }

/-- The pose-anchored estimator on the scene with frame 5, after `addFrame` on the frames 1
    and 2 (the starting world if one of the calls is undefined). -/
def Demo.driftWorld : World :=
  match addFrames Demo.ext 32 ⟨Demo.sceneWorld.ba, Demo.driftGraph⟩
      [(1, Mat3.identity, Vec3.zero), (2, Mat3.identity, Vec3.zero)] with
  | none => ⟨Demo.sceneWorld.ba, Demo.driftGraph⟩
  | some w => w
/-! ## Frame conditions on the estimator members -/

theorem checkTriangulated_ba (ext : Ext) (fc : FrameId) :
    ∀ (l : List (FeatId × FeatId)) (w w' : World),
      checkTriangulated ext fc w l = some w' → w'.ba = w.ba := by
  intro l
  induction l with
  | nil => intro w w' h; simp [checkTriangulated] at h; subst h; rfl
  | cons c rest ih =>
    intro w w' h
    obtain ⟨f0, f1⟩ := c
    simp only [checkTriangulated] at h
    split at h
    · exact absurd h (by simp)
    · split at h
      · exact absurd h (by simp)
      · split at h
        · exact (ih _ _ h).trans rfl
        · exact (ih _ _ h).trans rfl

theorem bootstrapPose_ba (ext : Ext) (w : World) (fc : FrameId) (l : List (FeatId × FeatId))
    (w1 : World) (inl : List Bool) (Rt : Option (Mat3 × Vec3))
    (h : bootstrapPose ext w fc l = some (w1, inl, Rt)) : w1.ba = w.ba := by
  unfold bootstrapPose at h
  split at h
  · dsimp only at h
    split at h
    · exact absurd h (by simp)
    · simp only [Option.some.injEq, Prod.mk.injEq] at h
      obtain ⟨h1, _, _⟩ := h
      subst h1; rfl
  · simp only [Option.some.injEq, Prod.mk.injEq] at h
    obtain ⟨h1, _, _⟩ := h
    subst h1; rfl

theorem bootstrapStructure_ba (ext : Ext) (w1 : World) (fc fp : FrameId)
    (l : List (FeatId × FeatId)) (inl : List Bool) (Rt : Option (Mat3 × Vec3))
    (st : StageResult) (h : bootstrapStructure ext w1 fc fp l inl Rt = some st) :
    st.world.ba = w1.ba := by
  unfold bootstrapStructure at h
  split at h
  · exact absurd h (by simp)
  · split at h
    · exact absurd h (by simp)
    · split at h
      · simp only [Option.some.injEq] at h; subst h; rfl
      · split at h
        · exact absurd h (by simp)
        · simp only [Option.some.injEq] at h; subst h; rfl

theorem bootstrap_ba (ext : Ext) (w : World) (fc fp : FrameId) (st : StageResult)
    (h : bootstrap ext w fc fp = some st) : st.world.ba = w.ba := by
  unfold bootstrap at h
  split at h
  · exact absurd h (by simp)
  · split at h
    · simp only [Option.some.injEq] at h; subst h; rfl
    · split at h
      · exact absurd h (by simp)
      · rename_i hp
        exact (bootstrapStructure_ba _ _ _ _ _ _ _ _ h).trans (bootstrapPose_ba _ _ _ _ _ _ _ hp)

theorem steadyPose_ba (ext : Ext) (w : World) (fc fp : FrameId) (R : Mat3)
    (l : List (FeatId × FeatId)) (b : Bool) (w1 : World)
    (h : steadyPose ext w fc fp R l = some (b, w1)) : w1.ba = w.ba := by
  unfold steadyPose at h
  dsimp only at h
  split at h
  · split at h
    · simp only [Option.some.injEq, Prod.mk.injEq] at h; obtain ⟨_, h1⟩ := h; subst h1; rfl
    · split at h
      · simp only [Option.some.injEq, Prod.mk.injEq] at h; obtain ⟨_, h1⟩ := h; subst h1; rfl
      · exact absurd h (by simp)
  · simp only [Option.some.injEq, Prod.mk.injEq] at h; obtain ⟨_, h1⟩ := h; subst h1; rfl

theorem steadyNew_ba (ext : Ext) (w2 : World) (fc fp : FrameId) (l : List (FeatId × FeatId))
    (w3 : World) (h : steadyNew ext w2 fc fp l = some w3) : w3.ba = w2.ba := by
  unfold steadyNew at h
  split at h
  · simp only [Option.some.injEq] at h; subst h; rfl
  · split at h
    · exact absurd h (by simp)
    · split at h
      · exact absurd h (by simp)
      · simp only [Option.some.injEq] at h; subst h; rfl

theorem steady_ba (ext : Ext) (w : World) (fc fp : FrameId) (R : Mat3) (st : StageResult)
    (h : steady ext w fc fp R = some st) : st.world.ba = w.ba := by
  unfold steady at h
  split at h
  · exact absurd h (by simp)
  · dsimp only at h
    split at h
    · exact absurd h (by simp)
    · rename_i hp
      simp only [Option.some.injEq] at h; subst h
      exact steadyPose_ba _ _ _ _ _ _ _ _ hp
    · rename_i hp
      split at h
      · exact absurd h (by simp)
      · rename_i hc
        split at h
        · exact absurd h (by simp)
        · rename_i hn
          simp only [Option.some.injEq] at h; subst h
          exact ((steadyNew_ba _ _ _ _ _ _ hn).trans (checkTriangulated_ba _ _ _ _ _ hc)).trans
            (steadyPose_ba _ _ _ _ _ _ _ _ hp)

theorem optimize_ctl (ext : Ext) (w w1 : World) (h : optimize ext w = some w1) :
    w1.ba.ctl = w.ba.ctl := by
  unfold optimize at h
  split at h
  · exact absurd h (by simp)
  · simp only [Option.some.injEq] at h; subst h; rfl

theorem pruneFeatures_ba (ext : Ext) (F : FrameId) :
    ∀ (fuel : Nat) (w : World) (l : List FeatId) (pr : List PointId) (w' : World)
      (pr' : List PointId),
      pruneFeatures ext F fuel w l pr = some (w', pr') → w'.ba = w.ba := by
  intro fuel
  induction fuel with
  | zero => intro w l pr w' pr' h; simp [pruneFeatures] at h
  | succ n ih =>
    intro w l pr w' pr' h
    cases l with
    | nil =>
      simp only [pruneFeatures, Option.some.injEq, Prod.mk.injEq] at h
      obtain ⟨h1, _⟩ := h; subst h1; rfl
    | cons f rest =>
      simp only [pruneFeatures] at h
      split at h
      · exact ih _ _ _ _ _ h
      · split at h
        · exact absurd h (by simp)
        · split at h
          · exact (ih _ _ _ _ _ h).trans rfl
          · exact ih _ _ _ _ _ h

theorem pruneWindow_ba (ext : Ext) (fuel : Nat) :
    ∀ (Fs : List FrameId) (w : World) (pr : List PointId) (w' : World) (pr' : List PointId),
      pruneWindow ext fuel w Fs pr = some (w', pr') → w'.ba = w.ba := by
  intro Fs
  induction Fs with
  | nil =>
    intro w pr w' pr' h
    simp only [pruneWindow, Option.some.injEq, Prod.mk.injEq] at h
    obtain ⟨h1, _⟩ := h; subst h1; rfl
  | cons F rest ih =>
    intro w pr w' pr' h
    simp only [pruneWindow] at h
    split at h
    · exact absurd h (by simp)
    · rename_i hf
      exact (ih _ _ _ _ h).trans (pruneFeatures_ba _ _ _ _ _ _ _ _ hf)

theorem finish_ctl (ext : Ext) (fuel : Nat) (w : World) (fc : FrameId)
    (Rt : Option (Mat3 × Vec3)) (r : AddFrameResult) (h : finish ext fuel w fc Rt = some r) :
    r.world.ba.ctl = w.ba.ctl ∧ r.ret = true := by
  unfold finish at h
  dsimp only at h
  split at h
  · exact absurd h (by simp)
  · rename_i w1 ho
    have h1 : w1.ba.ctl = w.ba.ctl := by
      split at ho
      · exact optimize_ctl _ _ _ ho
      · simp only [Option.some.injEq] at ho; subst ho; rfl
    split at h
    · exact absurd h (by simp)
    · rename_i w2 pr hp
      have h2 : w2.ba = w1.ba := pruneWindow_ba _ _ _ _ _ _ _ hp
      split at h
      · split at h
        · exact absurd h (by simp)
        · simp only [Option.some.injEq] at h; subst h
          exact ⟨by rw [← h1]; exact congrArg _ h2, rfl⟩
      · simp only [Option.some.injEq] at h; subst h
        exact ⟨by rw [← h1]; exact congrArg _ h2, rfl⟩

theorem popFrontWhile_eq (N : Nat) : ∀ l : List FrameId,
    popFrontWhile N l = l.drop (l.length - N) := by
  intro l
  induction l with
  | nil => simp [popFrontWhile]
  | cons F Fs ih =>
    simp only [popFrontWhile]
    split
    · rename_i h
      rw [ih]
      simp only [List.length_cons] at h ⊢
      have : Fs.length + 1 - N = (Fs.length - N) + 1 := by omega
      rw [this, List.drop_succ_cons]
    · rename_i h
      simp only [List.length_cons] at h ⊢
      have : Fs.length + 1 - N = 0 := by omega
      rw [this, List.drop_zero]

theorem enterWindow_ctl (ext : Ext) (w : World) (fr : FrameId) :
    (enterWindow ext w fr).ba.ctl =
      (w.ba.m_N, w.ba.m_n, w.ba.mMode, w.ba.mFrameCount + 1,
        popFrontWhile (toSizeT w.ba.m_N) (w.ba.mWindow ++ [fr])) := rfl

theorem firstFrame_ctl (w0 : World) (fc : FrameId) (r : AddFrameResult)
    (h : firstFrame w0 fc = some r) : r.world.ba = w0.ba ∧ r.ret = true := by
  unfold firstFrame at h
  split at h
  · split at h
    · exact absurd h (by simp)
    · simp only [Option.some.injEq] at h; subst h; exact ⟨rfl, rfl⟩
  · simp only [Option.some.injEq] at h; subst h; exact ⟨rfl, rfl⟩

theorem predictPose_ba (ext : Ext) (w0 : World) (fc fp : FrameId) (R : Mat3) (t : Vec3)
    (w1 : World) (h : predictPose ext w0 fc fp R t = some w1) : w1.ba = w0.ba := by
  unfold predictPose at h
  split at h
  · split at h
    · simp only [Option.some.injEq] at h; subst h; rfl
    · exact absurd h (by simp)
  · simp only [Option.some.injEq] at h; subst h; rfl

theorem stage_ba (ext : Ext) (w1 : World) (fc fp : FrameId) (R : Mat3) (st : StageResult)
    (h : (if w1.ba.mFrameCount = 2 then bootstrap ext w1 fc fp else steady ext w1 fc fp R)
      = some st) : st.world.ba = w1.ba := by
  split at h
  · exact bootstrap_ba _ _ _ _ _ h
  · exact steady_ba _ _ _ _ _ _ h

theorem laterFrame_ctl (ext : Ext) (fuel : Nat) (w0 : World) (fc : FrameId) (R : Mat3)
    (t : Vec3) (r : AddFrameResult) (h : laterFrame ext fuel w0 fc R t = some r) :
    r.world.ba.ctl = w0.ba.ctl := by
  unfold laterFrame at h
  split at h
  · exact absurd h (by simp)
  · split at h
    · exact absurd h (by simp)
    · rename_i w1 hp
      split at h
      · exact absurd h (by simp)
      · rename_i st hs
        have h1 := predictPose_ba _ _ _ _ _ _ _ hp
        have h2 := stage_ba _ _ _ _ _ _ hs
        split at h
        · rw [(finish_ctl _ _ _ _ _ _ h).1, h2, h1]
        · simp only [Option.some.injEq] at h; subst h
          show st.world.ba.ctl = _
          rw [h2, h1]

theorem addFrame_ctl (ext : Ext) (fuel : Nat) (w : World) (fr : FrameId) (R : Mat3) (t : Vec3)
    (r : AddFrameResult) (h : addFrame ext fuel w fr R t = some r) :
    r.world.ba.ctl =
      (w.ba.m_N, w.ba.m_n, w.ba.mMode, w.ba.mFrameCount + 1,
        popFrontWhile (toSizeT w.ba.m_N) (w.ba.mWindow ++ [fr])) := by
  unfold addFrame at h
  dsimp only at h
  rw [← enterWindow_ctl ext w fr]
  split at h
  · rw [(firstFrame_ctl _ _ _ h).1]
  · exact laterFrame_ctl _ _ _ _ _ _ _ h

theorem drop_window_append (N : Nat) (A B : List FrameId) :
    (A.drop (A.length - N) ++ B).drop ((A.drop (A.length - N) ++ B).length - N)
      = (A ++ B).drop ((A ++ B).length - N) := by
  by_cases hle : A.length ≤ N
  · rw [Nat.sub_eq_zero_of_le hle, List.drop_zero]
  · have hk : A.length - N ≤ A.length := Nat.sub_le _ _
    have h1 : (A.drop (A.length - N) ++ B).length - N = B.length := by
      rw [List.length_append, List.length_drop]; omega
    have h2 : (A ++ B).length - N = (A.take (A.length - N)).length + B.length := by
      rw [List.length_append, List.length_take]; omega
    rw [h1, h2]
    conv_rhs => rw [← List.take_append_drop (A.length - N) A, List.append_assoc]
    rw [List.take_append_drop, List.drop_append]

theorem addFrames_window (ext : Ext) (fuel : Nat) :
    ∀ (calls : List (FrameId × Mat3 × Vec3)) (w w' : World),
      addFrames ext fuel w calls = some w' →
        w'.ba.m_N = w.ba.m_N ∧
        w'.ba.mFrameCount = w.ba.mFrameCount + calls.length ∧
        (w.ba.mWindow.length ≤ toSizeT w.ba.m_N →
          w'.ba.mWindow = (w.ba.mWindow ++ calls.map (fun c => c.1)).drop
            ((w.ba.mWindow ++ calls.map (fun c => c.1)).length - toSizeT w.ba.m_N)) := by
  intro calls
  induction calls with
  | nil =>
    intro w w' h
    simp only [addFrames, Option.some.injEq] at h
    subst h
    refine ⟨rfl, rfl, fun hl => ?_⟩
    simp only [List.map_nil, List.append_nil]
    rw [Nat.sub_eq_zero_of_le hl, List.drop_zero]
  | cons c cs ih =>
    intro w w' h
    simp only [addFrames] at h
    split at h
    · exact absurd h (by simp)
    · rename_i r hr
      have hc := addFrame_ctl _ _ _ _ _ _ _ hr
      simp only [SlidingWindowBA.ctl, Prod.mk.injEq] at hc
      obtain ⟨hN, _, _, hcount, hwin⟩ := hc
      obtain ⟨i1, i2, i3⟩ := ih _ _ h
      refine ⟨i1.trans hN, ?_, fun _ => ?_⟩
      · rw [i2, hcount, List.length_cons]; omega
      · rw [popFrontWhile_eq] at hwin
        have hlen : r.world.ba.mWindow.length ≤ toSizeT r.world.ba.m_N := by
          rw [hwin, hN, List.length_drop]; omega
        have e : w.ba.mWindow ++ List.map (fun c => c.1) (c :: cs)
            = (w.ba.mWindow ++ [c.1]) ++ List.map (fun c => c.1) cs := by simp
        rw [i3 hlen, hN, hwin, e]
        exact drop_window_append _ _ _

/-! ## C1: the window is a FIFO of capacity `m_N` -/

theorem toSizeT_of_int (N : Int) (h0 : 0 ≤ N) (h1 : N ≤ 2147483647) : toSizeT N = N.toNat := by
  unfold toSizeT
  rw [Int.emod_eq_of_lt h0 (by omega)]

/-- C1: for every capacity `N ≥ 2` (an `int`) and every sequence of `addFrame` calls since
    construction or `clear()`, whatever each call returns, the window size is at most `N`
    and the window holds exactly the last `min(k, N)` frames in arrival order, oldest first. -/
theorem window_fifo (ext : Ext) (fuel : Nat) (w w' : World)
    (calls : List (FrameId × Mat3 × Vec3))
    (hN : 2 ≤ w.ba.m_N) (hInt : w.ba.m_N ≤ 2147483647)
    (hrun : addFrames ext fuel w.clear calls = some w') :
    w'.ba.windowSize ≤ w.ba.m_N.toNat ∧
    w'.ba.windowSize = min calls.length w.ba.m_N.toNat ∧
    w'.ba.mWindow =
      (calls.map (fun c => c.1)).drop (calls.length - min calls.length w.ba.m_N.toNat) := by
  obtain ⟨_, _, h3⟩ := addFrames_window ext fuel calls _ _ hrun
  have hs : toSizeT w.clear.ba.m_N = w.ba.m_N.toNat :=
    toSizeT_of_int w.ba.m_N (by omega) hInt
  have hw : w.clear.ba.mWindow = [] := rfl
  rw [hs, hw] at h3
  have h4 := h3 (Nat.zero_le _)
  simp only [List.nil_append, List.length_map] at h4
  have e : calls.length - min calls.length w.ba.m_N.toNat = calls.length - w.ba.m_N.toNat := by
    omega
  rw [e]
  refine ⟨?_, ?_, h4⟩
  · unfold SlidingWindowBA.windowSize
    rw [h4, List.length_drop, List.length_map]; omega
  · unfold SlidingWindowBA.windowSize
    rw [h4, List.length_drop, List.length_map]; omega

/-- C1 at `N = 5`: after seven calls on frames 1..7 the window is exactly frames 3..7. -/
theorem window_fifo_witness :
    (2 : Int) ≤ (Demo.bareWorld Mode.VO).ba.m_N ∧
    (addFrames Demo.ext 1 (Demo.bareWorld Mode.VO).clear Demo.sevenCalls).map
      (fun w => (w.ba.windowSize, w.ba.mWindow)) = some (5, [3, 4, 5, 6, 7]) := by
  refine ⟨by decide, ?_⟩
  obtain ⟨w', hw⟩ :
      ∃ w', addFrames Demo.ext 1 (Demo.bareWorld Mode.VO).clear Demo.sevenCalls = some w' :=
    ⟨_, rfl⟩
  have h := window_fifo Demo.ext 1 (Demo.bareWorld Mode.VO) w' Demo.sevenCalls (by decide)
    (by decide) hw
  rw [hw, Option.map_some', h.2.1, h.2.2]
  rfl

/-! ## C2: what an `addFrame` that returns `false` leaves behind -/

theorem upd_same {α : Type} (f : Nat → α) (a : Nat) (v : α) : upd f a v a = v := by
  simp [upd]

theorem upd_other {α : Type} (f : Nat → α) (a b : Nat) (v : α) (h : b ≠ a) :
    upd f a v b = f b := by
  simp [upd, h]

theorem setCameraPose_twice (g : Graph) (F : FrameId) (p q : Option Pose) :
    (g.setCameraPose F p).setCameraPose F q = g.setCameraPose F q := by
  unfold Graph.setCameraPose
  dsimp only
  congr 1
  funext b
  by_cases hb : b = F
  · subst hb; simp only [upd_same]
  · simp only [upd_other _ _ _ _ hb]

/-- `g'` is `g` up to the camera pose of frame `F`. -/
theorem poseOnly_trans {g g1 g2 : Graph} {F : FrameId}
    (h1 : g1 = g ∨ ∃ p, g1 = g.setCameraPose F (some p))
    (h2 : g2 = g1 ∨ ∃ p, g2 = g1.setCameraPose F (some p)) :
    g2 = g ∨ ∃ p, g2 = g.setCameraPose F (some p) := by
  rcases h2 with h2 | ⟨q, h2⟩
  · rw [h2]; exact h1
  · rcases h1 with h1 | ⟨p, h1⟩
    · right; exact ⟨q, by rw [h2, h1]⟩
    · right; exact ⟨q, by rw [h2, h1, setCameraPose_twice]⟩

theorem bootstrapPose_graph (ext : Ext) (w : World) (fc : FrameId) (l : List (FeatId × FeatId))
    (w1 : World) (inl : List Bool) (Rt : Option (Mat3 × Vec3))
    (h : bootstrapPose ext w fc l = some (w1, inl, Rt)) :
    w1.g = w.g ∨ ∃ p, w1.g = w.g.setCameraPose fc (some p) := by
  unfold bootstrapPose at h
  split at h
  · dsimp only at h
    split at h
    · exact absurd h (by simp)
    · simp only [Option.some.injEq, Prod.mk.injEq] at h
      obtain ⟨h1, _, _⟩ := h
      subst h1; exact Or.inr ⟨_, rfl⟩
  · simp only [Option.some.injEq, Prod.mk.injEq] at h
    obtain ⟨h1, _, _⟩ := h
    subst h1; exact Or.inl rfl

theorem bootstrapStructure_false (ext : Ext) (w1 : World) (fc fp : FrameId)
    (l : List (FeatId × FeatId)) (inl : List Bool) (Rt : Option (Mat3 × Vec3))
    (st : StageResult) (h : bootstrapStructure ext w1 fc fp l inl Rt = some st)
    (hok : st.ok = false) : st.world = w1 := by
  unfold bootstrapStructure at h
  split at h
  · exact absurd h (by simp)
  · split at h
    · exact absurd h (by simp)
    · split at h
      · simp only [Option.some.injEq] at h; subst h; rfl
      · split at h
        · exact absurd h (by simp)
        · simp only [Option.some.injEq] at h; subst h; simp at hok

theorem bootstrap_false (ext : Ext) (w : World) (fc fp : FrameId) (st : StageResult)
    (h : bootstrap ext w fc fp = some st) (hok : st.ok = false) :
    st.world.g = w.g ∨ ∃ p, st.world.g = w.g.setCameraPose fc (some p) := by
  unfold bootstrap at h
  split at h
  · exact absurd h (by simp)
  · split at h
    · simp only [Option.some.injEq] at h; subst h; exact Or.inl rfl
    · split at h
      · exact absurd h (by simp)
      · rename_i hp
        rw [bootstrapStructure_false _ _ _ _ _ _ _ _ h hok]
        exact bootstrapPose_graph _ _ _ _ _ _ _ hp

theorem steadyPose_graph (ext : Ext) (w : World) (fc fp : FrameId) (R : Mat3)
    (l : List (FeatId × FeatId)) (b : Bool) (w1 : World)
    (h : steadyPose ext w fc fp R l = some (b, w1)) :
    w1.g = w.g ∨ ∃ p, w1.g = w.g.setCameraPose fc (some p) := by
  unfold steadyPose at h
  dsimp only at h
  split at h
  · split at h
    · simp only [Option.some.injEq, Prod.mk.injEq] at h; obtain ⟨_, h1⟩ := h; subst h1
      exact Or.inl rfl
    · split at h
      · simp only [Option.some.injEq, Prod.mk.injEq] at h; obtain ⟨_, h1⟩ := h; subst h1
        exact Or.inr ⟨_, rfl⟩
      · exact absurd h (by simp)
  · simp only [Option.some.injEq, Prod.mk.injEq] at h; obtain ⟨_, h1⟩ := h; subst h1
    exact Or.inl rfl

theorem steadyPose_false (ext : Ext) (w : World) (fc fp : FrameId) (R : Mat3)
    (l : List (FeatId × FeatId)) (w1 : World)
    (h : steadyPose ext w fc fp R l = some (false, w1)) : w1 = w := by
  unfold steadyPose at h
  dsimp only at h
  split at h
  · split at h
    · simp only [Option.some.injEq, Prod.mk.injEq] at h; exact h.2.symm
    · split at h
      · simp at h
      · exact absurd h (by simp)
  · simp at h

theorem steady_false (ext : Ext) (w : World) (fc fp : FrameId) (R : Mat3) (st : StageResult)
    (h : steady ext w fc fp R = some st) (hok : st.ok = false) : st.world = w := by
  unfold steady at h
  split at h
  · exact absurd h (by simp)
  · dsimp only at h
    split at h
    · exact absurd h (by simp)
    · rename_i hp
      simp only [Option.some.injEq] at h; subst h
      exact steadyPose_false _ _ _ _ _ _ _ hp
    · split at h
      · exact absurd h (by simp)
      · split at h
        · exact absurd h (by simp)
        · simp only [Option.some.injEq] at h; subst h; simp at hok

theorem predictPose_graph (ext : Ext) (w0 : World) (fc fp : FrameId) (R : Mat3) (t : Vec3)
    (w1 : World) (h : predictPose ext w0 fc fp R t = some w1) :
    w1.g = w0.g ∨ ∃ p, w1.g = w0.g.setCameraPose fc (some p) := by
  unfold predictPose at h
  split at h
  · split at h
    · simp only [Option.some.injEq] at h; subst h; exact Or.inr ⟨_, rfl⟩
    · exact absurd h (by simp)
  · simp only [Option.some.injEq] at h; subst h; exact Or.inl rfl

theorem enterWindow_graph (ext : Ext) (w : World) (fr : FrameId) :
    (enterWindow ext w fr).g = w.g ∨ ∃ p, (enterWindow ext w fr).g = w.g.setCameraPose fr (some p) := by
  unfold enterWindow
  dsimp only
  split
  · exact Or.inr ⟨_, rfl⟩
  · exact Or.inl rfl

theorem enterWindow_graph_fixed (ext : Ext) (w : World) (fr : FrameId)
    (h : w.ba.mMode ≠ Mode.VO) : (enterWindow ext w fr).g = w.g := by
  unfold enterWindow
  simp [h]

/-- An `addFrame` that returns `false` has only entered the frame into the window and, in VO
    mode, replaced its camera pose. -/
theorem addFrame_false (ext : Ext) (fuel : Nat) (w : World) (fr : FrameId) (R : Mat3) (t : Vec3)
    (r : AddFrameResult) (h : addFrame ext fuel w fr R t = some r) (hret : r.ret = false) :
    r.world.ba = (enterWindow ext w fr).ba ∧
    (r.world.g = w.g ∨ ∃ p, r.world.g = w.g.setCameraPose fr (some p)) ∧
    (w.ba.mMode ≠ Mode.VO → r.world.g = w.g) ∧
    r.nOptimize = 0 ∧ r.pruned = [] := by
  unfold addFrame at h
  dsimp only at h
  split at h
  · rw [(firstFrame_ctl _ _ _ h).2] at hret; exact absurd hret (by simp)
  · unfold laterFrame at h
    split at h
    · exact absurd h (by simp)
    · split at h
      · exact absurd h (by simp)
      · rename_i w1 hp
        split at h
        · exact absurd h (by simp)
        · rename_i st hs
          split at h
          · rw [(finish_ctl _ _ _ _ _ _ h).2] at hret; exact absurd hret (by simp)
          · rename_i hok
            simp only [Option.some.injEq] at h; subst h
            have hok' : st.ok = false := by simpa using hok
            have hba1 := predictPose_ba _ _ _ _ _ _ _ hp
            have hg1 := predictPose_graph _ _ _ _ _ _ _ hp
            have hst : st.world.ba = w1.ba ∧
                (st.world.g = w1.g ∨ ∃ p, st.world.g = w1.g.setCameraPose fr (some p)) ∧
                (w1.ba.mMode ≠ Mode.VO → st.world.g = w1.g) := by
              split at hs
              · refine ⟨bootstrap_ba _ _ _ _ _ hs, bootstrap_false _ _ _ _ _ hs hok', ?_⟩
                intro hm
                unfold bootstrap at hs
                split at hs
                · exact absurd hs (by simp)
                · split at hs
                  · simp only [Option.some.injEq] at hs; subst hs; rfl
                  · split at hs
                    · exact absurd hs (by simp)
                    · rename_i hbp
                      rw [bootstrapStructure_false _ _ _ _ _ _ _ _ hs hok']
                      unfold bootstrapPose at hbp
                      rw [if_neg hm] at hbp
                      simp only [Option.some.injEq, Prod.mk.injEq] at hbp
                      rw [← hbp.1]
              · have := steady_false _ _ _ _ _ _ hs hok'
                rw [this]
                exact ⟨rfl, Or.inl rfl, fun _ => rfl⟩
            refine ⟨hst.1.trans hba1, ?_, ?_, rfl, rfl⟩
            · exact poseOnly_trans (poseOnly_trans (enterWindow_graph ext w fr) hg1) hst.2.1
            · intro hm
              have hm0 : (enterWindow ext w fr).ba.mMode ≠ Mode.VO := hm
              have e1 : w1.g = (enterWindow ext w fr).g := by
                unfold predictPose at hp
                rw [if_neg hm0] at hp
                simp only [Option.some.injEq] at hp
                rw [← hp]
              have hm1 : w1.ba.mMode ≠ Mode.VO := by rw [hba1]; exact hm0
              show st.world.g = w.g
              rw [hst.2.2 hm1, e1, enterWindow_graph_fixed ext w fr hm]

/-- C2 (amended): whenever `addFrame` returns `false`, every 2D feature (its 3D link and its
    match-chain indices), every 3D point, every other frame and the camera-odometry transform
    are as before the call, and outside VO mode so is the frame itself; but the frame has
    entered the window (the oldest frames leaving while the size exceeds `m_N`), the frame
    count has gone up by one, and in VO mode the camera pose of the frame may have been
    replaced. -/
theorem false_return_effect (ext : Ext) (fuel : Nat) (w : World) (fr : FrameId) (R : Mat3)
    (t : Vec3) (r : AddFrameResult) (h : addFrame ext fuel w fr R t = some r)
    (hret : r.ret = false) :
    r.world.g.features = w.g.features ∧ r.world.g.points = w.g.points ∧
    r.world.g.live2D = w.g.live2D ∧ r.world.g.nextPoint = w.g.nextPoint ∧
    (∀ F, F ≠ fr → r.world.g.frames F = w.g.frames F) ∧
    (r.world.g.frames fr).features2D = (w.g.frames fr).features2D ∧
    (r.world.g.frames fr).systemPose = (w.g.frames fr).systemPose ∧
    (w.ba.mMode ≠ Mode.VO → r.world.g.frames fr = w.g.frames fr) ∧
    r.world.ba.m_T_cam_odo = w.ba.m_T_cam_odo ∧
    r.world.ba.mWindow = popFrontWhile (toSizeT w.ba.m_N) (w.ba.mWindow ++ [fr]) ∧
    r.world.ba.mFrameCount = w.ba.mFrameCount + 1 := by
  obtain ⟨hba, hg, hfix, _, _⟩ := addFrame_false ext fuel w fr R t r h hret
  have hmode : w.ba.mMode ≠ Mode.VO → r.world.g.frames fr = w.g.frames fr := fun hm => by
    rw [hfix hm]
  rcases hg with hg | ⟨p, hg⟩
  · rw [hg, hba]
    exact ⟨rfl, rfl, rfl, rfl, fun _ _ => rfl, rfl, rfl, fun _ => rfl, rfl, rfl, rfl⟩
  · rw [hba]
    refine ⟨by rw [hg]; rfl, by rw [hg]; rfl, by rw [hg]; rfl, by rw [hg]; rfl, ?_, ?_, ?_,
      hmode, rfl, rfl, rfl⟩
    · intro F hF
      rw [hg]
      exact upd_other _ _ _ _ hF
    · rw [hg]; unfold Graph.setCameraPose; simp only [upd_same]
    · rw [hg]; unfold Graph.setCameraPose; simp only [upd_same]

/-- C2 as stated fails: on the second frame of a featureless sequence `addFrame` returns
    `false`, yet the frame count went from 1 to 2, the window from `[1]` to `[1, 2]`, and the
    frame got a camera pose. -/
theorem false_return_changes_state :
    (Demo.oneFrameWorld Mode.VO).ba.mFrameCount = 1 ∧
    (Demo.oneFrameWorld Mode.VO).ba.mWindow = [1] ∧
    ((Demo.oneFrameWorld Mode.VO).g.frames 2).cameraPose.isSome = false ∧
    (addFrame Demo.ext 1 (Demo.oneFrameWorld Mode.VO) 2 Mat3.identity Vec3.zero).map
      (fun r => (r.ret, r.world.ba.mFrameCount, r.world.ba.mWindow,
        ((r.world.g.frames 2).cameraPose).isSome)) = some (false, 2, [1, 2], true) := by
  decide

/-- The amended C2 at the second frame of a featureless sequence. -/
theorem false_return_effect_witness :
    (addFrame Demo.ext 1 (Demo.oneFrameWorld Mode.VO) 2 Mat3.identity Vec3.zero).map
      (fun r => (r.ret, r.world.ba.mFrameCount)) = some (false, 2) := by
  obtain ⟨r, hr⟩ :
      ∃ r, addFrame Demo.ext 1 (Demo.oneFrameWorld Mode.VO) 2 Mat3.identity Vec3.zero = some r :=
    ⟨_, rfl⟩
  have hret : r.ret = false := by
    have e : (addFrame Demo.ext 1 (Demo.oneFrameWorld Mode.VO) 2 Mat3.identity
        Vec3.zero).map (fun r => r.ret) = some false := by decide
    rw [hr] at e
    simpa using e
  have h := false_return_effect Demo.ext 1 (Demo.oneFrameWorld Mode.VO) 2 Mat3.identity
    Vec3.zero r hr hret
  rw [hr, Option.map_some', hret, h.2.2.2.2.2.2.2.2.2.2]
  rfl

/-! ## C4: the first frame -/

theorem identity_toRotationMatrix : Quat.identity.toRotationMatrix = Mat3.identity := by
  simp [Quat.toRotationMatrix, Quat.identity, Mat3.identity]

/-- C4: the first `addFrame` after construction or `clear()` returns `true`, calls
    `optimize()` zero times, prunes nothing, and leaves every 2D feature and every 3D point as
    it was (nothing triangulated, nothing severed); in VO mode the frame's camera pose is the
    identity rotation with zero translation and the outputs are `R = I`, `t = 0`; in the other
    modes `R`, `t` are not written. -/
theorem first_frame (ext : Ext) (fuel : Nat) (w : World) (fr : FrameId) (R_rel : Mat3)
    (t_rel : Vec3) :
    ∃ r, addFrame ext fuel w.clear fr R_rel t_rel = some r ∧ r.ret = true ∧
      r.nOptimize = 0 ∧ r.pruned = [] ∧
      r.world.g.features = w.g.features ∧ r.world.g.points = w.g.points ∧
      r.world.g.nextPoint = w.g.nextPoint ∧ r.world.ba.mFrameCount = 1 ∧
      (if w.ba.mMode = Mode.VO then
        (r.world.g.frames fr).cameraPose =
            some { ext.newPose with rotation := Quat.identity, translation := Vec3.zero } ∧
          r.Rt = some (Mat3.identity, Vec3.zero)
       else r.world.g = w.g ∧ r.Rt = none) := by
  unfold addFrame
  dsimp only
  have hc : (enterWindow ext w.clear fr).ba.mFrameCount = 1 := rfl
  rw [if_pos hc]
  unfold firstFrame
  by_cases hm : w.ba.mMode = Mode.VO
  · have hm' : (enterWindow ext w.clear fr).ba.mMode = Mode.VO := hm
    have hg : (enterWindow ext w.clear fr).g = w.g.setCameraPose fr (some ext.newPose) := by
      unfold enterWindow
      have : w.clear.ba.mMode = Mode.VO := hm
      simp only [this, if_true]
      rfl
    have hp : ((enterWindow ext w.clear fr).g.frames fr).cameraPose = some ext.newPose := by
      rw [hg]; unfold Graph.setCameraPose; simp only [upd_same]
    rw [if_pos hm', hp]
    refine ⟨_, rfl, rfl, rfl, rfl, ?_, ?_, ?_, rfl, ?_⟩
    · rw [hg]; rfl
    · rw [hg]; rfl
    · rw [hg]; rfl
    · rw [if_pos hm]
      refine ⟨?_, ?_⟩
      · unfold Graph.setCameraPose; simp only [upd_same]
      · simp only [identity_toRotationMatrix]
  · have hm' : ¬ (enterWindow ext w.clear fr).ba.mMode = Mode.VO := hm
    have hg : (enterWindow ext w.clear fr).g = w.g := enterWindow_graph_fixed ext w.clear fr hm
    rw [if_neg hm']
    refine ⟨_, rfl, rfl, rfl, rfl, ?_, ?_, ?_, rfl, ?_⟩
    · rw [hg]
    · rw [hg]
    · rw [hg]
    · rw [if_neg hm]; exact ⟨hg, rfl⟩

/-! ## C5: the relative-motion prior outside VO mode -/

theorem steady_prior (ext : Ext) (w : World) (fc fp : FrameId) (R1 R2 : Mat3)
    (hm : w.ba.mMode ≠ Mode.VO) : steady ext w fc fp R1 = steady ext w fc fp R2 := by
  unfold steady steadyPose
  simp only [if_neg hm]

theorem bootstrap_Rt (ext : Ext) (w : World) (fc fp : FrameId) (st : StageResult)
    (hm : w.ba.mMode ≠ Mode.VO) (h : bootstrap ext w fc fp = some st) : st.Rt = none := by
  unfold bootstrap at h
  split at h
  · exact absurd h (by simp)
  · split at h
    · simp only [Option.some.injEq] at h; subst h; rfl
    · split at h
      · exact absurd h (by simp)
      · rename_i hp
        unfold bootstrapPose at hp
        rw [if_neg hm] at hp
        simp only [Option.some.injEq, Prod.mk.injEq] at hp
        obtain ⟨_, _, h3⟩ := hp
        subst h3
        unfold bootstrapStructure at h
        split at h
        · exact absurd h (by simp)
        · split at h
          · exact absurd h (by simp)
          · split at h
            · simp only [Option.some.injEq] at h; subst h; rfl
            · split at h
              · exact absurd h (by simp)
              · simp only [Option.some.injEq] at h; subst h; rfl

theorem steady_Rt (ext : Ext) (w : World) (fc fp : FrameId) (R : Mat3) (st : StageResult)
    (h : steady ext w fc fp R = some st) : st.Rt = none := by
  unfold steady at h
  split at h
  · exact absurd h (by simp)
  · dsimp only at h
    split at h
    · exact absurd h (by simp)
    · simp only [Option.some.injEq] at h; subst h; rfl
    · split at h
      · exact absurd h (by simp)
      · split at h
        · exact absurd h (by simp)
        · simp only [Option.some.injEq] at h; subst h; rfl

theorem finish_Rt (ext : Ext) (fuel : Nat) (w : World) (fc : FrameId)
    (Rt : Option (Mat3 × Vec3)) (r : AddFrameResult) (hm : w.ba.mMode ≠ Mode.VO)
    (h : finish ext fuel w fc Rt = some r) : r.Rt = Rt := by
  have hctl := (finish_ctl _ _ _ _ _ _ h).1
  unfold finish at h
  dsimp only at h
  split at h
  · exact absurd h (by simp)
  · split at h
    · exact absurd h (by simp)
    · split at h
      · rename_i hvo
        split at h
        · exact absurd h (by simp)
        · simp only [Option.some.injEq] at h; subst h
          simp only [SlidingWindowBA.ctl, Prod.mk.injEq] at hctl
          exact absurd (hctl.2.2.1 ▸ hvo) hm
      · simp only [Option.some.injEq] at h; subst h; rfl

/-- C5: outside VO mode `addFrame` ignores the relative-motion prior: two calls on the same
    state with the same frame that differ only in `R_rel`, `t_rel` give the same return value
    and the same resulting state, and the output arguments `R`, `t` are left unwritten. -/
theorem prior_ignored (ext : Ext) (fuel : Nat) (w : World) (fr : FrameId) (R1 R2 : Mat3)
    (t1 t2 : Vec3) (hm : w.ba.mMode = Mode.ODOMETRY) :
    addFrame ext fuel w fr R1 t1 = addFrame ext fuel w fr R2 t2 ∧
    ∀ r, addFrame ext fuel w fr R1 t1 = some r → r.Rt = none := by
  have hvo : w.ba.mMode ≠ Mode.VO := by rw [hm]; decide
  have hvo0 : (enterWindow ext w fr).ba.mMode ≠ Mode.VO := hvo
  have hpred : ∀ fp R t, predictPose ext (enterWindow ext w fr) fr fp R t
      = some (enterWindow ext w fr) := by
    intro fp R t
    unfold predictPose
    rw [if_neg hvo0]
  constructor
  · unfold addFrame laterFrame
    simp only [hpred, steady_prior ext (enterWindow ext w fr) fr _ R1 R2 hvo0]
  · intro r h
    unfold addFrame at h
    dsimp only at h
    split at h
    · unfold firstFrame at h
      rw [if_neg hvo0] at h
      simp only [Option.some.injEq] at h; subst h; rfl
    · unfold laterFrame at h
      split at h
      · exact absurd h (by simp)
      · simp only [hpred] at h
        split at h
        · exact absurd h (by simp)
        · rename_i st hs
          have hst : st.Rt = none := by
            split at hs
            · exact bootstrap_Rt _ _ _ _ _ hvo0 hs
            · exact steady_Rt _ _ _ _ _ _ hs
          have hsb : st.world.ba = (enterWindow ext w fr).ba := stage_ba _ _ _ _ _ _ hs
          split at h
          · rw [finish_Rt _ _ _ _ _ _ (by rw [hsb]; exact hvo0) h, hst]
          · simp only [Option.some.injEq] at h; subst h; exact hst

/-- C5 on the third frame of the scene (pose-anchored): two different priors. -/
theorem prior_ignored_witness :
    (Demo.sceneAfter 2).ba.mMode = Mode.ODOMETRY ∧
    addFrame Demo.ext 32 (Demo.sceneAfter 2) 3 Mat3.identity Vec3.zero
      = addFrame Demo.ext 32 (Demo.sceneAfter 2) 3 Mat3.identity.neg ⟨1, 2, 3⟩ ∧
    (addFrame Demo.ext 32 (Demo.sceneAfter 2) 3 Mat3.identity Vec3.zero).map
      (fun r => (r.ret, r.Rt.isSome)) = some (true, false) :=
  ⟨by with_unfolding_all decide,
   (prior_ignored Demo.ext 32 (Demo.sceneAfter 2) 3 Mat3.identity Mat3.identity.neg Vec3.zero
      ⟨1, 2, 3⟩ (by with_unfolding_all decide)).1,
   by with_unfolding_all decide⟩

/-! ## C9: severing a correspondence -/

/-- C9: severing the correspondence `(f0, f1)` twice gives the same graph as severing it
    once; it leaves frames, 3D points and every other field of every 2D feature alone, sets
    the best-next-match index of `f0` and the best-previous-match index of `f1` to `-1`, and
    changes no other best-match index. -/
theorem sever_idempotent (g : Graph) (f0 f1 : FeatId) :
    (g.sever f0 f1).sever f0 f1 = g.sever f0 f1 ∧
    (g.sever f0 f1).frames = g.frames ∧ (g.sever f0 f1).points = g.points ∧
    (g.sever f0 f1).live2D = g.live2D ∧ (g.sever f0 f1).nextPoint = g.nextPoint ∧
    ((g.sever f0 f1).features f0).bestNextMatchId = -1 ∧
    ((g.sever f0 f1).features f1).bestPrevMatchId = -1 ∧
    ∀ f, ((g.sever f0 f1).features f).keypoint = (g.features f).keypoint ∧
      ((g.sever f0 f1).features f).feature3D = (g.features f).feature3D ∧
      ((g.sever f0 f1).features f).prevMatches = (g.features f).prevMatches ∧
      (f ≠ f0 → ((g.sever f0 f1).features f).bestNextMatchId = (g.features f).bestNextMatchId) ∧
      (f ≠ f1 → ((g.sever f0 f1).features f).bestPrevMatchId = (g.features f).bestPrevMatchId) := by
  refine ⟨?_, rfl, rfl, rfl, rfl, ?_, ?_, ?_⟩
  · unfold Graph.sever
    dsimp only
    congr 1
    funext f
    by_cases h1 : f = f1
    · subst h1
      by_cases h0 : f = f0
      · subst h0; simp [upd]
      · simp [upd, h0, Ne.symm h0]
    · by_cases h0 : f = f0
      · subst h0; simp [upd, h1, Ne.symm h1]
      · simp [upd, h0, h1]
  · unfold Graph.sever
    dsimp only
    by_cases h : f0 = f1
    · subst h; simp [upd]
    · simp [upd, h, Ne.symm h]
  · unfold Graph.sever
    dsimp only
    simp [upd]
  · intro f
    unfold Graph.sever
    dsimp only
    by_cases h1 : f = f1
    · subst h1
      by_cases h0 : f = f0
      · subst h0; simp [upd]
      · simp [upd, h0, Ne.symm h0]
    · by_cases h0 : f = f0
      · subst h0; simp [upd, h1, Ne.symm h1]
      · simp [upd, h0, h1]

/-! ## C10: reprojection error without 3D-backed features -/

theorem frameErrors_unbacked (ext : Ext) (w : World) (F : FrameId) (acc : ErrAcc) :
    ∀ l : List FeatId, (∀ f ∈ l, (w.g.features f).feature3D = none) →
      frameErrors ext w F acc l = some acc := by
  intro l
  induction l with
  | nil => intro _; rfl
  | cons f fs ih =>
    intro h
    simp only [frameErrors, h f (List.mem_cons_self _ _)]
    exact ih (fun x hx => h x (List.mem_cons_of_mem _ hx))

theorem windowErrors_unbacked (ext : Ext) (w : World) (acc : ErrAcc) :
    ∀ Fs : List FrameId,
      (∀ F ∈ Fs, ∀ f ∈ (w.g.frames F).features2D, (w.g.features f).feature3D = none) →
      windowErrors ext w acc Fs = some acc := by
  intro Fs
  induction Fs with
  | nil => intro _; rfl
  | cons F rest ih =>
    intro h
    simp only [windowErrors, frameErrors_unbacked ext w F acc _ (h F (List.mem_cons_self _ _))]
    exact ih (fun F' hF' => h F' (List.mem_cons_of_mem _ hF'))

theorem featureErrors_unbacked (ext : Ext) (g : Graph) (F : FrameId) (acc : ErrAcc) :
    ∀ l : List FeatId, (∀ f ∈ l, (g.features f).feature3D = none) →
      CamOdoThread.featureErrors ext g F acc l = some acc := by
  intro l
  induction l with
  | nil => intro _; rfl
  | cons f fs ih =>
    intro h
    simp only [CamOdoThread.featureErrors, h f (List.mem_cons_self _ _)]
    exact ih (fun x hx => h x (List.mem_cons_of_mem _ hx))

theorem segmentErrors_unbacked (ext : Ext) (g : Graph) (acc : ErrAcc) :
    ∀ Fs : List FrameId,
      (∀ F ∈ Fs, ∀ f ∈ (g.frames F).features2D, (g.features f).feature3D = none) →
      CamOdoThread.segmentErrors ext g acc Fs = some acc := by
  intro Fs
  induction Fs with
  | nil => intro _; rfl
  | cons F rest ih =>
    intro h
    simp only [CamOdoThread.segmentErrors,
      featureErrors_unbacked ext g F acc _ (h F (List.mem_cons_self _ _))]
    exact ih (fun F' hF' => h F' (List.mem_cons_of_mem _ hF'))

theorem segmentsErrors_unbacked (ext : Ext) (g : Graph) (acc : ErrAcc) :
    ∀ segs : List (List FrameId),
      (∀ seg ∈ segs, ∀ F ∈ seg, ∀ f ∈ (g.frames F).features2D,
        (g.features f).feature3D = none) →
      CamOdoThread.segmentsErrors ext g acc segs = some acc := by
  intro segs
  induction segs with
  | nil => intro _; rfl
  | cons seg rest ih =>
    intro h
    simp only [CamOdoThread.segmentsErrors,
      segmentErrors_unbacked ext g acc seg (h seg (List.mem_cons_self _ _))]
    exact ih (fun s hs => h s (List.mem_cons_of_mem _ hs))

/-- C10: when no 2D feature of a window frame has a 3D link (an empty window included),
    `windowReprojectionError` returns `min = max = mean = 0`; when no 2D feature of a frame of
    a retained segment has one (no segments included), so does
    `CamOdoThread::reprojectionError`.  Both results are defined: no pose is dereferenced and
    nothing is divided by the zero count. -/
theorem reprojection_error_degenerate (ext : Ext) (w : World) (g : Graph)
    (m_frameSegments : List (List FrameId))
    (hw : ∀ F ∈ w.ba.mWindow, ∀ f ∈ (w.g.frames F).features2D,
      (w.g.features f).feature3D = none)
    (hs : ∀ seg ∈ m_frameSegments, ∀ F ∈ seg, ∀ f ∈ (g.frames F).features2D,
      (g.features f).feature3D = none) :
    windowReprojectionError ext w = some (0, 0, 0) ∧
    CamOdoThread.reprojectionError ext g m_frameSegments = some (0, 0, 0) := by
  constructor
  · unfold windowReprojectionError
    rw [windowErrors_unbacked ext w _ _ hw]
    rfl
  · unfold CamOdoThread.reprojectionError
    rw [segmentsErrors_unbacked ext g _ _ hs]
    rfl

/-- C10 on the scene before any 3D point exists: a window of one frame with ten features,
    and two segments of two frames each. -/
theorem reprojection_error_degenerate_witness :
    windowReprojectionError Demo.ext (Demo.sceneAfter 1) = some (0, 0, 0) ∧
    CamOdoThread.reprojectionError Demo.ext Demo.sceneGraph Demo.sceneSegments
      = some (0, 0, 0) :=
  reprojection_error_degenerate Demo.ext (Demo.sceneAfter 1) Demo.sceneGraph
    Demo.sceneSegments (by with_unfolding_all decide) (by with_unfolding_all decide)

/-! ## C6: what `triangulatePoints` keeps -/

theorem triangulateOne_kept (ext : Ext) (mode : Mode) (q1 : Quat) (t1 : Vec3) (q2 : Quat)
    (t2 : Vec3) (o1 o2 : Vec2) (P : Vec3)
    (h : triangulateOne ext mode q1 t1 q2 t2 o1 o2 = some P) :
    (∃ p1 p2, project3DPoint ext q1 t1 P = some p1 ∧ project3DPoint ext q2 t2 P = some p2) ∧
    (mode = Mode.VO → ReprojectsWithin ext q1 t1 P o1 ∧ ReprojectsWithin ext q2 t2 P o2) := by
  unfold triangulateOne at h
  dsimp only at h
  split at h
  · exact absurd h (by simp)
  · rename_i p1 hp1
    split at h
    · exact absurd h (by simp)
    · rename_i p2 hp2
      split at h
      · split at h
        · exact absurd h (by simp)
        · rename_i e1
          split at h
          · exact absurd h (by simp)
          · rename_i e2
            split at h
            · exact absurd h (by simp)
            · simp only [Option.some.injEq] at h
              subst h
              exact ⟨⟨p1, p2, hp1, hp2⟩, fun _ =>
                ⟨⟨p1, hp1, not_lt.mp e1⟩, ⟨p2, hp2, not_lt.mp e2⟩⟩⟩
      · rename_i hm
        simp only [Option.some.injEq] at h
        subst h
        exact ⟨⟨p1, p2, hp1, hp2⟩, fun hvo => absurd hvo hm⟩

theorem triangulateFrom_kept (ext : Ext) (mode : Mode) (q1 : Quat) (t1 : Vec3) (q2 : Quat)
    (t2 : Vec3) (ip2 : List Vec2) :
    ∀ (l : List Vec2) (i : Nat) (out : List (Vec3 × Nat)),
      triangulateFrom ext mode q1 t1 q2 t2 ip2 i l = some out →
      ∀ Pk ∈ out, ∃ j o1 o2, Pk.2 = i + j ∧ l[j]? = some o1 ∧ ip2[Pk.2]? = some o2 ∧
        triangulateOne ext mode q1 t1 q2 t2 o1 o2 = some Pk.1 := by
  intro l
  induction l with
  | nil =>
    intro i out h Pk hPk
    simp only [triangulateFrom, Option.some.injEq] at h
    subst h
    exact absurd hPk (List.not_mem_nil _)
  | cons o rest ih =>
    intro i out h Pk hPk
    simp only [triangulateFrom] at h
    split at h
    · exact absurd h (by simp)
    · rename_i o2 ho2
      split at h
      · exact absurd h (by simp)
      · rename_i tl htl
        have tailCase : Pk ∈ tl → ∃ j o1 o2, Pk.2 = i + j ∧ (o :: rest)[j]? = some o1 ∧
            ip2[Pk.2]? = some o2 ∧ triangulateOne ext mode q1 t1 q2 t2 o1 o2 = some Pk.1 := by
          intro hmem
          obtain ⟨j, a, b, hj, ha, hb, hone⟩ := ih (i + 1) tl htl Pk hmem
          exact ⟨j + 1, a, b, by omega, by simpa using ha, hb, hone⟩
        split at h
        · simp only [Option.some.injEq] at h
          subst h
          exact tailCase hPk
        · rename_i P hP
          simp only [Option.some.injEq] at h
          subst h
          rcases List.mem_cons.mp hPk with hhead | hmem
          · subst hhead
            exact ⟨0, o, o2, rfl, List.getElem?_cons_zero, ho2, hP⟩
          · exact tailCase hmem

/-- C6 (amended): every point that `triangulatePoints` keeps lies in front of both cameras
    (both projections succeed), and in VO mode it reprojects within the triangulation
    threshold (3.0 px) of its observed pixel in both views.  `Pk.2` is the index the point
    carries in `inliers`. -/
theorem triangulated_reprojects (ext : Ext) (mode : Mode) (q1 : Quat) (t1 : Vec3)
    (ip1 : List Vec2) (q2 : Quat) (t2 : Vec3) (ip2 : List Vec2) (out : List (Vec3 × Nat))
    (h : triangulatePoints ext mode q1 t1 ip1 q2 t2 ip2 = some out) :
    ∀ Pk ∈ out, ∃ o1 o2, ip1[Pk.2]? = some o1 ∧ ip2[Pk.2]? = some o2 ∧
      (∃ p1 p2, project3DPoint ext q1 t1 Pk.1 = some p1 ∧
        project3DPoint ext q2 t2 Pk.1 = some p2) ∧
      (mode = Mode.VO →
        ReprojectsWithin ext q1 t1 Pk.1 o1 ∧ ReprojectsWithin ext q2 t2 Pk.1 o2) := by
  intro Pk hPk
  obtain ⟨j, o1, o2, hj, h1, h2, hone⟩ := triangulateFrom_kept ext mode q1 t1 q2 t2 ip2 ip1 0
    out h Pk hPk
  have hk : Pk.2 = j := by omega
  obtain ⟨hfront, hvo⟩ := triangulateOne_kept ext mode q1 t1 q2 t2 o1 o2 Pk.1 hone
  exact ⟨o1, o2, by rw [hk]; exact h1, h2, hfront, hvo⟩

/-- C6 as stated fails in pose-anchored mode: the skew correspondence is kept, although its
    point projects to `y = 0` in both views, 10 px from either observation. -/
theorem triangulated_far_off :
    Demo.skewViews.map (fun out => out.map (fun Pk => (Pk.2,
      (project3DPoint Demo.skewExt Quat.identity Vec3.zero Pk.1).map (fun p =>
        decide ((p.sub ⟨50, 10⟩).normSq ≤ kTVTReprojErrorThresh * kTVTReprojErrorThresh)),
      (project3DPoint Demo.skewExt Quat.identity ⟨-1, 0, 0⟩ Pk.1).map (fun p =>
        decide ((p.sub ⟨-50, -10⟩).normSq ≤ kTVTReprojErrorThresh * kTVTReprojErrorThresh)))))
      = some [(0, some false, some false)] := by
  with_unfolding_all decide

/-- The amended C6 on the first correspondence of the scene, in VO mode: the point `(0,0,2)`
    is kept and reprojects exactly. -/
theorem triangulated_reprojects_witness :
    (triangulatePoints Demo.ext Mode.VO Quat.identity Vec3.zero [⟨0, 0⟩] Quat.identity
      ⟨-1, 0, 0⟩ [⟨-50, 0⟩]) = some [(⟨0, 0, 2⟩, 0)] ∧
    ReprojectsWithin Demo.ext Quat.identity Vec3.zero ⟨0, 0, 2⟩ ⟨0, 0⟩ ∧
    ReprojectsWithin Demo.ext Quat.identity ⟨-1, 0, 0⟩ ⟨0, 0, 2⟩ ⟨-50, 0⟩ := by
  have h : triangulatePoints Demo.ext Mode.VO Quat.identity Vec3.zero [⟨0, 0⟩] Quat.identity
      ⟨-1, 0, 0⟩ [⟨-50, 0⟩] = some [(⟨0, 0, 2⟩, 0)] := by with_unfolding_all decide
  obtain ⟨o1, o2, h1, h2, _, hvo⟩ := triangulated_reprojects Demo.ext Mode.VO Quat.identity
    Vec3.zero [⟨0, 0⟩] Quat.identity ⟨-1, 0, 0⟩ [⟨-50, 0⟩] _ h (⟨0, 0, 2⟩, 0)
    (List.mem_singleton.mpr rfl)
  simp only [List.getElem?_cons_zero, Option.some.injEq] at h1 h2
  subst h1 h2
  exact ⟨h, hvo rfl⟩

/-! ## C7: the behind-camera prune -/

theorem Graph.Unlinked.reflU (g : Graph) : g.Unlinked g :=
  ⟨rfl, rfl, rfl, rfl, fun _ => Or.inl rfl⟩

theorem Graph.Unlinked.thenU {g1 g2 g3 : Graph} (h12 : g1.Unlinked g2) (h23 : g2.Unlinked g3) :
    g1.Unlinked g3 := by
  obtain ⟨a1, a2, a3, a4, a5⟩ := h12
  obtain ⟨b1, b2, b3, b4, b5⟩ := h23
  refine ⟨b1.trans a1, b2.trans a2, b3.trans a3, b4.trans a4, fun f => ?_⟩
  rcases b5 f with hb | hb <;> rcases a5 f with ha | ha
  · left; rw [hb, ha]
  · right; rw [hb, ha]
  · right; rw [hb, ha]
  · right; rw [hb, ha]

theorem Graph.Unlinked.link {g g' : Graph} (h : g.Unlinked g') (f : FeatId) (p : PointId)
    (hp : (g'.features f).feature3D = some p) : (g.features f).feature3D = some p := by
  rcases h.2.2.2.2 f with e | e
  · rw [← e]; exact hp
  · rw [e] at hp; exact absurd hp (by simp)

theorem Graph.Unlinked.stays {g g' : Graph} (h : g.Unlinked g') (f : FeatId)
    (hp : (g.features f).feature3D = none) : (g'.features f).feature3D = none := by
  rcases h.2.2.2.2 f with e | e
  · rw [e]; exact hp
  · rw [e]

theorem setFeature3D_none_unlinked (g : Graph) (f : FeatId) :
    g.Unlinked (g.setFeature3D f none) := by
  refine ⟨rfl, rfl, rfl, rfl, fun x => ?_⟩
  unfold Graph.setFeature3D
  dsimp only
  by_cases hx : x = f
  · subst hx; right; simp only [upd_same]
  · left; exact upd_other _ _ _ _ hx

theorem unlinkObservers_spec : ∀ (os : List FeatId) (g : Graph),
    g.Unlinked (unlinkObservers g os) ∧
    ∀ o ∈ os, g.live2D o = true → ((unlinkObservers g os).features o).feature3D = none := by
  intro os
  induction os with
  | nil => intro g; exact ⟨Graph.Unlinked.reflU g, fun o ho => absurd ho (List.not_mem_nil _)⟩
  | cons o rest ih =>
    intro g
    simp only [unlinkObservers, Graph.lock]
    by_cases hl : g.live2D o = true
    · simp only [hl, if_true]
      obtain ⟨i1, i2⟩ := ih (g.setFeature3D o none)
      have hs := setFeature3D_none_unlinked g o
      refine ⟨hs.thenU i1, fun x hx hlx => ?_⟩
      rcases List.mem_cons.mp hx with hxo | hxr
      · subst hxo
        apply i1.stays
        unfold Graph.setFeature3D
        simp only [upd_same]
      · exact i2 x hxr (by rw [hs.2.2.1]; exact hlx)
    · simp only [hl]
      obtain ⟨i1, i2⟩ := ih g
      refine ⟨i1, fun x hx hlx => ?_⟩
      rcases List.mem_cons.mp hx with hxo | hxr
      · subst hxo; exact absurd hlx hl
      · exact i2 x hxr hlx

theorem cameraFramePoint_congr (ext : Ext) (w w' : World) (F : FrameId) (p : PointId)
    (hba : w'.ba = w.ba) (hf : w'.g.frames = w.g.frames) (hp : w'.g.points = w.g.points) :
    cameraFramePoint ext w' F p = cameraFramePoint ext w F p := by
  unfold cameraFramePoint
  rw [hba, hf, hp]

theorem InFront_congr (ext : Ext) (w w' : World) (F : FrameId) (p : PointId)
    (hba : w'.ba = w.ba) (hu : w.g.Unlinked w'.g) : InFront ext w F p ↔ InFront ext w' F p := by
  unfold InFront
  rw [cameraFramePoint_congr ext w w' F p hba hu.1 hu.2.1]

/-- The prune loop of one frame only removes 3D links; what is still linked among the
    features it visited is in front of the camera of the frame; and every point it added to
    `pruned` has no live observer with a 3D link left. -/
theorem pruneFeatures_spec (ext : Ext) (F : FrameId) :
    ∀ (fuel : Nat) (w : World) (l : List FeatId) (pr : List PointId) (w' : World)
      (pr' : List PointId),
      pruneFeatures ext F fuel w l pr = some (w', pr') →
      w'.ba = w.ba ∧ w.g.Unlinked w'.g ∧
      (∀ f ∈ l, ∀ p, (w'.g.features f).feature3D = some p → InFront ext w' F p) ∧
      (∀ p ∈ pr', p ∈ pr ∨ ∀ f ∈ (w'.g.points p).features2D, w'.g.live2D f = true →
        (w'.g.features f).feature3D = none) := by
  intro fuel
  induction fuel with
  | zero => intro w l pr w' pr' h; simp [pruneFeatures] at h
  | succ n ih =>
    intro w l pr w' pr' h
    cases l with
    | nil =>
      simp only [pruneFeatures, Option.some.injEq, Prod.mk.injEq] at h
      obtain ⟨h1, h2⟩ := h
      subst h1 h2
      exact ⟨rfl, Graph.Unlinked.reflU _, fun f hf => absurd hf (List.not_mem_nil _),
        fun p hp => Or.inl hp⟩
    | cons f rest =>
      simp only [pruneFeatures] at h
      split at h
      · rename_i hnone
        obtain ⟨i1, i2, i3, i4⟩ := ih _ _ _ _ _ h
        refine ⟨i1, i2, fun x hx p hp => ?_, i4⟩
        rcases List.mem_cons.mp hx with hxf | hxr
        · subst hxf
          rw [i2.stays x hnone] at hp
          exact absurd hp (by simp)
        · exact i3 x hxr p hp
      · rename_i p hsome
        split at h
        · exact absurd h (by simp)
        · rename_i P hP
          split at h
          · -- pruned: the same feature is looked at again
            obtain ⟨i1, i2, i3, i4⟩ := ih _ _ _ _ _ h
            obtain ⟨u1, u2⟩ := unlinkObservers_spec (w.g.points p).features2D w.g
            have hu : w.g.Unlinked w'.g := u1.thenU i2
            refine ⟨i1, hu, i3, fun q hq => ?_⟩
            rcases i4 q hq with hin | hobs
            · rcases List.mem_append.mp hin with hpr | hnew
              · exact Or.inl hpr
              · right
                have hqp : q = p := List.mem_singleton.mp hnew
                subst hqp
                intro x hx hlx
                rw [hu.2.1] at hx
                rw [hu.2.2.1] at hlx
                exact i2.stays x (u2 x hx hlx)
            · exact Or.inr hobs
          · rename_i hfront
            obtain ⟨i1, i2, i3, i4⟩ := ih _ _ _ _ _ h
            refine ⟨i1, i2, fun x hx q hq => ?_, i4⟩
            rcases List.mem_cons.mp hx with hxf | hxr
            · subst hxf
              have hq' := i2.link x q hq
              rw [hsome] at hq'
              simp only [Option.some.injEq] at hq'
              subst hq'
              exact (InFront_congr ext w w' F p i1 i2).mp ⟨P, hP, hfront⟩
            · exact i3 x hxr q hq

theorem pruneWindow_spec (ext : Ext) (fuel : Nat) :
    ∀ (Fs : List FrameId) (w : World) (pr : List PointId) (w' : World) (pr' : List PointId),
      pruneWindow ext fuel w Fs pr = some (w', pr') →
      w'.ba = w.ba ∧ w.g.Unlinked w'.g ∧
      (∀ F ∈ Fs, ∀ f ∈ (w'.g.frames F).features2D, ∀ p,
        (w'.g.features f).feature3D = some p → InFront ext w' F p) ∧
      (∀ p ∈ pr', p ∈ pr ∨ ∀ f ∈ (w'.g.points p).features2D, w'.g.live2D f = true →
        (w'.g.features f).feature3D = none) := by
  intro Fs
  induction Fs with
  | nil =>
    intro w pr w' pr' h
    simp only [pruneWindow, Option.some.injEq, Prod.mk.injEq] at h
    obtain ⟨h1, h2⟩ := h
    subst h1 h2
    exact ⟨rfl, Graph.Unlinked.reflU _, fun F hF => absurd hF (List.not_mem_nil _),
      fun p hp => Or.inl hp⟩
  | cons F rest ih =>
    intro w pr w' pr' h
    simp only [pruneWindow] at h
    split at h
    · exact absurd h (by simp)
    · rename_i w1 pr1 hf
      obtain ⟨a1, a2, a3, a4⟩ := pruneFeatures_spec ext F _ _ _ _ _ _ hf
      obtain ⟨b1, b2, b3, b4⟩ := ih _ _ _ _ h
      refine ⟨b1.trans a1, a2.thenU b2, fun F' hF' f hf' p hp => ?_, fun p hp => ?_⟩
      · rcases List.mem_cons.mp hF' with hFF | hFr
        · subst hFF
          rw [b2.1, a2.1] at hf'
          have hp1 := b2.link f p hp
          exact (InFront_congr ext w1 w' F' p b1 b2).mp (a3 f hf' p hp1)
        · exact b3 F' hFr f hf' p hp
      · rcases b4 p hp with hin | hobs
        · rcases a4 p hin with hin0 | hobs1
          · exact Or.inl hin0
          · right
            intro x hx hlx
            rw [b2.2.1] at hx
            rw [b2.2.2.1] at hlx
            exact b2.stays x (hobs1 x hx hlx)
        · exact Or.inr hobs

theorem finish_pruned (ext : Ext) (fuel : Nat) (w : World) (fc : FrameId)
    (Rt : Option (Mat3 × Vec3)) (r : AddFrameResult) (h : finish ext fuel w fc Rt = some r) :
    (∀ F ∈ r.world.ba.mWindow, ∀ f ∈ (r.world.g.frames F).features2D, ∀ p,
      (r.world.g.features f).feature3D = some p → InFront ext r.world F p) ∧
    (∀ p ∈ r.pruned, ∀ f ∈ (r.world.g.points p).features2D, r.world.g.live2D f = true →
      (r.world.g.features f).feature3D = none) := by
  unfold finish at h
  dsimp only at h
  split at h
  · exact absurd h (by simp)
  · rename_i w1 _
    split at h
    · exact absurd h (by simp)
    · rename_i w2 pr hp
      obtain ⟨a1, _, a3, a4⟩ := pruneWindow_spec ext fuel _ _ _ _ _ hp
      have key : (∀ F ∈ w2.ba.mWindow, ∀ f ∈ (w2.g.frames F).features2D, ∀ p,
            (w2.g.features f).feature3D = some p → InFront ext w2 F p) ∧
          (∀ p ∈ pr, ∀ f ∈ (w2.g.points p).features2D, w2.g.live2D f = true →
            (w2.g.features f).feature3D = none) := by
        refine ⟨by rw [a1]; exact a3, fun p hp' => ?_⟩
        rcases a4 p hp' with hnil | hobs
        · exact absurd hnil (List.not_mem_nil _)
        · exact hobs
      split at h
      · split at h
        · exact absurd h (by simp)
        · simp only [Option.some.injEq] at h; subst h; exact key
      · simp only [Option.some.injEq] at h; subst h; exact key

/-- C7: after every `addFrame` that returns `true` on the second or a later frame, no 2D
    feature of a window frame is linked to a 3D point whose camera-frame depth in that frame is
    negative, and every 3D point the prune found behind a camera has lost the 3D link of every
    live 2D feature in its observer list. -/
theorem pruned_behind_camera (ext : Ext) (fuel : Nat) (w : World) (fr : FrameId) (R_rel : Mat3)
    (t_rel : Vec3) (r : AddFrameResult) (h : addFrame ext fuel w fr R_rel t_rel = some r)
    (hret : r.ret = true) (hlater : 1 ≤ w.ba.mFrameCount) :
    (∀ F ∈ r.world.ba.mWindow, ∀ f ∈ (r.world.g.frames F).features2D, ∀ p,
      (r.world.g.features f).feature3D = some p → InFront ext r.world F p) ∧
    (∀ p ∈ r.pruned, ∀ f ∈ (r.world.g.points p).features2D, r.world.g.live2D f = true →
      (r.world.g.features f).feature3D = none) := by
  unfold addFrame at h
  dsimp only at h
  have hc : ¬ (enterWindow ext w fr).ba.mFrameCount = 1 := by
    show ¬ w.ba.mFrameCount + 1 = 1
    omega
  rw [if_neg hc] at h
  unfold laterFrame at h
  split at h
  · exact absurd h (by simp)
  · split at h
    · exact absurd h (by simp)
    · split at h
      · exact absurd h (by simp)
      · split at h
        · exact finish_pruned _ _ _ _ _ _ h
        · simp only [Option.some.injEq] at h; subst h
          exact absurd hret (by simp)

/-- C7 on the third frame of the scene: the point `(0,0,2)` is behind the camera of frame 3,
    is pruned, and its observers 0, 10 and 20 end without a 3D link. -/
theorem pruned_behind_camera_witness :
    (addFrame Demo.ext 32 (Demo.sceneAfter 2) 3 Mat3.identity Vec3.zero).map (fun r =>
      (r.ret, r.pruned, (r.world.g.points 0).features2D,
        [0, 10, 20].map (fun f => (r.world.g.features f).feature3D)))
      = some (true, [0], [0, 10, 20], [none, none, none]) := by
  have hsome : (addFrame Demo.ext 32 (Demo.sceneAfter 2) 3 Mat3.identity Vec3.zero).isSome
      = true := by with_unfolding_all decide
  obtain ⟨r, hr⟩ := Option.isSome_iff_exists.mp hsome
  have e : (addFrame Demo.ext 32 (Demo.sceneAfter 2) 3 Mat3.identity Vec3.zero).map
      (fun r => (r.ret, r.pruned, (r.world.g.points 0).features2D,
        [0, 10, 20].map (fun f => r.world.g.live2D f))) =
        some (true, [0], [0, 10, 20], [true, true, true]) := by
    with_unfolding_all decide
  rw [hr] at e
  simp only [Option.map_some', Option.some.injEq, Prod.mk.injEq, List.map_cons, List.map_nil,
    List.cons.injEq, and_true] at e
  obtain ⟨e1, e2, e3, l0, l10, l20⟩ := e
  have h := (pruned_behind_camera Demo.ext 32 (Demo.sceneAfter 2) 3 Mat3.identity Vec3.zero r
    hr e1 (by with_unfolding_all decide)).2 0 (by rw [e2]; exact List.mem_singleton.mpr rfl)
  rw [e3] at h
  rw [hr]
  simp only [Option.map_some', e1, e2, e3, List.map_cons, List.map_nil,
    h 0 (by simp) l0, h 10 (by simp) l10, h 20 (by simp) l20]

/-! ## Structure updates: new points, extension, severing -/

theorem Graph.Grows.reflG (A : FeatId → Prop) (g : Graph) : g.Grows A g :=
  ⟨rfl, rfl, Nat.le_refl _, fun _ _ _ h => h, fun _ => Or.inl rfl⟩

theorem Graph.Grows.thenG {A : FeatId → Prop} {g1 g2 g3 : Graph} (h12 : g1.Grows A g2)
    (h23 : g2.Grows A g3) : g1.Grows A g3 := by
  obtain ⟨a1, a2, a3, a4, a5⟩ := h12
  obtain ⟨b1, b2, b3, b4, b5⟩ := h23
  refine ⟨b1.trans a1, b2.trans a2, Nat.le_trans a3 b3,
    fun p hp f hf => b4 p (Nat.lt_of_lt_of_le hp a3) f (a4 p hp f hf), fun f => ?_⟩
  rcases b5 f with hb | hb
  · rcases a5 f with ha | ⟨hA, p, hp, hlt, hmem⟩
    · left; rw [hb, ha]
    · right
      exact ⟨hA, p, by rw [hb, hp], Nat.lt_of_lt_of_le hlt b3, b4 p hlt f hmem⟩
  · exact Or.inr hb

theorem Graph.Grows.monoG {A B : FeatId → Prop} {g g' : Graph} (h : g.Grows A g')
    (hAB : ∀ f, A f → B f) : g.Grows B g' := by
  obtain ⟨a1, a2, a3, a4, a5⟩ := h
  refine ⟨a1, a2, a3, a4, fun f => ?_⟩
  rcases a5 f with ha | ⟨hA, rest⟩
  · exact Or.inl ha
  · exact Or.inr ⟨hAB f hA, rest⟩

theorem Graph.Grows.allocatedG {A : FeatId → Prop} {g g' : Graph} (h : g.Grows A g')
    (ha : g.Allocated) : g'.Allocated := by
  intro f p hp
  rcases h.2.2.2.2 f with e | ⟨_, q, hq, hlt, _⟩
  · rw [e] at hp
    exact Nat.lt_of_lt_of_le (ha f p hp) h.2.2.1
  · rw [hq] at hp
    simp only [Option.some.injEq] at hp
    subst hp
    exact hlt

theorem Graph.Grows.linked {A : FeatId → Prop} {g g' : Graph} (h : g.Grows A g') (f : FeatId)
    (hf : (g.features f).feature3D.isSome = true) :
    (g'.features f).feature3D.isSome = true := by
  rcases h.2.2.2.2 f with e | ⟨_, q, hq, _, _⟩
  · rw [e]; exact hf
  · rw [hq]; rfl

/-- Observer membership of the linked features of a set of frames survives structure
    updates, provided every link pointed to an allocated point. -/
theorem Graph.Grows.observed {A : FeatId → Prop} {g g' : Graph} (h : g.Grows A g')
    (ha : g.Allocated) (f : FeatId)
    (ho : ∀ p, (g.features f).feature3D = some p → f ∈ (g.points p).features2D) :
    ∀ p, (g'.features f).feature3D = some p → f ∈ (g'.points p).features2D := by
  intro p hp
  rcases h.2.2.2.2 f with e | ⟨_, q, hq, _, hmem⟩
  · rw [e] at hp
    exact h.2.2.2.1 p (ha f p hp) f (ho p hp)
  · rw [hq] at hp
    simp only [Option.some.injEq] at hp
    subst hp
    exact hmem

theorem sever_grows (A : FeatId → Prop) (g : Graph) (f0 f1 : FeatId) :
    g.Grows A (g.sever f0 f1) := by
  refine ⟨rfl, rfl, Nat.le_refl _, fun _ _ _ h => h, fun f => Or.inl ?_⟩
  unfold Graph.sever
  dsimp only
  by_cases h1 : f = f1
  · subst h1
    by_cases h0 : f = f0
    · subst h0; simp [upd]
    · simp [upd, h0]
  · by_cases h0 : f = f0
    · subst h0; simp [upd, h1]
    · simp [upd, h0, h1]

theorem extend_grows (A : FeatId → Prop) (g : Graph) (f1 : FeatId) (p : PointId)
    (hA : A f1) (hp : p < g.nextPoint) :
    g.Grows A ((g.setFeature3D f1 (some p)).pushObserver p f1) := by
  refine ⟨rfl, rfl, Nat.le_refl _, fun q _ f hf => ?_, fun f => ?_⟩
  · unfold Graph.pushObserver Graph.setFeature3D
    dsimp only
    by_cases hq : q = p
    · subst hq
      simp only [upd_same, List.mem_append]
      exact Or.inl hf
    · rw [upd_other _ _ _ _ hq]; exact hf
  · by_cases hf : f = f1
    · subst hf
      right
      refine ⟨hA, p, ?_, hp, ?_⟩
      · unfold Graph.pushObserver Graph.setFeature3D
        simp only [upd_same]
      · unfold Graph.pushObserver Graph.setFeature3D
        simp only [upd_same, List.mem_append, List.mem_singleton, or_true]
    · left
      unfold Graph.pushObserver Graph.setFeature3D
      dsimp only
      rw [upd_other _ _ _ _ hf]

theorem linkNewPoint_grows (A : FeatId → Prop) (g : Graph) (P : Vec3) (f0 f1 : FeatId)
    (h0 : A f0) (h1 : A f1) : g.Grows A (g.linkNewPoint P f0 f1) := by
  have hpts : ((g.linkNewPoint P f0 f1).points g.nextPoint).features2D = [f0, f1] := by
    unfold Graph.linkNewPoint Graph.pushObserver Graph.setFeature3D Graph.allocPoint
    simp [upd_same]
  have hnext : (g.linkNewPoint P f0 f1).nextPoint = g.nextPoint + 1 := rfl
  refine ⟨rfl, rfl, by rw [hnext]; exact Nat.le_succ _, fun q hq f hf => ?_, fun f => ?_⟩
  · have hne : q ≠ g.nextPoint := Nat.ne_of_lt hq
    have : (g.linkNewPoint P f0 f1).points q = g.points q := by
      unfold Graph.linkNewPoint Graph.pushObserver Graph.setFeature3D Graph.allocPoint
      simp [upd_other _ _ _ _ hne]
    rw [this]; exact hf
  · by_cases hf1 : f = f1
    · subst hf1
      right
      refine ⟨h1, g.nextPoint, ?_, by rw [hnext]; exact Nat.lt_succ_self _, by rw [hpts]; simp⟩
      unfold Graph.linkNewPoint Graph.pushObserver Graph.setFeature3D Graph.allocPoint
      simp [upd_same]
    · by_cases hf0 : f = f0
      · subst hf0
        right
        refine ⟨h0, g.nextPoint, ?_, by rw [hnext]; exact Nat.lt_succ_self _, by rw [hpts]; simp⟩
        unfold Graph.linkNewPoint Graph.pushObserver Graph.setFeature3D Graph.allocPoint
        simp [upd_same, upd_other _ _ _ _ hf1]
      · left
        unfold Graph.linkNewPoint Graph.pushObserver Graph.setFeature3D Graph.allocPoint
        simp [upd_other _ _ _ _ hf1, upd_other _ _ _ _ hf0]

theorem linkTriangulated_grows (cs : List (FeatId × FeatId)) :
    ∀ (pts : List (Vec3 × Nat)) (g g' : Graph),
      linkTriangulated cs g pts = some g' → g.Grows (InCorrespondence cs) g' := by
  intro pts
  induction pts with
  | nil =>
    intro g g' h
    simp only [linkTriangulated, Option.some.injEq] at h
    subst h
    exact Graph.Grows.reflG _ _
  | cons pk rest ih =>
    intro g g' h
    obtain ⟨P, idx⟩ := pk
    simp only [linkTriangulated] at h
    split at h
    · exact absurd h (by simp)
    · rename_i f0 f1 hget
      have hmem : (f0, f1) ∈ cs := List.getElem?_mem hget
      exact (linkNewPoint_grows _ g P f0 f1 ⟨_, hmem, Or.inl rfl⟩
        ⟨_, hmem, Or.inr rfl⟩).thenG (ih _ _ h)

theorem severUntriangulated_grows (A : FeatId → Prop) :
    ∀ (cs : List (FeatId × FeatId)) (g : Graph), g.Grows A (severUntriangulated g cs) := by
  intro cs
  induction cs with
  | nil => intro g; exact Graph.Grows.reflG _ _
  | cons c rest ih =>
    intro g
    obtain ⟨f0, f1⟩ := c
    simp only [severUntriangulated]
    split
    · exact ih g
    · exact (sever_grows A g f0 f1).thenG (ih _)

theorem selectInliers_subset (cs : List (FeatId × FeatId)) :
    ∀ (mask : List Bool) (i : Nat) (inl : List (FeatId × FeatId)),
      selectInliers cs i mask = some inl → ∀ fc ∈ inl, fc ∈ cs := by
  intro mask
  induction mask with
  | nil =>
    intro i inl h fc hfc
    simp only [selectInliers, Option.some.injEq] at h
    subst h
    exact absurd hfc (List.not_mem_nil _)
  | cons b bs ih =>
    intro i inl h fc hfc
    simp only [selectInliers] at h
    split at h
    · exact ih _ _ h fc hfc
    · split at h
      · exact absurd h (by simp)
      · rename_i c hc
        split at h
        · exact absurd h (by simp)
        · rename_i rest hrest
          simp only [Option.some.injEq] at h
          subst h
          rcases List.mem_cons.mp hfc with e | e
          · subst e; exact List.getElem?_mem hc
          · exact ih _ _ hrest fc e

theorem partitionTriangulated_spec (g : Graph) : ∀ cs : List (FeatId × FeatId),
    (∀ fc ∈ (partitionTriangulated g cs).1, fc ∈ cs ∧ (g.features fc.1).feature3D.isSome = true) ∧
    (∀ fc ∈ (partitionTriangulated g cs).2, fc ∈ cs) := by
  intro cs
  induction cs with
  | nil => exact ⟨fun fc h => absurd h (List.not_mem_nil _), fun fc h => absurd h (List.not_mem_nil _)⟩
  | cons c rest ih =>
    obtain ⟨i1, i2⟩ := ih
    simp only [partitionTriangulated]
    split
    · rename_i hs
      refine ⟨fun fc h => ?_, fun fc h => List.mem_cons_of_mem _ (i2 fc h)⟩
      rcases List.mem_cons.mp h with e | e
      · subst e; exact ⟨List.mem_cons_self _ _, hs⟩
      · exact ⟨List.mem_cons_of_mem _ (i1 fc e).1, (i1 fc e).2⟩
    · refine ⟨fun fc h => ⟨List.mem_cons_of_mem _ (i1 fc h).1, (i1 fc h).2⟩, fun fc h => ?_⟩
      rcases List.mem_cons.mp h with e | e
      · subst e; exact List.mem_cons_self _ _
      · exact List.mem_cons_of_mem _ (i2 fc e)

theorem InCorrespondence.mono {cs ds : List (FeatId × FeatId)} (h : ∀ fc ∈ cs, fc ∈ ds)
    (f : FeatId) (hf : InCorrespondence cs f) : InCorrespondence ds f := by
  obtain ⟨fc, hfc, e⟩ := hf
  exact ⟨fc, h fc hfc, e⟩

theorem checkTriangulated_grows (ext : Ext) (fc : FrameId) :
    ∀ (l : List (FeatId × FeatId)) (w w' : World),
      checkTriangulated ext fc w l = some w' → w.g.Allocated →
        w.g.Grows (InCorrespondence l) w'.g := by
  intro l
  induction l with
  | nil =>
    intro w w' h _
    simp only [checkTriangulated, Option.some.injEq] at h
    subst h
    exact Graph.Grows.reflG _ _
  | cons c rest ih =>
    intro w w' h ha
    obtain ⟨f0, f1⟩ := c
    have hsub : ∀ f, InCorrespondence rest f → InCorrespondence ((f0, f1) :: rest) f :=
      InCorrespondence.mono (fun x hx => List.mem_cons_of_mem _ hx)
    simp only [checkTriangulated] at h
    split at h
    · exact absurd h (by simp)
    · rename_i p hp
      split at h
      · exact absurd h (by simp)
      · split at h
        · have s1 : w.g.Grows (InCorrespondence ((f0, f1) :: rest)) (w.g.sever f0 f1) :=
            sever_grows _ _ _ _
          exact s1.thenG ((ih _ _ h (s1.allocatedG ha)).monoG hsub)
        · have s1 : w.g.Grows (InCorrespondence ((f0, f1) :: rest))
              ((w.g.setFeature3D f1 (some p)).pushObserver p f1) :=
            extend_grows _ _ _ _ ⟨(f0, f1), List.mem_cons_self _ _, Or.inr rfl⟩ (ha f0 p hp)
          exact s1.thenG ((ih _ _ h (s1.allocatedG ha)).monoG hsub)

theorem bootstrapStructure_grows (ext : Ext) (w1 : World) (fc fp : FrameId)
    (cs : List (FeatId × FeatId)) (inl : List Bool) (Rt : Option (Mat3 × Vec3))
    (st : StageResult) (h : bootstrapStructure ext w1 fc fp cs inl Rt = some st) :
    w1.g.Grows (InCorrespondence cs) st.world.g := by
  unfold bootstrapStructure at h
  split at h
  · exact absurd h (by simp)
  · rename_i ic hic
    split at h
    · exact absurd h (by simp)
    · split at h
      · simp only [Option.some.injEq] at h; subst h; exact Graph.Grows.reflG _ _
      · split at h
        · exact absurd h (by simp)
        · rename_i g2 hg2
          simp only [Option.some.injEq] at h; subst h
          exact ((linkTriangulated_grows ic _ _ _ hg2).monoG
            (InCorrespondence.mono (selectInliers_subset cs _ _ _ hic))).thenG
            (severUntriangulated_grows _ _ _)

theorem steadyNew_grows (ext : Ext) (w2 : World) (fc fp : FrameId) (l : List (FeatId × FeatId))
    (w3 : World) (h : steadyNew ext w2 fc fp l = some w3) :
    w2.g.Grows (InCorrespondence l) w3.g := by
  unfold steadyNew at h
  split at h
  · simp only [Option.some.injEq] at h; subst h; exact Graph.Grows.reflG _ _
  · split at h
    · exact absurd h (by simp)
    · split at h
      · exact absurd h (by simp)
      · rename_i g3 hg3
        simp only [Option.some.injEq] at h; subst h
        exact (linkTriangulated_grows l _ _ _ hg3).thenG (severUntriangulated_grows _ _ _)

theorem poseOnly_allocated {g g' : Graph} {F : FrameId}
    (h : g' = g ∨ ∃ p, g' = g.setCameraPose F (some p)) (ha : g.Allocated) : g'.Allocated := by
  rcases h with e | ⟨p, e⟩ <;> (rw [e]; exact ha)

/-- Each stage is a change of the camera pose of the current frame followed by structure
    updates on features of the two-view correspondences ending at the current frame. -/
theorem bootstrap_grows (ext : Ext) (w : World) (fc fp : FrameId) (st : StageResult)
    (h : bootstrap ext w fc fp = some st) :
    ∃ cs gm, twoViewCorrespondences w fc = some cs ∧
      (gm = w.g ∨ ∃ p, gm = w.g.setCameraPose fc (some p)) ∧
      gm.Grows (InCorrespondence cs) st.world.g := by
  unfold bootstrap at h
  split at h
  · exact absurd h (by simp)
  · rename_i cs hcs
    split at h
    · simp only [Option.some.injEq] at h; subst h
      exact ⟨cs, w.g, hcs, Or.inl rfl, Graph.Grows.reflG _ _⟩
    · split at h
      · exact absurd h (by simp)
      · rename_i w1 inl Rt hp
        exact ⟨cs, w1.g, hcs, bootstrapPose_graph _ _ _ _ _ _ _ hp,
          bootstrapStructure_grows _ _ _ _ _ _ _ _ h⟩

theorem steady_grows (ext : Ext) (w : World) (fc fp : FrameId) (R : Mat3) (st : StageResult)
    (h : steady ext w fc fp R = some st) (ha : w.g.Allocated) :
    ∃ cs gm, twoViewCorrespondences w fc = some cs ∧
      (gm = w.g ∨ ∃ p, gm = w.g.setCameraPose fc (some p)) ∧
      gm.Grows (InCorrespondence cs) st.world.g := by
  unfold steady at h
  split at h
  · exact absurd h (by simp)
  · rename_i cs hcs
    dsimp only at h
    obtain ⟨p1, p2⟩ := partitionTriangulated_spec w.g cs
    split at h
    · exact absurd h (by simp)
    · rename_i w1 hp
      simp only [Option.some.injEq] at h; subst h
      exact ⟨cs, w1.g, hcs, steadyPose_graph _ _ _ _ _ _ _ _ hp, Graph.Grows.reflG _ _⟩
    · rename_i w1 hp
      have hpose := steadyPose_graph _ _ _ _ _ _ _ _ hp
      split at h
      · exact absurd h (by simp)
      · rename_i w2 hc
        split at h
        · exact absurd h (by simp)
        · rename_i w3 hn
          simp only [Option.some.injEq] at h; subst h
          have g1 := (checkTriangulated_grows _ _ _ _ _ hc (poseOnly_allocated hpose ha)).monoG
            (InCorrespondence.mono (fun fc' hfc' => (p1 fc' hfc').1))
          have g2 := (steadyNew_grows _ _ _ _ _ _ hn).monoG (InCorrespondence.mono p2)
          exact ⟨cs, w1.g, hcs, hpose, g1.thenG g2⟩

/-! ## C8: when a 3D link comes back -/

theorem chainBack_congr (g g' : Graph) (hf : g'.features = g.features)
    (hl : g'.live2D = g.live2D) :
    ∀ (n : Nat) (cur : FeatId) (acc : List FeatId),
      chainBack g' n cur acc = chainBack g n cur acc := by
  intro n
  induction n with
  | zero => intro cur acc; rfl
  | succ k ih =>
    intro cur acc
    simp only [chainBack, Graph.lock, hf, hl, ih]

theorem findLoop_congr (g g' : Graph) (hf : g'.features = g.features)
    (hl : g'.live2D = g.live2D) (n : Nat) :
    ∀ l : List FeatId, findLoop g' n l = findLoop g n l := by
  intro l
  induction l with
  | nil => rfl
  | cons f fs ih => simp only [findLoop, chainBack_congr g g' hf hl, ih]

theorem twoViewCorrespondences_congr (w w' : World) (fc : FrameId)
    (hf : w'.g.features = w.g.features) (hl : w'.g.live2D = w.g.live2D)
    (hfr : (w'.g.frames fc).features2D = (w.g.frames fc).features2D) :
    twoViewCorrespondences w' fc = twoViewCorrespondences w fc := by
  unfold twoViewCorrespondences findFeatureCorrespondences
  simp only [hfr, findLoop_congr w.g w'.g hf hl]

theorem poseOnly_fields {g g' : Graph} {F : FrameId}
    (h : g' = g ∨ ∃ p, g' = g.setCameraPose F (some p)) :
    g'.features = g.features ∧ g'.live2D = g.live2D ∧ g'.points = g.points ∧
    g'.nextPoint = g.nextPoint ∧
    ∀ F', (g'.frames F').features2D = (g.frames F').features2D ∧
      (g'.frames F').systemPose = (g.frames F').systemPose := by
  rcases h with e | ⟨p, e⟩
  · rw [e]; exact ⟨rfl, rfl, rfl, rfl, fun _ => ⟨rfl, rfl⟩⟩
  · rw [e]
    refine ⟨rfl, rfl, rfl, rfl, fun F' => ?_⟩
    unfold Graph.setCameraPose
    dsimp only
    by_cases hF : F' = F
    · subst hF; simp only [upd_same, and_self]
    · rw [upd_other _ _ _ _ hF]; exact ⟨rfl, rfl⟩

theorem optimize_graph (ext : Ext) (w w1 : World) (h : optimize ext w = some w1) :
    w1.g.features = w.g.features ∧ w1.g.live2D = w.g.live2D ∧
    w1.g.nextPoint = w.g.nextPoint ∧
    (∀ p, (w1.g.points p).features2D = (w.g.points p).features2D) ∧
    ∀ F, (w1.g.frames F).features2D = (w.g.frames F).features2D ∧
      (w1.g.frames F).systemPose = (w.g.frames F).systemPose ∧
      (w1.g.frames F).cameraPose.isSome = (w.g.frames F).cameraPose.isSome := by
  unfold optimize at h
  split at h
  · exact absurd h (by simp)
  · simp only [Option.some.injEq] at h
    subst h
    unfold applySolution
    dsimp only
    refine ⟨rfl, rfl, rfl, fun p => ?_, fun F => ?_⟩
    · split <;> rfl
    · split
      · refine ⟨rfl, rfl, ?_⟩
        cases (w.g.frames F).cameraPose <;> rfl
      · exact ⟨rfl, rfl, rfl⟩

/-- The 3D links after `finish` are links that were there before it. -/
theorem finish_link (ext : Ext) (fuel : Nat) (w : World) (fc : FrameId)
    (Rt : Option (Mat3 × Vec3)) (r : AddFrameResult) (h : finish ext fuel w fc Rt = some r)
    (f : FeatId) (p : PointId) (hp : (r.world.g.features f).feature3D = some p) :
    (w.g.features f).feature3D = some p := by
  unfold finish at h
  dsimp only at h
  split at h
  · exact absurd h (by simp)
  · rename_i w1 ho
    have h1 : w1.g.features = w.g.features := by
      split at ho
      · exact (optimize_graph _ _ _ ho).1
      · simp only [Option.some.injEq] at ho; subst ho; rfl
    split at h
    · exact absurd h (by simp)
    · rename_i w2 pr hpr
      have hu := (pruneWindow_spec ext fuel _ _ _ _ _ hpr).2.1
      have key : (w2.g.features f).feature3D = some p → (w.g.features f).feature3D = some p := by
        intro h2
        rw [← h1]
        exact hu.link f p h2
      split at h
      · split at h
        · exact absurd h (by simp)
        · simp only [Option.some.injEq] at h; subst h; exact key hp
      · simp only [Option.some.injEq] at h; subst h; exact key hp

theorem Graph.Unlinked.allocatedU {g g' : Graph} (h : g.Unlinked g') (ha : g.Allocated) :
    g'.Allocated := by
  intro f p hp
  rw [h.2.2.2.1]
  exact ha f p (h.link f p hp)

theorem finish_allocated (ext : Ext) (fuel : Nat) (w : World) (fc : FrameId)
    (Rt : Option (Mat3 × Vec3)) (r : AddFrameResult) (h : finish ext fuel w fc Rt = some r)
    (ha : w.g.Allocated) : r.world.g.Allocated := by
  unfold finish at h
  dsimp only at h
  split at h
  · exact absurd h (by simp)
  · rename_i w1 ho
    have h1 : w1.g.Allocated := by
      split at ho
      · obtain ⟨o1, _, o3, _⟩ := optimize_graph _ _ _ ho
        intro f p hp
        rw [o3]
        rw [o1] at hp
        exact ha f p hp
      · simp only [Option.some.injEq] at ho; subst ho; exact ha
    split at h
    · exact absurd h (by simp)
    · rename_i w2 pr hpr
      have h2 := ((pruneWindow_spec ext fuel _ _ _ _ _ hpr).2.1).allocatedU h1
      split at h
      · split at h
        · exact absurd h (by simp)
        · simp only [Option.some.injEq] at h; subst h; exact h2
      · simp only [Option.some.injEq] at h; subst h; exact h2

/-- `addFrame` keeps every 3D link pointing to an allocated point. -/
theorem addFrame_allocated (ext : Ext) (fuel : Nat) (w : World) (fr : FrameId) (R_rel : Mat3)
    (t_rel : Vec3) (r : AddFrameResult) (h : addFrame ext fuel w fr R_rel t_rel = some r)
    (ha : w.g.Allocated) : r.world.g.Allocated := by
  have he := enterWindow_graph ext w fr
  unfold addFrame at h
  dsimp only at h
  split at h
  · unfold firstFrame at h
    split at h
    · split at h
      · exact absurd h (by simp)
      · simp only [Option.some.injEq] at h; subst h
        exact poseOnly_allocated (poseOnly_trans he (Or.inr ⟨_, rfl⟩)) ha
    · simp only [Option.some.injEq] at h; subst h
      exact poseOnly_allocated he ha
  · unfold laterFrame at h
    split at h
    · exact absurd h (by simp)
    · split at h
      · exact absurd h (by simp)
      · rename_i w1 hp
        have hg1 := poseOnly_trans he (predictPose_graph _ _ _ _ _ _ _ hp)
        have ha1 := poseOnly_allocated hg1 ha
        split at h
        · exact absurd h (by simp)
        · rename_i st hs
          have hstage : ∃ cs gm, twoViewCorrespondences w1 fr = some cs ∧
              (gm = w1.g ∨ ∃ q, gm = w1.g.setCameraPose fr (some q)) ∧
              gm.Grows (InCorrespondence cs) st.world.g := by
            split at hs
            · exact bootstrap_grows _ _ _ _ _ hs
            · exact steady_grows _ _ _ _ _ _ hs ha1
          obtain ⟨cs, gm, _, hgm, hgrow⟩ := hstage
          have hast := hgrow.allocatedG (poseOnly_allocated hgm ha1)
          split at h
          · exact finish_allocated _ _ _ _ _ _ h hast
          · simp only [Option.some.injEq] at h; subst h; exact hast

theorem addFrames_allocated (ext : Ext) (fuel : Nat) :
    ∀ (calls : List (FrameId × Mat3 × Vec3)) (w w' : World),
      addFrames ext fuel w calls = some w' → w.g.Allocated → w'.g.Allocated := by
  intro calls
  induction calls with
  | nil =>
    intro w w' h ha
    simp only [addFrames, Option.some.injEq] at h
    subst h; exact ha
  | cons c cs ih =>
    intro w w' h ha
    simp only [addFrames] at h
    split at h
    · exact absurd h (by simp)
    · rename_i r hr
      exact ih _ _ h (addFrame_allocated _ _ _ _ _ _ _ hr ha)

theorem sceneAfter_allocated (k : Nat) : (Demo.sceneAfter k).g.Allocated := by
  have h0 : Demo.sceneWorld.g.Allocated := by
    intro f p hp
    have : (Demo.sceneGraph.features f).feature3D = none := by
      unfold Demo.sceneGraph
      dsimp only
      split_ifs <;> rfl
    exact absurd (this ▸ hp : (none : Option PointId) = some p) (by simp)
  unfold Demo.sceneAfter
  split
  · exact h0
  · rename_i w' hw
    exact addFrames_allocated _ _ _ _ _ hw h0

/-- C8 (amended): a 2D feature whose 3D link is null (for instance after the behind-camera
    prune) has a 3D link after a later `addFrame` only if it takes part in a two-view
    correspondence ending at the frame of that call, as the feature of the new frame or as
    its best previous match: the extension or the triangulation of that correspondence links
    it.  Every other feature keeps its null link.  (`Allocated`: 3D links point to existing
    points, as on every C++ heap.) -/
theorem relinked_only_by_correspondence (ext : Ext) (fuel : Nat) (w : World) (fr : FrameId)
    (R_rel : Mat3) (t_rel : Vec3) (r : AddFrameResult)
    (h : addFrame ext fuel w fr R_rel t_rel = some r) (halloc : w.g.Allocated)
    (f : FeatId) (p : PointId) (hnull : (w.g.features f).feature3D = none)
    (hlinked : (r.world.g.features f).feature3D = some p) :
    ∃ cs, twoViewCorrespondences w fr = some cs ∧ InCorrespondence cs f := by
  have he := enterWindow_graph ext w fr
  unfold addFrame at h
  dsimp only at h
  split at h
  · -- first frame: the features are untouched
    exfalso
    unfold firstFrame at h
    have hfe := (poseOnly_fields he).1
    split at h
    · split at h
      · exact absurd h (by simp)
      · simp only [Option.some.injEq] at h; subst h
        have : (w.g.features f).feature3D = some p := by rw [← hfe]; exact hlinked
        rw [hnull] at this; exact absurd this (by simp)
    · simp only [Option.some.injEq] at h; subst h
      have : (w.g.features f).feature3D = some p := by rw [← hfe]; exact hlinked
      rw [hnull] at this; exact absurd this (by simp)
  · unfold laterFrame at h
    split at h
    · exact absurd h (by simp)
    · split at h
      · exact absurd h (by simp)
      · rename_i w1 hp
        have hg1 := poseOnly_trans he (predictPose_graph _ _ _ _ _ _ _ hp)
        have hf1 := poseOnly_fields hg1
        split at h
        · exact absurd h (by simp)
        · rename_i st hs
          have hstage : ∃ cs gm, twoViewCorrespondences w1 fr = some cs ∧
              (gm = w1.g ∨ ∃ q, gm = w1.g.setCameraPose fr (some q)) ∧
              gm.Grows (InCorrespondence cs) st.world.g := by
            split at hs
            · exact bootstrap_grows _ _ _ _ _ hs
            · exact steady_grows _ _ _ _ _ _ hs (poseOnly_allocated hg1 halloc)
          obtain ⟨cs, gm, hcs, hgm, hgrow⟩ := hstage
          have hfm := poseOnly_fields (poseOnly_trans hg1 hgm)
          have hst : (st.world.g.features f).feature3D = some p := by
            split at h
            · exact finish_link _ _ _ _ _ _ h f p hlinked
            · simp only [Option.some.injEq] at h; subst h; exact hlinked
          refine ⟨cs, ?_, ?_⟩
          · rw [← hcs]
            exact (twoViewCorrespondences_congr w w1 fr hf1.1 hf1.2.1 (hf1.2.2.2.2 fr).1).symm
          · rcases hgrow.2.2.2.2 f with e | ⟨hA, _⟩
            · rw [hst, hfm.1, hnull] at e
              exact absurd e (by simp)
            · exact hA

/-- C8 as stated fails: in the scene, the third call links feature 20 to point 0, finds the
    point behind the camera of frame 3 and unlinks it; the fourth call triangulates the
    correspondence (20, 30) and links feature 20 again, to the new point 10. -/
theorem pruned_link_repopulated :
    (addFrame Demo.ext 32 (Demo.sceneAfter 2) 3 Mat3.identity Vec3.zero).map (fun r =>
      (r.ret, r.pruned, (r.world.g.points 0).features2D, (r.world.g.features 20).feature3D))
      = some (true, [0], [0, 10, 20], none) ∧
    ((Demo.sceneAfter 3).g.features 20).feature3D = none ∧
    (addFrame Demo.ext 32 (Demo.sceneAfter 3) 4 Mat3.identity Vec3.zero).map (fun r =>
      (r.ret, (r.world.g.features 20).feature3D, (r.world.g.points 10).features2D))
      = some (true, some 10, [20, 30]) := by
  refine ⟨?_, ?_, ?_⟩ <;> with_unfolding_all decide

/-- The amended C8 on the fourth call of the scene: feature 20 is linked again, and it is the
    earlier feature of the correspondence (20, 30). -/
theorem relinked_only_by_correspondence_witness :
    ((Demo.sceneAfter 3).g.features 20).feature3D = none ∧
    (addFrame Demo.ext 32 (Demo.sceneAfter 3) 4 Mat3.identity Vec3.zero).map
      (fun r => (r.world.g.features 20).feature3D) = some (some 10) ∧
    ∃ cs, twoViewCorrespondences (Demo.sceneAfter 3) 4 = some cs ∧ InCorrespondence cs 20 := by
  have hnull : ((Demo.sceneAfter 3).g.features 20).feature3D = none := by
    with_unfolding_all decide
  have e : (addFrame Demo.ext 32 (Demo.sceneAfter 3) 4 Mat3.identity Vec3.zero).map
      (fun r => (r.world.g.features 20).feature3D) = some (some 10) := by
    with_unfolding_all decide
  have hsome : (addFrame Demo.ext 32 (Demo.sceneAfter 3) 4 Mat3.identity Vec3.zero).isSome
      = true := by with_unfolding_all decide
  obtain ⟨r, hr⟩ := Option.isSome_iff_exists.mp hsome
  have hl : (r.world.g.features 20).feature3D = some 10 := by
    rw [hr] at e
    simpa using e
  have halloc : (Demo.sceneAfter 3).g.Allocated := sceneAfter_allocated 3
  exact ⟨hnull, e, relinked_only_by_correspondence Demo.ext 32 (Demo.sceneAfter 3) 4
    Mat3.identity Vec3.zero r hr halloc 20 10 hnull hl⟩

/-! ## C3: `addFrame` returns, and when it returns `false` -/

theorem cameraFramePoint_defined (ext : Ext) (w : World) (F : FrameId) (p : PointId)
    (h : PosesDefined w.ba.mMode [F] w.g) : ∃ P, cameraFramePoint ext w F p = some P := by
  have hF := h F (List.mem_singleton.mpr rfl)
  unfold cameraFramePoint
  by_cases hm : w.ba.mMode = Mode.VO
  · rw [if_pos hm] at hF ⊢
    cases hc : (w.g.frames F).cameraPose with
    | none => rw [hc] at hF; exact absurd hF (by simp)
    | some pose => exact ⟨_, rfl⟩
  · rw [if_neg hm] at hF ⊢
    cases hc : (w.g.frames F).systemPose with
    | none => rw [hc] at hF; exact absurd hF (by simp)
    | some sp => exact ⟨_, rfl⟩

/-- With two units of fuel per feature and one to leave the loop, the prune loop of a frame
    ends, if every linked feature it visits is a live observer of its 3D point. -/
theorem pruneFeatures_terminates (ext : Ext) (F : FrameId) :
    ∀ (l : List FeatId) (fuel : Nat) (w : World) (pr : List PointId),
      2 * l.length + 1 ≤ fuel → PosesDefined w.ba.mMode [F] w.g →
      (∀ f ∈ l, w.g.live2D f = true ∧
        ∀ p, (w.g.features f).feature3D = some p → f ∈ (w.g.points p).features2D) →
      ∃ res, pruneFeatures ext F fuel w l pr = some res := by
  intro l
  induction l with
  | nil =>
    intro fuel w pr hfuel _ _
    obtain ⟨n, rfl⟩ : ∃ n, fuel = n + 1 := ⟨fuel - 1, by simp at hfuel; omega⟩
    exact ⟨_, rfl⟩
  | cons f rest ih =>
    intro fuel w pr hfuel hpose hobs
    simp only [List.length_cons] at hfuel
    obtain ⟨m, rfl⟩ : ∃ m, fuel = m + 2 := ⟨fuel - 2, by omega⟩
    have hrest : ∀ x ∈ rest, w.g.live2D x = true ∧
        ∀ p, (w.g.features x).feature3D = some p → x ∈ (w.g.points p).features2D :=
      fun x hx => hobs x (List.mem_cons_of_mem _ hx)
    simp only [pruneFeatures]
    cases hlink : (w.g.features f).feature3D with
    | none => exact ih (m + 1) w pr (by omega) hpose hrest
    | some p =>
      obtain ⟨P, hP⟩ := cameraFramePoint_defined ext w F p hpose
      simp only [hP]
      by_cases hb : P.z < 0
      · simp only [hb, if_true]
        obtain ⟨u1, u2⟩ := unlinkObservers_spec (w.g.points p).features2D w.g
        have hf := hobs f (List.mem_cons_self _ _)
        have hnone : ((unlinkObservers w.g (w.g.points p).features2D).features f).feature3D
            = none := u2 f (hf.2 p hlink) hf.1
        simp only [pruneFeatures, hnone]
        refine ih m _ _ (by omega) ?_ ?_
        · intro F' hF'
          have := hpose F' hF'
          show if w.ba.mMode = Mode.VO then _ else _
          rw [u1.1]; exact this
        · intro x hx
          refine ⟨by rw [u1.2.2.1]; exact (hrest x hx).1, fun q hq => ?_⟩
          rw [u1.2.1]
          exact (hrest x hx).2 q (u1.link x q hq)
      · simp only [hb, if_false]
        exact ih (m + 1) w pr (by omega) hpose hrest

theorem pruneWindow_terminates (ext : Ext) (fuel : Nat) :
    ∀ (Fs : List FrameId) (w : World) (pr : List PointId),
      (∀ F ∈ Fs, 2 * (w.g.frames F).features2D.length + 1 ≤ fuel) →
      PosesDefined w.ba.mMode Fs w.g → ObserversListed Fs w.g →
      ∃ res, pruneWindow ext fuel w Fs pr = some res := by
  intro Fs
  induction Fs with
  | nil => intro w pr _ _ _; exact ⟨_, rfl⟩
  | cons F rest ih =>
    intro w pr hfuel hpose hobs
    have hF : F ∈ F :: rest := List.mem_cons_self _ _
    obtain ⟨⟨w1, pr1⟩, h1⟩ := pruneFeatures_terminates ext F (w.g.frames F).features2D fuel w pr
      (hfuel F hF) (fun F' hF' => by
        rw [List.mem_singleton.mp hF']; exact hpose F hF) (hobs F hF)
    obtain ⟨a1, a2, _, _⟩ := pruneFeatures_spec ext F _ _ _ _ _ _ h1
    simp only [pruneWindow, h1]
    refine ih w1 pr1 ?_ ?_ ?_
    · intro F' hF'
      rw [a2.1]; exact hfuel F' (List.mem_cons_of_mem _ hF')
    · intro F' hF'
      have := hpose F' (List.mem_cons_of_mem _ hF')
      rw [a1, a2.1]; exact this
    · intro F' hF' f hf
      rw [a2.1] at hf
      have := hobs F' (List.mem_cons_of_mem _ hF') f hf
      refine ⟨by rw [a2.2.2.1]; exact this.1, fun q hq => ?_⟩
      rw [a2.2.1]
      exact this.2 q (a2.link f q hq)

theorem setCameraPose_isSome (g : Graph) (F F' : FrameId) (p : Pose)
    (h : F' = F ∨ (g.frames F').cameraPose.isSome = true) :
    ((g.setCameraPose F (some p)).frames F').cameraPose.isSome = true := by
  unfold Graph.setCameraPose
  dsimp only
  by_cases hF : F' = F
  · subst hF; simp only [upd_same]; rfl
  · rw [upd_other _ _ _ _ hF]
    rcases h with e | e
    · exact absurd e hF
    · exact e

theorem ready_poseOnly {mode : Mode} {Fs : List FrameId} {fuel : Nat} {g g' : Graph}
    {F : FrameId} (h : g' = g ∨ ∃ p, g' = g.setCameraPose F (some p))
    (hr : g.Ready mode Fs fuel) : g'.Ready mode Fs fuel := by
  obtain ⟨e1, e2, e3, e4, e5⟩ := poseOnly_fields h
  refine ⟨fun F' hF' => ?_, fun F' hF' f hf => ?_, poseOnly_allocated h hr.allocated,
    fun F' hF' => ?_⟩
  · have := hr.poses F' hF'
    by_cases hm : mode = Mode.VO
    · rw [if_pos hm] at this ⊢
      rcases h with e | ⟨p, e⟩
      · rw [e]; exact this
      · rw [e]; exact setCameraPose_isSome _ _ _ _ (Or.inr this)
    · rw [if_neg hm] at this ⊢
      rw [(e5 F').2]; exact this
  · rw [(e5 F').1] at hf
    rw [e1, e2, e3]
    exact hr.listed F' hF' f hf
  · rw [(e5 F').1]; exact hr.enough F' hF'

theorem ready_grows {mode : Mode} {Fs : List FrameId} {fuel : Nat} {A : FeatId → Prop}
    {g g' : Graph} (h : g.Grows A g') (hr : g.Ready mode Fs fuel) : g'.Ready mode Fs fuel := by
  refine ⟨fun F' hF' => ?_, fun F' hF' f hf => ?_, h.allocatedG hr.allocated,
    fun F' hF' => ?_⟩
  · have := hr.poses F' hF'
    rw [h.1]; exact this
  · rw [h.1] at hf
    have := hr.listed F' hF' f hf
    exact ⟨by rw [h.2.1]; exact this.1, h.observed hr.allocated f this.2⟩
  · rw [h.1]; exact hr.enough F' hF'

theorem ready_optimize (ext : Ext) (w w1 : World) (Fs : List FrameId) (fuel : Nat)
    (h : optimize ext w = some w1) (hr : w.g.Ready w.ba.mMode Fs fuel) :
    w1.g.Ready w.ba.mMode Fs fuel := by
  obtain ⟨e1, e2, e3, e4, e5⟩ := optimize_graph ext w w1 h
  refine ⟨fun F' hF' => ?_, fun F' hF' f hf => ?_, fun f p hp => ?_, fun F' hF' => ?_⟩
  · have := hr.poses F' hF'
    by_cases hm : w.ba.mMode = Mode.VO
    · rw [if_pos hm] at this ⊢
      rw [(e5 F').2.2]; exact this
    · rw [if_neg hm] at this ⊢
      rw [(e5 F').2.1]; exact this
  · rw [(e5 F').1] at hf
    have := hr.listed F' hF' f hf
    refine ⟨by rw [e2]; exact this.1, fun p hp => ?_⟩
    rw [e1] at hp
    rw [e4]; exact this.2 p hp
  · rw [e1] at hp
    rw [e3]; exact hr.allocated f p hp
  · rw [(e5 F').1]; exact hr.enough F' hF'

theorem ready_sub {mode : Mode} {Fs Gs : List FrameId} {fuel : Nat} {g : Graph}
    (hsub : ∀ F ∈ Gs, F ∈ Fs) (hr : g.Ready mode Fs fuel) : g.Ready mode Gs fuel :=
  ⟨fun F hF => hr.poses F (hsub F hF), fun F hF => hr.listed F (hsub F hF), hr.allocated,
    fun F hF => hr.enough F (hsub F hF)⟩

/-! ### The correspondence search is defined -/

theorem chainBack_one (g : Graph) (f : FeatId)
    (hm : (g.features f).prevMatches.isEmpty = false → (g.features f).bestPrevMatchId ≠ -1 →
      (g.features f).prevMatch.isSome = true) :
    chainBack g 1 f [f] = some none ∨ ∃ prev, chainBack g 1 f [f] = some (some [prev, f]) := by
  simp only [chainBack]
  by_cases hc : ((g.features f).prevMatches.isEmpty = true ∨ (g.features f).bestPrevMatchId = -1)
  · rw [if_pos hc]; exact Or.inl rfl
  · rw [if_neg hc]
    have h1 : (g.features f).prevMatches.isEmpty = false := by
      cases h : (g.features f).prevMatches.isEmpty
      · rfl
      · exact absurd (Or.inl h) hc
    have h2 : (g.features f).bestPrevMatchId ≠ -1 := fun h => hc (Or.inr h)
    obtain ⟨weak, hw⟩ := Option.isSome_iff_exists.mp (hm h1 h2)
    rw [hw]
    dsimp only
    cases hl : g.lock weak with
    | none => exact Or.inl rfl
    | some prev => exact Or.inr ⟨prev, rfl⟩

theorem findLoop_one (g : Graph) : ∀ l : List FeatId,
    (∀ f ∈ l, (g.features f).prevMatches.isEmpty = false →
      (g.features f).bestPrevMatchId ≠ -1 → (g.features f).prevMatch.isSome = true) →
    ∃ found, findLoop g 1 l = some found ∧ ∀ c ∈ found, ∃ a b, c = [a, b] := by
  intro l
  induction l with
  | nil => intro _; exact ⟨[], rfl, fun c hc => absurd hc (List.not_mem_nil _)⟩
  | cons f fs ih =>
    intro hm
    obtain ⟨rest, hrest, hpairs⟩ := ih (fun x hx => hm x (List.mem_cons_of_mem _ hx))
    rcases chainBack_one g f (hm f (List.mem_cons_self _ _)) with h | ⟨prev, h⟩
    · refine ⟨rest, ?_, hpairs⟩
      simp only [findLoop, h, hrest]
    · refine ⟨[prev, f] :: rest, ?_, fun c hc => ?_⟩
      · simp only [findLoop, h, hrest]
      · rcases List.mem_cons.mp hc with e | e
        · exact ⟨prev, f, e⟩
        · exact hpairs c e

theorem asPairs_defined : ∀ found : List (List FeatId),
    (∀ c ∈ found, ∃ a b, c = [a, b]) → ∃ prs, asPairs found = some prs := by
  intro found
  induction found with
  | nil => intro _; exact ⟨[], rfl⟩
  | cons c rest ih =>
    intro h
    obtain ⟨prs, hprs⟩ := ih (fun x hx => h x (List.mem_cons_of_mem _ hx))
    obtain ⟨a, b, e⟩ := h c (List.mem_cons_self _ _)
    subst e
    exact ⟨(a, b) :: prs, by simp only [asPairs, asPair, hprs]⟩

theorem twoViewCorrespondences_defined (w : World) (fc : FrameId)
    (hm : ∀ f ∈ (w.g.frames fc).features2D, (w.g.features f).prevMatches.isEmpty = false →
      (w.g.features f).bestPrevMatchId ≠ -1 → (w.g.features f).prevMatch.isSome = true) :
    ∃ cs, twoViewCorrespondences w fc = some cs := by
  obtain ⟨found, hfound, hpairs⟩ := findLoop_one w.g _ hm
  obtain ⟨prs, hprs⟩ := asPairs_defined found hpairs
  refine ⟨prs, ?_⟩
  unfold twoViewCorrespondences findFeatureCorrespondences
  have h1 : ¬ ((2 : Int) < 2) := by decide
  have h2 : ((2 : Int) - 1).toNat = 1 := by decide
  rw [if_neg h1, h2, hfound]
  simpa using hprs

/-! ### Inlier selection, triangulation and linking are defined -/

theorem selectInliers_defined (cs : List (FeatId × FeatId)) :
    ∀ (mask : List Bool) (i : Nat), i + mask.length ≤ cs.length →
      ∃ inl, selectInliers cs i mask = some inl := by
  intro mask
  induction mask with
  | nil => intro i _; exact ⟨[], rfl⟩
  | cons b bs ih =>
    intro i hlen
    simp only [List.length_cons] at hlen
    obtain ⟨rest, hrest⟩ := ih (i + 1) (by omega)
    simp only [selectInliers]
    by_cases hb : b = false
    · rw [if_pos hb]; exact ⟨rest, hrest⟩
    · rw [if_neg hb]
      have hi : i < cs.length := by omega
      rw [List.getElem?_eq_getElem hi, hrest]
      exact ⟨_, rfl⟩

theorem triangulateFrom_defined (ext : Ext) (mode : Mode) (q1 : Quat) (t1 : Vec3) (q2 : Quat)
    (t2 : Vec3) (ip2 : List Vec2) :
    ∀ (l : List Vec2) (i : Nat), i + l.length ≤ ip2.length →
      ∃ out, triangulateFrom ext mode q1 t1 q2 t2 ip2 i l = some out := by
  intro l
  induction l with
  | nil => intro i _; exact ⟨[], rfl⟩
  | cons o rest ih =>
    intro i hlen
    simp only [List.length_cons] at hlen
    obtain ⟨tl, htl⟩ := ih (i + 1) (by omega)
    have hi : i < ip2.length := by omega
    simp only [triangulateFrom, List.getElem?_eq_getElem hi, htl]
    cases triangulateOne ext mode q1 t1 q2 t2 o ip2[i] with
    | none => exact ⟨_, rfl⟩
    | some P => exact ⟨_, rfl⟩

theorem triangulationPoses_defined (ext : Ext) (w : World) (fp fc : FrameId)
    (h : PosesDefined w.ba.mMode [fp, fc] w.g) :
    ∃ ps, triangulationPoses ext w fp fc = some ps := by
  have hp := h fp (List.mem_cons_self _ _)
  have hc := h fc (List.mem_cons_of_mem _ (List.mem_cons_self _ _))
  unfold triangulationPoses
  by_cases hm : w.ba.mMode = Mode.VO
  · rw [if_pos hm] at hp hc ⊢
    obtain ⟨pp, hpp⟩ := Option.isSome_iff_exists.mp hp
    obtain ⟨pc, hpc⟩ := Option.isSome_iff_exists.mp hc
    rw [hpp, hpc]; exact ⟨_, rfl⟩
  · rw [if_neg hm] at hp hc ⊢
    obtain ⟨pp, hpp⟩ := Option.isSome_iff_exists.mp hp
    obtain ⟨pc, hpc⟩ := Option.isSome_iff_exists.mp hc
    rw [hpp, hpc]; exact ⟨_, rfl⟩

theorem triangulateCorrespondences_defined (ext : Ext) (w : World) (fp fc : FrameId)
    (cs : List (FeatId × FeatId)) (h : PosesDefined w.ba.mMode [fp, fc] w.g) :
    ∃ pts, triangulateCorrespondences ext w fp fc cs = some pts ∧
      ∀ Pk ∈ pts, Pk.2 < cs.length := by
  obtain ⟨ps, hps⟩ := triangulationPoses_defined ext w fp fc h
  unfold triangulateCorrespondences triangulatePoints
  rw [hps]
  dsimp only
  obtain ⟨out, hout⟩ := triangulateFrom_defined ext w.ba.mMode ps.1.1 ps.1.2 ps.2.1 ps.2.2
    (cs.map (fun fc => (w.g.features fc.2).keypoint))
    (cs.map (fun fc => (w.g.features fc.1).keypoint)) 0 (by simp)
  refine ⟨out, hout, fun Pk hPk => ?_⟩
  obtain ⟨j, o1, o2, _, _, h2, _⟩ := triangulateFrom_kept ext _ _ _ _ _ _ _ _ _ hout Pk hPk
  have := (List.getElem?_eq_some_iff.mp h2).1
  simpa using this

theorem linkTriangulated_defined (cs : List (FeatId × FeatId)) :
    ∀ (pts : List (Vec3 × Nat)) (g : Graph), (∀ Pk ∈ pts, Pk.2 < cs.length) →
      ∃ g', linkTriangulated cs g pts = some g' := by
  intro pts
  induction pts with
  | nil => intro g _; exact ⟨g, rfl⟩
  | cons Pk rest ih =>
    intro g h
    obtain ⟨P, idx⟩ := Pk
    have hi : idx < cs.length := h (P, idx) (List.mem_cons_self _ _)
    simp only [linkTriangulated, List.getElem?_eq_getElem hi]
    exact ih _ (fun x hx => h x (List.mem_cons_of_mem _ hx))

/-! ### `optimize` and the prune are defined -/

theorem windowResiduals_defined (w : World) : ∀ Fs : List FrameId,
    PosesDefined w.ba.mMode Fs w.g → ∃ rs, windowResiduals w Fs = some rs := by
  intro Fs
  induction Fs with
  | nil => intro _; exact ⟨[], rfl⟩
  | cons F rest ih =>
    intro hp
    obtain ⟨rs, hrs⟩ := ih (fun x hx => hp x (List.mem_cons_of_mem _ hx))
    have hF := hp F (List.mem_cons_self _ _)
    simp only [windowResiduals, hrs]
    by_cases hm : w.ba.mMode = Mode.VO
    · rw [if_pos hm] at hF
      simp only [hm, if_true, hF, Bool.or_true]
      exact ⟨_, rfl⟩
    · rw [if_neg hm] at hF
      simp only [hm, if_false, hF, Bool.or_true, if_true]
      exact ⟨_, rfl⟩

theorem fixedPrefix_defined (ba : SlidingWindowBA) (hne : ba.mWindow ≠ []) :
    ∃ fixed, fixedPrefix ba = some fixed ∧ ∀ F ∈ fixed, F ∈ ba.mWindow := by
  unfold fixedPrefix
  split
  · exact ⟨_, rfl, fun F hF => List.mem_of_mem_take hF⟩
  · cases hw : ba.mWindow with
    | nil => exact absurd hw hne
    | cons F rest =>
      refine ⟨[F], rfl, fun F' hF' => ?_⟩
      rw [List.mem_singleton.mp hF']
      exact List.mem_cons_self _ _

theorem constantFrames_defined (w : World) (hne : w.ba.mWindow ≠ [])
    (hp : PosesDefined w.ba.mMode w.ba.mWindow w.g) : ∃ fixed, constantFrames w = some fixed := by
  obtain ⟨fixed, hfixed, hsub⟩ := fixedPrefix_defined w.ba hne
  unfold constantFrames
  rw [hfixed]
  dsimp only
  by_cases hm : w.ba.mMode = Mode.VO
  · rw [if_pos hm]
    have hall : fixed.all (fun F => (w.g.frames F).cameraPose.isSome) = true := by
      rw [List.all_eq_true]
      intro F hF
      have := hp F (hsub F hF)
      rw [if_pos hm] at this
      exact this
    rw [if_pos hall]
    exact ⟨_, rfl⟩
  · rw [if_neg hm]
    exact ⟨_, rfl⟩

theorem optimize_defined (ext : Ext) (w : World) (hne : w.ba.mWindow ≠ [])
    (hp : PosesDefined w.ba.mMode w.ba.mWindow w.g) : ∃ w1, optimize ext w = some w1 := by
  obtain ⟨rs, hrs⟩ := windowResiduals_defined w w.ba.mWindow hp
  obtain ⟨fixed, hfixed⟩ := constantFrames_defined w hne hp
  unfold optimize buildProblem
  rw [hrs, hfixed]
  exact ⟨_, rfl⟩

theorem finish_defined (ext : Ext) (fuel : Nat) (w : World) (fc : FrameId)
    (Rt : Option (Mat3 × Vec3)) (hfc : fc ∈ w.ba.mWindow)
    (hr : w.g.Ready w.ba.mMode w.ba.mWindow fuel) : ∃ r, finish ext fuel w fc Rt = some r := by
  have hne : w.ba.mWindow ≠ [] := List.ne_nil_of_mem hfc
  have hopt : ∃ w1, (if runOptimization w = true then optimize ext w else some w) = some w1 ∧
      w1.ba.mMode = w.ba.mMode ∧ w1.ba.mWindow = w.ba.mWindow ∧
      w1.g.Ready w.ba.mMode w.ba.mWindow fuel := by
    by_cases hrun : runOptimization w = true
    · rw [if_pos hrun]
      obtain ⟨w1, hw1⟩ := optimize_defined ext w hne hr.poses
      have hctl := optimize_ctl ext w w1 hw1
      simp only [SlidingWindowBA.ctl, Prod.mk.injEq] at hctl
      exact ⟨w1, hw1, hctl.2.2.1, hctl.2.2.2.2, ready_optimize ext w w1 _ _ hw1 hr⟩
    · rw [if_neg hrun]
      exact ⟨w, rfl, rfl, rfl, hr⟩
  obtain ⟨w1, hw1, hmode, hwin, hr1⟩ := hopt
  rw [← hmode, ← hwin] at hr1
  obtain ⟨⟨w2, pruned⟩, hprune⟩ := pruneWindow_terminates ext fuel w1.ba.mWindow w1 []
    hr1.enough hr1.poses hr1.listed
  obtain ⟨hba, hun, _, _⟩ := pruneWindow_spec ext fuel _ _ _ _ _ hprune
  unfold finish
  dsimp only
  rw [hw1]
  dsimp only
  rw [hprune]
  dsimp only
  by_cases hm : w2.ba.mMode = Mode.VO
  · rw [if_pos hm]
    have hpose := hr1.poses fc (by rw [hwin]; exact hfc)
    rw [hba] at hm
    rw [if_pos hm, ← hun.1] at hpose
    obtain ⟨pose, hpose⟩ := Option.isSome_iff_exists.mp hpose
    rw [hpose]
    exact ⟨_, rfl⟩
  · rw [if_neg hm]
    exact ⟨_, rfl⟩

/-! ### The stages are defined -/

theorem observationError_defined (ext : Ext) (w : World) (F : FrameId) (f : FeatId)
    (p : PointId) (h : PosesDefined w.ba.mMode [F] w.g) :
    ∃ e, observationError ext w F f p = some e := by
  have hF := h F (List.mem_singleton.mpr rfl)
  unfold observationError
  by_cases hm : w.ba.mMode = Mode.VO
  · rw [if_pos hm] at hF ⊢
    obtain ⟨pose, hpose⟩ := Option.isSome_iff_exists.mp hF
    rw [hpose]; exact ⟨_, rfl⟩
  · rw [if_neg hm] at hF ⊢
    obtain ⟨sp, hsp⟩ := Option.isSome_iff_exists.mp hF
    rw [hsp]; exact ⟨_, rfl⟩

theorem checkTriangulated_defined (ext : Ext) (fc : FrameId) :
    ∀ (l : List (FeatId × FeatId)) (w : World),
      (∀ c ∈ l, (w.g.features c.1).feature3D.isSome = true) →
      PosesDefined w.ba.mMode [fc] w.g → w.g.Allocated →
      ∃ w', checkTriangulated ext fc w l = some w' := by
  intro l
  induction l with
  | nil => intro w _ _ _; exact ⟨w, rfl⟩
  | cons c rest ih =>
    intro w hl hp ha
    obtain ⟨f0, f1⟩ := c
    obtain ⟨p, hlink⟩ := Option.isSome_iff_exists.mp (hl (f0, f1) (List.mem_cons_self _ _))
    obtain ⟨e, he⟩ := observationError_defined ext w fc f1 p hp
    have hrest : ∀ c ∈ rest, (w.g.features c.1).feature3D.isSome = true :=
      fun c hc => hl c (List.mem_cons_of_mem _ hc)
    simp only [checkTriangulated]
    dsimp only at hlink
    rw [hlink]
    dsimp only
    rw [he]
    dsimp only
    split
    · have hg := sever_grows (fun _ => True) w.g f0 f1
      refine ih { w with g := w.g.sever f0 f1 } (fun c hc => hg.linked c.1 (hrest c hc)) ?_
        (hg.allocatedG ha)
      intro F hF
      have := hp F hF
      show if w.ba.mMode = Mode.VO then _ else _
      rw [hg.1]; exact this
    · have hg := extend_grows (fun _ => True) w.g f1 p trivial (ha f0 p hlink)
      refine ih { w with g := (w.g.setFeature3D f1 (some p)).pushObserver p f1 }
        (fun c hc => hg.linked c.1 (hrest c hc)) ?_ (hg.allocatedG ha)
      intro F hF
      have := hp F hF
      show if w.ba.mMode = Mode.VO then _ else _
      rw [hg.1]; exact this

theorem scenePoints_length (g : Graph) : ∀ l : List (FeatId × FeatId),
    (∀ c ∈ l, (g.features c.1).feature3D.isSome = true) →
    (l.filterMap (fun fc => (g.features fc.1).feature3D.map (fun p => (g.points p).point))).length
      = l.length := by
  intro l
  induction l with
  | nil => intro _; rfl
  | cons c rest ih =>
    intro h
    obtain ⟨p, hp⟩ := Option.isSome_iff_exists.mp (h c (List.mem_cons_self _ _))
    have := ih (fun x hx => h x (List.mem_cons_of_mem _ hx))
    simp only [List.filterMap_cons, hp, Option.map_some', List.length_cons, this]

theorem steadyPose_defined (ext : Ext) (w : World) (fc fp : FrameId) (R : Mat3)
    (l : List (FeatId × FeatId)) (hp : PosesDefined w.ba.mMode [fp, fc] w.g)
    (hl : ∀ c ∈ l, (w.g.features c.1).feature3D.isSome = true) :
    ∃ b w1, steadyPose ext w fc fp R l = some (b, w1) ∧
      (b = false ↔ w.ba.mMode = Mode.VO ∧ l.length < 10) := by
  have hpp := hp fp (List.mem_cons_self _ _)
  have hpc := hp fc (List.mem_cons_of_mem _ (List.mem_cons_self _ _))
  unfold steadyPose
  dsimp only
  rw [scenePoints_length w.g l hl]
  by_cases hm : w.ba.mMode = Mode.VO
  · rw [if_pos hm] at hpp hpc ⊢
    by_cases hlen : l.length < kMin2D3DFeatureCorrespondences
    · rw [if_pos hlen]
      exact ⟨false, w, rfl, fun _ => ⟨hm, hlen⟩, fun _ => rfl⟩
    · rw [if_neg hlen]
      obtain ⟨pp, hpp⟩ := Option.isSome_iff_exists.mp hpp
      obtain ⟨pc, hpc⟩ := Option.isSome_iff_exists.mp hpc
      rw [hpp, hpc]
      exact ⟨true, _, rfl, fun h => absurd h (by simp), fun h => absurd h.2 hlen⟩
  · rw [if_neg hm]
    exact ⟨true, w, rfl, fun h => absurd h (by simp), fun h => absurd h.1 hm⟩

theorem steadyNew_defined (ext : Ext) (w : World) (fc fp : FrameId)
    (l : List (FeatId × FeatId)) (hp : PosesDefined w.ba.mMode [fp, fc] w.g) :
    ∃ w3, steadyNew ext w fc fp l = some w3 := by
  unfold steadyNew
  split
  · exact ⟨w, rfl⟩
  · obtain ⟨pts, hpts, hidx⟩ := triangulateCorrespondences_defined ext w fp fc l hp
    obtain ⟨g3, hg3⟩ := linkTriangulated_defined l pts w.g hidx
    rw [hpts]
    dsimp only
    rw [hg3]
    exact ⟨_, rfl⟩

theorem posesDefined_poseOnly {mode : Mode} {Fs : List FrameId} {g g' : Graph} {F : FrameId}
    (h : g' = g ∨ ∃ p, g' = g.setCameraPose F (some p)) (hp : PosesDefined mode Fs g) :
    PosesDefined mode Fs g' := by
  intro F' hF'
  have := hp F' hF'
  by_cases hm : mode = Mode.VO
  · rw [if_pos hm] at this ⊢
    rcases h with e | ⟨p, e⟩
    · rw [e]; exact this
    · rw [e]; exact setCameraPose_isSome _ _ _ _ (Or.inr this)
  · rw [if_neg hm] at this ⊢
    rw [((poseOnly_fields h).2.2.2.2 F').2]; exact this

theorem partitionTriangulated_congr (g g' : Graph) (hf : g'.features = g.features) :
    ∀ cs : List (FeatId × FeatId), partitionTriangulated g' cs = partitionTriangulated g cs := by
  intro cs
  induction cs with
  | nil => rfl
  | cons c rest ih => simp only [partitionTriangulated, hf, ih]

theorem bootstrapPose_defined (ext : Ext) (w : World) (fc : FrameId)
    (cs : List (FeatId × FeatId)) (hp : PosesDefined w.ba.mMode [fc] w.g)
    (hmask : ∀ a b thr, (ext.recoverPose (ext.findEssentialMat a b thr).1 a b
      (ext.findEssentialMat a b thr).2).2.2.length ≤ a.length) :
    ∃ w1 inl Rt, bootstrapPose ext w fc cs = some (w1, inl, Rt) ∧ inl.length ≤ cs.length := by
  have hF := hp fc (List.mem_singleton.mpr rfl)
  unfold bootstrapPose
  by_cases hm : w.ba.mMode = Mode.VO
  · rw [if_pos hm] at hF ⊢
    obtain ⟨pose, hpose⟩ := Option.isSome_iff_exists.mp hF
    dsimp only
    rw [hpose]
    refine ⟨_, _, _, rfl, ?_⟩
    have := hmask
      (rectifyImagePoints ext (cs.map (fun fc => (w.g.features fc.1).keypoint)))
      (rectifyImagePoints ext (cs.map (fun fc => (w.g.features fc.2).keypoint)))
      (kReprojErrorThresh / kNominalFocalLength)
    simpa [rectifyImagePoints] using this
  · rw [if_neg hm]
    exact ⟨_, _, _, rfl, by simp⟩

theorem bootstrap_defined (ext : Ext) (w : World) (fc fp : FrameId)
    (cs : List (FeatId × FeatId)) (hcs : twoViewCorrespondences w fc = some cs)
    (hp : PosesDefined w.ba.mMode [fp, fc] w.g)
    (hmask : ∀ a b thr, (ext.recoverPose (ext.findEssentialMat a b thr).1 a b
      (ext.findEssentialMat a b thr).2).2.2.length ≤ a.length) :
    ∃ st, bootstrap ext w fc fp = some st ∧
      (st.ok = false ↔ cs.length < 10 ∨
        ∃ pts, bootstrapPoints ext w fc fp cs = some pts ∧ pts.length < 10) := by
  unfold bootstrap
  rw [hcs]
  dsimp only
  by_cases hlen : cs.length < kMin2D2DFeatureCorrespondences
  · rw [if_pos hlen]
    exact ⟨_, rfl, fun _ => Or.inl hlen, fun _ => rfl⟩
  · rw [if_neg hlen]
    obtain ⟨w1, inl, Rt, hpose, hmlen⟩ := bootstrapPose_defined ext w fc cs
      (fun F hF => hp F (List.mem_cons_of_mem _ hF)) hmask
    have hba := bootstrapPose_ba _ _ _ _ _ _ _ hpose
    have hp1 : PosesDefined w1.ba.mMode [fp, fc] w1.g := by
      rw [hba]; exact posesDefined_poseOnly (bootstrapPose_graph _ _ _ _ _ _ _ hpose) hp
    obtain ⟨ic, hic⟩ := selectInliers_defined cs inl 0 (by omega)
    obtain ⟨pts, hpts, hidx⟩ := triangulateCorrespondences_defined ext w1 fp fc ic hp1
    have hbp : bootstrapPoints ext w fc fp cs = some pts := by
      unfold bootstrapPoints
      rw [hpose]
      dsimp only
      rw [hic]
      exact hpts
    rw [hpose]
    dsimp only
    unfold bootstrapStructure
    rw [hic]
    dsimp only
    rw [hpts]
    dsimp only
    by_cases hfew : pts.length < kMin2D3DFeatureCorrespondences
    · rw [if_pos hfew]
      exact ⟨_, rfl, fun _ => Or.inr ⟨pts, hbp, hfew⟩, fun _ => rfl⟩
    · rw [if_neg hfew]
      obtain ⟨g2, hg2⟩ := linkTriangulated_defined ic pts w1.g hidx
      rw [hg2]
      refine ⟨_, rfl, fun h => absurd h (by simp), fun h => ?_⟩
      rcases h with h | ⟨pts', e, h⟩
      · exact absurd h hlen
      · rw [hbp] at e
        simp only [Option.some.injEq] at e
        subst e
        exact absurd h hfew

theorem steady_defined (ext : Ext) (w : World) (fc fp : FrameId) (R : Mat3)
    (cs : List (FeatId × FeatId)) (hcs : twoViewCorrespondences w fc = some cs)
    (hp : PosesDefined w.ba.mMode [fp, fc] w.g) (ha : w.g.Allocated) :
    ∃ st, steady ext w fc fp R = some st ∧
      (st.ok = false ↔
        w.ba.mMode = Mode.VO ∧ (partitionTriangulated w.g cs).1.length < 10) := by
  obtain ⟨p1, p2⟩ := partitionTriangulated_spec w.g cs
  obtain ⟨b, w1, hsp, hiff⟩ := steadyPose_defined ext w fc fp R (partitionTriangulated w.g cs).1
    hp (fun c hc => (p1 c hc).2)
  have hba := steadyPose_ba _ _ _ _ _ _ _ _ hsp
  have hpo := steadyPose_graph _ _ _ _ _ _ _ _ hsp
  unfold steady
  rw [hcs]
  dsimp only
  cases b with
  | false =>
    rw [hsp]
    exact ⟨_, rfl, fun _ => hiff.mp rfl, fun _ => rfl⟩
  | true =>
    rw [hsp]
    dsimp only
    have hp1 : PosesDefined w1.ba.mMode [fp, fc] w1.g := by
      rw [hba]; exact posesDefined_poseOnly hpo hp
    have ha1 : w1.g.Allocated := poseOnly_allocated hpo ha
    obtain ⟨w2, hw2⟩ := checkTriangulated_defined ext fc (partitionTriangulated w.g cs).1 w1
      (fun c hc => by rw [(poseOnly_fields hpo).1]; exact (p1 c hc).2)
      (fun F hF => hp1 F (List.mem_cons_of_mem _ hF)) ha1
    have hg := checkTriangulated_grows _ _ _ _ _ hw2 ha1
    have hba2 := checkTriangulated_ba _ _ _ _ _ hw2
    have hp2 : PosesDefined w2.ba.mMode [fp, fc] w2.g := by
      intro F hF
      have := hp1 F hF
      rw [hba2, hg.1]; exact this
    obtain ⟨w3, hw3⟩ := steadyNew_defined ext w2 fc fp (partitionTriangulated w.g cs).2 hp2
    rw [hw2]
    dsimp only
    rw [hw3]
    refine ⟨_, rfl, fun h => absurd h (by simp), fun h => ?_⟩
    have := hiff.mpr h
    exact absurd this (by simp)

/-! ### The window after the new frame has entered -/

theorem enterWindow_mem (ext : Ext) (w : World) (fr : FrameId) :
    ∀ F ∈ (enterWindow ext w fr).ba.mWindow, F ∈ fr :: w.ba.mWindow := by
  intro F hF
  have h : F ∈ popFrontWhile (toSizeT w.ba.m_N) (w.ba.mWindow ++ [fr]) := hF
  rw [popFrontWhile_eq] at h
  have := List.mem_of_mem_drop h
  rcases List.mem_append.mp this with e | e
  · exact List.mem_cons_of_mem _ e
  · rw [List.mem_singleton.mp e]; exact List.mem_cons_self _ _

theorem enterWindow_last (ext : Ext) (w : World) (fr : FrameId) (hN : 1 ≤ toSizeT w.ba.m_N) :
    fr ∈ (enterWindow ext w fr).ba.mWindow := by
  show fr ∈ popFrontWhile (toSizeT w.ba.m_N) (w.ba.mWindow ++ [fr])
  rw [popFrontWhile_eq, List.drop_append_of_le_length (by simp; omega)]
  exact List.mem_append_right _ (List.mem_singleton.mpr rfl)

theorem enterWindow_prev (ext : Ext) (w : World) (fr fp : FrameId) (init : List FrameId)
    (hN : 2 ≤ toSizeT w.ba.m_N) (hw : w.ba.mWindow = init ++ [fp]) :
    (enterWindow ext w fr).ba.mWindow.reverse[1]? = some fp ∧
      fp ∈ (enterWindow ext w fr).ba.mWindow := by
  have e : (enterWindow ext w fr).ba.mWindow =
      init.drop ((init ++ [fp, fr]).length - toSizeT w.ba.m_N) ++ [fp, fr] := by
    show popFrontWhile (toSizeT w.ba.m_N) (w.ba.mWindow ++ [fr]) = _
    rw [popFrontWhile_eq, hw, List.append_assoc]
    exact List.drop_append_of_le_length (by simp; omega)
  rw [e]
  constructor
  · simp
  · simp

theorem le_sum_map (f : FrameId → Nat) : ∀ (L : List FrameId) (F : FrameId), F ∈ L →
    f F ≤ (L.map f).sum := by
  intro L
  induction L with
  | nil => intro F h; exact absurd h (List.not_mem_nil _)
  | cons a rest ih =>
    intro F h
    simp only [List.map_cons, List.sum_cons]
    rcases List.mem_cons.mp h with e | e
    · subst e; omega
    · have := ih F e; omega

theorem enterWindow_ready (ext : Ext) (w : World) (fr : FrameId) (fuel : Nat)
    (hwf : WellFormed ext w fr)
    (hfuel : ∀ F ∈ fr :: w.ba.mWindow, 2 * (w.g.frames F).features2D.length + 1 ≤ fuel) :
    (enterWindow ext w fr).g.Ready w.ba.mMode (fr :: w.ba.mWindow) fuel := by
  have hpo := enterWindow_graph ext w fr
  obtain ⟨e1, e2, e3, e4, e5⟩ := poseOnly_fields hpo
  refine ⟨fun F hF => ?_, fun F hF f hf => ?_, poseOnly_allocated hpo hwf.allocated,
    fun F hF => ?_⟩
  · by_cases hm : w.ba.mMode = Mode.VO
    · rw [if_pos hm]
      have hg : (enterWindow ext w fr).g = w.g.setCameraPose fr (some ext.newPose) := by
        unfold enterWindow
        simp only [hm, if_true]
      rw [hg]
      refine setCameraPose_isSome _ _ _ _ ?_
      rcases List.mem_cons.mp hF with e | e
      · exact Or.inl e
      · have := hwf.poses F e
        rw [if_pos hm] at this
        exact Or.inr this
    · rw [if_neg hm, (e5 F).2]
      rcases List.mem_cons.mp hF with e | e
      · rw [e]; exact hwf.newPose hm
      · have := hwf.poses F e
        rw [if_neg hm] at this
        exact this
  · rw [(e5 F).1] at hf
    rw [e1, e2, e3]
    exact hwf.listed F hF f hf
  · rw [(e5 F).1]; exact hfuel F hF

/-! ### The second and later frames -/

theorem predictPose_defined (ext : Ext) (w0 : World) (fc fp : FrameId) (R : Mat3) (t : Vec3)
    (hp : PosesDefined w0.ba.mMode [fp, fc] w0.g) :
    ∃ w1, predictPose ext w0 fc fp R t = some w1 := by
  have hpp := hp fp (List.mem_cons_self _ _)
  have hpc := hp fc (List.mem_cons_of_mem _ (List.mem_cons_self _ _))
  unfold predictPose
  by_cases hm : w0.ba.mMode = Mode.VO
  · rw [if_pos hm] at hpp hpc ⊢
    obtain ⟨pp, hpp⟩ := Option.isSome_iff_exists.mp hpp
    obtain ⟨pc, hpc⟩ := Option.isSome_iff_exists.mp hpc
    rw [hpp, hpc]; exact ⟨_, rfl⟩
  · rw [if_neg hm]; exact ⟨_, rfl⟩

theorem stage_finish (ext : Ext) (fuel : Nat) (fc : FrameId) (st : StageResult)
    (hfc : fc ∈ st.world.ba.mWindow)
    (hr : st.ok = true → st.world.g.Ready st.world.ba.mMode st.world.ba.mWindow fuel) :
    ∃ r, (if st.ok = true then finish ext fuel st.world fc st.Rt
          else some ⟨false, st.world, st.Rt, 0, []⟩) = some r ∧
      (r.ret = false ↔ st.ok = false) := by
  by_cases hok : st.ok = true
  · rw [if_pos hok]
    obtain ⟨r, hfin⟩ := finish_defined ext fuel st.world fc st.Rt hfc (hr hok)
    have := (finish_ctl ext fuel _ _ _ _ hfin).2
    refine ⟨r, hfin, fun h => ?_, fun h => ?_⟩
    · rw [this] at h; exact absurd h (by simp)
    · rw [hok] at h; exact absurd h (by simp)
  · rw [if_neg hok]
    exact ⟨_, rfl, fun _ => by simpa using hok, fun _ => rfl⟩

theorem laterFrame_defined (ext : Ext) (fuel : Nat) (w0 : World) (fc fp : FrameId) (R : Mat3)
    (t : Vec3) (hprev : w0.ba.mWindow.reverse[1]? = some fp) (hfc : fc ∈ w0.ba.mWindow)
    (hfp : fp ∈ w0.ba.mWindow) (hr : w0.g.Ready w0.ba.mMode w0.ba.mWindow fuel)
    (hm : ∀ f ∈ (w0.g.frames fc).features2D, (w0.g.features f).prevMatches.isEmpty = false →
      (w0.g.features f).bestPrevMatchId ≠ -1 → (w0.g.features f).prevMatch.isSome = true)
    (hmask : ∀ a b thr, (ext.recoverPose (ext.findEssentialMat a b thr).1 a b
      (ext.findEssentialMat a b thr).2).2.2.length ≤ a.length) :
    ∃ w1 cs r, predictPose ext w0 fc fp R t = some w1 ∧
      twoViewCorrespondences w0 fc = some cs ∧
      laterFrame ext fuel w0 fc R t = some r ∧
      (w0.ba.mFrameCount = 2 → (r.ret = false ↔ cs.length < 10 ∨
        ∃ pts, bootstrapPoints ext w1 fc fp cs = some pts ∧ pts.length < 10)) ∧
      (w0.ba.mFrameCount ≠ 2 → (r.ret = false ↔
        w0.ba.mMode = Mode.VO ∧ (partitionTriangulated w0.g cs).1.length < 10)) := by
  have hp0 : PosesDefined w0.ba.mMode [fp, fc] w0.g := by
    intro F hF
    refine hr.poses F ?_
    rcases List.mem_cons.mp hF with e | e
    · rw [e]; exact hfp
    · rw [List.mem_singleton.mp e]; exact hfc
  obtain ⟨w1, hpred⟩ := predictPose_defined ext w0 fc fp R t hp0
  have hba1 := predictPose_ba _ _ _ _ _ _ _ hpred
  have hpo1 := predictPose_graph _ _ _ _ _ _ _ hpred
  have hr1 : w1.g.Ready w1.ba.mMode w1.ba.mWindow fuel := by
    rw [hba1]; exact ready_poseOnly hpo1 hr
  have hp1 : PosesDefined w1.ba.mMode [fp, fc] w1.g := by
    rw [hba1]; exact posesDefined_poseOnly hpo1 hp0
  obtain ⟨f1, f2, f3, f4, f5⟩ := poseOnly_fields hpo1
  obtain ⟨cs, hcs⟩ := twoViewCorrespondences_defined w0 fc hm
  have hcs1 : twoViewCorrespondences w1 fc = some cs := by
    rw [twoViewCorrespondences_congr w0 w1 fc f1 f2 (f5 fc).1]; exact hcs
  have hstage : ∃ st, (if w1.ba.mFrameCount = 2 then bootstrap ext w1 fc fp
        else steady ext w1 fc fp R) = some st ∧
      (st.ok = true → st.world.g.Ready w1.ba.mMode w1.ba.mWindow fuel) ∧
      (w0.ba.mFrameCount = 2 → (st.ok = false ↔ cs.length < 10 ∨
        ∃ pts, bootstrapPoints ext w1 fc fp cs = some pts ∧ pts.length < 10)) ∧
      (w0.ba.mFrameCount ≠ 2 → (st.ok = false ↔
        w0.ba.mMode = Mode.VO ∧ (partitionTriangulated w0.g cs).1.length < 10)) := by
    by_cases h2 : w1.ba.mFrameCount = 2
    · rw [if_pos h2]
      obtain ⟨st, hst, hiff⟩ := bootstrap_defined ext w1 fc fp cs hcs1 hp1 hmask
      obtain ⟨_, gm, _, hgm, hgrow⟩ := bootstrap_grows _ _ _ _ _ hst
      refine ⟨st, hst, fun _ => ready_grows hgrow (ready_poseOnly hgm hr1), fun _ => hiff,
        fun h => ?_⟩
      rw [hba1] at h2
      exact absurd h2 h
    · rw [if_neg h2]
      obtain ⟨st, hst, hiff⟩ := steady_defined ext w1 fc fp R cs hcs1 hp1 hr1.allocated
      obtain ⟨_, gm, _, hgm, hgrow⟩ := steady_grows _ _ _ _ _ _ hst hr1.allocated
      refine ⟨st, hst, fun _ => ready_grows hgrow (ready_poseOnly hgm hr1), fun h => ?_,
        fun _ => ?_⟩
      · rw [hba1] at h2
        exact absurd h h2
      · rw [partitionTriangulated_congr w0.g w1.g f1, hba1] at hiff
        exact hiff
  obtain ⟨st, hst, hrst, hboot, hsteady⟩ := hstage
  have hbast := stage_ba _ _ _ _ _ _ hst
  obtain ⟨r, hfin, hret⟩ := stage_finish ext fuel fc st
    (by rw [hbast, hba1]; exact hfc) (fun hok => by rw [hbast]; exact hrst hok)
  refine ⟨w1, cs, r, hpred, hcs, ?_, fun h => hret.trans (hboot h), fun h => hret.trans (hsteady h)⟩
  unfold laterFrame
  rw [hprev]
  dsimp only
  rw [hpred]
  dsimp only
  rw [hst]
  exact hfin

/-- C3: on a well-formed state `addFrame` returns (for every fuel of the prune loop from some
    bound on), and its return value is `false` in exactly these cases: on the second frame
    since `clear` (frame count 1 before the call), when fewer than 10 two-view correspondences
    end at the new frame or fewer than 10 scene points come out of their triangulation; on the
    third or a later frame, when the mode is VO and fewer than 10 of the correspondences ending
    at the new frame have an earlier feature with a 3D point.  In particular the first frame
    returns `true`, and outside VO mode so do the third and later frames. -/
theorem addFrame_return_value (ext : Ext) (w : World) (fr : FrameId) (R_rel : Mat3)
    (t_rel : Vec3) (hwf : WellFormed ext w fr) :
    ∃ fuel0, ∀ fuel, fuel0 ≤ fuel → ∃ r, addFrame ext fuel w fr R_rel t_rel = some r ∧
      (w.ba.mFrameCount = 0 → r.ret = true) ∧
      (w.ba.mFrameCount = 1 → ∃ fp w1 cs, w.ba.mWindow.getLast? = some fp ∧
          predictPose ext (enterWindow ext w fr) fr fp R_rel t_rel = some w1 ∧
          twoViewCorrespondences w fr = some cs ∧
          (r.ret = false ↔ cs.length < 10 ∨
            ∃ pts, bootstrapPoints ext w1 fr fp cs = some pts ∧ pts.length < 10)) ∧
      (2 ≤ w.ba.mFrameCount → ∃ cs, twoViewCorrespondences w fr = some cs ∧
          (r.ret = false ↔ w.ba.mMode = Mode.VO ∧
            (partitionTriangulated w.g cs).1.length < 10)) := by
  refine ⟨2 * ((fr :: w.ba.mWindow).map (fun F => (w.g.frames F).features2D.length)).sum + 1,
    fun fuel hfuel => ?_⟩
  have henough : ∀ F ∈ fr :: w.ba.mWindow,
      2 * (w.g.frames F).features2D.length + 1 ≤ fuel := by
    intro F hF
    have := le_sum_map (fun F => (w.g.frames F).features2D.length) _ F hF
    dsimp only at this
    omega
  have hready : (enterWindow ext w fr).g.Ready (enterWindow ext w fr).ba.mMode
      (enterWindow ext w fr).ba.mWindow fuel :=
    ready_sub (enterWindow_mem ext w fr) (enterWindow_ready ext w fr fuel hwf henough)
  have hcap := hwf.capacity
  have hlast := enterWindow_last ext w fr (by omega)
  obtain ⟨e1, e2, e3, e4, e5⟩ := poseOnly_fields (enterWindow_graph ext w fr)
  have hcount : (enterWindow ext w fr).ba.mFrameCount = w.ba.mFrameCount + 1 := rfl
  unfold addFrame
  dsimp only
  by_cases h0 : w.ba.mFrameCount = 0
  · rw [if_pos (by rw [hcount, h0])]
    have hfirst : ∃ r, firstFrame (enterWindow ext w fr) fr = some r := by
      unfold firstFrame
      by_cases hm : (enterWindow ext w fr).ba.mMode = Mode.VO
      · have hpose := hready.poses fr hlast
        rw [if_pos hm] at hpose ⊢
        obtain ⟨pose, hpose⟩ := Option.isSome_iff_exists.mp hpose
        rw [hpose]
        exact ⟨_, rfl⟩
      · rw [if_neg hm]
        exact ⟨_, rfl⟩
    obtain ⟨r, hr⟩ := hfirst
    exact ⟨r, hr, fun _ => (firstFrame_ctl _ _ _ hr).2, fun h => by omega, fun h => by omega⟩
  · rw [if_neg (by rw [hcount]; omega)]
    have hne := hwf.window (by omega)
    obtain ⟨init, fp, hw⟩ : ∃ init fp, w.ba.mWindow = init ++ [fp] := by
      rcases List.eq_nil_or_concat w.ba.mWindow with h | ⟨L, b, h⟩
      · exact absurd h hne
      · exact ⟨L, b, by simpa using h⟩
    obtain ⟨hprev, hfpm⟩ := enterWindow_prev ext w fr fp init hcap hw
    have hm : ∀ f ∈ ((enterWindow ext w fr).g.frames fr).features2D,
        ((enterWindow ext w fr).g.features f).prevMatches.isEmpty = false →
        ((enterWindow ext w fr).g.features f).bestPrevMatchId ≠ -1 →
        ((enterWindow ext w fr).g.features f).prevMatch.isSome = true := by
      intro f hf
      rw [(e5 fr).1] at hf
      rw [e1]
      exact hwf.matchIndex f hf
    obtain ⟨w1, cs, r, hpred, hcs, hlater, hboot, hsteady⟩ :=
      laterFrame_defined ext fuel (enterWindow ext w fr) fr fp R_rel t_rel hprev hlast hfpm
        hready hm hwf.inlierMask
    have hcs0 : twoViewCorrespondences w fr = some cs := by
      rw [← twoViewCorrespondences_congr w (enterWindow ext w fr) fr e1 e2 (e5 fr).1]
      exact hcs
    refine ⟨r, hlater, fun h => absurd h h0,
      fun h1 => ⟨fp, w1, cs, ?_, hpred, hcs0, hboot (by rw [hcount, h1])⟩,
      fun h2 => ⟨cs, hcs0, ?_⟩⟩
    · rw [hw]; simp
    · have := hsteady (by rw [hcount]; omega)
      rw [partitionTriangulated_congr w.g _ e1] at this
      exact this

/-- C3 on the second frame of the scene (pose-anchored): the state after the first frame is
    well formed for frame 2. -/
theorem addFrame_return_value_witness :
    WellFormed Demo.ext (Demo.sceneAfter 1) 2 ∧
    ∃ fuel0, ∀ fuel, fuel0 ≤ fuel →
      ∃ r, addFrame Demo.ext fuel (Demo.sceneAfter 1) 2 Mat3.identity Vec3.zero = some r ∧
      ((Demo.sceneAfter 1).ba.mFrameCount = 0 → r.ret = true) ∧
      ((Demo.sceneAfter 1).ba.mFrameCount = 1 → ∃ fp w1 cs,
          (Demo.sceneAfter 1).ba.mWindow.getLast? = some fp ∧
          predictPose Demo.ext (enterWindow Demo.ext (Demo.sceneAfter 1) 2) 2 fp Mat3.identity
            Vec3.zero = some w1 ∧
          twoViewCorrespondences (Demo.sceneAfter 1) 2 = some cs ∧
          (r.ret = false ↔ cs.length < 10 ∨
            ∃ pts, bootstrapPoints Demo.ext w1 2 fp cs = some pts ∧ pts.length < 10)) ∧
      (2 ≤ (Demo.sceneAfter 1).ba.mFrameCount →
        ∃ cs, twoViewCorrespondences (Demo.sceneAfter 1) 2 = some cs ∧
          (r.ret = false ↔ (Demo.sceneAfter 1).ba.mMode = Mode.VO ∧
            (partitionTriangulated (Demo.sceneAfter 1).g cs).1.length < 10)) := by
  have hwf : WellFormed Demo.ext (Demo.sceneAfter 1) 2 := by
    have key : ∀ F ∈ 2 :: (Demo.sceneAfter 1).ba.mWindow,
        ∀ f ∈ ((Demo.sceneAfter 1).g.frames F).features2D,
          (Demo.sceneAfter 1).g.live2D f = true ∧
          ((Demo.sceneAfter 1).g.features f).feature3D = none := by
      with_unfolding_all decide
    refine ⟨by with_unfolding_all decide, by with_unfolding_all decide, ?_,
      by with_unfolding_all decide, ?_, by with_unfolding_all decide,
      sceneAfter_allocated 1, ?_⟩
    · unfold PosesDefined
      with_unfolding_all decide
    · intro F hF f hf
      refine ⟨(key F hF f hf).1, fun p hp => ?_⟩
      rw [(key F hF f hf).2] at hp
      exact absurd hp (by simp)
    · intro a b thr
      show (List.replicate a.length true).length ≤ a.length
      simp
  exact ⟨hwf, addFrame_return_value Demo.ext (Demo.sceneAfter 1) 2 Mat3.identity Vec3.zero hwf⟩

/-! ## C11: the maximum reported by the reprojection-error summaries -/

theorem DBL_MIN_pos : (0 : ℚ) < DBL_MIN := by
  unfold DBL_MIN; positivity

theorem DBL_MAX_pos : (0 : ℚ) < DBL_MAX := by
  unfold DBL_MAX; exact mul_pos (by norm_num) (by positivity)

/-- An error of 0 leaves `maxError` at its initial value. -/
theorem errAcc_add_zero (acc : ErrAcc)
    (h : acc = ErrAcc.init ∨ ∃ k, acc = ⟨0, DBL_MIN, k + 1, 0⟩) :
    ∃ k, acc.add 0 = ⟨0, DBL_MIN, k + 1, 0⟩ := by
  rcases h with h | ⟨k, h⟩
  · subst h
    refine ⟨0, ?_⟩
    unfold ErrAcc.add ErrAcc.init
    simp only [gt_iff_lt, DBL_MAX_pos, if_true, not_lt_of_gt DBL_MIN_pos, if_false, zero_add]
  · subst h
    refine ⟨k + 1, ?_⟩
    unfold ErrAcc.add
    simp only [gt_iff_lt, lt_irrefl, if_false, not_lt_of_gt DBL_MIN_pos, zero_add]

theorem frameErrors_zero (ext : Ext) (w : World) (F : FrameId) :
    ∀ (l : List FeatId) (acc : ErrAcc),
      (acc = ErrAcc.init ∨ ∃ k, acc = ⟨0, DBL_MIN, k + 1, 0⟩) →
      (∀ f ∈ l, ((w.g.features f).feature3D.bind fun p => observationError ext w F f p)
        = some 0) →
      ∃ acc1, frameErrors ext w F acc l = some acc1 ∧
        (l = [] ∧ acc1 = acc ∨ ∃ k, acc1 = ⟨0, DBL_MIN, k + 1, 0⟩) := by
  intro l
  induction l with
  | nil => intro acc _ _; exact ⟨acc, rfl, Or.inl ⟨rfl, rfl⟩⟩
  | cons f fs ih =>
    intro acc hacc hz
    have hf := hz f (List.mem_cons_self _ _)
    cases hlink : (w.g.features f).feature3D with
    | none => rw [hlink] at hf; exact absurd hf (by simp)
    | some p =>
      rw [hlink] at hf
      simp only [Option.some_bind] at hf
      obtain ⟨acc1, h1, h2⟩ := ih (acc.add 0) (Or.inr (errAcc_add_zero acc hacc))
        (fun x hx => hz x (List.mem_cons_of_mem _ hx))
      refine ⟨acc1, ?_, Or.inr ?_⟩
      · simp only [frameErrors, hlink, hf]
        exact h1
      · rcases h2 with ⟨_, e⟩ | h2
        · rw [e]; exact errAcc_add_zero acc hacc
        · exact h2

theorem windowErrors_zero (ext : Ext) (w : World) :
    ∀ (Fs : List FrameId) (acc : ErrAcc),
      (acc = ErrAcc.init ∨ ∃ k, acc = ⟨0, DBL_MIN, k + 1, 0⟩) →
      (∀ F ∈ Fs, ∀ f ∈ (w.g.frames F).features2D,
        ((w.g.features f).feature3D.bind fun p => observationError ext w F f p) = some 0) →
      ∃ acc1, windowErrors ext w acc Fs = some acc1 ∧
        ((∀ F ∈ Fs, (w.g.frames F).features2D = []) ∧ acc1 = acc ∨
          ∃ k, acc1 = ⟨0, DBL_MIN, k + 1, 0⟩) := by
  intro Fs
  induction Fs with
  | nil =>
    intro acc _ _
    exact ⟨acc, rfl, Or.inl ⟨fun F hF => absurd hF (List.not_mem_nil _), rfl⟩⟩
  | cons F rest ih =>
    intro acc hacc hz
    obtain ⟨acc1, h1, h2⟩ := frameErrors_zero ext w F _ acc hacc (hz F (List.mem_cons_self _ _))
    have hacc1 : acc1 = ErrAcc.init ∨ ∃ k, acc1 = ⟨0, DBL_MIN, k + 1, 0⟩ := by
      rcases h2 with ⟨_, e⟩ | h2
      · rw [e]; exact hacc
      · exact Or.inr h2
    obtain ⟨acc2, h3, h4⟩ := ih acc1 hacc1 (fun G hG => hz G (List.mem_cons_of_mem _ hG))
    refine ⟨acc2, ?_, ?_⟩
    · simp only [windowErrors, h1]
      exact h3
    · rcases h4 with ⟨hall, e⟩ | h4
      · rcases h2 with ⟨hnil, e1⟩ | h2
        · left
          refine ⟨fun G hG => ?_, by rw [e, e1]⟩
          rcases List.mem_cons.mp hG with e2 | e2
          · rw [e2]; exact hnil
          · exact hall G e2
        · right; rw [e]; exact h2
      · exact Or.inr h4

/-- When every observation of the window has error 0 and there is at least one, the summary
    is minimum 0, mean 0 and maximum `DBL_MIN`. -/
theorem windowReprojectionError_zero (ext : Ext) (w : World)
    (hz : ∀ F ∈ w.ba.mWindow, ∀ f ∈ (w.g.frames F).features2D,
      ((w.g.features f).feature3D.bind fun p => observationError ext w F f p) = some 0)
    (hne : ∃ F ∈ w.ba.mWindow, (w.g.frames F).features2D ≠ []) :
    windowReprojectionError ext w = some (0, DBL_MIN, 0) := by
  obtain ⟨acc1, h1, h2⟩ := windowErrors_zero ext w w.ba.mWindow ErrAcc.init (Or.inl rfl) hz
  unfold windowReprojectionError
  rw [h1]
  rcases h2 with ⟨hall, _⟩ | ⟨k, e⟩
  · obtain ⟨F, hF, hne⟩ := hne
    exact absurd (hall F hF) hne
  · subst e
    simp [ErrAcc.result]

theorem frameReprojectionError_zero (ext : Ext) (w : World) (idx : Nat) (F : FrameId)
    (hF : w.ba.mWindow[idx]? = some F)
    (hz : ∀ f ∈ (w.g.frames F).features2D,
      ((w.g.features f).feature3D.bind fun p => observationError ext w F f p) = some 0)
    (hne : (w.g.frames F).features2D ≠ []) :
    frameReprojectionError ext w idx = some (0, DBL_MIN, 0) := by
  obtain ⟨acc1, h1, h2⟩ := frameErrors_zero ext w F _ ErrAcc.init (Or.inl rfl) hz
  unfold frameReprojectionError
  rw [hF]
  dsimp only
  rw [h1]
  rcases h2 with ⟨hnil, _⟩ | ⟨k, e⟩
  · exact absurd hnil hne
  · subst e
    simp [ErrAcc.result]

/-- C11: on the VO scene after two frames every 2D feature of the window is 3D-backed and
    reprojects onto its key point with error 0, and both `windowReprojectionError` and
    `frameReprojectionError` (index 0) return minimum 0 and mean 0 but the maximum
    `std::numeric_limits<double>::min()`, the smallest positive normal double, which is the
    initial value of `maxError` and is larger than every error. -/
theorem window_error_max_not_largest :
    (∀ F ∈ (Demo.voAfter 2).ba.mWindow, ∀ f ∈ ((Demo.voAfter 2).g.frames F).features2D,
      (((Demo.voAfter 2).g.features f).feature3D.bind fun p =>
        observationError Demo.ext (Demo.voAfter 2) F f p) = some 0) ∧
    (Demo.voAfter 2).ba.mWindow = [1, 2] ∧
    windowReprojectionError Demo.ext (Demo.voAfter 2) = some (0, DBL_MIN, 0) ∧
    frameReprojectionError Demo.ext (Demo.voAfter 2) 0 = some (0, DBL_MIN, 0) ∧
    (0 : ℚ) < DBL_MIN := by
  have hz : ∀ F ∈ (Demo.voAfter 2).ba.mWindow,
      ∀ f ∈ ((Demo.voAfter 2).g.frames F).features2D,
      (((Demo.voAfter 2).g.features f).feature3D.bind fun p =>
        observationError Demo.ext (Demo.voAfter 2) F f p) = some 0 := by
    with_unfolding_all decide
  have hwin : (Demo.voAfter 2).ba.mWindow = [1, 2] := by with_unfolding_all decide
  have hne : ((Demo.voAfter 2).g.frames 1).features2D ≠ [] := by with_unfolding_all decide
  refine ⟨hz, hwin, windowReprojectionError_zero _ _ hz ⟨1, by rw [hwin]; simp, hne⟩,
    frameReprojectionError_zero _ _ 0 1 (by rw [hwin]; rfl) (hz 1 (by rw [hwin]; simp)) hne,
    DBL_MIN_pos⟩

/-! ## C19: the frames held constant by `optimize()` -/

theorem buildProblem_constantFrames (w : World) (prob : CeresProblem)
    (h : buildProblem w = some prob) : constantFrames w = some prob.constantFrames := by
  unfold buildProblem at h
  split at h
  · exact absurd h (by simp)
  · split at h
    · exact absurd h (by simp)
    · rename_i fixed hfixed
      simp only [Option.some.injEq] at h
      subst h
      exact hfixed

theorem buildProblem_defined (w : World) (hne : w.ba.mWindow ≠ [])
    (hp : PosesDefined w.ba.mMode w.ba.mWindow w.g) : ∃ prob, buildProblem w = some prob := by
  obtain ⟨rs, hrs⟩ := windowResiduals_defined w w.ba.mWindow hp
  obtain ⟨fixed, hfixed⟩ := constantFrames_defined w hne hp
  unfold buildProblem
  rw [hrs, hfixed]
  exact ⟨_, rfl⟩

/-- C19 (on the third frame of the VO scene, `N = 5`, `n = 3`): the window holds three
    frames, so it is not full, `optimize()` runs, and the problem it builds holds the poses of
    the two oldest frames constant, not of one. -/
theorem fixed_prefix_window_not_full :
    (Demo.voThird.map fun w => (w.ba.mMode, w.ba.mWindow)) = some (Mode.VO, [1, 2, 3]) ∧
    (Demo.voThird.map fun w => (w.ba.m_N, w.ba.m_n)) = some (5, 3) ∧
    (Demo.voThird.map fun w =>
      (runOptimization w, (buildProblem w).map fun p => p.constantFrames))
      = some (true, some [1, 2]) := by
  refine ⟨by with_unfolding_all decide, by with_unfolding_all decide,
    by with_unfolding_all decide⟩

/-- C19, amended: in VO mode, with `0 ≤ N - n`, the problem built by `optimize()` holds constant
    the poses of the `N - n` oldest window frames when the window holds more than `N - n`
    frames, which is the case when it is full and `n ≥ 1`, and the pose of the single oldest
    frame when it holds at most `N - n` frames. -/
theorem fixed_prefix_count (w : World) (hm : w.ba.mMode = Mode.VO) (hne : w.ba.mWindow ≠ [])
    (hp : PosesDefined w.ba.mMode w.ba.mWindow w.g) (h0 : 0 ≤ w.ba.m_N - w.ba.m_n)
    (h1 : w.ba.m_N - w.ba.m_n ≤ 2147483647) :
    ∃ prob, buildProblem w = some prob ∧
      ((w.ba.m_N - w.ba.m_n).toNat < w.ba.mWindow.length →
        prob.constantFrames = w.ba.mWindow.take (w.ba.m_N - w.ba.m_n).toNat ∧
        prob.constantFrames.length = (w.ba.m_N - w.ba.m_n).toNat) ∧
      (w.ba.mWindow.length ≤ (w.ba.m_N - w.ba.m_n).toNat →
        prob.constantFrames = w.ba.mWindow.take 1 ∧ prob.constantFrames.length = 1) ∧
      (w.ba.mWindow.length = w.ba.m_N.toNat → 1 ≤ w.ba.m_n →
        prob.constantFrames.length = (w.ba.m_N - w.ba.m_n).toNat) := by
  obtain ⟨prob, hprob⟩ := buildProblem_defined w hne hp
  have hc := buildProblem_constantFrames w prob hprob
  have hsz := toSizeT_of_int (w.ba.m_N - w.ba.m_n) h0 h1
  unfold constantFrames fixedPrefix at hc
  rw [hsz] at hc
  have hbig : (w.ba.m_N - w.ba.m_n).toNat < w.ba.mWindow.length →
      prob.constantFrames = w.ba.mWindow.take (w.ba.m_N - w.ba.m_n).toNat ∧
      prob.constantFrames.length = (w.ba.m_N - w.ba.m_n).toNat := by
    intro hlt
    rw [if_pos hlt] at hc
    dsimp only at hc
    rw [if_pos hm] at hc
    split at hc
    · simp only [Option.some.injEq] at hc
      rw [← hc]
      exact ⟨rfl, by rw [List.length_take]; omega⟩
    · exact absurd hc (by simp)
  refine ⟨prob, hprob, hbig, fun hle => ?_, fun hfull hn => ?_⟩
  · rw [if_neg (by omega)] at hc
    cases hw : w.ba.mWindow with
    | nil => exact absurd hw hne
    | cons F rest =>
      rw [hw] at hc
      dsimp only at hc
      rw [if_pos hm] at hc
      split at hc
      · simp only [Option.some.injEq] at hc
        rw [← hc]
        exact ⟨rfl, rfl⟩
      · exact absurd hc (by simp)
  · exact (hbig (by omega)).2

/-- C19, amended, on the VO scene after three frames (`N = 5`, `n = 3`, window `[1, 2, 3]`). -/
theorem fixed_prefix_count_witness :
    (Demo.voAfter 3).ba.mMode = Mode.VO ∧ (Demo.voAfter 3).ba.mWindow = [1, 2, 3] ∧
    ∃ prob, buildProblem (Demo.voAfter 3) = some prob ∧
      (((Demo.voAfter 3).ba.m_N - (Demo.voAfter 3).ba.m_n).toNat
          < (Demo.voAfter 3).ba.mWindow.length →
        prob.constantFrames = (Demo.voAfter 3).ba.mWindow.take
          ((Demo.voAfter 3).ba.m_N - (Demo.voAfter 3).ba.m_n).toNat ∧
        prob.constantFrames.length
          = ((Demo.voAfter 3).ba.m_N - (Demo.voAfter 3).ba.m_n).toNat) ∧
      ((Demo.voAfter 3).ba.mWindow.length
          ≤ ((Demo.voAfter 3).ba.m_N - (Demo.voAfter 3).ba.m_n).toNat →
        prob.constantFrames = (Demo.voAfter 3).ba.mWindow.take 1 ∧
        prob.constantFrames.length = 1) ∧
      ((Demo.voAfter 3).ba.mWindow.length = (Demo.voAfter 3).ba.m_N.toNat →
        1 ≤ (Demo.voAfter 3).ba.m_n →
        prob.constantFrames.length
          = ((Demo.voAfter 3).ba.m_N - (Demo.voAfter 3).ba.m_n).toNat) := by
  have hmode : (Demo.voAfter 3).ba.mMode = Mode.VO := by with_unfolding_all decide
  have hwin : (Demo.voAfter 3).ba.mWindow = [1, 2, 3] := by with_unfolding_all decide
  have hposes : PosesDefined (Demo.voAfter 3).ba.mMode (Demo.voAfter 3).ba.mWindow
      (Demo.voAfter 3).g := by
    unfold PosesDefined
    with_unfolding_all decide
  exact ⟨hmode, hwin, fixed_prefix_count (Demo.voAfter 3) hmode
    (by rw [hwin]; exact List.cons_ne_nil _ _) hposes (by with_unfolding_all decide)
    (by with_unfolding_all decide)⟩

/-! ## C20: when `optimize()` runs -/

theorem runOptimization_iff (w : World) :
    runOptimization w = true ↔ ∃ F ∈ w.ba.mWindow, ∃ f ∈ (w.g.frames F).features2D,
      (w.g.features f).feature3D.isSome = true := by
  unfold runOptimization
  simp only [List.any_eq_true]

theorem finish_nOptimize (ext : Ext) (fuel : Nat) (w : World) (fc : FrameId)
    (Rt : Option (Mat3 × Vec3)) (r : AddFrameResult) (h : finish ext fuel w fc Rt = some r) :
    r.nOptimize = if runOptimization w = true then 1 else 0 := by
  unfold finish at h
  dsimp only at h
  split at h
  · exact absurd h (by simp)
  · split at h
    · exact absurd h (by simp)
    · split at h
      · split at h
        · exact absurd h (by simp)
        · simp only [Option.some.injEq] at h; subst h; rfl
      · simp only [Option.some.injEq] at h; subst h; rfl

/-- C20: `optimize()` is called at most once per `addFrame`; on the second and every later
    frame (frame count at least 1 before the call) on which `addFrame` returns `true`, it is
    called if and only if, in the world the triangulation stage leaves behind, some 2D
    feature of some window frame has a 3D link. -/
theorem optimize_iff_linked (ext : Ext) (fuel : Nat) (w : World) (fr : FrameId) (R_rel : Mat3)
    (t_rel : Vec3) (r : AddFrameResult) (h : addFrame ext fuel w fr R_rel t_rel = some r) :
    r.nOptimize ≤ 1 ∧
    (1 ≤ w.ba.mFrameCount → r.ret = true → ∃ fp w1 st,
      predictPose ext (enterWindow ext w fr) fr fp R_rel t_rel = some w1 ∧
      (if w1.ba.mFrameCount = 2 then bootstrap ext w1 fr fp else steady ext w1 fr fp R_rel)
        = some st ∧
      (r.nOptimize = 1 ↔ ∃ F ∈ st.world.ba.mWindow, ∃ f ∈ (st.world.g.frames F).features2D,
        (st.world.g.features f).feature3D.isSome = true)) := by
  unfold addFrame at h
  dsimp only at h
  have hcount : (enterWindow ext w fr).ba.mFrameCount = w.ba.mFrameCount + 1 := rfl
  split at h
  · rename_i h1
    have hn : r.nOptimize = 0 := by
      unfold firstFrame at h
      split at h
      · split at h
        · exact absurd h (by simp)
        · simp only [Option.some.injEq] at h; subst h; rfl
      · simp only [Option.some.injEq] at h; subst h; rfl
    refine ⟨by omega, fun hc => ?_⟩
    rw [hcount] at h1
    omega
  · unfold laterFrame at h
    split at h
    · exact absurd h (by simp)
    · rename_i fp _
      split at h
      · exact absurd h (by simp)
      · rename_i w1 hpred
        split at h
        · exact absurd h (by simp)
        · rename_i st hst
          split at h
          · have hn := finish_nOptimize _ _ _ _ _ _ h
            refine ⟨by rw [hn]; split <;> omega, fun _ _ => ⟨fp, w1, st, hpred, hst, ?_⟩⟩
            rw [← runOptimization_iff, hn]
            by_cases hrun : runOptimization st.world = true
            · simp [hrun]
            · simp [hrun]
          · simp only [Option.some.injEq] at h
            subst h
            exact ⟨Nat.zero_le _, fun _ hret => absurd hret (by simp)⟩

/-- C20 on the second frame of the scene (pose-anchored). -/
theorem optimize_iff_linked_witness :
    ∃ r, addFrame Demo.ext 32 (Demo.sceneAfter 1) 2 Mat3.identity Vec3.zero = some r ∧
      r.nOptimize ≤ 1 ∧
      (1 ≤ (Demo.sceneAfter 1).ba.mFrameCount → r.ret = true → ∃ fp w1 st,
        predictPose Demo.ext (enterWindow Demo.ext (Demo.sceneAfter 1) 2) 2 fp Mat3.identity
          Vec3.zero = some w1 ∧
        (if w1.ba.mFrameCount = 2 then bootstrap Demo.ext w1 2 fp
          else steady Demo.ext w1 2 fp Mat3.identity) = some st ∧
        (r.nOptimize = 1 ↔ ∃ F ∈ st.world.ba.mWindow,
          ∃ f ∈ (st.world.g.frames F).features2D,
            (st.world.g.features f).feature3D.isSome = true)) := by
  have hsome : (addFrame Demo.ext 32 (Demo.sceneAfter 1) 2 Mat3.identity Vec3.zero).isSome
      = true := by with_unfolding_all decide
  obtain ⟨r, hr⟩ := Option.isSome_iff_exists.mp hsome
  exact ⟨r, hr, optimize_iff_linked _ _ _ _ _ _ _ hr⟩

/-! ## C12: the motion pairs of `addCamOdoCalibData` -/

theorem motions_spec (ext : Ext) (camPoses : List Mat4) (odoPoses : List Odometry) :
    ∀ (k i : Nat), i + k ≤ odoPoses.length → i + k ≤ camPoses.length →
      ∃ odoMotions camMotions,
        CamOdoThread.motions ext camPoses odoPoses i k = some (odoMotions, camMotions) ∧
        odoMotions.length = k ∧ camMotions.length = k ∧
        ∀ j, j < k → ∃ Pi Pp Ci Cp,
          odoPoses[i + j]? = some Pi ∧ odoPoses[i + j - 1]? = some Pp ∧
          camPoses[i + j]? = some Ci ∧ camPoses[i + j - 1]? = some Cp ∧
          camMotions[j]? = some (Mat4.mul Ci (ext.inverse Cp)) ∧
          odoMotions[j]? = some
            (Mat4.mul (ext.inverse (ext.odometryToMatrix Pi)) (ext.odometryToMatrix Pp)) := by
  intro k
  induction k with
  | zero =>
    intro i _ _
    exact ⟨[], [], rfl, rfl, rfl, fun j hj => absurd hj (Nat.not_lt_zero _)⟩
  | succ k ih =>
    intro i ho hc
    obtain ⟨om, cm, hm, hol, hcl, hall⟩ := ih (i + 1) (by omega) (by omega)
    have h1 : i < odoPoses.length := by omega
    have h2 : i - 1 < odoPoses.length := by omega
    have h3 : i < camPoses.length := by omega
    have h4 : i - 1 < camPoses.length := by omega
    refine ⟨Mat4.mul (ext.inverse (ext.odometryToMatrix odoPoses[i]))
        (ext.odometryToMatrix odoPoses[i - 1]) :: om,
      Mat4.mul camPoses[i] (ext.inverse camPoses[i - 1]) :: cm, ?_, ?_, ?_, ?_⟩
    · simp only [CamOdoThread.motions, List.getElem?_eq_getElem h1,
        List.getElem?_eq_getElem h2, List.getElem?_eq_getElem h3, List.getElem?_eq_getElem h4,
        hm]
    · simp only [List.length_cons, hol]
    · simp only [List.length_cons, hcl]
    · intro j hj
      cases j with
      | zero =>
        exact ⟨odoPoses[i], odoPoses[i - 1], camPoses[i], camPoses[i - 1],
          List.getElem?_eq_getElem h1, List.getElem?_eq_getElem h2,
          List.getElem?_eq_getElem h3, List.getElem?_eq_getElem h4,
          List.getElem?_cons_zero, List.getElem?_cons_zero⟩
      | succ j =>
        obtain ⟨Pi, Pp, Ci, Cp, a1, a2, a3, a4, a5, a6⟩ := hall j (by omega)
        have e1 : i + (j + 1) = i + 1 + j := by omega
        have e2 : i + (j + 1) - 1 = i + 1 + j - 1 := by omega
        refine ⟨Pi, Pp, Ci, Cp, ?_, ?_, ?_, ?_, ?_, ?_⟩
        · rw [e1]; exact a1
        · rw [e2]; exact a2
        · rw [e1]; exact a3
        · rw [e2]; exact a4
        · simpa using a5
        · simpa using a6

theorem toSizeT_minTrackLength : toSizeT k_minTrackLength = 15 := by decide

/-- C12 (the spec's instance): with five odometry poses and five camera poses, fewer than
    the minimum track length of 15, `addCamOdoCalibData` returns at its second test: nothing
    is submitted to the accumulator and no frame segment is appended. -/
theorem five_poses_no_motion :
    CamOdoThread.addCamOdoCalibData Demo.ext Demo.collab (Demo.pending PoseSource.ODOMETRY 5)
      ((List.range 5).map Demo.cameraAt) ((List.range 5).map Demo.odometryAt) [0, 1, 2, 3, 4]
      = some (.next (Demo.pending PoseSource.ODOMETRY 5) []) ∧
    (Demo.pending PoseSource.ODOMETRY 5).submitted = [] ∧
    (Demo.pending PoseSource.ODOMETRY 5).m_frameSegments = [] := by
  refine ⟨by with_unfolding_all decide, rfl, rfl⟩

/-- C12, amended: for every `n ≥ 15` (the minimum track length) and lists of `n` odometry
    poses `P` and `n` camera poses `C`, `addCamOdoCalibData` submits to the accumulator, in one
    call, exactly `n - 1` camera motions and `n - 1` odometry motions, in order, the motions
    of index `i - 1` being `C[i] * inverse(C[i-1])` and `inverse(P[i]) * P[i-1]` for
    `i = 1..n-1`; the accumulator accepting lists of equal length, the frame segment is
    appended to `m_frameSegments`. -/
theorem motion_pairs (ext : Ext) (co : CamOdoThread.Collab) (s : CamOdoThread.State)
    (camPoses : List Mat4) (odoPoses : List Odometry) (frameSegment : List FrameId)
    (hlen : odoPoses.length = camPoses.length) (hmin : 15 ≤ odoPoses.length)
    (hacc : ∀ cam odo : List Mat4, cam.length = odo.length →
      co.addMotionSegment cam odo = true) :
    ∃ camMotions odoMotions,
      CamOdoThread.addCamOdoCalibData ext co s camPoses odoPoses frameSegment =
        some (.next
          { s with submitted := s.submitted ++ [(camMotions, odoMotions)],
                   m_frameSegments := s.m_frameSegments ++ [frameSegment] }
          [Event.addMotionSegment]) ∧
      camMotions.length = odoPoses.length - 1 ∧ odoMotions.length = odoPoses.length - 1 ∧
      ∀ i, 1 ≤ i → i < odoPoses.length → ∃ Pi Pp Ci Cp,
        odoPoses[i]? = some Pi ∧ odoPoses[i - 1]? = some Pp ∧
        camPoses[i]? = some Ci ∧ camPoses[i - 1]? = some Cp ∧
        camMotions[i - 1]? = some (Mat4.mul Ci (ext.inverse Cp)) ∧
        odoMotions[i - 1]? = some
          (Mat4.mul (ext.inverse (ext.odometryToMatrix Pi)) (ext.odometryToMatrix Pp)) := by
  obtain ⟨om, cm, hm, hol, hcl, hall⟩ := motions_spec ext camPoses odoPoses
    (odoPoses.length - 1) 1 (by omega) (by omega)
  refine ⟨cm, om, ?_, hcl, hol, fun i h1 h2 => ?_⟩
  · unfold CamOdoThread.addCamOdoCalibData
    rw [if_neg (by simpa using hlen), toSizeT_minTrackLength, if_neg (by omega), hm]
    dsimp only
    rw [if_neg (by rw [hacc cm om (by rw [hcl, hol])]; simp)]
  · obtain ⟨Pi, Pp, Ci, Cp, a1, a2, a3, a4, a5, a6⟩ := hall (i - 1) (by omega)
    have e1 : 1 + (i - 1) = i := by omega
    rw [e1] at a1 a2 a3 a4
    exact ⟨Pi, Pp, Ci, Cp, a1, a2, a3, a4, a5, a6⟩

/-- C12, amended, on 15 odometry poses and 15 camera poses of a straight drive, with the
    accumulator of the interface description. -/
theorem motion_pairs_witness :
    ((List.range 15).map Demo.odometryAt).length = ((List.range 15).map Demo.cameraAt).length ∧
    15 ≤ ((List.range 15).map Demo.odometryAt).length ∧
    ∃ camMotions odoMotions,
      CamOdoThread.addCamOdoCalibData Demo.ext Demo.collab
          (Demo.pending PoseSource.ODOMETRY 15) ((List.range 15).map Demo.cameraAt)
          ((List.range 15).map Demo.odometryAt) (List.range 15) =
        some (.next
          { Demo.pending PoseSource.ODOMETRY 15 with
              submitted := (Demo.pending PoseSource.ODOMETRY 15).submitted ++
                [(camMotions, odoMotions)],
              m_frameSegments := (Demo.pending PoseSource.ODOMETRY 15).m_frameSegments ++
                [List.range 15] }
          [Event.addMotionSegment]) ∧
      camMotions.length = ((List.range 15).map Demo.odometryAt).length - 1 ∧
      odoMotions.length = ((List.range 15).map Demo.odometryAt).length - 1 ∧
      ∀ i, 1 ≤ i → i < ((List.range 15).map Demo.odometryAt).length → ∃ Pi Pp Ci Cp,
        ((List.range 15).map Demo.odometryAt)[i]? = some Pi ∧
        ((List.range 15).map Demo.odometryAt)[i - 1]? = some Pp ∧
        ((List.range 15).map Demo.cameraAt)[i]? = some Ci ∧
        ((List.range 15).map Demo.cameraAt)[i - 1]? = some Cp ∧
        camMotions[i - 1]? = some (Mat4.mul Ci (Demo.ext.inverse Cp)) ∧
        odoMotions[i - 1]? = some
          (Mat4.mul (Demo.ext.inverse (Demo.ext.odometryToMatrix Pi))
            (Demo.ext.odometryToMatrix Pp)) :=
  ⟨by decide, by decide,
    motion_pairs Demo.ext Demo.collab (Demo.pending PoseSource.ODOMETRY 15) _ _ _
      (by decide) (by decide)
      (fun cam odo h => by
        show CamOdoCalibration.addMotionSegment cam odo = true
        unfold CamOdoCalibration.addMotionSegment
        simpa using h)⟩

/-! ## C13: the pending poses after a track break -/

/-- After a track break that goes on, the pending buffer has lost its first
    `voPoses.size() - 1` poses and the counter has gone up by one. -/
theorem trackBreak_erases (ext : Ext) (co : CamOdoThread.Collab) (s s1 : CamOdoThread.State)
    (tk : CamOdoThread.Tick) (ev : List Event) (hne : s.odometryPoses ≠ [])
    (h : CamOdoThread.trackBreak ext co s tk = some (.next s1 ev)) :
    s1.odometryPoses = s.odometryPoses.drop (tk.voPoses.length - 1) ∧
    s1.trackBreaks = s.trackBreaks + 1 := by
  have hsub : ∀ (r : Option CamOdoThread.Step) (s2 : CamOdoThread.State) (e : List Event),
      (r = CamOdoThread.addCamOdoCalibData ext co s tk.voPoses s.odometryPoses tk.trackerFrames
        ∨ r = some (.next s [])) → r = some (.next s2 e) →
      s2.odometryPoses = s.odometryPoses ∧ s2.trackBreaks = s.trackBreaks := by
    intro r s2 e hr hr2
    rcases hr with hr | hr
    · rw [hr] at hr2
      unfold CamOdoThread.addCamOdoCalibData at hr2
      split at hr2
      · simp only [Option.some.injEq, CamOdoThread.Step.next.injEq] at hr2
        rw [← hr2.1]; exact ⟨rfl, rfl⟩
      · split at hr2
        · simp only [Option.some.injEq, CamOdoThread.Step.next.injEq] at hr2
          rw [← hr2.1]; exact ⟨rfl, rfl⟩
        · split at hr2
          · exact absurd hr2 (by simp)
          · dsimp only at hr2
            split at hr2
            · exact absurd hr2 (by simp)
            · simp only [Option.some.injEq, CamOdoThread.Step.next.injEq] at hr2
              rw [← hr2.1]; exact ⟨rfl, rfl⟩
    · rw [hr] at hr2
      simp only [Option.some.injEq, CamOdoThread.Step.next.injEq] at hr2
      rw [← hr2.1]; exact ⟨rfl, rfl⟩
  unfold CamOdoThread.trackBreak at h
  dsimp only at h
  split at h
  · exact absurd h (by simp)
  · exact absurd h (by simp)
  · rename_i s2 e hr
    obtain ⟨e1, e2⟩ := hsub _ s2 e (by split <;> simp) hr
    split at h
    · rename_i hemp
      rw [e1] at hemp
      exact absurd (List.isEmpty_iff.mp hemp) hne
    · split at h
      · exact absurd h (by simp)
      · simp only [Option.some.injEq, CamOdoThread.Step.next.injEq] at h
        rw [← h.1]
        exact ⟨by rw [e1], by rw [e2]⟩

/-- C13: a track break (here on the stop flag) with three pending odometry poses while the
    tracker's pose list holds two leaves two poses pending, not one: `erase` removes
    `voPoses.size() - 1 = 1` pose.  With an empty pose list the `erase` is undefined. -/
theorem track_break_keeps_two :
    CamOdoThread.pass Demo.ext Demo.collab (Demo.pending PoseSource.ODOMETRY 3)
      (Demo.stopTick 3 2) =
      some (.next ⟨PoseSource.ODOMETRY, [], false, none,
        [Demo.odometryAt 1, Demo.odometryAt 2], 1, true, []⟩
        [Event.trackerGetPoses, Event.notifyProcessingDone]) ∧
    (Demo.pending PoseSource.ODOMETRY 3).odometryPoses
      = [Demo.odometryAt 0, Demo.odometryAt 1, Demo.odometryAt 2] ∧
    (Demo.stopTick 3 2).voPoses.length = 2 ∧
    CamOdoThread.pass Demo.ext Demo.collab (Demo.pending PoseSource.ODOMETRY 3)
      (Demo.stopTick 3 0) = none := by
  refine ⟨by with_unfolding_all decide, by with_unfolding_all decide,
    by with_unfolding_all decide, by with_unfolding_all decide⟩

/-! ## C14: the interpolated odometry pose in GPS/INS mode -/

/-- C14: in GPS/INS mode the first image reaches frame construction with `interpOdo` still
    the null pointer (`find` and `interpolateOdometry` are guarded by
    `m_poseSource == ODOMETRY`), and the pass is undefined: line 337 dereferences it.  The
    same pass in ODOMETRY mode builds frame 1 with the interpolated pose as system pose. -/
theorem gps_ins_reads_unset_odometry :
    (Demo.thread PoseSource.GPS_INS).framePrev = none ∧
    (CamOdoThread.obtainOdometry (Demo.thread PoseSource.GPS_INS) (Demo.tick 1 1)
      = some (.pointer none [Event.lockOdometry, Event.unlockOdometry])) ∧
    CamOdoThread.pass Demo.ext Demo.collab (Demo.thread PoseSource.GPS_INS) (Demo.tick 1 1)
      = none ∧
    ((CamOdoThread.pass Demo.ext Demo.collab (Demo.thread PoseSource.ODOMETRY)
      (Demo.tick 1 1)).map fun st => st.state.framePrev)
      = some (some ⟨1, 1, Demo.odometryAt 1, Demo.odometryAt 1,
          some ⟨Quat.identity, ⟨0, 1, 0⟩, 1⟩⟩) := by
  refine ⟨rfl, rfl, by with_unfolding_all decide, by with_unfolding_all decide⟩

/-! ## C16: an image with the time stamp of the previous frame -/

/-- C16: when the stop flag is not set and the time stamp of the image equals the camera-pose
    time stamp of the previous frame, the pass only locks and unlocks the image,
    acknowledges it and ends: no mutex or interpolation event, no tracker call, and the state
    of the thread (pending poses, track-break counter, completed flag, previous frame) is
    the one before the pass. -/
theorem repeated_time_stamp (ext : Ext) (co : CamOdoThread.Collab) (s : CamOdoThread.State)
    (tk : CamOdoThread.Tick) (fp : KeyFrame) (hstop : tk.stop = false)
    (hprev : s.framePrev = some fp) (hts : tk.timeStamp = fp.cameraPoseTimeStamp) :
    CamOdoThread.pass ext co s tk =
      some (.next s [Event.lockData, Event.unlockData, Event.notifyProcessingDone]) := by
  unfold CamOdoThread.pass
  simp [hstop, hprev, hts]

/-- C16 on the odometry thread after its first frame (instant 1), fed the image of instant 1
    again. -/
theorem repeated_time_stamp_witness :
    (Demo.tick 1 1).stop = false ∧
    Demo.moving.framePrev = some ⟨1, 1, Demo.odometryAt 1, Demo.odometryAt 1,
      some ⟨Quat.identity, ⟨0, 1, 0⟩, 1⟩⟩ ∧
    CamOdoThread.pass Demo.ext Demo.collab Demo.moving (Demo.tick 1 1) =
      some (.next Demo.moving
        [Event.lockData, Event.unlockData, Event.notifyProcessingDone]) := by
  have hprev : Demo.moving.framePrev = some ⟨1, 1, Demo.odometryAt 1, Demo.odometryAt 1,
      some ⟨Quat.identity, ⟨0, 1, 0⟩, 1⟩⟩ := by with_unfolding_all decide
  exact ⟨rfl, hprev, repeated_time_stamp Demo.ext Demo.collab Demo.moving (Demo.tick 1 1) _
    rfl hprev rfl⟩

/-! ## C17: the exit status of the fatal paths -/

/-- C17: the two interpolation timeouts end the process with status 1, but a motion segment
    the accumulator rejects (here at the stop with 15 pending poses and 15 tracker poses)
    ends it with status 0. -/
theorem rejected_segment_exit_status :
    ((CamOdoThread.pass Demo.ext Demo.collab (Demo.thread PoseSource.ODOMETRY)
      (Demo.lateOdometryTick 1 1)).map fun st => st.status) = some (some 1) ∧
    ((CamOdoThread.pass Demo.ext Demo.collab (Demo.thread PoseSource.ODOMETRY)
      (Demo.lateGpsInsTick 1 1)).map fun st => st.status) = some (some 1) ∧
    ((CamOdoThread.pass Demo.ext Demo.rejecting (Demo.pending PoseSource.ODOMETRY 15)
      (Demo.stopTick 15 15)).map fun st => (st.status, st.events))
      = some (some 0, [Event.trackerGetPoses, Event.addMotionSegment]) := by
  refine ⟨by with_unfolding_all decide, by with_unfolding_all decide,
    by with_unfolding_all decide⟩

/-! ## C15: the key-frame test -/

theorem tooNear_iff (s : CamOdoThread.State) (pos : Vec3) :
    CamOdoThread.tooNear s pos = true ↔ ∃ fp, s.framePrev = some fp ∧
      (pos.sub fp.systemPose.position).normSq < k_keyFrameDistance * k_keyFrameDistance := by
  unfold CamOdoThread.tooNear
  cases s.framePrev with
  | none => simp
  | some fp => simp

theorem addCamOdoCalibData_framePrev (ext : Ext) (co : CamOdoThread.Collab)
    (s : CamOdoThread.State) (camPoses : List Mat4) (odoPoses : List Odometry)
    (seg : List FrameId) (st : CamOdoThread.Step)
    (h : CamOdoThread.addCamOdoCalibData ext co s camPoses odoPoses seg = some st) :
    st.state.framePrev = s.framePrev ∧ Event.trackerAddFrame ∉ st.events := by
  unfold CamOdoThread.addCamOdoCalibData at h
  split at h
  · simp only [Option.some.injEq] at h; subst h; exact ⟨rfl, by simp [CamOdoThread.Step.events]⟩
  · split at h
    · simp only [Option.some.injEq] at h; subst h
      exact ⟨rfl, by simp [CamOdoThread.Step.events]⟩
    · split at h
      · exact absurd h (by simp)
      · dsimp only at h
        split at h
        · simp only [Option.some.injEq] at h; subst h
          exact ⟨rfl, by simp [CamOdoThread.Step.events]⟩
        · simp only [Option.some.injEq] at h; subst h
          exact ⟨rfl, by simp [CamOdoThread.Step.events]⟩

theorem trackBreak_framePrev (ext : Ext) (co : CamOdoThread.Collab) (s : CamOdoThread.State)
    (tk : CamOdoThread.Tick) (st : CamOdoThread.Step)
    (h : CamOdoThread.trackBreak ext co s tk = some st) :
    st.state.framePrev = s.framePrev := by
  have hsub : ∀ (r : Option CamOdoThread.Step) (st2 : CamOdoThread.Step),
      (r = CamOdoThread.addCamOdoCalibData ext co s tk.voPoses s.odometryPoses tk.trackerFrames
        ∨ r = some (.next s [])) → r = some st2 → st2.state.framePrev = s.framePrev := by
    intro r st2 hr hr2
    rcases hr with hr | hr
    · rw [hr] at hr2
      exact (addCamOdoCalibData_framePrev _ _ _ _ _ _ _ hr2).1
    · rw [hr] at hr2
      simp only [Option.some.injEq] at hr2
      subst hr2; rfl
  unfold CamOdoThread.trackBreak at h
  dsimp only at h
  split at h
  · exact absurd h (by simp)
  · rename_i status s1 ev hr
    have := hsub _ _ (by split <;> simp) hr
    simp only [Option.some.injEq] at h; subst h
    exact this
  · rename_i s1 ev hr
    have := hsub _ _ (by split <;> simp) hr
    split at h
    · simp only [Option.some.injEq] at h; subst h; exact this
    · split at h
      · exact absurd h (by simp)
      · simp only [Option.some.injEq] at h; subst h; exact this

theorem finishPass_state (co : CamOdoThread.Collab) (tk : CamOdoThread.Tick)
    (s : CamOdoThread.State) (ev : List Event) :
    (CamOdoThread.finishPass co tk s ev).state.framePrev = s.framePrev ∧
    (CamOdoThread.finishPass co tk s ev).state.odometryPoses = s.odometryPoses ∧
    (CamOdoThread.finishPass co tk s ev).events = ev ++ [Event.notifyProcessingDone] :=
  ⟨rfl, rfl, rfl⟩

/-- A frame that is built is the previous frame of every outcome, and the tracker was called. -/
theorem buildFrame_frame (ext : Ext) (co : CamOdoThread.Collab) (s : CamOdoThread.State)
    (tk : CamOdoThread.Tick) (odo : Odometry) (gi : Option Pose) (ev : List Event)
    (hsrc : s.m_poseSource = PoseSource.ODOMETRY) (st : CamOdoThread.Step)
    (h : CamOdoThread.buildFrame ext co s tk (some odo) gi ev = some st) :
    st.state.framePrev = some ⟨tk.frame, tk.timeStamp, odo, odo, gi⟩ ∧
    Event.trackerAddFrame ∈ st.events := by
  unfold CamOdoThread.buildFrame at h
  have hne : ¬ s.m_poseSource = PoseSource.GPS_INS := by rw [hsrc]; decide
  simp only [hne, if_false] at h
  split at h
  · rename_i sys cp hsys hcp
    simp only [Option.some.injEq] at hsys
    subst hsys
    split at h
    · simp only [Option.some.injEq] at h; subst h
      exact ⟨rfl, by simp [CamOdoThread.finishPass, CamOdoThread.Step.events]⟩
    · split at h
      · exact absurd h (by simp)
      · rename_i status s2 e hb
        simp only [Option.some.injEq] at h; subst h
        exact ⟨trackBreak_framePrev _ _ _ _ _ hb, by simp [CamOdoThread.Step.events]⟩
      · rename_i s2 e hb
        simp only [Option.some.injEq] at h; subst h
        exact ⟨trackBreak_framePrev _ _ _ _ _ hb,
          by simp [CamOdoThread.finishPass, CamOdoThread.Step.events]⟩
  · exact absurd h (by simp)

theorem buildFrame_defined (ext : Ext) (co : CamOdoThread.Collab) (s : CamOdoThread.State)
    (tk : CamOdoThread.Tick) (odo : Odometry) (gi : Option Pose) (ev : List Event)
    (hsrc : s.m_poseSource = PoseSource.ODOMETRY) (hvalid : tk.camValid = true)
    (hpose : tk.cameraPose.isSome = true) :
    ∃ st, CamOdoThread.buildFrame ext co s tk (some odo) gi ev = some st := by
  obtain ⟨cp, hcp⟩ := Option.isSome_iff_exists.mp hpose
  have hne : ¬ s.m_poseSource = PoseSource.GPS_INS := by rw [hsrc]; decide
  unfold CamOdoThread.buildFrame
  simp only [hne, if_false, hcp, hvalid, if_true]
  exact ⟨_, rfl⟩

theorem retry_events {α : Type} (call : Event) (hcall : call ≠ Event.trackerAddFrame) :
    ∀ (l : List (Option α × ℚ)) (r : Option α) (ev : List Event),
      CamOdoThread.retry call l = some (r, ev) → Event.trackerAddFrame ∉ ev := by
  intro l
  induction l with
  | nil => intro r ev h; simp [CamOdoThread.retry] at h
  | cons a rest ih =>
    intro r ev h
    obtain ⟨x, elapsed⟩ := a
    cases x with
    | some v =>
      simp only [CamOdoThread.retry, Option.some.injEq, Prod.mk.injEq] at h
      rw [← h.2]
      simpa using hcall.symm
    | none =>
      simp only [CamOdoThread.retry] at h
      split at h
      · simp only [Option.some.injEq, Prod.mk.injEq] at h
        rw [← h.2]
        simpa using hcall.symm
      · split at h
        · exact absurd h (by simp)
        · rename_i r1 ev1 hr
          simp only [Option.some.injEq, Prod.mk.injEq] at h
          rw [← h.2]
          have := ih _ _ hr
          simp only [List.mem_cons, not_or]
          exact ⟨hcall.symm, by decide, this⟩

theorem obtainOdometry_events (s : CamOdoThread.State) (tk : CamOdoThread.Tick)
    (p : Option Odometry) (ev : List Event)
    (h : CamOdoThread.obtainOdometry s tk = some (.pointer p ev)) :
    Event.trackerAddFrame ∉ ev := by
  unfold CamOdoThread.obtainOdometry at h
  split at h
  · split at h
    · simp only [Option.some.injEq, CamOdoThread.Fetched.pointer.injEq] at h
      rw [← h.2]; decide
    · split at h
      · exact absurd h (by simp)
      · simp at h
      · rename_i o e hr
        simp only [Option.some.injEq, CamOdoThread.Fetched.pointer.injEq] at h
        rw [← h.2]
        have := retry_events Event.interpolateOdometry (by decide) _ _ _ hr
        simp only [List.mem_append, List.mem_cons, not_or]
        simp [this]
  · simp only [Option.some.injEq, CamOdoThread.Fetched.pointer.injEq] at h
    rw [← h.2]; decide

theorem obtainGpsIns_events (s : CamOdoThread.State) (tk : CamOdoThread.Tick)
    (p : Option Pose) (ev : List Event)
    (h : CamOdoThread.obtainGpsIns s tk = some (.pointer p ev)) :
    Event.trackerAddFrame ∉ ev := by
  unfold CamOdoThread.obtainGpsIns at h
  split at h
  · split at h
    · simp only [Option.some.injEq, CamOdoThread.Fetched.pointer.injEq] at h
      rw [← h.2]; decide
    · split at h
      · exact absurd h (by simp)
      · simp at h
      · rename_i o e hr
        simp only [Option.some.injEq, CamOdoThread.Fetched.pointer.injEq] at h
        rw [← h.2]
        have := retry_events Event.interpolatePose (by decide) _ _ _ hr
        simp only [List.mem_append, List.mem_cons, not_or]
        simp [this]
  · simp only [Option.some.injEq, CamOdoThread.Fetched.pointer.injEq] at h
    rw [← h.2]; decide

/-- In ODOMETRY mode a pass that gets through both interpolation stages ends in the
    key-frame test. -/
theorem pass_gate (ext : Ext) (co : CamOdoThread.Collab) (s : CamOdoThread.State)
    (tk : CamOdoThread.Tick) (odo : Odometry) (gi : Option Pose) (e1 e2 : List Event)
    (hsrc : s.m_poseSource = PoseSource.ODOMETRY) (hstop : tk.stop = false)
    (hts : ∀ fp, s.framePrev = some fp → tk.timeStamp ≠ fp.cameraPoseTimeStamp)
    (hcur : tk.odometryCurrent = true)
    (ho : CamOdoThread.obtainOdometry s tk = some (.pointer (some odo) e1))
    (hg : CamOdoThread.obtainGpsIns s tk = some (.pointer gi e2)) :
    CamOdoThread.pass ext co s tk =
      if CamOdoThread.tooNear s odo.position = true then
        some (.next s ([Event.lockData, Event.unlockData] ++ e1 ++ e2 ++
          [Event.notifyProcessingDone]))
      else CamOdoThread.buildFrame ext co s tk (some odo) gi
        ([Event.lockData, Event.unlockData] ++ e1 ++ e2) := by
  have hne : ¬ s.m_poseSource = PoseSource.GPS_INS := by rw [hsrc]; decide
  have hrep : (match s.framePrev with
      | none => false
      | some fp => decide (tk.timeStamp = fp.cameraPoseTimeStamp)) = false := by
    cases hfp : s.framePrev with
    | none => rfl
    | some fp => simpa using hts fp hfp
  unfold CamOdoThread.pass
  simp [hstop, hrep, hcur, ho, hg, hsrc]

/-- C15 (an image with no previous frame that does not become a frame): in ODOMETRY mode,
    before any frame has been built, an image that arrives while the odometry buffer has no
    current sample is acknowledged and the pass ends with the state unchanged; no frame is
    built and the tracker is not called. -/
theorem first_image_without_sample_no_frame :
    (Demo.thread PoseSource.ODOMETRY).framePrev = none ∧
    (Demo.emptyTick 1 1).stop = false ∧
    CamOdoThread.pass Demo.ext Demo.collab (Demo.thread PoseSource.ODOMETRY)
      (Demo.emptyTick 1 1) =
      some (.next (Demo.thread PoseSource.ODOMETRY)
        [Event.lockData, Event.unlockData, Event.notifyProcessingDone]) := by
  refine ⟨rfl, rfl, by with_unfolding_all decide⟩

/-- C15, amended: in ODOMETRY mode, for an image that reaches the key-frame test (stop flag
    not set, time stamp different from the one of the previous frame, a current sample in
    the odometry buffer, both interpolation stages passed, leaving the interpolated odometry
    pose `odo`): if there is a previous frame and the squared distance between `odo`'s
    position and the position of the previous frame's system pose is below `0.25²`, the
    image is acknowledged and the pass ends with the state of the thread unchanged (no
    frame, pending poses as before) and without a tracker call; otherwise every outcome of
    the pass has the new frame, with system pose `odo`, as previous frame and the tracker
    was called, and the pass has an outcome when the tracker accepts the frame and leaves it
    a camera pose. -/
theorem key_frame_gate (ext : Ext) (co : CamOdoThread.Collab) (s : CamOdoThread.State)
    (tk : CamOdoThread.Tick) (odo : Odometry) (gi : Option Pose) (e1 e2 : List Event)
    (hsrc : s.m_poseSource = PoseSource.ODOMETRY) (hstop : tk.stop = false)
    (hts : ∀ fp, s.framePrev = some fp → tk.timeStamp ≠ fp.cameraPoseTimeStamp)
    (hcur : tk.odometryCurrent = true)
    (ho : CamOdoThread.obtainOdometry s tk = some (.pointer (some odo) e1))
    (hg : CamOdoThread.obtainGpsIns s tk = some (.pointer gi e2)) :
    ((∃ fp, s.framePrev = some fp ∧
        (odo.position.sub fp.systemPose.position).normSq
          < k_keyFrameDistance * k_keyFrameDistance) →
      CamOdoThread.pass ext co s tk =
        some (.next s ([Event.lockData, Event.unlockData] ++ e1 ++ e2 ++
          [Event.notifyProcessingDone])) ∧
      Event.trackerAddFrame ∉
        [Event.lockData, Event.unlockData] ++ e1 ++ e2 ++ [Event.notifyProcessingDone]) ∧
    ((¬ ∃ fp, s.framePrev = some fp ∧
        (odo.position.sub fp.systemPose.position).normSq
          < k_keyFrameDistance * k_keyFrameDistance) →
      (∀ st, CamOdoThread.pass ext co s tk = some st →
        st.state.framePrev = some ⟨tk.frame, tk.timeStamp, odo, odo, gi⟩ ∧
        Event.trackerAddFrame ∈ st.events) ∧
      (tk.camValid = true → tk.cameraPose.isSome = true →
        ∃ st, CamOdoThread.pass ext co s tk = some st)) := by
  have hpass := pass_gate ext co s tk odo gi e1 e2 hsrc hstop hts hcur ho hg
  have hn1 := obtainOdometry_events s tk _ _ ho
  have hn2 := obtainGpsIns_events s tk _ _ hg
  constructor
  · intro hnear
    rw [if_pos ((tooNear_iff s odo.position).mpr hnear)] at hpass
    refine ⟨hpass, ?_⟩
    simp only [List.mem_append, List.mem_cons, not_or]
    simp [hn1, hn2]
  · intro hfar
    have hfalse : ¬ CamOdoThread.tooNear s odo.position = true :=
      fun h => hfar ((tooNear_iff s odo.position).mp h)
    rw [if_neg hfalse] at hpass
    refine ⟨fun st hst => ?_, fun hvalid hpose => ?_⟩
    · rw [hpass] at hst
      exact buildFrame_frame ext co s tk odo gi _ hsrc st hst
    · rw [hpass]
      exact buildFrame_defined ext co s tk odo gi _ hsrc hvalid hpose

/-- C15, amended, on the odometry thread after its first frame (vehicle at `(1, 0, 0)`), fed
    the image of instant 2 (vehicle at `(2, 0, 0)`). -/
theorem key_frame_gate_witness :
    Demo.moving.m_poseSource = PoseSource.ODOMETRY ∧ (Demo.tick 2 2).stop = false ∧
    Demo.moving.framePrev = some ⟨1, 1, Demo.odometryAt 1, Demo.odometryAt 1,
      some ⟨Quat.identity, ⟨0, 1, 0⟩, 1⟩⟩ ∧
    (Demo.tick 2 2).timeStamp = 2 ∧ (Demo.tick 2 2).odometryCurrent = true ∧
    CamOdoThread.obtainOdometry Demo.moving (Demo.tick 2 2) =
      some (.pointer (some (Demo.odometryAt 2))
        [Event.lockOdometry, Event.findOdometry, Event.interpolateOdometry,
          Event.pushOdometry, Event.unlockOdometry]) ∧
    CamOdoThread.obtainGpsIns Demo.moving (Demo.tick 2 2) =
      some (.pointer (some ⟨Quat.identity, ⟨0, 2, 0⟩, 2⟩)
        [Event.lockGpsIns, Event.findGpsIns, Event.interpolatePose, Event.pushGpsIns,
          Event.unlockGpsIns]) ∧
    ((∃ fp, Demo.moving.framePrev = some fp ∧
        ((Demo.odometryAt 2).position.sub fp.systemPose.position).normSq
          < k_keyFrameDistance * k_keyFrameDistance) →
      CamOdoThread.pass Demo.ext Demo.collab Demo.moving (Demo.tick 2 2) =
        some (.next Demo.moving ([Event.lockData, Event.unlockData] ++
          [Event.lockOdometry, Event.findOdometry, Event.interpolateOdometry,
            Event.pushOdometry, Event.unlockOdometry] ++
          [Event.lockGpsIns, Event.findGpsIns, Event.interpolatePose, Event.pushGpsIns,
            Event.unlockGpsIns] ++ [Event.notifyProcessingDone])) ∧
      Event.trackerAddFrame ∉
        [Event.lockData, Event.unlockData] ++
          [Event.lockOdometry, Event.findOdometry, Event.interpolateOdometry,
            Event.pushOdometry, Event.unlockOdometry] ++
          [Event.lockGpsIns, Event.findGpsIns, Event.interpolatePose, Event.pushGpsIns,
            Event.unlockGpsIns] ++ [Event.notifyProcessingDone]) ∧
    ((¬ ∃ fp, Demo.moving.framePrev = some fp ∧
        ((Demo.odometryAt 2).position.sub fp.systemPose.position).normSq
          < k_keyFrameDistance * k_keyFrameDistance) →
      (∀ st, CamOdoThread.pass Demo.ext Demo.collab Demo.moving (Demo.tick 2 2) = some st →
        st.state.framePrev = some ⟨(Demo.tick 2 2).frame, (Demo.tick 2 2).timeStamp,
          Demo.odometryAt 2, Demo.odometryAt 2, some ⟨Quat.identity, ⟨0, 2, 0⟩, 2⟩⟩ ∧
        Event.trackerAddFrame ∈ st.events) ∧
      ((Demo.tick 2 2).camValid = true → (Demo.tick 2 2).cameraPose.isSome = true →
        ∃ st, CamOdoThread.pass Demo.ext Demo.collab Demo.moving (Demo.tick 2 2) = some st)) := by
  have hsrc : Demo.moving.m_poseSource = PoseSource.ODOMETRY := by with_unfolding_all decide
  have hprev : Demo.moving.framePrev = some ⟨1, 1, Demo.odometryAt 1, Demo.odometryAt 1,
      some ⟨Quat.identity, ⟨0, 1, 0⟩, 1⟩⟩ := by with_unfolding_all decide
  have ho : CamOdoThread.obtainOdometry Demo.moving (Demo.tick 2 2) =
      some (.pointer (some (Demo.odometryAt 2))
        [Event.lockOdometry, Event.findOdometry, Event.interpolateOdometry,
          Event.pushOdometry, Event.unlockOdometry]) := by with_unfolding_all decide
  have hg : CamOdoThread.obtainGpsIns Demo.moving (Demo.tick 2 2) =
      some (.pointer (some ⟨Quat.identity, ⟨0, 2, 0⟩, 2⟩)
        [Event.lockGpsIns, Event.findGpsIns, Event.interpolatePose, Event.pushGpsIns,
          Event.unlockGpsIns]) := by with_unfolding_all decide
  exact ⟨hsrc, rfl, hprev, rfl, rfl, ho, hg,
    key_frame_gate Demo.ext Demo.collab Demo.moving (Demo.tick 2 2) (Demo.odometryAt 2)
      (some ⟨Quat.identity, ⟨0, 2, 0⟩, 2⟩) _ _ hsrc rfl
      (fun fp hfp => by
        rw [hprev] at hfp
        simp only [Option.some.injEq] at hfp
        subst hfp
        decide)
      rfl ho hg⟩

/-! ## C18: the mutexes and the retry-wait loop -/

theorem neverBoth_head (h : Held) (ev : List Event) (hn : neverBoth h ev = true) :
    (h.odometry && h.gpsIns) = false := by
  obtain ⟨o, g⟩ := h
  cases ev <;> cases o <;> cases g <;> simp_all [neverBoth]

theorem Locked.nil (h : Held) (hb : (h.odometry && h.gpsIns) = false) : Locked h [] h :=
  ⟨rfl, by simp [neverBoth, hb], rfl⟩

theorem Locked.cons {h h' : Held} {e : Event} {es : List Event}
    (hs : e = Event.usleep → (h.odometry != h.gpsIns) = true)
    (hb : (h.odometry && h.gpsIns) = false) (hrest : Locked (h.after e) es h') :
    Locked h (e :: es) h' := by
  obtain ⟨a, b, c⟩ := hrest
  refine ⟨?_, ?_, ?_⟩
  · simp only [sleepsOnlyWhen, Bool.and_eq_true, Bool.or_eq_true, decide_eq_true_eq]
    refine ⟨?_, a⟩
    by_cases he : e = Event.usleep
    · exact Or.inr (hs he)
    · exact Or.inl he
  · simp only [neverBoth, Bool.and_eq_true, Bool.not_eq_true']
    exact ⟨hb, b⟩
  · simpa [Held.afterAll] using c

theorem Locked.append {h h1 h2 : Held} {a b : List Event} (ha : Locked h a h1)
    (hb : Locked h1 b h2) : Locked h (a ++ b) h2 := by
  induction a generalizing h with
  | nil =>
    obtain ⟨_, _, c⟩ := ha
    simp only [Held.afterAll, List.foldl_nil] at c
    subst c
    exact hb
  | cons e es ih =>
    obtain ⟨x, y, z⟩ := ha
    simp only [sleepsOnlyWhen, Bool.and_eq_true, Bool.or_eq_true, decide_eq_true_eq] at x
    simp only [neverBoth, Bool.and_eq_true, Bool.not_eq_true'] at y
    have hrest : Locked (h.after e) es h1 := ⟨x.2, y.2, by simpa [Held.afterAll] using z⟩
    refine Locked.cons (fun he => ?_) y.1 (ih hrest)
    rcases x.1 with x1 | x1
    · exact absurd he x1
    · exact x1

theorem Locked.quiet {h : Held} {ev : List Event} (hq : ev.all Event.quiet = true)
    (hb : (h.odometry && h.gpsIns) = false) : Locked h ev h := by
  induction ev with
  | nil => exact Locked.nil h hb
  | cons e es ih =>
    simp only [List.all_cons, Bool.and_eq_true] at hq
    have hafter : h.after e = h := by cases e <;> first | rfl | simp [Event.quiet] at hq
    refine Locked.cons (fun he => ?_) hb ?_
    · rw [he] at hq; simp [Event.quiet] at hq
    · rw [hafter]; exact ih hq.2

theorem retry_locked {α : Type} (call : Event) (hcall : call.quiet = true) :
    ∀ (l : List (Option α × ℚ)) (r : Option α) (ev : List Event),
      CamOdoThread.retry call l = some (r, ev) → ∀ h : Held,
        (h.odometry != h.gpsIns) = true → Locked h ev h := by
  intro l
  induction l with
  | nil => intro r ev h; simp [CamOdoThread.retry] at h
  | cons a rest ih =>
    intro r ev h hd hx
    have hb : (hd.odometry && hd.gpsIns) = false := by
      cases hd with
      | mk o g => cases o <;> cases g <;> simp_all
    have hone : Locked hd [call] hd := Locked.quiet (by simp [hcall]) hb
    obtain ⟨x, elapsed⟩ := a
    cases x with
    | some v =>
      simp only [CamOdoThread.retry, Option.some.injEq, Prod.mk.injEq] at h
      rw [← h.2]; exact hone
    | none =>
      simp only [CamOdoThread.retry] at h
      split at h
      · simp only [Option.some.injEq, Prod.mk.injEq] at h
        rw [← h.2]; exact hone
      · split at h
        · exact absurd h (by simp)
        · rename_i r1 ev1 hr
          simp only [Option.some.injEq, Prod.mk.injEq] at h
          rw [← h.2]
          have hsleep : Locked hd [Event.usleep] hd :=
            Locked.cons (fun _ => hx) hb (Locked.nil _ hb)
          exact Locked.append hone (Locked.append hsleep (ih _ _ hr hd hx))

theorem obtainOdometry_locked (s : CamOdoThread.State) (tk : CamOdoThread.Tick)
    (f : CamOdoThread.Fetched Odometry) (h : CamOdoThread.obtainOdometry s tk = some f) :
    match f with
    | .pointer _ ev => Locked ⟨false, false⟩ ev ⟨false, false⟩
    | .timeout ev => Locked ⟨false, false⟩ ev ⟨true, false⟩ := by
  have hlock : Locked ⟨false, false⟩ [Event.lockOdometry, Event.findOdometry] ⟨true, false⟩ :=
    ⟨by decide, by decide, by decide⟩
  have hunlock : Locked ⟨true, false⟩ [Event.pushOdometry, Event.unlockOdometry]
      ⟨false, false⟩ := ⟨by decide, by decide, by decide⟩
  unfold CamOdoThread.obtainOdometry at h
  split at h
  · split at h
    · simp only [Option.some.injEq] at h; subst h
      exact ⟨by decide, by decide, by decide⟩
    · split at h
      · exact absurd h (by simp)
      · rename_i ev hr
        simp only [Option.some.injEq] at h; subst h
        exact Locked.append hlock (retry_locked _ (by decide) _ _ _ hr ⟨true, false⟩ (by decide))
      · rename_i o ev hr
        simp only [Option.some.injEq] at h; subst h
        exact Locked.append (Locked.append hlock
          (retry_locked _ (by decide) _ _ _ hr ⟨true, false⟩ (by decide))) hunlock
  · simp only [Option.some.injEq] at h; subst h
    exact ⟨by decide, by decide, by decide⟩

theorem obtainGpsIns_locked (s : CamOdoThread.State) (tk : CamOdoThread.Tick)
    (f : CamOdoThread.Fetched Pose) (h : CamOdoThread.obtainGpsIns s tk = some f) :
    match f with
    | .pointer _ ev => Locked ⟨false, false⟩ ev ⟨false, false⟩
    | .timeout ev => Locked ⟨false, false⟩ ev ⟨false, true⟩ := by
  have hlock : Locked ⟨false, false⟩ [Event.lockGpsIns, Event.findGpsIns] ⟨false, true⟩ :=
    ⟨by decide, by decide, by decide⟩
  have hunlock : Locked ⟨false, true⟩ [Event.pushGpsIns, Event.unlockGpsIns]
      ⟨false, false⟩ := ⟨by decide, by decide, by decide⟩
  unfold CamOdoThread.obtainGpsIns at h
  split at h
  · split at h
    · simp only [Option.some.injEq] at h; subst h
      exact ⟨by decide, by decide, by decide⟩
    · split at h
      · exact absurd h (by simp)
      · rename_i ev hr
        simp only [Option.some.injEq] at h; subst h
        exact Locked.append hlock (retry_locked _ (by decide) _ _ _ hr ⟨false, true⟩ (by decide))
      · rename_i o ev hr
        simp only [Option.some.injEq] at h; subst h
        exact Locked.append (Locked.append hlock
          (retry_locked _ (by decide) _ _ _ hr ⟨false, true⟩ (by decide))) hunlock
  · simp only [Option.some.injEq] at h; subst h
    exact ⟨by decide, by decide, by decide⟩

theorem addCamOdoCalibData_quiet (ext : Ext) (co : CamOdoThread.Collab)
    (s : CamOdoThread.State) (camPoses : List Mat4) (odoPoses : List Odometry)
    (seg : List FrameId) (st : CamOdoThread.Step)
    (h : CamOdoThread.addCamOdoCalibData ext co s camPoses odoPoses seg = some st) :
    st.events.all Event.quiet = true := by
  unfold CamOdoThread.addCamOdoCalibData at h
  split at h
  · simp only [Option.some.injEq] at h; subst h; rfl
  · split at h
    · simp only [Option.some.injEq] at h; subst h; rfl
    · split at h
      · exact absurd h (by simp)
      · dsimp only at h
        split at h
        · simp only [Option.some.injEq] at h; subst h; rfl
        · simp only [Option.some.injEq] at h; subst h; rfl

theorem trackBreak_quiet (ext : Ext) (co : CamOdoThread.Collab) (s : CamOdoThread.State)
    (tk : CamOdoThread.Tick) (st : CamOdoThread.Step)
    (h : CamOdoThread.trackBreak ext co s tk = some st) :
    st.events.all Event.quiet = true := by
  have hsub : ∀ (r : Option CamOdoThread.Step) (st2 : CamOdoThread.Step),
      (r = CamOdoThread.addCamOdoCalibData ext co s tk.voPoses s.odometryPoses tk.trackerFrames
        ∨ r = some (.next s [])) → r = some st2 → st2.events.all Event.quiet = true := by
    intro r st2 hr hr2
    rcases hr with hr | hr
    · rw [hr] at hr2
      exact addCamOdoCalibData_quiet _ _ _ _ _ _ _ hr2
    · rw [hr] at hr2
      simp only [Option.some.injEq] at hr2
      subst hr2; rfl
  unfold CamOdoThread.trackBreak at h
  dsimp only at h
  split at h
  · exact absurd h (by simp)
  · rename_i status s1 ev hr
    have := hsub _ _ (by split <;> simp) hr
    simp only [Option.some.injEq] at h; subst h
    simpa [CamOdoThread.Step.events, Event.quiet] using this
  · rename_i s1 ev hr
    have := hsub _ _ (by split <;> simp) hr
    split at h
    · simp only [Option.some.injEq] at h; subst h
      simpa [CamOdoThread.Step.events, Event.quiet] using this
    · split at h
      · exact absurd h (by simp)
      · simp only [Option.some.injEq] at h; subst h
        simpa [CamOdoThread.Step.events, Event.quiet] using this

theorem buildFrame_events (ext : Ext) (co : CamOdoThread.Collab) (s : CamOdoThread.State)
    (tk : CamOdoThread.Tick) (io : Option Odometry) (gi : Option Pose) (ev : List Event)
    (st : CamOdoThread.Step) (h : CamOdoThread.buildFrame ext co s tk io gi ev = some st) :
    ∃ tail, st.events = ev ++ tail ∧ tail.all Event.quiet = true := by
  unfold CamOdoThread.buildFrame at h
  split at h
  · exact absurd h (by simp)
  · dsimp only at h
    split at h
    · split at h
      · simp only [Option.some.injEq] at h; subst h
        exact ⟨[Event.trackerAddFrame, Event.notifyProcessingDone],
          by simp [CamOdoThread.finishPass, CamOdoThread.Step.events], rfl⟩
      · split at h
        · exact absurd h (by simp)
        · rename_i status s2 e hb
          have hq := trackBreak_quiet _ _ _ _ _ hb
          simp only [Option.some.injEq] at h; subst h
          exact ⟨Event.trackerAddFrame :: e, by simp [CamOdoThread.Step.events],
            by simpa [CamOdoThread.Step.events, Event.quiet] using hq⟩
        · rename_i s2 e hb
          have hq := trackBreak_quiet _ _ _ _ _ hb
          simp only [Option.some.injEq] at h; subst h
          exact ⟨Event.trackerAddFrame :: (e ++ [Event.notifyProcessingDone]),
            by simp [CamOdoThread.finishPass, CamOdoThread.Step.events],
            by simpa [CamOdoThread.Step.events, Event.quiet] using hq⟩
    · exact absurd h (by simp)

/-- The locking discipline of one pass. -/
theorem pass_locked (ext : Ext) (co : CamOdoThread.Collab) (s : CamOdoThread.State)
    (tk : CamOdoThread.Tick) (st : CamOdoThread.Step)
    (h : CamOdoThread.pass ext co s tk = some st) :
    ∃ h', Locked ⟨false, false⟩ st.events h' ∧ (st.status = none → h' = ⟨false, false⟩) := by
  have hfree : ((⟨false, false⟩ : Held).odometry && (⟨false, false⟩ : Held).gpsIns) = false :=
    rfl
  have hhead : Locked ⟨false, false⟩ [Event.lockData, Event.unlockData] ⟨false, false⟩ :=
    Locked.quiet rfl hfree
  unfold CamOdoThread.pass at h
  split at h
  · split at h
    · exact absurd h (by simp)
    · rename_i status s1 ev hb
      have hq := trackBreak_quiet _ _ _ _ _ hb
      simp only [Option.some.injEq] at h; subst h
      exact ⟨_, Locked.quiet hq hfree, fun _ => rfl⟩
    · rename_i s1 ev hb
      have hq := trackBreak_quiet _ _ _ _ _ hb
      simp only [Option.some.injEq] at h; subst h
      refine ⟨_, Locked.quiet ?_ hfree, fun _ => rfl⟩
      simpa [CamOdoThread.finishPass, CamOdoThread.Step.events, Event.quiet] using hq
  · dsimp only at h
    split at h
    · simp only [Option.some.injEq] at h; subst h
      exact ⟨_, Locked.quiet rfl hfree, fun _ => rfl⟩
    · split at h
      · simp only [Option.some.injEq] at h; subst h
        exact ⟨_, Locked.quiet rfl hfree, fun _ => rfl⟩
      · split at h
        · simp only [Option.some.injEq] at h; subst h
          exact ⟨_, Locked.quiet rfl hfree, fun _ => rfl⟩
        · split at h
          · exact absurd h (by simp)
          · rename_i e1 ho
            have h1 := obtainOdometry_locked _ _ _ ho
            simp only [Option.some.injEq] at h; subst h
            exact ⟨_, Locked.append hhead h1, fun hs => absurd hs (by simp [CamOdoThread.Step.status])⟩
          · rename_i io e1 ho
            have h1 := obtainOdometry_locked _ _ _ ho
            split at h
            · exact absurd h (by simp)
            · rename_i e2 hg
              have h2 := obtainGpsIns_locked _ _ _ hg
              simp only [Option.some.injEq] at h; subst h
              exact ⟨_, Locked.append (Locked.append hhead h1) h2,
                fun hs => absurd hs (by simp [CamOdoThread.Step.status])⟩
            · rename_i gi e2 hg
              have h2 := obtainGpsIns_locked _ _ _ hg
              have hev := Locked.append (Locked.append hhead h1) h2
              split at h
              · exact absurd h (by simp)
              · split at h
                · simp only [Option.some.injEq] at h; subst h
                  exact ⟨_, Locked.append hev (Locked.quiet rfl hfree), fun _ => rfl⟩
                · obtain ⟨tail, htail, hq⟩ := buildFrame_events _ _ _ _ _ _ _ _ h
                  rw [htail]
                  exact ⟨_, Locked.append hev (Locked.quiet hq hfree), fun _ => rfl⟩

/-- C18: in ODOMETRY mode, when the first call of `interpolateOdometry` fails and the second
    succeeds, the pass locks the odometry buffer mutex, looks up the cache, calls
    `interpolateOdometry`, sleeps (`usleep(1000)`), calls it again, inserts into the cache and
    only then unlocks: the sleep of the retry-wait loop happens while the mutex is held. -/
theorem sleeps_holding_odometry_mutex :
    ((CamOdoThread.pass Demo.ext Demo.collab (Demo.thread PoseSource.ODOMETRY)
      (Demo.retryTick 1 1)).map fun st =>
        (st.events.take 9,
          sleepsOnlyWhen (fun h => !h.odometry && !h.gpsIns) ⟨false, false⟩ st.events))
      = some ([Event.lockData, Event.unlockData, Event.lockOdometry, Event.findOdometry,
          Event.interpolateOdometry, Event.usleep, Event.interpolateOdometry,
          Event.pushOdometry, Event.unlockOdometry], false) := by
  with_unfolding_all decide

/-- C18, amended: in the events of one pass of the loop, every sleep of a retry-wait loop
    happens while exactly one of the two buffer mutexes is held (each mutex is locked before
    the cache lookup and unlocked after the cache insertion, the retry-wait loop lying in
    between), the two mutexes are never held at the same time, and a pass that does not end
    the process has released both. -/
theorem mutex_discipline (ext : Ext) (co : CamOdoThread.Collab) (s : CamOdoThread.State)
    (tk : CamOdoThread.Tick) (st : CamOdoThread.Step)
    (h : CamOdoThread.pass ext co s tk = some st) :
    sleepsOnlyWhen (fun k => k.odometry != k.gpsIns) ⟨false, false⟩ st.events = true ∧
    neverBoth ⟨false, false⟩ st.events = true ∧
    (st.status = none → Held.afterAll ⟨false, false⟩ st.events = ⟨false, false⟩) := by
  obtain ⟨h', ⟨a, b, c⟩, hfin⟩ := pass_locked ext co s tk st h
  exact ⟨a, b, fun hs => by rw [c]; exact hfin hs⟩

/-- C18, amended, on the pass whose first odometry interpolation fails: its events contain
    a sleep. -/
theorem mutex_discipline_witness :
    ∃ st, CamOdoThread.pass Demo.ext Demo.collab (Demo.thread PoseSource.ODOMETRY)
        (Demo.retryTick 1 1) = some st ∧
      Event.usleep ∈ st.events ∧
      sleepsOnlyWhen (fun k => k.odometry != k.gpsIns) ⟨false, false⟩ st.events = true ∧
      neverBoth ⟨false, false⟩ st.events = true ∧
      (st.status = none → Held.afterAll ⟨false, false⟩ st.events = ⟨false, false⟩) := by
  have hsome : ((CamOdoThread.pass Demo.ext Demo.collab (Demo.thread PoseSource.ODOMETRY)
      (Demo.retryTick 1 1)).map fun st => decide (Event.usleep ∈ st.events)) = some true := by
    with_unfolding_all decide
  cases hp : CamOdoThread.pass Demo.ext Demo.collab (Demo.thread PoseSource.ODOMETRY)
      (Demo.retryTick 1 1) with
  | none => rw [hp] at hsome; exact absurd hsome (by simp)
  | some st =>
    rw [hp] at hsome
    simp only [Option.map_some', Option.some.injEq, decide_eq_true_eq] at hsome
    exact ⟨st, rfl, hsome, mutex_discipline _ _ _ _ st hp⟩

/-! ## C30: when `addCamOdoCalibData` does nothing -/

theorem motions_lengths (ext : Ext) (camPoses : List Mat4) (odoPoses : List Odometry) :
    ∀ (k i : Nat) (odoMotions camMotions : List Mat4),
      CamOdoThread.motions ext camPoses odoPoses i k = some (odoMotions, camMotions) →
      odoMotions.length = k ∧ camMotions.length = k := by
  intro k
  induction k with
  | zero =>
    intro i om cm h
    simp only [CamOdoThread.motions, Option.some.injEq, Prod.mk.injEq] at h
    rw [← h.1, ← h.2]; exact ⟨rfl, rfl⟩
  | succ k ih =>
    intro i om cm h
    simp only [CamOdoThread.motions] at h
    split at h
    · split at h
      · exact absurd h (by simp)
      · rename_i om1 cm1 hrec
        obtain ⟨a, b⟩ := ih _ _ _ hrec
        simp only [Option.some.injEq, Prod.mk.injEq] at h
        rw [← h.1, ← h.2]
        simp only [List.length_cons, a, b, and_self]
    · exact absurd h (by simp)

/-- C30: when the two pose lists differ in length, or hold fewer than 15 poses,
    `addCamOdoCalibData` returns normally with the state of the thread unchanged (nothing
    submitted, `m_frameSegments` as before) and without any event; and in every outcome of a
    call every segment submitted by it consists of two motion lists of equal length, so an
    outcome that ends the process comes from an accumulator that rejected two lists of equal
    length. -/
theorem addCamOdoCalibData_noop (ext : Ext) (co : CamOdoThread.Collab) (s : CamOdoThread.State)
    (camPoses : List Mat4) (odoPoses : List Odometry) (frameSegment : List FrameId) :
    ((odoPoses.length ≠ camPoses.length ∨ odoPoses.length < 15) →
      CamOdoThread.addCamOdoCalibData ext co s camPoses odoPoses frameSegment
        = some (.next s [])) ∧
    (∀ st, CamOdoThread.addCamOdoCalibData ext co s camPoses odoPoses frameSegment = some st →
      (∀ seg ∈ st.state.submitted, seg ∈ s.submitted ∨ seg.1.length = seg.2.length) ∧
      (st.status ≠ none → ∃ cam odo : List Mat4, cam.length = odo.length ∧
        co.addMotionSegment cam odo = false ∧ st.state.m_frameSegments = s.m_frameSegments)) := by
  constructor
  · intro h
    unfold CamOdoThread.addCamOdoCalibData
    by_cases h1 : odoPoses.length ≠ camPoses.length
    · rw [if_pos h1]
    · rw [if_neg h1, toSizeT_minTrackLength]
      rcases h with h | h
      · exact absurd h h1
      · rw [if_pos h]
  · intro st h
    unfold CamOdoThread.addCamOdoCalibData at h
    split at h
    · simp only [Option.some.injEq] at h; subst h
      exact ⟨fun seg hs => Or.inl hs, fun hn => absurd rfl hn⟩
    · split at h
      · simp only [Option.some.injEq] at h; subst h
        exact ⟨fun seg hs => Or.inl hs, fun hn => absurd rfl hn⟩
      · split at h
        · exact absurd h (by simp)
        · rename_i om cm hm
          obtain ⟨a, b⟩ := motions_lengths _ _ _ _ _ _ _ hm
          have hsub : ∀ seg ∈ s.submitted ++ [(cm, om)],
              seg ∈ s.submitted ∨ seg.1.length = seg.2.length := by
            intro seg hs
            rcases List.mem_append.mp hs with e | e
            · exact Or.inl e
            · rw [List.mem_singleton.mp e]; exact Or.inr (by rw [a, b])
          dsimp only at h
          split at h
          · rename_i hrej
            simp only [Option.some.injEq] at h; subst h
            exact ⟨hsub, fun _ => ⟨cm, om, by rw [a, b], hrej, rfl⟩⟩
          · simp only [Option.some.injEq] at h; subst h
            exact ⟨hsub, fun hn => absurd rfl hn⟩

/-- C30 on 15 camera poses and 14 odometry poses, and on 5 poses each. -/
theorem addCamOdoCalibData_noop_witness :
    CamOdoThread.addCamOdoCalibData Demo.ext Demo.rejecting
        (Demo.pending PoseSource.ODOMETRY 14) ((List.range 15).map Demo.cameraAt)
        ((List.range 14).map Demo.odometryAt) (List.range 15)
      = some (.next (Demo.pending PoseSource.ODOMETRY 14) []) ∧
    CamOdoThread.addCamOdoCalibData Demo.ext Demo.rejecting
        (Demo.pending PoseSource.ODOMETRY 5) ((List.range 5).map Demo.cameraAt)
        ((List.range 5).map Demo.odometryAt) (List.range 5)
      = some (.next (Demo.pending PoseSource.ODOMETRY 5) []) :=
  ⟨(addCamOdoCalibData_noop Demo.ext Demo.rejecting (Demo.pending PoseSource.ODOMETRY 14)
      ((List.range 15).map Demo.cameraAt) ((List.range 14).map Demo.odometryAt)
      (List.range 15)).1 (Or.inl (by decide)),
    (addCamOdoCalibData_noop Demo.ext Demo.rejecting (Demo.pending PoseSource.ODOMETRY 5)
      ((List.range 5).map Demo.cameraAt) ((List.range 5).map Demo.odometryAt)
      (List.range 5)).1 (Or.inr (by decide))⟩

/-! ## C25: the behind-camera prune terminates -/

/-- C25: for every window state in which the poses the prune reads are there and every
    3D-linked 2D feature of a window frame is a live member of the observer list of its 3D
    point, the behind-camera prune of the window returns for every fuel from a bound on (two
    rounds per feature of a frame and one more to leave its loop); the reason is that the
    unlinking pass over the observers of a point clears the link of every live observer, the
    feature just found behind the camera among them. -/
theorem prune_terminates (ext : Ext) (w : World)
    (hp : PosesDefined w.ba.mMode w.ba.mWindow w.g) (hl : ObserversListed w.ba.mWindow w.g) :
    (∃ fuel0, ∀ fuel, fuel0 ≤ fuel →
      ∃ res, pruneWindow ext fuel w w.ba.mWindow [] = some res) ∧
    (∀ F ∈ w.ba.mWindow, ∀ f ∈ (w.g.frames F).features2D, ∀ p,
      (w.g.features f).feature3D = some p →
        ((unlinkObservers w.g (w.g.points p).features2D).features f).feature3D = none) := by
  constructor
  · refine ⟨2 * (w.ba.mWindow.map (fun F => (w.g.frames F).features2D.length)).sum + 1,
      fun fuel hfuel => ?_⟩
    refine pruneWindow_terminates ext fuel w.ba.mWindow w [] (fun F hF => ?_) hp hl
    have := le_sum_map (fun F => (w.g.frames F).features2D.length) _ F hF
    dsimp only at this
    omega
  · intro F hF f hf p hlink
    obtain ⟨hlive, hobs⟩ := hl F hF f hf
    exact (unlinkObservers_spec _ w.g).2 f (hobs p hlink) hlive

/-- C25 on the scene after two frames (pose-anchored, ten 3D points observed twice). -/
theorem prune_terminates_witness :
    PosesDefined (Demo.sceneAfter 2).ba.mMode (Demo.sceneAfter 2).ba.mWindow
      (Demo.sceneAfter 2).g ∧
    ObserversListed (Demo.sceneAfter 2).ba.mWindow (Demo.sceneAfter 2).g ∧
    (∃ fuel0, ∀ fuel, fuel0 ≤ fuel → ∃ res,
      pruneWindow Demo.ext fuel (Demo.sceneAfter 2) (Demo.sceneAfter 2).ba.mWindow []
        = some res) ∧
    (∀ F ∈ (Demo.sceneAfter 2).ba.mWindow, ∀ f ∈ ((Demo.sceneAfter 2).g.frames F).features2D,
      ∀ p, ((Demo.sceneAfter 2).g.features f).feature3D = some p →
        ((unlinkObservers (Demo.sceneAfter 2).g
          ((Demo.sceneAfter 2).g.points p).features2D).features f).feature3D = none) := by
  have hp : PosesDefined (Demo.sceneAfter 2).ba.mMode (Demo.sceneAfter 2).ba.mWindow
      (Demo.sceneAfter 2).g := by
    unfold PosesDefined
    with_unfolding_all decide
  have key : ∀ F ∈ (Demo.sceneAfter 2).ba.mWindow,
      ∀ f ∈ ((Demo.sceneAfter 2).g.frames F).features2D,
        (Demo.sceneAfter 2).g.live2D f = true ∧
        ∀ p ∈ ((Demo.sceneAfter 2).g.features f).feature3D.toList,
          f ∈ ((Demo.sceneAfter 2).g.points p).features2D := by
    with_unfolding_all decide
  have hl : ObserversListed (Demo.sceneAfter 2).ba.mWindow (Demo.sceneAfter 2).g := by
    intro F hF f hf
    refine ⟨(key F hF f hf).1, fun p hlink => (key F hF f hf).2 p ?_⟩
    rw [hlink]; simp
  exact ⟨hp, hl, prune_terminates Demo.ext (Demo.sceneAfter 2) hp hl⟩

/-! ## C26: `scenePoints()` on a window with an unlinked feature -/

/-- C26: after the first frame of the scene the window holds frame 1, whose ten features
    have no 3D link; the set of `scenePoints()` then consists of the null pointer, and the
    call is undefined: the second loop dereferences every pointer of the set.  After the
    second frame every feature of the window has its 3D point and the call returns the ten
    positions. -/
theorem scenePoints_null_pointer :
    (Demo.sceneAfter 1).ba.mWindow = [1] ∧
    scenePointSet (Demo.sceneAfter 1) = [none] ∧
    scenePoints (Demo.sceneAfter 1) = none ∧
    (scenePoints (Demo.sceneAfter 2)).map (fun ps => ps.length) = some 10 := by
  refine ⟨by with_unfolding_all decide, by with_unfolding_all decide,
    by with_unfolding_all decide, by with_unfolding_all decide⟩

/-! ## C27: the transform of the pose-anchored reprojection error -/

/-- C27: the helper does not read `cam_odo_t`, and its translation has the opposite sign of
    the world-to-camera translation.  On the scene, the point `(0, 0, 2)` seen from frame 2
    (vehicle at `(1, 0, 0)`, identity extrinsics) is in the camera frame at `(-1, 0, 2)` for
    the prune and for the triangulation, its image is the key point `(-50, 0)` of feature 10,
    and the transform of the claim gives error 0; the helper gives 100.  The transform of the
    claim depends on the extrinsic translation, the helper does not. -/
theorem helper_wrong_translation :
    (∀ (ext : Ext) (P : Vec3) (q : Quat) (t t' odo_p odo_att : Vec3) (obs : Vec2),
      reprojectionError ext P q t odo_p odo_att obs
        = reprojectionError ext P q t' odo_p odo_att obs) ∧
    cameraFramePoint Demo.ext (Demo.sceneAfter 2) 2 0 = some ⟨-1, 0, 2⟩ ∧
    ((triangulationPoses Demo.ext (Demo.sceneAfter 2) 1 2).map fun ps => ps.2.2)
      = some ⟨-1, 0, 0⟩ ∧
    ((Demo.sceneAfter 2).g.features 10).keypoint = ⟨-50, 0⟩ ∧
    ((Demo.sceneAfter 2).g.features 10).feature3D = some 0 ∧
    observationError Demo.ext (Demo.sceneAfter 2) 2 10 0 = some 100 ∧
    reprojectionError Demo.ext ⟨0, 0, 2⟩ Quat.identity Vec3.zero ⟨1, 0, 0⟩ Vec3.zero ⟨-50, 0⟩
      = 100 ∧
    reprojectionErrorSpec Demo.ext ⟨0, 0, 2⟩ Quat.identity Vec3.zero ⟨1, 0, 0⟩ Vec3.zero
      ⟨-50, 0⟩ = 0 ∧
    reprojectionErrorSpec Demo.ext ⟨0, 0, 2⟩ Quat.identity ⟨1, 0, 0⟩ ⟨1, 0, 0⟩ Vec3.zero
      ⟨-50, 0⟩ = 50 := by
  refine ⟨fun _ _ _ _ _ _ _ _ => rfl, by with_unfolding_all decide,
    by with_unfolding_all decide, by with_unfolding_all decide, by with_unfolding_all decide,
    by with_unfolding_all decide, by with_unfolding_all decide, by with_unfolding_all decide,
    by with_unfolding_all decide⟩

/-! ## C29: the previous-frame lookup -/

/-- C29 (a capacity below 2 with a defined lookup): with `N = -1` the comparison
    `mWindow.size() > m_N` is made in `size_t`, where `-1` is the largest value, so no frame
    ever leaves the window; on the second frame the window is `[1, 2]`, the lookup of the
    previous frame gives frame 1 and `addFrame` returns. -/
theorem negative_capacity_lookup_defined :
    (Demo.smallWorld (-1)).ba.m_N = -1 ∧ (Demo.smallWorld (-1)).ba.mFrameCount = 1 ∧
    (enterWindow Demo.ext (Demo.smallWorld (-1)) 2).ba.mWindow = [1, 2] ∧
    (enterWindow Demo.ext (Demo.smallWorld (-1)) 2).ba.mWindow.reverse[1]? = some 1 ∧
    ((addFrame Demo.ext 1 (Demo.smallWorld (-1)) 2 Mat3.identity Vec3.zero).map
      fun r => r.ret) = some false := by
  refine ⟨by with_unfolding_all decide, by with_unfolding_all decide,
    by with_unfolding_all decide, by with_unfolding_all decide, by with_unfolding_all decide⟩

theorem window_after_calls (ext : Ext) (fuel : Nat) (w0 w : World)
    (calls : List (FrameId × Mat3 × Vec3)) (hcalls : calls ≠ [])
    (hrun : addFrames ext fuel w0.clear calls = some w) (h1 : 1 ≤ toSizeT w0.ba.m_N) :
    ∃ init fp, w.ba.mWindow = init ++ [fp] ∧ calls.getLast?.map (fun c => c.1) = some fp := by
  obtain ⟨_, _, h3⟩ := addFrames_window ext fuel calls _ _ hrun
  have hw : w0.clear.ba.mWindow = [] := rfl
  have hN : w0.clear.ba.m_N = w0.ba.m_N := rfl
  rw [hw, hN] at h3
  have h3 := h3 (Nat.zero_le _)
  simp only [List.nil_append] at h3
  rcases List.eq_nil_or_concat calls with e | ⟨L, c, e⟩
  · exact absurd e hcalls
  · have e' : calls = L ++ [c] := by simpa using e
    subst e'
    rw [List.map_append, List.map_cons, List.map_nil,
      List.drop_append_of_le_length (by simp; omega)] at h3
    exact ⟨_, c.1, h3, by simp⟩

/-- C29, amended: after one or more `addFrame` calls since `clear()`, with a capacity
    `2 ≤ N`, the window of the next call holds at least two frames after the new frame has
    entered, and the second frame from the back is the frame of the preceding call; with a
    capacity `N = 0` or `N = 1` the second frame from the back does not exist on the second
    call and `addFrame` is undefined there. -/
theorem previous_frame_lookup (ext : Ext) (fuel : Nat) (w0 w : World)
    (calls : List (FrameId × Mat3 × Vec3)) (fr : FrameId) (hcalls : calls ≠ [])
    (hInt : w0.ba.m_N ≤ 2147483647) (hrun : addFrames ext fuel w0.clear calls = some w) :
    (2 ≤ w0.ba.m_N →
      2 ≤ (enterWindow ext w fr).ba.mWindow.length ∧
      (enterWindow ext w fr).ba.mWindow.reverse[1]? = calls.getLast?.map (fun c => c.1)) ∧
    (0 ≤ w0.ba.m_N → w0.ba.m_N < 2 → calls.length = 1 →
      (enterWindow ext w fr).ba.mWindow.reverse[1]? = none ∧
      ∀ R_rel t_rel, addFrame ext fuel w fr R_rel t_rel = none) := by
  obtain ⟨hN, hcount, hwin⟩ := addFrames_window ext fuel calls _ _ hrun
  have hN' : w.ba.m_N = w0.ba.m_N := hN
  constructor
  · intro h2
    have hs : toSizeT w0.ba.m_N = w0.ba.m_N.toNat := toSizeT_of_int _ (by omega) hInt
    obtain ⟨init, fp, hw, hlast⟩ := window_after_calls ext fuel w0 w calls hcalls hrun
      (by rw [hs]; omega)
    obtain ⟨a, b⟩ := enterWindow_prev ext w fr fp init (by rw [hN', hs]; omega) hw
    refine ⟨?_, by rw [a, hlast]⟩
    cases hr : (enterWindow ext w fr).ba.mWindow.reverse with
    | nil => rw [hr] at a; simp at a
    | cons x rest =>
      cases rest with
      | nil => rw [hr] at a; simp at a
      | cons y rest2 =>
        have := congrArg List.length hr
        simp only [List.length_reverse, List.length_cons] at this
        omega
  · intro h0 h2 hlen
    have hs : toSizeT w0.ba.m_N = w0.ba.m_N.toNat := toSizeT_of_int _ h0 hInt
    have hc : w.ba.mFrameCount = 1 := by
      have : w0.clear.ba.mFrameCount = 0 := rfl
      rw [hcount, this, hlen]
    have hlen2 : (enterWindow ext w fr).ba.mWindow.length ≤ 1 := by
      show (popFrontWhile (toSizeT w.ba.m_N) (w.ba.mWindow ++ [fr])).length ≤ 1
      rw [popFrontWhile_eq, List.length_drop, hN', hs]
      omega
    have hnone : (enterWindow ext w fr).ba.mWindow.reverse[1]? = none := by
      rw [List.getElem?_eq_none]
      rw [List.length_reverse]; omega
    refine ⟨hnone, fun R_rel t_rel => ?_⟩
    unfold addFrame
    dsimp only
    have hcnt : (enterWindow ext w fr).ba.mFrameCount = 2 := by
      show w.ba.mFrameCount + 1 = 2
      rw [hc]
    rw [if_neg (by rw [hcnt]; decide)]
    unfold laterFrame
    rw [hnone]

/-- C29, amended, on the bare world: capacity 5 after seven calls, and capacity 1 after one
    call. -/
theorem previous_frame_lookup_witness :
    (∃ w, addFrames Demo.ext 1 (Demo.bareWorld Mode.ODOMETRY).clear Demo.sevenCalls = some w ∧
      2 ≤ (enterWindow Demo.ext w 8).ba.mWindow.length ∧
      (enterWindow Demo.ext w 8).ba.mWindow.reverse[1]?
        = Demo.sevenCalls.getLast?.map (fun c => c.1)) ∧
    (∃ w, addFrames Demo.ext 1
        (⟨SlidingWindowBA.construct 1 3 Mode.ODOMETRY ⟨Quat.identity, Vec3.zero, 0⟩,
          Demo.bareGraph⟩ : World).clear [(1, Mat3.identity, Vec3.zero)] = some w ∧
      (enterWindow Demo.ext w 2).ba.mWindow.reverse[1]? = none ∧
      ∀ R_rel t_rel, addFrame Demo.ext 1 w 2 R_rel t_rel = none) := by
  constructor
  · have hsome : (addFrames Demo.ext 1 (Demo.bareWorld Mode.ODOMETRY).clear
        Demo.sevenCalls).isSome = true := by with_unfolding_all decide
    obtain ⟨w, hw⟩ := Option.isSome_iff_exists.mp hsome
    exact ⟨w, hw, (previous_frame_lookup Demo.ext 1 (Demo.bareWorld Mode.ODOMETRY) w
      Demo.sevenCalls 8 (by decide) (by decide) hw).1 (by decide)⟩
  · have hsome : (addFrames Demo.ext 1
        (⟨SlidingWindowBA.construct 1 3 Mode.ODOMETRY ⟨Quat.identity, Vec3.zero, 0⟩,
          Demo.bareGraph⟩ : World).clear [(1, Mat3.identity, Vec3.zero)]).isSome = true := by
      with_unfolding_all decide
    obtain ⟨w, hw⟩ := Option.isSome_iff_exists.mp hsome
    exact ⟨w, hw, (previous_frame_lookup Demo.ext 1 _ w _ 2 (by decide) (by decide) hw).2
      (by decide) (by decide) rfl⟩

/-! ## C23: the correspondence search returns the match chains -/

theorem isMatchChain_one (g : Graph) (f : FeatId) (c : List FeatId) :
    IsMatchChain g 1 f c ↔ c = [f] := by
  constructor
  · rintro ⟨hl, hlast, _⟩
    match c, hl, hlast with
    | [x], _, hlast =>
      simp at hlast
      rw [hlast]
  · rintro rfl
    refine ⟨rfl, rfl, ?_⟩
    intro j a b _ hb
    simp at hb

theorem isMatchChain_succ (g : Graph) (n : Nat) (f : FeatId) (c : List FeatId) (hn : 1 ≤ n) :
    IsMatchChain g (n + 1) f c ↔
      ∃ prev c', c = c' ++ [f] ∧ (g.features f).prevMatches ≠ [] ∧
        (g.features f).bestPrevMatchId ≠ -1 ∧ (g.features f).prevMatch = some prev ∧
        g.live2D prev = true ∧ IsMatchChain g n prev c' := by
  constructor
  · rintro ⟨hl, hlast, hp⟩
    obtain ⟨c', rfl⟩ : ∃ c', c = c' ++ [f] := by
      rcases List.eq_nil_or_concat c with h | ⟨c', x, h⟩
      · subst h; simp at hl
      · subst h
        simp at hlast
        exact ⟨c', by rw [hlast]; simp⟩
    have hl' : c'.length = n := by simpa using hl
    have hlt : n - 1 < c'.length := by omega
    have ha : (c' ++ [f])[n - 1]? = some (c'[n - 1]) := by
      rw [List.getElem?_append_left hlt]
      exact List.getElem?_eq_getElem hlt
    have hb : (c' ++ [f])[n - 1 + 1]? = some f := by
      have : n - 1 + 1 = c'.length := by omega
      rw [this]
      exact List.getElem?_concat_length c' f
    obtain ⟨h1, h2, h3, h4⟩ := hp (n - 1) _ _ ha hb
    refine ⟨c'[n - 1], c', rfl, h1, h2, h3, h4, hl', ?_, ?_⟩
    · rw [List.getLast?_eq_getElem?, hl']
      exact List.getElem?_eq_getElem hlt
    · intro j a b hja hjb
      have hj : j + 1 < c'.length := by
        by_contra hge
        rw [List.getElem?_eq_none (by omega)] at hjb
        exact absurd hjb (by simp)
      apply hp j a b
      · rw [List.getElem?_append_left (by omega)]; exact hja
      · rw [List.getElem?_append_left hj]; exact hjb
  · rintro ⟨prev, c', rfl, h1, h2, h3, h4, hl, hlast, hp⟩
    refine ⟨by simp [hl], by simp, ?_⟩
    intro j a b hja hjb
    by_cases hj : j + 1 < c'.length
    · rw [List.getElem?_append_left (by omega)] at hja
      rw [List.getElem?_append_left hj] at hjb
      exact hp j a b hja hjb
    · have hlen : j + 1 < (c' ++ [f]).length := by
        by_contra hge
        rw [List.getElem?_eq_none (by omega)] at hjb
        exact absurd hjb (by simp)
      have hj' : j + 1 = c'.length := by
        simp at hlen
        omega
      rw [hj', List.getElem?_concat_length] at hjb
      have hbf : b = f := by injection hjb with h; exact h.symm
      rw [List.getElem?_append_left (by omega)] at hja
      rw [List.getLast?_eq_getElem?] at hlast
      have : c'.length - 1 = j := by omega
      rw [this, hja] at hlast
      have hap : a = prev := by injection hlast
      subst hbf
      subst hap
      exact ⟨h1, h2, h3, h4⟩

/-- A feature has at most one match chain of a given length. -/
theorem isMatchChain_unique (g : Graph) : ∀ (n : Nat) (f : FeatId) (c d : List FeatId),
    IsMatchChain g n f c → IsMatchChain g n f d → c = d := by
  intro n
  induction n with
  | zero =>
    intro f c d hc _
    obtain ⟨hl, hlast, _⟩ := hc
    have : c = [] := List.length_eq_zero.mp hl
    subst this
    simp at hlast
  | succ n ih =>
    intro f c d hc hd
    rcases Nat.eq_zero_or_pos n with h0 | hpos
    · subst h0
      rw [(isMatchChain_one g f c).mp hc, (isMatchChain_one g f d).mp hd]
    · obtain ⟨p, c', rfl, _, _, hpc, _, hcc⟩ := (isMatchChain_succ g n f c hpos).mp hc
      obtain ⟨q, d', rfl, _, _, hpd, _, hdd⟩ := (isMatchChain_succ g n f d hpos).mp hd
      have hpq : p = q := by
        rw [hpc] at hpd
        injection hpd
      subst hpq
      rw [ih p c' d' hcc hdd]

theorem chainBack_spec (g : Graph) : ∀ (n : Nat) (cur : FeatId) (tl : List FeatId),
    (chainBack g n cur (cur :: tl) = some none → ∀ c, ¬ IsMatchChain g (n + 1) cur c) ∧
    (∀ r, chainBack g n cur (cur :: tl) = some (some r) →
      ∃ c, r = c ++ tl ∧ IsMatchChain g (n + 1) cur c) := by
  intro n
  induction n with
  | zero =>
    intro cur tl
    constructor
    · intro h
      simp [chainBack] at h
    · intro r h
      simp only [chainBack] at h
      injection h with h
      injection h with h
      exact ⟨[cur], by rw [← h]; rfl, (isMatchChain_one g cur [cur]).mpr rfl⟩
  | succ j ih =>
    intro cur tl
    simp only [chainBack]
    by_cases hc : ((g.features cur).prevMatches.isEmpty = true ∨
        (g.features cur).bestPrevMatchId = -1)
    · rw [if_pos hc]
      constructor
      · intro _ c hchain
        obtain ⟨p, c', _, h1, h2, _⟩ := (isMatchChain_succ g (j + 1) cur c (by omega)).mp hchain
        rcases hc with hc | hc
        · exact h1 (List.isEmpty_iff.mp hc)
        · exact h2 hc
      · intro r h
        exact absurd h (by simp)
    · rw [if_neg hc]
      cases hw : (g.features cur).prevMatch with
      | none =>
        dsimp only
        exact ⟨fun h => absurd h (by simp), fun r h => absurd h (by simp)⟩
      | some weak =>
        dsimp only
        unfold Graph.lock
        by_cases hl : g.live2D weak = true
        · rw [if_pos hl]
          dsimp only
          obtain ⟨ihn, ihs⟩ := ih weak (cur :: tl)
          constructor
          · intro h c hchain
            obtain ⟨p, c', _, _, _, hp, _, hc'⟩ :=
              (isMatchChain_succ g (j + 1) cur c (by omega)).mp hchain
            rw [hw] at hp
            injection hp with hp
            subst hp
            exact ihn h c' hc'
          · intro r h
            obtain ⟨c, hr, hchain⟩ := ihs r h
            refine ⟨c ++ [cur], by rw [hr]; simp, ?_⟩
            refine (isMatchChain_succ g (j + 1) cur _ (by omega)).mpr
              ⟨weak, c, rfl, ?_, fun h => hc (Or.inr h), hw, hl, hchain⟩
            intro h
            exact hc (Or.inl (List.isEmpty_iff.mpr h))
        · rw [if_neg hl]
          dsimp only
          constructor
          · intro _ c hchain
            obtain ⟨p, c', _, _, _, hp, hlive, _⟩ :=
              (isMatchChain_succ g (j + 1) cur c (by omega)).mp hchain
            rw [hw] at hp
            injection hp with hp
            subst hp
            exact hl hlive
          · intro r h
            exact absurd h (by simp)

theorem chainBack_defined (g : Graph)
    (hm : ∀ f, (g.features f).prevMatches ≠ [] → (g.features f).bestPrevMatchId ≠ -1 →
      (g.features f).prevMatch.isSome = true) :
    ∀ (n : Nat) (cur : FeatId) (acc : List FeatId), (chainBack g n cur acc).isSome = true := by
  intro n
  induction n with
  | zero => intro cur acc; rfl
  | succ j ih =>
    intro cur acc
    simp only [chainBack]
    by_cases hc : ((g.features cur).prevMatches.isEmpty = true ∨
        (g.features cur).bestPrevMatchId = -1)
    · rw [if_pos hc]; rfl
    · rw [if_neg hc]
      have h1 : (g.features cur).prevMatches ≠ [] :=
        fun h => hc (Or.inl (List.isEmpty_iff.mpr h))
      obtain ⟨weak, hw⟩ := Option.isSome_iff_exists.mp (hm cur h1 (fun h => hc (Or.inr h)))
      rw [hw]
      dsimp only
      cases hl : g.lock weak with
      | none => rfl
      | some prev => exact ih prev _

theorem findLoop_spec (g : Graph) (hops : Nat) : ∀ (fs : List FeatId) (res : List (List FeatId)),
    findLoop g hops fs = some res → Selected g (hops + 1) fs res := by
  intro fs
  induction fs with
  | nil =>
    intro res h
    simp only [findLoop] at h
    injection h with h
    rw [← h]
    exact Selected.nil
  | cons f fs ih =>
    intro res h
    simp only [findLoop] at h
    obtain ⟨hn, hs⟩ := chainBack_spec g hops f []
    cases hcb : chainBack g hops f [f] with
    | none => rw [hcb] at h; exact absurd h (by simp)
    | some r =>
      rw [hcb] at h
      dsimp only at h
      cases hrest : findLoop g hops fs with
      | none => rw [hrest] at h; exact absurd h (by simp)
      | some rest =>
        rw [hrest] at h
        dsimp only at h
        cases r with
        | none =>
          dsimp only at h
          injection h with h
          rw [← h]
          exact Selected.skip f fs rest (hn hcb) (ih rest hrest)
        | some c =>
          dsimp only at h
          injection h with h
          rw [← h]
          obtain ⟨c', hc', hchain⟩ := hs c hcb
          rw [List.append_nil] at hc'
          rw [hc']
          exact Selected.keep f fs c' rest hchain (ih rest hrest)

theorem findLoop_defined (g : Graph) (hops : Nat)
    (hm : ∀ f, (g.features f).prevMatches ≠ [] → (g.features f).bestPrevMatchId ≠ -1 →
      (g.features f).prevMatch.isSome = true) :
    ∀ fs : List FeatId, (findLoop g hops fs).isSome = true := by
  intro fs
  induction fs with
  | nil => rfl
  | cons f fs ih =>
    simp only [findLoop]
    obtain ⟨r, hr⟩ := Option.isSome_iff_exists.mp (chainBack_defined g hm hops f [f])
    obtain ⟨rest, hrest⟩ := Option.isSome_iff_exists.mp ih
    rw [hr, hrest]
    cases r <;> rfl

/-! ### What `addFrame` does to the match chain -/

theorem Graph.KeepsMatches.reflK (g : Graph) : g.KeepsMatches g :=
  ⟨rfl, fun _ => ⟨rfl, rfl, Or.inl rfl, Or.inl rfl⟩⟩

theorem Graph.KeepsMatches.thenK {g1 g2 g3 : Graph} (h12 : g1.KeepsMatches g2)
    (h23 : g2.KeepsMatches g3) : g1.KeepsMatches g3 := by
  refine ⟨h23.1.trans h12.1, fun f => ?_⟩
  obtain ⟨a1, a2, a3, a4⟩ := h12.2 f
  obtain ⟨b1, b2, b3, b4⟩ := h23.2 f
  refine ⟨b1.trans a1, b2.trans a2, ?_, ?_⟩
  · rcases b3 with b | b
    · rcases a3 with a | a
      · exact Or.inl (b.trans a)
      · exact Or.inr (b.trans a)
    · exact Or.inr b
  · rcases b4 with b | b
    · rcases a4 with a | a
      · exact Or.inl (b.trans a)
      · exact Or.inr (b.trans a)
    · exact Or.inr b

theorem keeps_of_features (g g' : Graph) (hl : g'.live2D = g.live2D)
    (hf : g'.features = g.features) : g.KeepsMatches g' :=
  ⟨hl, fun f => by rw [hf]; exact ⟨rfl, rfl, Or.inl rfl, Or.inl rfl⟩⟩

theorem poseOnly_keeps {g g' : Graph} {F : FrameId}
    (h : g' = g ∨ ∃ p, g' = g.setCameraPose F (some p)) : g.KeepsMatches g' :=
  keeps_of_features g g' (poseOnly_fields h).2.1 (poseOnly_fields h).1

theorem unlinked_keeps {g g' : Graph} (h : g.Unlinked g') : g.KeepsMatches g' := by
  refine ⟨h.2.2.1, fun f => ?_⟩
  rcases h.2.2.2.2 f with e | e <;> (rw [e]; exact ⟨rfl, rfl, Or.inl rfl, Or.inl rfl⟩)

theorem sever_keeps (g : Graph) (f0 f1 : FeatId) : g.KeepsMatches (g.sever f0 f1) := by
  refine ⟨rfl, fun f => ?_⟩
  unfold Graph.sever
  dsimp only
  by_cases h1 : f = f1
  · subst h1
    by_cases h0 : f = f0
    · subst h0; simp [upd]
    · simp [upd, h0]
  · by_cases h0 : f = f0
    · subst h0; simp [upd, h1]
    · simp [upd, h0, h1]

theorem extend_keeps (g : Graph) (f1 : FeatId) (p : PointId) :
    g.KeepsMatches ((g.setFeature3D f1 (some p)).pushObserver p f1) := by
  refine ⟨rfl, fun f => ?_⟩
  unfold Graph.pushObserver Graph.setFeature3D
  dsimp only
  by_cases h1 : f = f1
  · subst h1; simp [upd]
  · simp [upd, h1]

theorem linkNewPoint_keeps (g : Graph) (P : Vec3) (f0 f1 : FeatId) :
    g.KeepsMatches (g.linkNewPoint P f0 f1) := by
  refine ⟨rfl, fun f => ?_⟩
  unfold Graph.linkNewPoint Graph.pushObserver Graph.setFeature3D Graph.allocPoint
  dsimp only
  by_cases h1 : f = f1
  · subst h1
    by_cases h0 : f = f0
    · subst h0; simp [upd]
    · simp [upd, h0]
  · by_cases h0 : f = f0
    · subst h0; simp [upd, h1]
    · simp [upd, h0, h1]

theorem linkTriangulated_keeps (cs : List (FeatId × FeatId)) :
    ∀ (pts : List (Vec3 × Nat)) (g g' : Graph),
      linkTriangulated cs g pts = some g' → g.KeepsMatches g' := by
  intro pts
  induction pts with
  | nil =>
    intro g g' h
    simp only [linkTriangulated, Option.some.injEq] at h
    subst h
    exact Graph.KeepsMatches.reflK _
  | cons pk rest ih =>
    intro g g' h
    obtain ⟨P, idx⟩ := pk
    simp only [linkTriangulated] at h
    split at h
    · exact absurd h (by simp)
    · rename_i f0 f1 hget
      exact (linkNewPoint_keeps g P f0 f1).thenK (ih _ _ h)

theorem severUntriangulated_keeps :
    ∀ (cs : List (FeatId × FeatId)) (g : Graph), g.KeepsMatches (severUntriangulated g cs) := by
  intro cs
  induction cs with
  | nil => intro g; exact Graph.KeepsMatches.reflK _
  | cons c rest ih =>
    intro g
    obtain ⟨f0, f1⟩ := c
    simp only [severUntriangulated]
    split
    · exact ih g
    · exact (sever_keeps g f0 f1).thenK (ih _)

theorem checkTriangulated_keeps (ext : Ext) (fc : FrameId) :
    ∀ (l : List (FeatId × FeatId)) (w w' : World),
      checkTriangulated ext fc w l = some w' → w.g.KeepsMatches w'.g := by
  intro l
  induction l with
  | nil =>
    intro w w' h
    simp only [checkTriangulated, Option.some.injEq] at h
    subst h
    exact Graph.KeepsMatches.reflK _
  | cons c rest ih =>
    intro w w' h
    obtain ⟨f0, f1⟩ := c
    simp only [checkTriangulated] at h
    split at h
    · exact absurd h (by simp)
    · rename_i p hp
      split at h
      · exact absurd h (by simp)
      · split at h
        · exact (sever_keeps w.g f0 f1).thenK (ih _ _ h)
        · exact (extend_keeps w.g f1 p).thenK (ih _ _ h)

theorem bootstrapStructure_keeps (ext : Ext) (w1 : World) (fc fp : FrameId)
    (cs : List (FeatId × FeatId)) (inl : List Bool) (Rt : Option (Mat3 × Vec3))
    (st : StageResult) (h : bootstrapStructure ext w1 fc fp cs inl Rt = some st) :
    w1.g.KeepsMatches st.world.g := by
  unfold bootstrapStructure at h
  split at h
  · exact absurd h (by simp)
  · rename_i ic hic
    split at h
    · exact absurd h (by simp)
    · split at h
      · simp only [Option.some.injEq] at h; subst h; exact Graph.KeepsMatches.reflK _
      · split at h
        · exact absurd h (by simp)
        · rename_i g2 hg2
          simp only [Option.some.injEq] at h; subst h
          exact (linkTriangulated_keeps ic _ _ _ hg2).thenK (severUntriangulated_keeps _ _)

theorem steadyNew_keeps (ext : Ext) (w2 : World) (fc fp : FrameId) (l : List (FeatId × FeatId))
    (w3 : World) (h : steadyNew ext w2 fc fp l = some w3) : w2.g.KeepsMatches w3.g := by
  unfold steadyNew at h
  split at h
  · simp only [Option.some.injEq] at h; subst h; exact Graph.KeepsMatches.reflK _
  · split at h
    · exact absurd h (by simp)
    · split at h
      · exact absurd h (by simp)
      · rename_i g3 hg3
        simp only [Option.some.injEq] at h; subst h
        exact (linkTriangulated_keeps l _ _ _ hg3).thenK (severUntriangulated_keeps _ _)

theorem bootstrap_keeps (ext : Ext) (w : World) (fc fp : FrameId) (st : StageResult)
    (h : bootstrap ext w fc fp = some st) : w.g.KeepsMatches st.world.g := by
  unfold bootstrap at h
  split at h
  · exact absurd h (by simp)
  · split at h
    · simp only [Option.some.injEq] at h; subst h
      exact Graph.KeepsMatches.reflK _
    · split at h
      · exact absurd h (by simp)
      · rename_i w1 inl Rt hp
        exact (poseOnly_keeps (bootstrapPose_graph _ _ _ _ _ _ _ hp)).thenK
          (bootstrapStructure_keeps _ _ _ _ _ _ _ _ h)

theorem steady_keeps (ext : Ext) (w : World) (fc fp : FrameId) (R : Mat3) (st : StageResult)
    (h : steady ext w fc fp R = some st) : w.g.KeepsMatches st.world.g := by
  unfold steady at h
  split at h
  · exact absurd h (by simp)
  · dsimp only at h
    split at h
    · exact absurd h (by simp)
    · rename_i w1 hp
      simp only [Option.some.injEq] at h; subst h
      exact poseOnly_keeps (steadyPose_graph _ _ _ _ _ _ _ _ hp)
    · rename_i w1 hp
      split at h
      · exact absurd h (by simp)
      · rename_i w2 hc
        split at h
        · exact absurd h (by simp)
        · rename_i w3 hn
          simp only [Option.some.injEq] at h; subst h
          exact ((poseOnly_keeps (steadyPose_graph _ _ _ _ _ _ _ _ hp)).thenK
            (checkTriangulated_keeps _ _ _ _ _ hc)).thenK (steadyNew_keeps _ _ _ _ _ _ hn)

theorem finish_keeps (ext : Ext) (fuel : Nat) (w : World) (fc : FrameId)
    (Rt : Option (Mat3 × Vec3)) (r : AddFrameResult) (h : finish ext fuel w fc Rt = some r) :
    w.g.KeepsMatches r.world.g := by
  unfold finish at h
  dsimp only at h
  split at h
  · exact absurd h (by simp)
  · rename_i w1 ho
    have h1 : w.g.KeepsMatches w1.g := by
      split at ho
      · obtain ⟨o1, o2, _⟩ := optimize_graph _ _ _ ho
        exact keeps_of_features _ _ o2 o1
      · simp only [Option.some.injEq] at ho; subst ho; exact Graph.KeepsMatches.reflK _
    split at h
    · exact absurd h (by simp)
    · rename_i w2 pr hpr
      have h2 := h1.thenK (unlinked_keeps (pruneWindow_spec ext fuel _ _ _ _ _ hpr).2.1)
      split at h
      · split at h
        · exact absurd h (by simp)
        · simp only [Option.some.injEq] at h; subst h; exact h2
      · simp only [Option.some.injEq] at h; subst h; exact h2

/-- `addFrame` leaves the match lists alone and changes a best-match index only to none. -/
theorem addFrame_keeps (ext : Ext) (fuel : Nat) (w : World) (fr : FrameId) (R_rel : Mat3)
    (t_rel : Vec3) (r : AddFrameResult) (h : addFrame ext fuel w fr R_rel t_rel = some r) :
    w.g.KeepsMatches r.world.g := by
  have he := enterWindow_graph ext w fr
  unfold addFrame at h
  dsimp only at h
  split at h
  · unfold firstFrame at h
    split at h
    · split at h
      · exact absurd h (by simp)
      · simp only [Option.some.injEq] at h; subst h
        exact poseOnly_keeps (poseOnly_trans he (Or.inr ⟨_, rfl⟩))
    · simp only [Option.some.injEq] at h; subst h
      exact poseOnly_keeps he
  · unfold laterFrame at h
    split at h
    · exact absurd h (by simp)
    · split at h
      · exact absurd h (by simp)
      · rename_i w1 hp
        have hg1 := poseOnly_keeps (poseOnly_trans he (predictPose_graph _ _ _ _ _ _ _ hp))
        split at h
        · exact absurd h (by simp)
        · rename_i st hs
          have hstage : w1.g.KeepsMatches st.world.g := by
            split at hs
            · exact bootstrap_keeps _ _ _ _ _ hs
            · exact steady_keeps _ _ _ _ _ _ hs
          split at h
          · exact (hg1.thenK hstage).thenK (finish_keeps _ _ _ _ _ _ h)
          · simp only [Option.some.injEq] at h; subst h; exact hg1.thenK hstage

theorem addFrames_keeps (ext : Ext) (fuel : Nat) :
    ∀ (calls : List (FrameId × Mat3 × Vec3)) (w w' : World),
      addFrames ext fuel w calls = some w' → w.g.KeepsMatches w'.g := by
  intro calls
  induction calls with
  | nil =>
    intro w w' h
    simp only [addFrames, Option.some.injEq] at h
    subst h; exact Graph.KeepsMatches.reflK _
  | cons c cs ih =>
    intro w w' h
    simp only [addFrames] at h
    split at h
    · exact absurd h (by simp)
    · rename_i r hr
      exact (addFrame_keeps _ _ _ _ _ _ _ hr).thenK (ih _ _ h)

theorem selected_mem (g : Graph) (n : Nat) : ∀ (fs : List FeatId) (chains : List (List FeatId)),
    Selected g n fs chains → ∀ ch ∈ chains, ∃ f ∈ fs, IsMatchChain g n f ch := by
  intro fs chains h
  induction h with
  | nil => intro ch hch; exact absurd hch (List.not_mem_nil _)
  | keep f fs c cs hc _ ih =>
    intro ch hch
    rcases List.mem_cons.mp hch with e | e
    · subst e; exact ⟨f, List.mem_cons_self _ _, hc⟩
    · obtain ⟨f', hf', hc'⟩ := ih ch e
      exact ⟨f', List.mem_cons_of_mem _ hf', hc'⟩
  | skip f fs cs _ _ ih =>
    intro ch hch
    obtain ⟨f', hf', hc'⟩ := ih ch hch
    exact ⟨f', List.mem_cons_of_mem _ hf', hc'⟩

/-- A feature whose best-previous-match index is none is not the later element of a link of
    any match chain. -/
theorem isMatchChain_skips (g : Graph) (n : Nat) (f : FeatId) (ch : List FeatId) (f1 : FeatId)
    (h : IsMatchChain g n f ch) (h1 : (g.features f1).bestPrevMatchId = -1) (j : Nat) :
    ch[j + 1]? ≠ some f1 := by
  intro hj
  have hlt : j + 1 < ch.length := by
    by_contra hge
    rw [List.getElem?_eq_none (by omega)] at hj
    exact absurd hj (by simp)
  have hj0 : ch[j]? = some (ch[j]) := List.getElem?_eq_getElem (by omega)
  exact (h.2.2 j _ f1 hj0 hj).2.1 h1

/-- C23: with `nViews < 2` the call appends nothing.  With `nViews >= 2` whatever it returns is
    the output vector followed, in input order, by one chain for each input feature that has a
    backward match chain of `nViews` features and nothing for the others; it does return when
    every best-previous-match index in use is inside its match list; a feature has at most one
    chain.  After `sever f0 f1` and any further `addFrame` calls no returned chain has `f1` as
    the later element of a link, so the severed correspondence is not returned again. -/
theorem findFeatureCorrespondences_chains (g : Graph) (features : List FeatId) (nViews : Int)
    (out : List (List FeatId)) :
    (nViews < 2 → findFeatureCorrespondences g features nViews out = some out) ∧
    (2 ≤ nViews →
      (∀ res, findFeatureCorrespondences g features nViews out = some res →
        ∃ chains, res = out ++ chains ∧ Selected g nViews.toNat features chains) ∧
      ((∀ f, (g.features f).prevMatches ≠ [] → (g.features f).bestPrevMatchId ≠ -1 →
          (g.features f).prevMatch.isSome = true) →
        ∃ res, findFeatureCorrespondences g features nViews out = some res) ∧
      (∀ f ch ch', IsMatchChain g nViews.toNat f ch → IsMatchChain g nViews.toNat f ch' →
        ch = ch') ∧
      (∀ (ext : Ext) (fuel : Nat) (calls : List (FrameId × Mat3 × Vec3)) (f0 f1 : FeatId)
          (w w' : World), w.g = g.sever f0 f1 → addFrames ext fuel w calls = some w' →
        ∀ feats res, findFeatureCorrespondences w'.g feats nViews [] = some res →
          ∀ ch ∈ res, ∀ j, ch[j + 1]? ≠ some f1)) := by
  refine ⟨fun h => by unfold findFeatureCorrespondences; rw [if_pos h], fun h2 => ?_⟩
  have hn : ¬ nViews < 2 := by omega
  have hops : (nViews - 1).toNat + 1 = nViews.toNat := by omega
  refine ⟨fun res h => ?_, fun hm => ?_, fun f ch ch' => isMatchChain_unique g _ f ch ch', ?_⟩
  · unfold findFeatureCorrespondences at h
    rw [if_neg hn] at h
    cases hf : findLoop g (nViews - 1).toNat features with
    | none => rw [hf] at h; exact absurd h (by simp)
    | some found =>
      rw [hf] at h
      simp only [Option.map_some', Option.some.injEq] at h
      refine ⟨found, h.symm, ?_⟩
      rw [← hops]
      exact findLoop_spec g _ features found hf
  · obtain ⟨found, hf⟩ := Option.isSome_iff_exists.mp
      (findLoop_defined g (nViews - 1).toNat hm features)
    refine ⟨out ++ found, ?_⟩
    unfold findFeatureCorrespondences
    rw [if_neg hn, hf]
    rfl
  · intro ext fuel calls f0 f1 w w' hw hrun feats res h ch hch j
    have hk := addFrames_keeps ext fuel calls w w' hrun
    have h1 : (w'.g.features f1).bestPrevMatchId = -1 := by
      have hs : (w.g.features f1).bestPrevMatchId = -1 := by
        rw [hw]
        unfold Graph.sever
        simp [upd]
      rcases (hk.2 f1).2.2.1 with e | e
      · rw [e]; exact hs
      · exact e
    unfold findFeatureCorrespondences at h
    rw [if_neg hn] at h
    cases hf : findLoop w'.g (nViews - 1).toNat feats with
    | none => rw [hf] at h; exact absurd h (by simp)
    | some found =>
      rw [hf] at h
      simp only [Option.map_some', Option.some.injEq, List.nil_append] at h
      subst h
      obtain ⟨f, _, hc⟩ := selected_mem _ _ _ _ (findLoop_spec w'.g _ feats found hf) ch hch
      exact isMatchChain_skips w'.g _ f ch f1 hc h1 j

/-- C23 on the scene: two features of the second frame and a feature without a match give the
    two chains, in order. -/
theorem findFeatureCorrespondences_chains_witness :
    ∃ chains, [[0, 10], [1, 11]] = [] ++ chains ∧
      Selected Demo.sceneGraph (2 : Int).toNat [10, 0, 11] chains :=
  ((findFeatureCorrespondences_chains Demo.sceneGraph [10, 0, 11] 2 []).2 (by decide)).1
    [[0, 10], [1, 11]] (by with_unfolding_all decide)

/-! ## C28: a failed bootstrap in VO mode -/

theorem asPairs_mem : ∀ (found : List (List FeatId)) (prs : List (FeatId × FeatId)),
    asPairs found = some prs → ∀ c ∈ prs, [c.1, c.2] ∈ found := by
  intro found
  induction found with
  | nil =>
    intro prs h c hc
    simp only [asPairs, Option.some.injEq] at h
    subst h
    exact absurd hc (List.not_mem_nil _)
  | cons fc rest ih =>
    intro prs h c hc
    simp only [asPairs] at h
    split at h
    · exact absurd h (by simp)
    · rename_i pr hpr
      split at h
      · exact absurd h (by simp)
      · rename_i prs' hrest
        simp only [Option.some.injEq] at h
        subst h
        rcases List.mem_cons.mp hc with e | e
        · subst e
          have : fc = [c.1, c.2] := by
            unfold asPair at hpr
            split at hpr
            · simp only [Option.some.injEq] at hpr; subst hpr; rfl
            · exact absurd hpr (by simp)
          rw [this]; exact List.mem_cons_self _ _
        · exact List.mem_cons_of_mem _ (ih _ hrest c e)

/-- Every two-view correspondence ends at a feature of the frame and goes back to the live
    previous match of that feature. -/
theorem twoViewCorrespondences_mem (w : World) (fc : FrameId) (cs : List (FeatId × FeatId))
    (h : twoViewCorrespondences w fc = some cs) :
    ∀ c ∈ cs, c.2 ∈ (w.g.frames fc).features2D ∧ (w.g.features c.2).prevMatches ≠ [] ∧
      (w.g.features c.2).bestPrevMatchId ≠ -1 ∧ (w.g.features c.2).prevMatch = some c.1 ∧
      w.g.live2D c.1 = true := by
  intro c hc
  unfold twoViewCorrespondences findFeatureCorrespondences at h
  have h1 : ¬ ((2 : Int) < 2) := by decide
  have h2 : ((2 : Int) - 1).toNat = 1 := by decide
  rw [if_neg h1, h2] at h
  cases hf : findLoop w.g 1 (w.g.frames fc).features2D with
  | none => rw [hf] at h; simp at h
  | some found =>
    rw [hf] at h
    simp only [Option.map_some', List.nil_append] at h
    have hmem := asPairs_mem found cs h c hc
    obtain ⟨f, hfm, hchain⟩ := selected_mem _ _ _ _ (findLoop_spec w.g 1 _ found hf) _ hmem
    obtain ⟨_, hlast, hp⟩ := hchain
    have e : c.2 = f := by simpa using hlast
    subst e
    obtain ⟨p1, p2, p3, p4⟩ := hp 0 c.1 c.2 rfl rfl
    exact ⟨hfm, p1, p2, p3, p4⟩

theorem partitionTriangulated_none (g : Graph) (cs : List (FeatId × FeatId))
    (h : ∀ c ∈ cs, (g.features c.1).feature3D = none) : (partitionTriangulated g cs).1 = [] := by
  apply List.eq_nil_iff_forall_not_mem.mpr
  intro c hc
  obtain ⟨hm, hs⟩ := (partitionTriangulated_spec g cs).1 c hc
  rw [h c hm] at hs
  exact absurd hs (by simp)

/-- An `addFrame` that returns `false` leaves the graph of `enterWindow`, up to the camera
    pose of the frame. -/
theorem addFrame_false_entered (ext : Ext) (fuel : Nat) (w : World) (fr : FrameId) (R : Mat3)
    (t : Vec3) (r : AddFrameResult) (h : addFrame ext fuel w fr R t = some r)
    (hret : r.ret = false) :
    r.world.g = (enterWindow ext w fr).g ∨
      ∃ p, r.world.g = (enterWindow ext w fr).g.setCameraPose fr (some p) := by
  unfold addFrame at h
  dsimp only at h
  split at h
  · rw [(firstFrame_ctl _ _ _ h).2] at hret; exact absurd hret (by simp)
  · unfold laterFrame at h
    split at h
    · exact absurd h (by simp)
    · split at h
      · exact absurd h (by simp)
      · rename_i w1 hp
        split at h
        · exact absurd h (by simp)
        · rename_i st hs
          split at h
          · rw [(finish_ctl _ _ _ _ _ _ h).2] at hret; exact absurd hret (by simp)
          · rename_i hok
            simp only [Option.some.injEq] at h; subst h
            have hok' : st.ok = false := by simpa using hok
            have hg1 := predictPose_graph _ _ _ _ _ _ _ hp
            have hst : st.world.g = w1.g ∨ ∃ p, st.world.g = w1.g.setCameraPose fr (some p) := by
              split at hs
              · exact bootstrap_false _ _ _ _ _ hs hok'
              · rw [steady_false _ _ _ _ _ _ hs hok']
                exact Or.inl rfl
            exact poseOnly_trans hg1 hst

theorem poseOnly_pose {g g' : Graph} {F : FrameId}
    (h : g' = g ∨ ∃ p, g' = g.setCameraPose F (some p)) (F' : FrameId)
    (hF : (g.frames F').cameraPose.isSome = true) : (g'.frames F').cameraPose.isSome = true := by
  rcases h with e | ⟨p, e⟩
  · rw [e]; exact hF
  · rw [e]; exact setCameraPose_isSome _ _ _ _ (Or.inr hF)

theorem enterWindow_pose (ext : Ext) (w : World) (fr : FrameId) (hm : w.ba.mMode = Mode.VO)
    (F : FrameId) (hF : F = fr ∨ (w.g.frames F).cameraPose.isSome = true) :
    ((enterWindow ext w fr).g.frames F).cameraPose.isSome = true := by
  have hg : (enterWindow ext w fr).g = w.g.setCameraPose fr (some ext.newPose) := by
    unfold enterWindow
    simp only [hm, if_true]
  rw [hg]
  exact setCameraPose_isSome _ _ _ _ hF

theorem enterWindow_window (ext : Ext) (w : World) (fr : FrameId)
    (hN : 1 ≤ toSizeT w.ba.m_N) :
    ∃ init, (enterWindow ext w fr).ba.mWindow = init ++ [fr] := by
  refine ⟨w.ba.mWindow.drop ((w.ba.mWindow ++ [fr]).length - toSizeT w.ba.m_N), ?_⟩
  show popFrontWhile (toSizeT w.ba.m_N) (w.ba.mWindow ++ [fr]) = _
  rw [popFrontWhile_eq, List.drop_append_of_le_length (by simp; omega)]

/-- In VO mode, on the third or a later frame whose features go back to features without a 3D
    point, `addFrame` returns, and it returns `false`. -/
theorem addFrame_stuck (ext : Ext) (fuel : Nat) (w : World) (fr : FrameId) (R : Mat3)
    (t : Vec3) (hmode : w.ba.mMode = Mode.VO) (hcap : 2 ≤ toSizeT w.ba.m_N)
    (hcount : 2 ≤ w.ba.mFrameCount) (hwin : w.ba.mWindow ≠ [])
    (hposes : ∀ F ∈ w.ba.mWindow, (w.g.frames F).cameraPose.isSome = true)
    (hidx : ∀ f ∈ (w.g.frames fr).features2D, (w.g.features f).prevMatches.isEmpty = false →
      (w.g.features f).bestPrevMatchId ≠ -1 → (w.g.features f).prevMatch.isSome = true)
    (hunl : ∀ f ∈ (w.g.frames fr).features2D, ∀ a, (w.g.features f).prevMatch = some a →
      (w.g.features a).feature3D = none) :
    ∃ r, addFrame ext fuel w fr R t = some r ∧ r.ret = false := by
  obtain ⟨init, fp, hw⟩ : ∃ init fp, w.ba.mWindow = init ++ [fp] := by
    rcases List.eq_nil_or_concat w.ba.mWindow with h | ⟨L, b, h⟩
    · exact absurd h hwin
    · exact ⟨L, b, by simpa using h⟩
  obtain ⟨hprev, _⟩ := enterWindow_prev ext w fr fp init hcap hw
  have hfp : fp ∈ w.ba.mWindow := by rw [hw]; simp
  obtain ⟨e1, e2, e3, e4, e5⟩ := poseOnly_fields (enterWindow_graph ext w fr)
  have hmode0 : (enterWindow ext w fr).ba.mMode = Mode.VO := hmode
  have hp0 : PosesDefined (enterWindow ext w fr).ba.mMode [fp, fr] (enterWindow ext w fr).g := by
    intro F hF
    rw [if_pos hmode0]
    rcases List.mem_cons.mp hF with e | e
    · rw [e]; exact enterWindow_pose ext w fr hmode fp (Or.inr (hposes fp hfp))
    · rw [List.mem_singleton.mp e]; exact enterWindow_pose ext w fr hmode fr (Or.inl rfl)
  obtain ⟨w1, hpred⟩ := predictPose_defined ext (enterWindow ext w fr) fr fp R t hp0
  have hba1 := predictPose_ba _ _ _ _ _ _ _ hpred
  obtain ⟨f1, f2, f3, f4, f5⟩ := poseOnly_fields (predictPose_graph _ _ _ _ _ _ _ hpred)
  have hidx1 : ∀ f ∈ (w1.g.frames fr).features2D,
      (w1.g.features f).prevMatches.isEmpty = false →
      (w1.g.features f).bestPrevMatchId ≠ -1 → (w1.g.features f).prevMatch.isSome = true := by
    intro f hf
    rw [(f5 fr).1, (e5 fr).1] at hf
    rw [f1, e1]
    exact hidx f hf
  obtain ⟨cs, hcs⟩ := twoViewCorrespondences_defined w1 fr hidx1
  have hnone : ∀ c ∈ cs, (w1.g.features c.1).feature3D = none := by
    intro c hc
    obtain ⟨m1, _, _, m4, _⟩ := twoViewCorrespondences_mem w1 fr cs hcs c hc
    rw [(f5 fr).1, (e5 fr).1] at m1
    rw [f1, e1] at m4 ⊢
    exact hunl c.2 m1 c.1 m4
  have hparts := partitionTriangulated_none w1.g cs hnone
  have hmode1 : w1.ba.mMode = Mode.VO := by rw [hba1]; exact hmode0
  have hsp : steadyPose ext w1 fr fp R [] = some (false, w1) := by
    unfold steadyPose
    simp [hmode1, kMin2D3DFeatureCorrespondences]
  have hsteady : steady ext w1 fr fp R = some ⟨false, w1, none⟩ := by
    unfold steady
    rw [hcs]
    dsimp only
    rw [hparts, hsp]
  have hc1 : ¬ (enterWindow ext w fr).ba.mFrameCount = 1 := by
    show ¬ w.ba.mFrameCount + 1 = 1
    omega
  have hc2 : ¬ w1.ba.mFrameCount = 2 := by
    rw [hba1]
    show ¬ w.ba.mFrameCount + 1 = 2
    omega
  refine ⟨⟨false, w1, none, 0, []⟩, ?_, rfl⟩
  unfold addFrame
  dsimp only
  rw [if_neg hc1]
  unfold laterFrame
  rw [hprev]
  dsimp only
  rw [hpred]
  dsimp only
  rw [if_neg hc2, hsteady]
  rfl

theorem false_call_state (ext : Ext) (fuel : Nat) (w : World) (fr : FrameId) (R : Mat3)
    (t : Vec3) (r : AddFrameResult) (h : addFrame ext fuel w fr R t = some r)
    (hret : r.ret = false) (hmode : w.ba.mMode = Mode.VO) (hcap : 1 ≤ toSizeT w.ba.m_N)
    (hposes : ∀ F ∈ w.ba.mWindow, (w.g.frames F).cameraPose.isSome = true) :
    r.world.ba.mMode = Mode.VO ∧ r.world.ba.m_N = w.ba.m_N ∧
    r.world.ba.mFrameCount = w.ba.mFrameCount + 1 ∧ r.world.ba.mWindow ≠ [] ∧
    (∀ F ∈ r.world.ba.mWindow, (r.world.g.frames F).cameraPose.isSome = true) ∧
    r.world.g.features = w.g.features ∧ r.world.g.points = w.g.points ∧
    r.world.g.nextPoint = w.g.nextPoint ∧
    ∀ F, (r.world.g.frames F).features2D = (w.g.frames F).features2D := by
  have hc := addFrame_ctl _ _ _ _ _ _ _ h
  simp only [SlidingWindowBA.ctl, Prod.mk.injEq] at hc
  obtain ⟨hN, _, hm, hcount, hwin⟩ := hc
  have hpo := addFrame_false_entered ext fuel w fr R t r h hret
  obtain ⟨e1, e2, e3, e4, e5⟩ := poseOnly_fields (enterWindow_graph ext w fr)
  obtain ⟨f1, f2, f3, f4, f5⟩ := poseOnly_fields hpo
  have hwin' : r.world.ba.mWindow = (enterWindow ext w fr).ba.mWindow := hwin
  refine ⟨hm.trans hmode, hN, hcount, ?_, fun F hF => ?_, f1.trans e1, f3.trans e3,
    f4.trans e4, fun F => ((f5 F).1).trans (e5 F).1⟩
  · obtain ⟨init, hi⟩ := enterWindow_window ext w fr hcap
    rw [hwin', hi]
    simp
  · rw [hwin'] at hF
    refine poseOnly_pose hpo F (enterWindow_pose ext w fr hmode F ?_)
    rcases List.mem_cons.mp (enterWindow_mem ext w fr F hF) with e | e
    · exact Or.inl e
    · exact Or.inr (hposes F e)

theorem stuck_run (ext : Ext) (fuel : Nat) (g0 : Graph) :
    ∀ (later : List (FrameId × Mat3 × Vec3)) (w : World),
      w.ba.mMode = Mode.VO → 2 ≤ toSizeT w.ba.m_N → 2 ≤ w.ba.mFrameCount →
      w.ba.mWindow ≠ [] →
      (∀ F ∈ w.ba.mWindow, (w.g.frames F).cameraPose.isSome = true) →
      w.g.features = g0.features → w.g.points = g0.points → w.g.nextPoint = g0.nextPoint →
      (∀ F, (w.g.frames F).features2D = (g0.frames F).features2D) →
      (∀ c ∈ later, ∀ f ∈ (g0.frames c.1).features2D,
        (g0.features f).prevMatches.isEmpty = false → (g0.features f).bestPrevMatchId ≠ -1 →
          (g0.features f).prevMatch.isSome = true) →
      (∀ c ∈ later, ∀ f ∈ (g0.frames c.1).features2D, ∀ a,
        (g0.features f).prevMatch = some a → (g0.features a).feature3D = none) →
      ∃ w' rets, addFramesRets ext fuel w later = some (w', rets) ∧
        rets = List.replicate later.length false ∧
        w'.ba.mFrameCount = w.ba.mFrameCount + later.length ∧
        w'.g.features = g0.features ∧ w'.g.points = g0.points ∧
        w'.g.nextPoint = g0.nextPoint := by
  intro later
  induction later with
  | nil =>
    intro w _ _ _ _ _ hf hp hn _ _ _
    exact ⟨w, [], rfl, rfl, rfl, hf, hp, hn⟩
  | cons c rest ih =>
    intro w hmode hcap hcount hwin hposes hf hp hn hfr hidx hunl
    have hidx0 : ∀ f ∈ (w.g.frames c.1).features2D,
        (w.g.features f).prevMatches.isEmpty = false →
        (w.g.features f).bestPrevMatchId ≠ -1 → (w.g.features f).prevMatch.isSome = true := by
      intro f hfm
      rw [hfr] at hfm
      rw [hf]
      exact hidx c (List.mem_cons_self _ _) f hfm
    have hunl0 : ∀ f ∈ (w.g.frames c.1).features2D, ∀ a,
        (w.g.features f).prevMatch = some a → (w.g.features a).feature3D = none := by
      intro f hfm a
      rw [hfr] at hfm
      rw [hf]
      exact hunl c (List.mem_cons_self _ _) f hfm a
    obtain ⟨r, hr, hret⟩ := addFrame_stuck ext fuel w c.1 c.2.1 c.2.2 hmode hcap hcount hwin
      hposes hidx0 hunl0
    obtain ⟨s1, s2, s3, s4, s5, s6, s7, s8, s9⟩ :=
      false_call_state ext fuel w c.1 c.2.1 c.2.2 r hr hret hmode (by omega) hposes
    obtain ⟨w', rets, hrun, hrets, hcnt, hf', hp', hn'⟩ :=
      ih r.world s1 (by rw [s2]; exact hcap) (by rw [s3]; omega) s4 s5 (s6.trans hf)
        (s7.trans hp) (s8.trans hn) (fun F => (s9 F).trans (hfr F))
        (fun c' hc' => hidx c' (List.mem_cons_of_mem _ hc'))
        (fun c' hc' => hunl c' (List.mem_cons_of_mem _ hc'))
    refine ⟨w', false :: rets, ?_, ?_, ?_, hf', hp', hn'⟩
    · simp only [addFramesRets]
      rw [hr]
      dsimp only
      rw [hrun, hret]
    · rw [hrets]; rfl
    · rw [hcnt, s3, List.length_cons]; omega

theorem firstFrame_entered (w0 : World) (fc : FrameId) (r : AddFrameResult)
    (h : firstFrame w0 fc = some r) :
    r.world.g = w0.g ∨ ∃ p, r.world.g = w0.g.setCameraPose fc (some p) := by
  unfold firstFrame at h
  split at h
  · split at h
    · exact absurd h (by simp)
    · simp only [Option.some.injEq] at h; subst h; exact Or.inr ⟨_, rfl⟩
  · simp only [Option.some.injEq] at h; subst h; exact Or.inl rfl

theorem laterFrame_window (ext : Ext) (fuel : Nat) (w0 : World) (fc : FrameId) (R : Mat3)
    (t : Vec3) (r : AddFrameResult) (h : laterFrame ext fuel w0 fc R t = some r) :
    2 ≤ w0.ba.mWindow.length := by
  unfold laterFrame at h
  split at h
  · exact absurd h (by simp)
  · rename_i fp hfp
    by_contra hlt
    rw [List.getElem?_eq_none (by simp; omega)] at hfp
    exact absurd hfp (by simp)

/-- C28: in VO mode, after a second `addFrame` since `clear()` that returned `false`, every
    later `addFrame` returns, and returns `false`; the frame count keeps counting the calls,
    no 3D point is created and no 2D feature changes.  The frames handed in have features
    without 3D links, whose previous matches are features of frames handed in since the
    `clear()`; a best-previous-match index in use selects an entry of the match list. -/
theorem failed_bootstrap_sticks (ext : Ext) (fuel : Nat) (w0 : World)
    (c1 c2 : FrameId × Mat3 × Vec3) (later : List (FrameId × Mat3 × Vec3))
    (r1 r2 : AddFrameResult) (hmode : w0.ba.mMode = Mode.VO)
    (h1 : addFrame ext fuel w0.clear c1.1 c1.2.1 c1.2.2 = some r1)
    (h2 : addFrame ext fuel r1.world c2.1 c2.2.1 c2.2.2 = some r2)
    (hfalse : r2.ret = false)
    (hunl : ∀ c ∈ c1 :: c2 :: later, ∀ f ∈ (w0.g.frames c.1).features2D,
      (w0.g.features f).feature3D = none)
    (hmatch : ∀ c ∈ later, ∀ f ∈ (w0.g.frames c.1).features2D, ∀ a,
      (w0.g.features f).prevMatch = some a →
        ∃ c' ∈ c1 :: c2 :: later, a ∈ (w0.g.frames c'.1).features2D)
    (hidx : ∀ c ∈ later, ∀ f ∈ (w0.g.frames c.1).features2D,
      (w0.g.features f).prevMatches.isEmpty = false → (w0.g.features f).bestPrevMatchId ≠ -1 →
        (w0.g.features f).prevMatch.isSome = true) :
    ∃ w' rets, addFramesRets ext fuel r2.world later = some (w', rets) ∧
      rets = List.replicate later.length false ∧
      w'.ba.mFrameCount = 2 + later.length ∧
      w'.g.features = w0.g.features ∧ w'.g.points = w0.g.points ∧
      w'.g.nextPoint = w0.g.nextPoint := by
  -- the first call
  have hc1 := addFrame_ctl _ _ _ _ _ _ _ h1
  simp only [SlidingWindowBA.ctl, Prod.mk.injEq] at hc1
  obtain ⟨a1, _, a3, a4, a5⟩ := hc1
  have hm1 : r1.world.ba.mMode = Mode.VO := a3.trans hmode
  have hcount1 : r1.world.ba.mFrameCount = 1 := a4
  have hN1 : r1.world.ba.m_N = w0.ba.m_N := a1
  -- the second call went through the window lookup, so the capacity is at least two
  have hcap : 2 ≤ toSizeT w0.ba.m_N := by
    have hl : 2 ≤ (enterWindow ext r1.world c2.1).ba.mWindow.length := by
      have h2' := h2
      unfold addFrame at h2'
      dsimp only at h2'
      have hne : ¬ (enterWindow ext r1.world c2.1).ba.mFrameCount = 1 := by
        show ¬ r1.world.ba.mFrameCount + 1 = 1
        omega
      rw [if_neg hne] at h2'
      exact laterFrame_window _ _ _ _ _ _ _ h2'
    have e : (enterWindow ext r1.world c2.1).ba.mWindow =
        popFrontWhile (toSizeT r1.world.ba.m_N) (r1.world.ba.mWindow ++ [c2.1]) := rfl
    rw [e, popFrontWhile_eq, List.length_drop, hN1] at hl
    omega
  have hg1 : r1.world.g = (enterWindow ext w0.clear c1.1).g ∨
      ∃ p, r1.world.g = (enterWindow ext w0.clear c1.1).g.setCameraPose c1.1 (some p) := by
    have h1' := h1
    unfold addFrame at h1'
    dsimp only at h1'
    have he : (enterWindow ext w0.clear c1.1).ba.mFrameCount = 1 := rfl
    rw [if_pos he] at h1'
    exact firstFrame_entered _ _ _ h1'
  obtain ⟨b1, b2, b3, b4, b5⟩ := poseOnly_fields (enterWindow_graph ext w0.clear c1.1)
  obtain ⟨d1, d2, d3, d4, d5⟩ := poseOnly_fields hg1
  have hwin1 : r1.world.ba.mWindow = (enterWindow ext w0.clear c1.1).ba.mWindow := a5
  have hposes1 : ∀ F ∈ r1.world.ba.mWindow, (r1.world.g.frames F).cameraPose.isSome = true := by
    intro F hF
    rw [hwin1] at hF
    refine poseOnly_pose hg1 F (enterWindow_pose ext w0.clear c1.1 hmode F ?_)
    rcases List.mem_cons.mp (enterWindow_mem ext w0.clear c1.1 F hF) with e | e
    · exact Or.inl e
    · exact absurd e (List.not_mem_nil _)
  -- the second call
  obtain ⟨s1, s2, s3, s4, s5, s6, s7, s8, s9⟩ :=
    false_call_state ext fuel r1.world c2.1 c2.2.1 c2.2.2 r2 h2 hfalse hm1
      (by rw [hN1]; omega) hposes1
  have hfeat : r2.world.g.features = w0.g.features := s6.trans (d1.trans b1)
  have hfr : ∀ F, (r2.world.g.frames F).features2D = (w0.g.frames F).features2D :=
    fun F => (s9 F).trans (((d5 F).1).trans (b5 F).1)
  obtain ⟨w', rets, hrun, hrets, hcnt, hf', hp', hn'⟩ :=
    stuck_run ext fuel w0.g later r2.world s1 (by rw [s2, hN1]; exact hcap)
      (by rw [s3, hcount1]) s4 s5 hfeat (s7.trans (d3.trans b3)) (s8.trans (d4.trans b4)) hfr
      hidx
      (fun c hc f hf a ha => by
        obtain ⟨c', hc', hmem⟩ := hmatch c hc f hf a ha
        exact hunl c' hc' a hmem)
  exact ⟨w', rets, hrun, hrets, by rw [hcnt, s3, hcount1], hf', hp', hn'⟩

/-- C28 on the VO scene: frame 1, then the featureless frame 4 (the bootstrap fails), then
    frames 2 and 3, whose features go back to those of frame 1. -/
theorem failed_bootstrap_sticks_witness :
    ∃ r1 r2, addFrame Demo.ext 1 Demo.voWorld.clear 1 Mat3.identity Vec3.zero = some r1 ∧
      addFrame Demo.ext 1 r1.world 4 Mat3.identity Vec3.zero = some r2 ∧ r2.ret = false ∧
      ∃ w' rets, addFramesRets Demo.ext 1 r2.world
          [(2, Mat3.identity, Vec3.zero), (3, Mat3.identity, Vec3.zero)] = some (w', rets) ∧
        rets = List.replicate 2 false ∧ w'.ba.mFrameCount = 2 + 2 ∧
        w'.g.features = Demo.voWorld.g.features ∧ w'.g.points = Demo.voWorld.g.points ∧
        w'.g.nextPoint = Demo.voWorld.g.nextPoint := by
  obtain ⟨r1, r2, hr1, hr2, hret⟩ : ∃ r1 r2,
      addFrame Demo.ext 1 Demo.voWorld.clear 1 Mat3.identity Vec3.zero = some r1 ∧
      addFrame Demo.ext 1 r1.world 4 Mat3.identity Vec3.zero = some r2 ∧ r2.ret = false :=
    ⟨_, _, rfl, rfl, rfl⟩
  have key : ∀ c ∈ [((2 : FrameId), Mat3.identity, Vec3.zero), (3, Mat3.identity, Vec3.zero)],
      ∀ f ∈ (Demo.voWorld.g.frames c.1).features2D,
      ∀ a ∈ ((Demo.voWorld.g.features f).prevMatch).toList,
        ∃ c' ∈ [((1 : FrameId), Mat3.identity, Vec3.zero), (4, Mat3.identity, Vec3.zero),
          (2, Mat3.identity, Vec3.zero), (3, Mat3.identity, Vec3.zero)],
          a ∈ (Demo.voWorld.g.frames c'.1).features2D := by
    with_unfolding_all decide
  exact ⟨r1, r2, hr1, hr2, hret,
    failed_bootstrap_sticks Demo.ext 1 Demo.voWorld (1, Mat3.identity, Vec3.zero)
      (4, Mat3.identity, Vec3.zero) [(2, Mat3.identity, Vec3.zero), (3, Mat3.identity, Vec3.zero)]
      r1 r2 rfl hr1 hr2 hret (by with_unfolding_all decide)
      (fun c hc f hf a ha => key c hc f hf a (by rw [ha]; simp))
      (by with_unfolding_all decide)⟩

/-! ## The state of the correspondences after the triangulation stage -/

theorem severed_keeps {g g' : Graph} (h : g.KeepsMatches g') (fc : FeatId × FeatId)
    (hs : g.Severed fc) : g'.Severed fc := by
  constructor
  · rcases (h.2 fc.1).2.2.2 with e | e
    · rw [e]; exact hs.1
    · exact e
  · rcases (h.2 fc.2).2.2.1 with e | e
    · rw [e]; exact hs.2
    · exact e

theorem sever_fields (g : Graph) (f0 f1 : FeatId) :
    (g.sever f0 f1).points = g.points ∧ (g.sever f0 f1).nextPoint = g.nextPoint ∧
    (g.sever f0 f1).frames = g.frames ∧
    (∀ f, ((g.sever f0 f1).features f).feature3D = (g.features f).feature3D) ∧
    (g.sever f0 f1).Severed (f0, f1) ∧
    (∀ f, f ≠ f1 →
      ((g.sever f0 f1).features f).bestPrevMatchId = (g.features f).bestPrevMatchId) ∧
    (∀ f, f ≠ f0 → f ≠ f1 → (g.sever f0 f1).features f = g.features f) := by
  refine ⟨rfl, rfl, rfl, fun f => ?_, ?_, fun f h1 => ?_, fun f h0 h1 => ?_⟩
  · unfold Graph.sever
    dsimp only
    by_cases h1 : f = f1
    · subst h1
      by_cases h0 : f = f0
      · subst h0; simp [upd]
      · simp [upd, h0]
    · by_cases h0 : f = f0
      · subst h0; simp [upd, h1]
      · simp [upd, h0, h1]
  · unfold Graph.Severed Graph.sever
    dsimp only
    by_cases h : f0 = f1
    · subst h; simp [upd]
    · simp [upd, h]
  · unfold Graph.sever
    dsimp only
    by_cases h0 : f = f0
    · subst h0; simp [upd, h1]
    · simp [upd, h0, h1]
  · unfold Graph.sever
    simp [upd, h0, h1]

theorem severUntriangulated_spec : ∀ (cs : List (FeatId × FeatId)) (g : Graph),
    (severUntriangulated g cs).points = g.points ∧
    (severUntriangulated g cs).nextPoint = g.nextPoint ∧
    (severUntriangulated g cs).frames = g.frames ∧
    (∀ f, ((severUntriangulated g cs).features f).feature3D = (g.features f).feature3D) ∧
    (∀ c ∈ cs, (g.features c.2).feature3D = none → (severUntriangulated g cs).Severed c) ∧
    (∀ f, (∀ c ∈ cs, c.2 = f → (g.features f).feature3D ≠ none) →
      ((severUntriangulated g cs).features f).bestPrevMatchId
        = (g.features f).bestPrevMatchId) ∧
    (∀ f, ¬ InCorrespondence cs f → (severUntriangulated g cs).features f = g.features f) := by
  intro cs
  induction cs with
  | nil =>
    intro g
    exact ⟨rfl, rfl, rfl, fun _ => rfl, fun c hc => absurd hc (List.not_mem_nil _),
      fun _ _ => rfl, fun _ _ => rfl⟩
  | cons c rest ih =>
    intro g
    obtain ⟨f0, f1⟩ := c
    have hsubc : ∀ f, ¬ InCorrespondence ((f0, f1) :: rest) f → ¬ InCorrespondence rest f :=
      fun f hn hin => hn (InCorrespondence.mono (fun x hx => List.mem_cons_of_mem _ hx) f hin)
    simp only [severUntriangulated]
    split
    · rename_i hsome
      obtain ⟨i1, i2, i3, i4, i5, i6, i7⟩ := ih g
      refine ⟨i1, i2, i3, i4, fun c hc hnone => ?_, fun f hf => ?_, fun f hf => i7 f (hsubc f hf)⟩
      · rcases List.mem_cons.mp hc with e | e
        · subst e
          rw [hnone] at hsome
          exact absurd hsome (by simp)
        · exact i5 c e hnone
      · exact i6 f (fun c hc => hf c (List.mem_cons_of_mem _ hc))
    · rename_i hnot
      have hnone : (g.features f1).feature3D = none := by
        cases h : (g.features f1).feature3D with
        | none => rfl
        | some p => rw [h] at hnot; exact absurd rfl hnot
      obtain ⟨s1, s2, s3, s4, s5, s6, s7⟩ := sever_fields g f0 f1
      obtain ⟨i1, i2, i3, i4, i5, i6, i7⟩ := ih (g.sever f0 f1)
      refine ⟨i1.trans s1, i2.trans s2, i3.trans s3, fun f => (i4 f).trans (s4 f),
        fun c hc hn => ?_, fun f hf => ?_, fun f hf => ?_⟩
      · rcases List.mem_cons.mp hc with e | e
        · subst e
          exact severed_keeps (severUntriangulated_keeps rest _) _ s5
        · exact i5 c e (by rw [s4]; exact hn)
      · have hne : f ≠ f1 := by
          intro e
          subst e
          exact hf (f0, f) (List.mem_cons_self _ _) rfl hnone
        rw [i6 f (fun c hc e => by rw [s4]; exact hf c (List.mem_cons_of_mem _ hc) e)]
        exact s6 f hne
      · rw [i7 f (hsubc f hf)]
        refine s7 f ?_ ?_
        · intro e
          exact hf ⟨(f0, f1), List.mem_cons_self _ _, Or.inl e⟩
        · intro e
          exact hf ⟨(f0, f1), List.mem_cons_self _ _, Or.inr e⟩

theorem linkNewPoint_fields (g : Graph) (P : Vec3) (f0 f1 : FeatId) :
    ((g.linkNewPoint P f0 f1).features f0).feature3D = some g.nextPoint ∧
    ((g.linkNewPoint P f0 f1).features f1).feature3D = some g.nextPoint ∧
    ((g.linkNewPoint P f0 f1).points g.nextPoint).features2D = [f0, f1] ∧
    (g.linkNewPoint P f0 f1).nextPoint = g.nextPoint + 1 ∧
    (∀ f, f ≠ f0 → f ≠ f1 → (g.linkNewPoint P f0 f1).features f = g.features f) ∧
    (∀ f, ((g.linkNewPoint P f0 f1).features f).bestPrevMatchId
      = (g.features f).bestPrevMatchId) := by
  refine ⟨?_, ?_, ?_, rfl, fun f h0 h1 => ?_, fun f => ?_⟩
  · unfold Graph.linkNewPoint Graph.pushObserver Graph.setFeature3D Graph.allocPoint
    by_cases h : f0 = f1
    · subst h; simp [upd]
    · simp [upd, h]
  · unfold Graph.linkNewPoint Graph.pushObserver Graph.setFeature3D Graph.allocPoint
    simp [upd]
  · unfold Graph.linkNewPoint Graph.pushObserver Graph.setFeature3D Graph.allocPoint
    simp [upd]
  · unfold Graph.linkNewPoint Graph.pushObserver Graph.setFeature3D Graph.allocPoint
    simp [upd, h0, h1]
  · unfold Graph.linkNewPoint Graph.pushObserver Graph.setFeature3D Graph.allocPoint
    dsimp only
    by_cases h1 : f = f1
    · subst h1
      by_cases h0 : f = f0
      · subst h0; simp [upd]
      · simp [upd, h0]
    · by_cases h0 : f = f0
      · subst h0; simp [upd, h1]
      · simp [upd, h0, h1]

theorem linkTriangulated_spec (ic : List (FeatId × FeatId)) :
    ∀ (pts : List (Vec3 × Nat)) (g g' : Graph), linkTriangulated ic g pts = some g' →
      (∀ f, (g'.features f).bestPrevMatchId = (g.features f).bestPrevMatchId) ∧
      (∀ f, (∀ Pk ∈ pts, ∀ d, ic[Pk.2]? = some d → f ≠ d.1 ∧ f ≠ d.2) →
        g'.features f = g.features f) ∧
      ((∀ c ∈ ic, ∀ d ∈ ic, c ≠ d → c.1 ≠ d.1 ∧ c.1 ≠ d.2 ∧ c.2 ≠ d.1 ∧ c.2 ≠ d.2) →
        ∀ Pk ∈ pts, ∀ fc, ic[Pk.2]? = some fc →
          ∃ p, g.nextPoint ≤ p ∧ p < g'.nextPoint ∧ g'.Joined fc p) := by
  intro pts
  induction pts with
  | nil =>
    intro g g' h
    simp only [linkTriangulated, Option.some.injEq] at h
    subst h
    exact ⟨fun _ => rfl, fun _ _ => rfl, fun _ Pk hPk => absurd hPk (List.not_mem_nil _)⟩
  | cons pk rest ih =>
    intro g g' h
    obtain ⟨P, idx⟩ := pk
    simp only [linkTriangulated] at h
    split at h
    · exact absurd h (by simp)
    · rename_i f0 f1 hget
      obtain ⟨l1, l2, l3, l4, l5, l6⟩ := linkNewPoint_fields g P f0 f1
      obtain ⟨i1, i2, i3⟩ := ih _ _ h
      have hgrow := linkTriangulated_grows ic rest _ _ h
      refine ⟨fun f => (i1 f).trans (l6 f), fun f hf => ?_, fun hap Pk hPk fc hfc => ?_⟩
      · rw [i2 f (fun Pk hPk d hd => hf Pk (List.mem_cons_of_mem _ hPk) d hd)]
        have := hf (P, idx) (List.mem_cons_self _ _) (f0, f1) hget
        exact l5 f this.1 this.2
      · have htail : ∀ Pk' ∈ rest, ∀ fc', ic[Pk'.2]? = some fc' →
            ∃ p, g.nextPoint ≤ p ∧ p < g'.nextPoint ∧ g'.Joined fc' p := by
          intro Pk' hPk' fc' hfc'
          obtain ⟨p, hp1, hp2, hj⟩ := i3 hap Pk' hPk' fc' hfc'
          exact ⟨p, by rw [l4] at hp1; exact Nat.le_of_succ_le hp1, hp2, hj⟩
        rcases List.mem_cons.mp hPk with e | e
        · subst e
          have efc : fc = (f0, f1) := by
            rw [hget] at hfc
            exact (Option.some.inj hfc).symm
          subst efc
          by_cases hre : ∃ Pk' ∈ rest, ic[Pk'.2]? = some (f0, f1)
          · obtain ⟨Pk', hPk', hfc'⟩ := hre
            exact htail Pk' hPk' _ hfc'
          · have hfree : ∀ f, f = f0 ∨ f = f1 →
                ∀ Pk' ∈ rest, ∀ d, ic[Pk'.2]? = some d → f ≠ d.1 ∧ f ≠ d.2 := by
              intro f hf Pk' hPk' d hd
              have hne : (f0, f1) ≠ d := by
                intro e
                exact hre ⟨Pk', hPk', by rw [hd, e]⟩
              obtain ⟨a1, a2, a3, a4⟩ :=
                hap (f0, f1) (List.getElem?_mem hget) d (List.getElem?_mem hd) hne
              rcases hf with e | e
              · rw [e]; exact ⟨a1, a2⟩
              · rw [e]; exact ⟨a3, a4⟩
            have e0 := i2 f0 (hfree f0 (Or.inl rfl))
            have e1 := i2 f1 (hfree f1 (Or.inr rfl))
            have hlt : g.nextPoint < (g.linkNewPoint P f0 f1).nextPoint := by
              rw [l4]; exact Nat.lt_succ_self _
            have hobs := hgrow.2.2.2.1 g.nextPoint hlt
            refine ⟨g.nextPoint, Nat.le_refl _, Nat.lt_of_lt_of_le hlt hgrow.2.2.1, ?_, ?_,
              hobs f0 (by rw [l3]; simp), hobs f1 (by rw [l3]; simp)⟩
            · show (g'.features f0).feature3D = some g.nextPoint
              rw [e0]; exact l1
            · show (g'.features f1).feature3D = some g.nextPoint
              rw [e1]; exact l2
        · exact htail Pk e fc hfc

/-- New 3D points for the triangulated correspondences of `ic`, then severing of every
    correspondence of `cs` whose later feature has no 3D point: what each correspondence of
    `cs` ends as. -/
theorem link_sever_spec (cs ic : List (FeatId × FeatId)) (pts : List (Vec3 × Nat))
    (g g2 : Graph) (hsub : ∀ c ∈ ic, c ∈ cs)
    (hap : ∀ c ∈ cs, ∀ d ∈ cs, c ≠ d → c.1 ≠ d.1 ∧ c.1 ≠ d.2 ∧ c.2 ≠ d.1 ∧ c.2 ≠ d.2)
    (hl : linkTriangulated ic g pts = some g2) :
    (∀ f, ¬ InCorrespondence cs f → (severUntriangulated g2 cs).features f = g.features f) ∧
    ∀ fc ∈ cs,
      ((∃ Pk ∈ pts, ic[Pk.2]? = some fc) →
        ∃ p, g.nextPoint ≤ p ∧ p < (severUntriangulated g2 cs).nextPoint ∧
          (severUntriangulated g2 cs).Joined fc p ∧
          ((severUntriangulated g2 cs).features fc.2).bestPrevMatchId
            = (g.features fc.2).bestPrevMatchId) ∧
      ((¬ ∃ Pk ∈ pts, ic[Pk.2]? = some fc) →
        ((severUntriangulated g2 cs).features fc.1).feature3D = (g.features fc.1).feature3D ∧
        ((severUntriangulated g2 cs).features fc.2).feature3D = (g.features fc.2).feature3D ∧
        ((g.features fc.2).feature3D = none → (severUntriangulated g2 cs).Severed fc)) := by
  obtain ⟨l1, l2, l3⟩ := linkTriangulated_spec ic pts g g2 hl
  obtain ⟨s1, s2, s3, s4, s5, s6, s7⟩ := severUntriangulated_spec cs g2
  have hapic : ∀ c ∈ ic, ∀ d ∈ ic, c ≠ d → c.1 ≠ d.1 ∧ c.1 ≠ d.2 ∧ c.2 ≠ d.1 ∧ c.2 ≠ d.2 :=
    fun c hc d hd => hap c (hsub c hc) d (hsub d hd)
  refine ⟨fun f hf => ?_, fun fc hfc => ⟨fun hlinked => ?_, fun hnot => ?_⟩⟩
  · rw [s7 f hf]
    refine l2 f (fun Pk _ d hd => ?_)
    have hd' := hsub d (List.getElem?_mem hd)
    exact ⟨fun e => hf ⟨d, hd', Or.inl e⟩, fun e => hf ⟨d, hd', Or.inr e⟩⟩
  · obtain ⟨Pk, hPk, hget⟩ := hlinked
    obtain ⟨p, hp1, hp2, j1, j2, j3, j4⟩ := l3 hapic Pk hPk fc hget
    refine ⟨p, hp1, by rw [s2]; exact hp2, ⟨?_, ?_, ?_, ?_⟩, ?_⟩
    · rw [s4]; exact j1
    · rw [s4]; exact j2
    · rw [s1]; exact j3
    · rw [s1]; exact j4
    · rw [s6 fc.2 (fun c _ _ => by rw [j2]; simp)]
      exact l1 fc.2
  · have hfree : ∀ f, f = fc.1 ∨ f = fc.2 →
        ∀ Pk ∈ pts, ∀ d, ic[Pk.2]? = some d → f ≠ d.1 ∧ f ≠ d.2 := by
      intro f hf Pk hPk d hd
      have hne : fc ≠ d := by
        intro e
        exact hnot ⟨Pk, hPk, by rw [hd, e]⟩
      obtain ⟨a1, a2, a3, a4⟩ := hap fc hfc d (hsub d (List.getElem?_mem hd)) hne
      rcases hf with e | e
      · rw [e]; exact ⟨a1, a2⟩
      · rw [e]; exact ⟨a3, a4⟩
    have e1 := l2 fc.1 (hfree fc.1 (Or.inl rfl))
    have e2 := l2 fc.2 (hfree fc.2 (Or.inr rfl))
    refine ⟨by rw [s4, e1], by rw [s4, e2], fun hnone => ?_⟩
    exact s5 fc hfc (by rw [e2]; exact hnone)

theorem observationError_congr (ext : Ext) (w w' : World) (F : FrameId) (f : FeatId)
    (p : PointId) (hba : w'.ba = w.ba) (hfr : w'.g.frames = w.g.frames)
    (hpt : (w'.g.points p).point = (w.g.points p).point)
    (hk : (w'.g.features f).keypoint = (w.g.features f).keypoint) :
    observationError ext w' F f p = observationError ext w F f p := by
  unfold observationError
  rw [hba, hfr, hpt, hk]

theorem extend_fields (g : Graph) (f1 : FeatId) (p : PointId) :
    (((g.setFeature3D f1 (some p)).pushObserver p f1).features f1).feature3D = some p ∧
    f1 ∈ (((g.setFeature3D f1 (some p)).pushObserver p f1).points p).features2D ∧
    (∀ f, f ≠ f1 → ((g.setFeature3D f1 (some p)).pushObserver p f1).features f = g.features f) ∧
    (∀ f, (((g.setFeature3D f1 (some p)).pushObserver p f1).features f).bestPrevMatchId
      = (g.features f).bestPrevMatchId) ∧
    (∀ q, (((g.setFeature3D f1 (some p)).pushObserver p f1).points q).point
      = (g.points q).point) ∧
    (∀ q f, f ∈ (g.points q).features2D →
      f ∈ (((g.setFeature3D f1 (some p)).pushObserver p f1).points q).features2D) := by
  unfold Graph.pushObserver Graph.setFeature3D
  refine ⟨by simp [upd], by simp [upd], fun f hf => by simp [upd, hf], fun f => ?_,
    fun q => ?_, fun q f hf => ?_⟩
  · by_cases h : f = f1
    · subst h; simp [upd]
    · simp [upd, h]
  · by_cases h : q = p
    · subst h; simp [upd]
    · simp [upd, h]
  · by_cases h : q = p
    · subst h; simp [upd]; exact Or.inl hf
    · simp [upd, h]; exact hf

theorem checkTriangulated_frame (ext : Ext) (fc : FrameId) :
    ∀ (l : List (FeatId × FeatId)) (w w' : World),
      checkTriangulated ext fc w l = some w' →
        w'.g.frames = w.g.frames ∧ w'.g.nextPoint = w.g.nextPoint ∧
        (∀ q, (w'.g.points q).point = (w.g.points q).point) ∧
        (∀ q f, f ∈ (w.g.points q).features2D → f ∈ (w'.g.points q).features2D) ∧
        (∀ f, (∀ c ∈ l, f ≠ c.2) →
          (w'.g.features f).feature3D = (w.g.features f).feature3D ∧
          (w'.g.features f).bestPrevMatchId = (w.g.features f).bestPrevMatchId) ∧
        (∀ f, ¬ InCorrespondence l f → w'.g.features f = w.g.features f) := by
  intro l
  induction l with
  | nil =>
    intro w w' h
    simp only [checkTriangulated, Option.some.injEq] at h
    subst h
    exact ⟨rfl, rfl, fun _ => rfl, fun _ _ h => h, fun _ _ => ⟨rfl, rfl⟩, fun _ _ => rfl⟩
  | cons c rest ih =>
    intro w w' h
    obtain ⟨f0, f1⟩ := c
    have hsubc : ∀ f, ¬ InCorrespondence ((f0, f1) :: rest) f → ¬ InCorrespondence rest f :=
      fun f hn hin => hn (InCorrespondence.mono (fun x hx => List.mem_cons_of_mem _ hx) f hin)
    simp only [checkTriangulated] at h
    split at h
    · exact absurd h (by simp)
    · rename_i p hp
      split at h
      · exact absurd h (by simp)
      · split at h
        · obtain ⟨i1, i2, i3, i4, i5, i6⟩ := ih _ _ h
          obtain ⟨s1, s2, s3, s4, s5, s6, s7⟩ := sever_fields w.g f0 f1
          refine ⟨i1.trans s3, i2.trans s2, fun q => ?_, fun q f hf => ?_, fun f hf => ?_,
            fun f hf => ?_⟩
          · rw [i3 q]; show ((w.g.sever f0 f1).points q).point = _; rw [s1]
          · refine i4 q f ?_
            show f ∈ ((w.g.sever f0 f1).points q).features2D
            rw [s1]; exact hf
          · obtain ⟨a, b⟩ := i5 f (fun c hc => hf c (List.mem_cons_of_mem _ hc))
            have hne : f ≠ f1 := hf (f0, f1) (List.mem_cons_self _ _)
            exact ⟨a.trans (s4 f), b.trans (s6 f hne)⟩
          · rw [i6 f (hsubc f hf)]
            refine s7 f ?_ ?_
            · intro e
              exact hf ⟨(f0, f1), List.mem_cons_self _ _, Or.inl e⟩
            · intro e
              exact hf ⟨(f0, f1), List.mem_cons_self _ _, Or.inr e⟩
        · obtain ⟨i1, i2, i3, i4, i5, i6⟩ := ih _ _ h
          obtain ⟨x1, x2, x3, x4, x5, x6⟩ := extend_fields w.g f1 p
          refine ⟨i1, i2, fun q => (i3 q).trans (x5 q), fun q f hf => i4 q f (x6 q f hf),
            fun f hf => ?_, fun f hf => ?_⟩
          · obtain ⟨a, b⟩ := i5 f (fun c hc => hf c (List.mem_cons_of_mem _ hc))
            have hne : f ≠ f1 := hf (f0, f1) (List.mem_cons_self _ _)
            refine ⟨a.trans ?_, b.trans (x4 f)⟩
            show (((w.g.setFeature3D f1 (some p)).pushObserver p f1).features f).feature3D = _
            rw [x3 f hne]
          · rw [i6 f (hsubc f hf)]
            refine x3 f ?_
            intro e
            exact hf ⟨(f0, f1), List.mem_cons_self _ _, Or.inr e⟩

theorem oneToOne_apart {cs : List (FeatId × FeatId)} (h : OneToOne cs) :
    cs.Nodup ∧ ∀ c ∈ cs, ∀ d ∈ cs, c ≠ d → c.1 ≠ d.1 ∧ c.1 ≠ d.2 ∧ c.2 ≠ d.1 ∧ c.2 ≠ d.2 := by
  obtain ⟨h1, h2, h3⟩ := h
  refine ⟨List.Nodup.of_map _ h1, fun c hc d hd hne => ⟨fun e => ?_, h3 c hc d hd,
    fun e => h3 d hd c hc e.symm, fun e => ?_⟩⟩
  · exact hne (List.inj_on_of_nodup_map h1 hc hd e)
  · exact hne (List.inj_on_of_nodup_map h2 hc hd e)

theorem later_distinct_tail {c : FeatId × FeatId} {rest : List (FeatId × FeatId)}
    (h2 : ((c :: rest).map Prod.snd).Nodup)
    (h3 : ∀ a ∈ c :: rest, ∀ b ∈ c :: rest, a.1 ≠ b.2) :
    (rest.map Prod.snd).Nodup ∧ (∀ a ∈ rest, ∀ b ∈ rest, a.1 ≠ b.2) ∧
    ∀ d ∈ rest, c.2 ≠ d.2 ∧ d.1 ≠ c.2 := by
  rw [List.map_cons, List.nodup_cons] at h2
  refine ⟨h2.2, fun a ha b hb => h3 a (List.mem_cons_of_mem _ ha) b (List.mem_cons_of_mem _ hb),
    fun d hd => ⟨fun e => ?_, h3 d (List.mem_cons_of_mem _ hd) c (List.mem_cons_self _ _)⟩⟩
  exact h2.1 (List.mem_map.mpr ⟨d, hd, e.symm⟩)

/-- Lines 440-476: each correspondence with a 3D point is severed when the mode is VO and its
    reprojection error in the current frame exceeds the threshold, and is extended
    otherwise. -/
theorem checkTriangulated_spec (ext : Ext) (fc : FrameId) :
    ∀ (l : List (FeatId × FeatId)) (w w' : World),
      checkTriangulated ext fc w l = some w' → (l.map Prod.snd).Nodup →
        (∀ a ∈ l, ∀ b ∈ l, a.1 ≠ b.2) →
        ∀ c ∈ l, ∃ p e, (w.g.features c.1).feature3D = some p ∧
          observationError ext w fc c.2 p = some e ∧
          ((w.ba.mMode = Mode.VO ∧ e > kReprojErrorThresh) →
            w'.g.Severed c ∧ (w'.g.features c.2).feature3D = (w.g.features c.2).feature3D) ∧
          (¬ (w.ba.mMode = Mode.VO ∧ e > kReprojErrorThresh) →
            (w'.g.features c.2).feature3D = some p ∧ c.2 ∈ (w'.g.points p).features2D ∧
            (w'.g.features c.2).bestPrevMatchId = (w.g.features c.2).bestPrevMatchId) := by
  intro l
  induction l with
  | nil => intro w w' _ _ _ c hc; exact absurd hc (List.not_mem_nil _)
  | cons c0 rest ih =>
    intro w w' h hnd hfs c hc
    obtain ⟨f0, f1⟩ := c0
    obtain ⟨hndr, hfsr, hapart⟩ := later_distinct_tail hnd hfs
    simp only [checkTriangulated] at h
    split at h
    · exact absurd h (by simp)
    · rename_i p hp
      split at h
      · exact absurd h (by simp)
      · rename_i e he
        -- the world after the first correspondence
        have hstep : ∃ w1 : World, checkTriangulated ext fc w1 rest = some w' ∧
            w1.ba = w.ba ∧ w1.g.frames = w.g.frames ∧
            (∀ q, (w1.g.points q).point = (w.g.points q).point) ∧
            (∀ f, (w1.g.features f).keypoint = (w.g.features f).keypoint) ∧
            (∀ f, f ≠ f1 → (w1.g.features f).feature3D = (w.g.features f).feature3D ∧
              (w1.g.features f).bestPrevMatchId = (w.g.features f).bestPrevMatchId) ∧
            ((w.ba.mMode = Mode.VO ∧ e > kReprojErrorThresh) →
              w1.g.Severed (f0, f1) ∧
              (w1.g.features f1).feature3D = (w.g.features f1).feature3D) ∧
            (¬ (w.ba.mMode = Mode.VO ∧ e > kReprojErrorThresh) →
              (w1.g.features f1).feature3D = some p ∧ f1 ∈ (w1.g.points p).features2D ∧
              (w1.g.features f1).bestPrevMatchId = (w.g.features f1).bestPrevMatchId) := by
          split at h
          · rename_i hcond
            obtain ⟨s1, s2, s3, s4, s5, s6, s7⟩ := sever_fields w.g f0 f1
            refine ⟨_, h, rfl, s3, fun q => by show ((w.g.sever f0 f1).points q).point = _; rw [s1],
              fun f => ((sever_keeps w.g f0 f1).2 f).2.1, fun f hf => ⟨s4 f, s6 f hf⟩,
              fun _ => ⟨s5, s4 f1⟩, fun hn => absurd hcond hn⟩
          · rename_i hcond
            obtain ⟨x1, x2, x3, x4, x5, x6⟩ := extend_fields w.g f1 p
            refine ⟨_, h, rfl, rfl, x5, fun f => ((extend_keeps w.g f1 p).2 f).2.1,
              fun f hf => ⟨by
                show (((w.g.setFeature3D f1 (some p)).pushObserver p f1).features f).feature3D
                  = _
                rw [x3 f hf], x4 f⟩,
              fun hc' => absurd hc' hcond, fun _ => ⟨x1, x2, x4 f1⟩⟩
        obtain ⟨w1, hrun, b1, b2, b3, b4, b5, b6, b7⟩ := hstep
        obtain ⟨i1, i2, i3, i4, i5, i6⟩ := checkTriangulated_frame ext fc rest w1 w' hrun
        have hkeep := checkTriangulated_keeps ext fc rest w1 w' hrun
        rcases List.mem_cons.mp hc with ec | ec
        · subst ec
          have hfree : ∀ d ∈ rest, f1 ≠ d.2 := fun d hd => (hapart d hd).1
          obtain ⟨k1, k2⟩ := i5 f1 hfree
          refine ⟨p, e, hp, he, fun hcond => ?_, fun hcond => ?_⟩
          · obtain ⟨sv, lk⟩ := b6 hcond
            exact ⟨severed_keeps hkeep _ sv, k1.trans lk⟩
          · obtain ⟨lk, ob, bp⟩ := b7 hcond
            exact ⟨k1.trans lk, i4 p f1 ob, k2.trans bp⟩
        · obtain ⟨a4, a3⟩ := hapart c ec
          obtain ⟨p', e', hp', he', hsev, hext⟩ := ih w1 w' hrun hndr hfsr c ec
          have hl1 : (w.g.features c.1).feature3D = some p' := by
            rw [← (b5 c.1 a3).1]; exact hp'
          have hoe : observationError ext w fc c.2 p' = some e' := by
            rw [← observationError_congr ext w w1 fc c.2 p' b1 b2 (b3 p') (b4 c.2)]
            exact he'
          obtain ⟨c1, c2⟩ := b5 c.2 (fun e => a4 e.symm)
          refine ⟨p', e', hl1, hoe, fun hcond => ?_, fun hcond => ?_⟩
          · obtain ⟨sv, lk⟩ := hsev (by rw [b1]; exact hcond)
            exact ⟨sv, lk.trans c1⟩
          · obtain ⟨lk, ob, bp⟩ := hext (by rw [b1]; exact hcond)
            exact ⟨lk, ob, bp.trans c2⟩

theorem partitionTriangulated_mem (g : Graph) : ∀ cs : List (FeatId × FeatId),
    (∀ c, c ∈ (partitionTriangulated g cs).1 ↔
      c ∈ cs ∧ (g.features c.1).feature3D.isSome = true) ∧
    (∀ c, c ∈ (partitionTriangulated g cs).2 ↔
      c ∈ cs ∧ (g.features c.1).feature3D = none) ∧
    (cs.Nodup → (partitionTriangulated g cs).1.Nodup ∧ (partitionTriangulated g cs).2.Nodup) := by
  intro cs
  induction cs with
  | nil =>
    refine ⟨fun c => ?_, fun c => ?_, fun _ => ⟨List.nodup_nil, List.nodup_nil⟩⟩
    · simp [partitionTriangulated]
    · simp [partitionTriangulated]
  | cons c0 rest ih =>
    obtain ⟨i1, i2, i3⟩ := ih
    simp only [partitionTriangulated]
    split
    · rename_i hs
      refine ⟨fun c => ?_, fun c => ?_, fun hn => ?_⟩
      · simp only [List.mem_cons, i1]
        constructor
        · rintro (e | ⟨hm, hl⟩)
          · subst e; exact ⟨Or.inl rfl, hs⟩
          · exact ⟨Or.inr hm, hl⟩
        · rintro ⟨e | hm, hl⟩
          · exact Or.inl e
          · exact Or.inr ⟨hm, hl⟩
      · simp only [List.mem_cons, i2]
        constructor
        · rintro ⟨hm, hl⟩
          exact ⟨Or.inr hm, hl⟩
        · rintro ⟨e | hm, hl⟩
          · subst e
            rw [hl] at hs
            exact absurd hs (by simp)
          · exact ⟨hm, hl⟩
      · obtain ⟨hnot, hrest⟩ := List.nodup_cons.mp hn
        obtain ⟨n1, n2⟩ := i3 hrest
        exact ⟨List.nodup_cons.mpr ⟨fun hmem => hnot ((i1 c0).mp hmem).1, n1⟩, n2⟩
    · rename_i hs
      have hnone : (g.features c0.1).feature3D = none := by
        cases h : (g.features c0.1).feature3D with
        | none => rfl
        | some p => rw [h] at hs; exact absurd rfl hs
      refine ⟨fun c => ?_, fun c => ?_, fun hn => ?_⟩
      · simp only [List.mem_cons, i1]
        constructor
        · rintro ⟨hm, hl⟩
          exact ⟨Or.inr hm, hl⟩
        · rintro ⟨e | hm, hl⟩
          · subst e
            exact absurd hl hs
          · exact ⟨hm, hl⟩
      · simp only [List.mem_cons, i2]
        constructor
        · rintro (e | ⟨hm, hl⟩)
          · subst e; exact ⟨Or.inl rfl, hnone⟩
          · exact ⟨Or.inr hm, hl⟩
        · rintro ⟨e | hm, hl⟩
          · exact Or.inl e
          · exact Or.inr ⟨hm, hl⟩
      · obtain ⟨hnot, hrest⟩ := List.nodup_cons.mp hn
        obtain ⟨n1, n2⟩ := i3 hrest
        exact ⟨n1, List.nodup_cons.mpr ⟨fun hmem => hnot ((i2 c0).mp hmem).1, n2⟩⟩

theorem partitionTriangulated_sublist (g : Graph) : ∀ cs : List (FeatId × FeatId),
    (partitionTriangulated g cs).1.Sublist cs ∧ (partitionTriangulated g cs).2.Sublist cs := by
  intro cs
  induction cs with
  | nil => exact ⟨List.Sublist.refl _, List.Sublist.refl _⟩
  | cons c0 rest ih =>
    simp only [partitionTriangulated]
    split
    · exact ⟨ih.1.cons₂ _, ih.2.cons _⟩
    · exact ⟨ih.1.cons _, ih.2.cons₂ _⟩

theorem steadyNew_spec (ext : Ext) (w2 : World) (fc fp : FrameId) (l : List (FeatId × FeatId))
    (w3 : World) (h : steadyNew ext w2 fc fp l = some w3)
    (hap : ∀ c ∈ l, ∀ d ∈ l, c ≠ d → c.1 ≠ d.1 ∧ c.1 ≠ d.2 ∧ c.2 ≠ d.1 ∧ c.2 ≠ d.2) :
    (∀ f, ¬ InCorrespondence l f → w3.g.features f = w2.g.features f) ∧
    ∀ c ∈ l,
      (∃ p, w2.g.nextPoint ≤ p ∧ p < w3.g.nextPoint ∧ w3.g.Joined c p ∧
        (w3.g.features c.2).bestPrevMatchId = (w2.g.features c.2).bestPrevMatchId) ∨
      ((w3.g.features c.1).feature3D = (w2.g.features c.1).feature3D ∧
        (w3.g.features c.2).feature3D = (w2.g.features c.2).feature3D ∧
        ((w2.g.features c.2).feature3D = none → w3.g.Severed c)) := by
  unfold steadyNew at h
  split at h
  · rename_i hemp
    simp only [Option.some.injEq] at h; subst h
    have : l = [] := List.isEmpty_iff.mp hemp
    subst this
    exact ⟨fun _ _ => rfl, fun c hc => absurd hc (List.not_mem_nil _)⟩
  · split at h
    · exact absurd h (by simp)
    · rename_i pts _
      split at h
      · exact absurd h (by simp)
      · rename_i g3 hg3
        simp only [Option.some.injEq] at h; subst h
        obtain ⟨k1, k2⟩ := link_sever_spec l l pts w2.g g3 (fun _ hc => hc) hap hg3
        refine ⟨k1, fun c hc => ?_⟩
        by_cases hlinked : ∃ Pk ∈ pts, l[Pk.2]? = some c
        · exact Or.inl ((k2 c hc).1 hlinked)
        · exact Or.inr ((k2 c hc).2 hlinked)

/-- What the second frame leaves of each two-view correspondence: a new 3D point that both
    features are linked to, or the links as they were and, where the later feature has none,
    the correspondence severed. -/
theorem bootstrap_outcome (ext : Ext) (w : World) (fc fp : FrameId) (st : StageResult)
    (cs : List (FeatId × FeatId)) (h : bootstrap ext w fc fp = some st) (hok : st.ok = true)
    (hcs : twoViewCorrespondences w fc = some cs) (h11 : OneToOne cs) :
    ∃ w1 inliers Rt ic, bootstrapPose ext w fc cs = some (w1, inliers, Rt) ∧
      selectInliers cs 0 inliers = some ic ∧
      (∀ f, ¬ InCorrespondence cs f → st.world.g.features f = w.g.features f) ∧
      ∀ c ∈ cs,
        (c ∈ ic ∧ ∃ p, w.g.nextPoint ≤ p ∧ p < st.world.g.nextPoint ∧ st.world.g.Joined c p ∧
          (st.world.g.features c.2).bestPrevMatchId = (w.g.features c.2).bestPrevMatchId) ∨
        ((st.world.g.features c.1).feature3D = (w.g.features c.1).feature3D ∧
          (st.world.g.features c.2).feature3D = (w.g.features c.2).feature3D ∧
          ((w.g.features c.2).feature3D = none → st.world.g.Severed c)) := by
  unfold bootstrap at h
  rw [hcs] at h
  dsimp only at h
  split at h
  · simp only [Option.some.injEq] at h; subst h; exact absurd hok (by simp)
  · split at h
    · exact absurd h (by simp)
    · rename_i w1 inl Rt hp
      obtain ⟨e1, e2, e3, e4, e5⟩ := poseOnly_fields (bootstrapPose_graph _ _ _ _ _ _ _ hp)
      unfold bootstrapStructure at h
      split at h
      · exact absurd h (by simp)
      · rename_i ic hic
        split at h
        · exact absurd h (by simp)
        · rename_i pts _
          split at h
          · simp only [Option.some.injEq] at h; subst h; exact absurd hok (by simp)
          · split at h
            · exact absurd h (by simp)
            · rename_i g2 hg2
              simp only [Option.some.injEq] at h; subst h
              obtain ⟨k1, k2⟩ := link_sever_spec cs ic pts w1.g g2
                (selectInliers_subset cs _ _ _ hic) (oneToOne_apart h11).2 hg2
              refine ⟨w1, inl, Rt, ic, hp, hic, fun f hf => ?_, fun c hc => ?_⟩
              · rw [← e1]; exact k1 f hf
              · by_cases hlinked : ∃ Pk ∈ pts, ic[Pk.2]? = some c
                · obtain ⟨p, hp1, hp2, hj, hb⟩ := (k2 c hc).1 hlinked
                  obtain ⟨Pk, _, hget⟩ := hlinked
                  exact Or.inl ⟨List.getElem?_mem hget, p, by rw [← e4]; exact hp1, hp2, hj,
                    by rw [← e1]; exact hb⟩
                · obtain ⟨a, b, c'⟩ := (k2 c hc).2 hlinked
                  rw [e1] at a b c'
                  exact Or.inr ⟨a, b, c'⟩

/-- What the third and later frames leave of a two-view correspondence whose earlier feature
    has a 3D point: it is severed when the mode is VO and the reprojection error in the
    current frame exceeds the threshold, and extended otherwise. -/
theorem steady_tri_outcome (ext : Ext) (w : World) (fc fp : FrameId) (R : Mat3)
    (st : StageResult) (cs : List (FeatId × FeatId)) (h : steady ext w fc fp R = some st)
    (hok : st.ok = true) (hcs : twoViewCorrespondences w fc = some cs)
    (hnd : (cs.map Prod.snd).Nodup) (hfs : ∀ a ∈ cs, ∀ b ∈ cs, a.1 ≠ b.2)
    (ha : w.g.Allocated) :
    ∃ w1, steadyPose ext w fc fp R (partitionTriangulated w.g cs).1 = some (true, w1) ∧
      ∀ c ∈ cs, ∀ p, (w.g.features c.1).feature3D = some p →
        ∃ e, observationError ext w1 fc c.2 p = some e ∧
          ((w.ba.mMode = Mode.VO ∧ e > kReprojErrorThresh) →
            st.world.g.Severed c ∧
            (st.world.g.features c.2).feature3D = (w.g.features c.2).feature3D) ∧
          (¬ (w.ba.mMode = Mode.VO ∧ e > kReprojErrorThresh) →
            (st.world.g.features c.1).feature3D = some p ∧
            (st.world.g.features c.2).feature3D = some p ∧
            c.2 ∈ (st.world.g.points p).features2D ∧
            (st.world.g.features c.2).bestPrevMatchId
              = (w.g.features c.2).bestPrevMatchId) := by
  obtain ⟨m1, m2, _⟩ := partitionTriangulated_mem w.g cs
  have hnd1 : ((partitionTriangulated w.g cs).1.map Prod.snd).Nodup :=
    List.Nodup.sublist ((partitionTriangulated_sublist w.g cs).1.map _) hnd
  have hfs1 : ∀ a ∈ (partitionTriangulated w.g cs).1, ∀ b ∈ (partitionTriangulated w.g cs).1,
      a.1 ≠ b.2 := fun a ha' b hb => hfs a ((m1 a).mp ha').1 b ((m1 b).mp hb).1
  unfold steady at h
  rw [hcs] at h
  dsimp only at h
  split at h
  · exact absurd h (by simp)
  · simp only [Option.some.injEq] at h; subst h; exact absurd hok (by simp)
  · rename_i w1 hp
    split at h
    · exact absurd h (by simp)
    · rename_i w2 hc
      split at h
      · exact absurd h (by simp)
      · rename_i w3 hn
        simp only [Option.some.injEq] at h; subst h
        obtain ⟨e1, e2, e3, e4, e5⟩ := poseOnly_fields (steadyPose_graph _ _ _ _ _ _ _ _ hp)
        have hba1 := steadyPose_ba _ _ _ _ _ _ _ _ hp
        have X := checkTriangulated_spec ext fc _ w1 w2 hc hnd1 hfs1
        obtain ⟨F1, F2, F3, F4, F5, F6⟩ := checkTriangulated_frame ext fc _ w1 w2 hc
        have N1 : ∀ f, ¬ InCorrespondence (partitionTriangulated w.g cs).2 f →
            w3.g.features f = w2.g.features f := by
          intro f hf
          have hkeepf : ∀ g2 : Graph, (severUntriangulated g2
              (partitionTriangulated w.g cs).2).features f = g2.features f :=
            fun g2 => (severUntriangulated_spec _ g2).2.2.2.2.2.2 f hf
          unfold steadyNew at hn
          split at hn
          · simp only [Option.some.injEq] at hn; subst hn; rfl
          · split at hn
            · exact absurd hn (by simp)
            · rename_i pts _
              split at hn
              · exact absurd hn (by simp)
              · rename_i g3 hg3
                simp only [Option.some.injEq] at hn; subst hn
                show (severUntriangulated g3 _).features f = _
                rw [hkeepf g3]
                refine (linkTriangulated_spec _ pts w2.g g3 hg3).2.1 f (fun Pk _ d hd => ?_)
                have hd' := List.getElem?_mem hd
                exact ⟨fun e => hf ⟨d, hd', Or.inl e⟩, fun e => hf ⟨d, hd', Or.inr e⟩⟩
        have G := steadyNew_grows ext w2 fc fp _ w3 hn
        refine ⟨w1, hp, fun c hcm p hlp => ?_⟩
        have hc1 : c ∈ (partitionTriangulated w.g cs).1 := (m1 c).mpr ⟨hcm, by rw [hlp]; rfl⟩
        have hfree : ∀ f, f = c.1 ∨ f = c.2 →
            ¬ InCorrespondence (partitionTriangulated w.g cs).2 f := by
          rintro f hf ⟨d, hd, hfd⟩
          obtain ⟨hdm, hdn⟩ := (m2 d).mp hd
          have hne : c ≠ d := by
            intro e
            rw [← e, hlp] at hdn
            exact absurd hdn (by simp)
          rcases hf with e | e <;> rcases hfd with e' | e'
          · have h1 : c.1 = d.1 := e.symm.trans e'
            rw [h1, hdn] at hlp
            exact absurd hlp (by simp)
          · exact hfs c hcm d hdm (e.symm.trans e')
          · exact hfs d hdm c hcm (e'.symm.trans e)
          · exact hne (List.inj_on_of_nodup_map hnd hcm hdm (e.symm.trans e'))
        have k1 := N1 c.1 (hfree c.1 (Or.inl rfl))
        have k2 := N1 c.2 (hfree c.2 (Or.inr rfl))
        obtain ⟨p', e, hp', he, hsev, hext⟩ := X c hc1
        rw [e1, hlp] at hp'
        have hpp : p' = p := (Option.some.inj hp').symm
        subst hpp
        refine ⟨e, he, fun hcond => ?_, fun hcond => ?_⟩
        · obtain ⟨sv, lk⟩ := hsev (by rw [hba1]; exact hcond)
          refine ⟨?_, ?_⟩
          · unfold Graph.Severed
            show (w3.g.features c.1).bestNextMatchId = -1 ∧
              (w3.g.features c.2).bestPrevMatchId = -1
            rw [k1, k2]; exact sv
          · show (w3.g.features c.2).feature3D = _
            rw [k2, lk, e1]
        · obtain ⟨lk, ob, bp⟩ := hext (by rw [hba1]; exact hcond)
          have hlt : p' < w2.g.nextPoint := by
            rw [F2, e4]; exact ha c.1 p' hlp
          have hl1 : (w2.g.features c.1).feature3D = some p' := by
            rw [(F5 c.1 (fun d hd => hfs c hcm d ((m1 d).mp hd).1)).1, e1]; exact hlp
          refine ⟨?_, ?_, G.2.2.2.1 p' hlt c.2 ob, ?_⟩
          · show (w3.g.features c.1).feature3D = _
            rw [k1]; exact hl1
          · show (w3.g.features c.2).feature3D = _
            rw [k2]; exact lk
          · show (w3.g.features c.2).bestPrevMatchId = _
            rw [k2, bp, e1]

/-- What the third and later frames leave of a two-view correspondence whose earlier feature
    has no 3D point: a new 3D point that both features are linked to, or the links as they
    were and, where the later feature has none, the correspondence severed. -/
theorem steady_untri_outcome (ext : Ext) (w : World) (fc fp : FrameId) (R : Mat3)
    (st : StageResult) (cs : List (FeatId × FeatId)) (h : steady ext w fc fp R = some st)
    (hok : st.ok = true) (hcs : twoViewCorrespondences w fc = some cs) (h11 : OneToOne cs) :
    ∀ c ∈ cs, (w.g.features c.1).feature3D = none →
      (∃ p, w.g.nextPoint ≤ p ∧ p < st.world.g.nextPoint ∧ st.world.g.Joined c p ∧
        (st.world.g.features c.2).bestPrevMatchId = (w.g.features c.2).bestPrevMatchId) ∨
      ((st.world.g.features c.1).feature3D = none ∧
        (st.world.g.features c.2).feature3D = (w.g.features c.2).feature3D ∧
        ((w.g.features c.2).feature3D = none → st.world.g.Severed c)) := by
  obtain ⟨m1, m2, _⟩ := partitionTriangulated_mem w.g cs
  obtain ⟨_, hap⟩ := oneToOne_apart h11
  have hap2 : ∀ c ∈ (partitionTriangulated w.g cs).2, ∀ d ∈ (partitionTriangulated w.g cs).2,
      c ≠ d → c.1 ≠ d.1 ∧ c.1 ≠ d.2 ∧ c.2 ≠ d.1 ∧ c.2 ≠ d.2 :=
    fun c hc d hd => hap c ((m2 c).mp hc).1 d ((m2 d).mp hd).1
  unfold steady at h
  rw [hcs] at h
  dsimp only at h
  split at h
  · exact absurd h (by simp)
  · simp only [Option.some.injEq] at h; subst h; exact absurd hok (by simp)
  · rename_i w1 hp
    split at h
    · exact absurd h (by simp)
    · rename_i w2 hc
      split at h
      · exact absurd h (by simp)
      · rename_i w3 hn
        simp only [Option.some.injEq] at h; subst h
        obtain ⟨e1, e2, e3, e4, e5⟩ := poseOnly_fields (steadyPose_graph _ _ _ _ _ _ _ _ hp)
        obtain ⟨F1, F2, F3, F4, F5, F6⟩ := checkTriangulated_frame ext fc _ w1 w2 hc
        obtain ⟨N1, N2⟩ := steadyNew_spec ext w2 fc fp _ w3 hn hap2
        intro c hcm hnone
        have hc2 : c ∈ (partitionTriangulated w.g cs).2 := (m2 c).mpr ⟨hcm, hnone⟩
        have hfree : ∀ f, f = c.1 ∨ f = c.2 →
            ¬ InCorrespondence (partitionTriangulated w.g cs).1 f := by
          rintro f hf ⟨d, hd, hfd⟩
          obtain ⟨hdm, hds⟩ := (m1 d).mp hd
          have hne : c ≠ d := by
            intro e
            rw [← e, hnone] at hds
            exact absurd hds (by simp)
          obtain ⟨a1, a2, a3, a4⟩ := hap c hcm d hdm hne
          rcases hf with e | e <;> rcases hfd with e' | e'
          · exact a1 (e ▸ e')
          · exact a2 (e ▸ e')
          · exact a3 (e ▸ e')
          · exact a4 (e ▸ e')
        have k1 : w2.g.features c.1 = w.g.features c.1 := by
          rw [F6 c.1 (hfree c.1 (Or.inl rfl)), e1]
        have k2 : w2.g.features c.2 = w.g.features c.2 := by
          rw [F6 c.2 (hfree c.2 (Or.inr rfl)), e1]
        rcases N2 c hc2 with ⟨p, hp1, hp2, hj, hb⟩ | ⟨a, b, c'⟩
        · refine Or.inl ⟨p, ?_, hp2, hj, ?_⟩
          · rw [← e4, ← F2]; exact hp1
          · rw [← k2]; exact hb
        · refine Or.inr ⟨?_, ?_, fun hn2 => ?_⟩
          · show (w3.g.features c.1).feature3D = none
            rw [a, k1]; exact hnone
          · show (w3.g.features c.2).feature3D = _
            rw [b, k2]
          · exact c' (by rw [k2]; exact hn2)

/-! ### The triangulation stage inside `addFrame` -/

/-- An `addFrame` after the first frame that returns `true` has run the prediction, then the
    stage of the frame count, then `finish`. -/
theorem addFrame_stage (ext : Ext) (fuel : Nat) (w : World) (fr : FrameId) (R : Mat3) (t : Vec3)
    (r : AddFrameResult) (h : addFrame ext fuel w fr R t = some r)
    (hc : 1 ≤ w.ba.mFrameCount) (hret : r.ret = true) :
    ∃ fp w1 st, predictPose ext (enterWindow ext w fr) fr fp R t = some w1 ∧
      (if w1.ba.mFrameCount = 2 then bootstrap ext w1 fr fp else steady ext w1 fr fp R)
        = some st ∧
      st.ok = true ∧ finish ext fuel st.world fr st.Rt = some r ∧
      w1.ba.mFrameCount = w.ba.mFrameCount + 1 ∧ w1.ba.mMode = w.ba.mMode ∧
      (w1.g = w.g ∨ ∃ p, w1.g = w.g.setCameraPose fr (some p)) := by
  unfold addFrame at h
  dsimp only at h
  have hcount : (enterWindow ext w fr).ba.mFrameCount = w.ba.mFrameCount + 1 := rfl
  split at h
  · rename_i h1
    rw [hcount] at h1
    omega
  · unfold laterFrame at h
    split at h
    · exact absurd h (by simp)
    · rename_i fp _
      split at h
      · exact absurd h (by simp)
      · rename_i w1 hpred
        split at h
        · exact absurd h (by simp)
        · rename_i st hst
          have hba1 := predictPose_ba _ _ _ _ _ _ _ hpred
          split at h
          · rename_i hok
            exact ⟨fp, w1, st, hpred, hst, hok, h,
              (congrArg SlidingWindowBA.mFrameCount hba1).trans hcount,
              (congrArg SlidingWindowBA.mMode hba1).trans rfl,
              poseOnly_trans (enterWindow_graph ext w fr)
                (predictPose_graph _ _ _ _ _ _ _ hpred)⟩
          · simp only [Option.some.injEq] at h
            subst h
            exact absurd hret (by simp)

theorem selectInliers_mem (l : List (FeatId × FeatId)) :
    ∀ (mask : List Bool) (i : Nat) (inl : List (FeatId × FeatId)),
      selectInliers l i mask = some inl →
        ∀ c ∈ inl, ∃ j, l[i + j]? = some c ∧ mask[j]? = some true := by
  intro mask
  induction mask with
  | nil =>
    intro i inl h c hc
    simp only [selectInliers, Option.some.injEq] at h
    subst h
    exact absurd hc (List.not_mem_nil _)
  | cons b bs ih =>
    intro i inl h c hc
    have hshift : ∀ j, i + 1 + j = i + (j + 1) := fun j => by omega
    simp only [selectInliers] at h
    split at h
    · obtain ⟨j, hj1, hj2⟩ := ih _ _ h c hc
      exact ⟨j + 1, by rw [← hshift]; exact hj1, by simpa using hj2⟩
    · rename_i hb
      split at h
      · exact absurd h (by simp)
      · rename_i fc hfc
        split at h
        · exact absurd h (by simp)
        · rename_i rest hrest
          simp only [Option.some.injEq] at h
          subst h
          rcases List.mem_cons.mp hc with e | e
          · subst e
            refine ⟨0, hfc, ?_⟩
            cases b
            · exact absurd rfl hb
            · exact List.getElem?_cons_zero
          · obtain ⟨j, hj1, hj2⟩ := ih _ _ hrest c e
            exact ⟨j + 1, by rw [← hshift]; exact hj1, by simpa using hj2⟩

theorem observed_poseOnly {g g' : Graph} {F : FrameId}
    (h : g' = g ∨ ∃ p, g' = g.setCameraPose F (some p)) (ho : g.Observed) : g'.Observed := by
  obtain ⟨e1, _, e3, _, _⟩ := poseOnly_fields h
  intro f p hp
  rw [e1] at hp
  rw [e3]
  exact ho f p hp

theorem observed_grows {A : FeatId → Prop} {g g' : Graph} (h : g.Grows A g')
    (ha : g.Allocated) (ho : g.Observed) : g'.Observed :=
  fun f p hp => h.observed ha f (ho f) p hp

theorem observed_finish (ext : Ext) (fuel : Nat) (w : World) (fc : FrameId)
    (Rt : Option (Mat3 × Vec3)) (r : AddFrameResult) (h : finish ext fuel w fc Rt = some r)
    (ho : w.g.Observed) : r.world.g.Observed := by
  unfold finish at h
  dsimp only at h
  split at h
  · exact absurd h (by simp)
  · rename_i w1 hopt
    have h1 : w1.g.Observed := by
      split at hopt
      · obtain ⟨o1, _, _, o4, _⟩ := optimize_graph _ _ _ hopt
        intro f p hp
        rw [o1] at hp
        rw [o4]
        exact ho f p hp
      · simp only [Option.some.injEq] at hopt; subst hopt; exact ho
    split at h
    · exact absurd h (by simp)
    · rename_i w2 pr hpr
      have hu := (pruneWindow_spec ext fuel _ _ _ _ _ hpr).2.1
      have h2 : w2.g.Observed := by
        intro f p hp
        rw [hu.2.1]
        exact h1 f p (hu.link f p hp)
      split at h
      · split at h
        · exact absurd h (by simp)
        · simp only [Option.some.injEq] at h; subst h; exact h2
      · simp only [Option.some.injEq] at h; subst h; exact h2

/-- `addFrame` keeps every linked 2D feature in the observer list of its 3D point. -/
theorem addFrame_observed (ext : Ext) (fuel : Nat) (w : World) (fr : FrameId) (R_rel : Mat3)
    (t_rel : Vec3) (r : AddFrameResult) (h : addFrame ext fuel w fr R_rel t_rel = some r)
    (ha : w.g.Allocated) (ho : w.g.Observed) : r.world.g.Observed := by
  have he := enterWindow_graph ext w fr
  unfold addFrame at h
  dsimp only at h
  split at h
  · unfold firstFrame at h
    split at h
    · split at h
      · exact absurd h (by simp)
      · simp only [Option.some.injEq] at h; subst h
        exact observed_poseOnly (poseOnly_trans he (Or.inr ⟨_, rfl⟩)) ho
    · simp only [Option.some.injEq] at h; subst h
      exact observed_poseOnly he ho
  · unfold laterFrame at h
    split at h
    · exact absurd h (by simp)
    · split at h
      · exact absurd h (by simp)
      · rename_i w1 hp
        have hg1 := poseOnly_trans he (predictPose_graph _ _ _ _ _ _ _ hp)
        have ha1 := poseOnly_allocated hg1 ha
        have ho1 := observed_poseOnly hg1 ho
        split at h
        · exact absurd h (by simp)
        · rename_i st hs
          have hstage : ∃ cs gm, twoViewCorrespondences w1 fr = some cs ∧
              (gm = w1.g ∨ ∃ q, gm = w1.g.setCameraPose fr (some q)) ∧
              gm.Grows (InCorrespondence cs) st.world.g := by
            split at hs
            · exact bootstrap_grows _ _ _ _ _ hs
            · exact steady_grows _ _ _ _ _ _ hs ha1
          obtain ⟨cs, gm, _, hgm, hgrow⟩ := hstage
          have host := observed_grows hgrow (poseOnly_allocated hgm ha1)
            (observed_poseOnly hgm ho1)
          split at h
          · exact observed_finish _ _ _ _ _ _ h host
          · simp only [Option.some.injEq] at h; subst h; exact host

theorem addFrames_observed (ext : Ext) (fuel : Nat) :
    ∀ (calls : List (FrameId × Mat3 × Vec3)) (w w' : World),
      addFrames ext fuel w calls = some w' → w.g.Allocated → w.g.Observed →
        w'.g.Observed := by
  intro calls
  induction calls with
  | nil =>
    intro w w' h _ ho
    simp only [addFrames, Option.some.injEq] at h
    subst h; exact ho
  | cons c cs ih =>
    intro w w' h ha ho
    simp only [addFrames] at h
    split at h
    · exact absurd h (by simp)
    · rename_i r hr
      exact ih _ _ h (addFrame_allocated _ _ _ _ _ _ _ hr ha)
        (addFrame_observed _ _ _ _ _ _ _ hr ha ho)

theorem sceneAfter_observed (k : Nat) : (Demo.sceneAfter k).g.Observed := by
  have hnone : ∀ f, (Demo.sceneGraph.features f).feature3D = none := by
    intro f
    unfold Demo.sceneGraph
    dsimp only
    split_ifs <;> rfl
  have h0 : Demo.sceneWorld.g.Observed := by
    intro f p hp
    exact absurd ((hnone f) ▸ hp : (none : Option PointId) = some p) (by simp)
  have ha0 : Demo.sceneWorld.g.Allocated := by
    intro f p hp
    exact absurd ((hnone f) ▸ hp : (none : Option PointId) = some p) (by simp)
  unfold Demo.sceneAfter
  split
  · exact h0
  · rename_i w' hw
    exact addFrames_observed _ _ _ _ _ hw ha0 h0

theorem voAfter_allocated (k : Nat) : (Demo.voAfter k).g.Allocated := by
  have h0 : Demo.voWorld.g.Allocated := by
    intro f p hp
    have : (Demo.voGraph.features f).feature3D = none := by
      unfold Demo.voGraph
      dsimp only
      split_ifs <;> rfl
    exact absurd (this ▸ hp : (none : Option PointId) = some p) (by simp)
  unfold Demo.voAfter
  split
  · exact h0
  · rename_i w' hw
    exact addFrames_allocated _ _ _ _ _ hw h0

/-! ## C21: correspondences with a 3D point on the third and later frames -/

/-- C21 as stated fails outside VO mode.  On the third frame of the pose-anchored scene with
    frame 5, the correspondence (10, 40) has an earlier feature with the 3D point 0, whose
    reprojection error in frame 5 is 100 px; yet feature 40 is linked to point 0 and joins its
    observers, and neither best-match index is set to none. -/
theorem far_observation_extended :
    Demo.driftWorld.ba.mMode = Mode.ODOMETRY ∧ Demo.driftWorld.ba.mFrameCount = 2 ∧
    twoViewCorrespondences Demo.driftWorld 5 = some [(10, 40)] ∧
    (Demo.driftWorld.g.features 10).feature3D = some 0 ∧
    observationError Demo.ext Demo.driftWorld 5 40 0 = some 100 ∧
    (kReprojErrorThresh < 100) ∧
    (addFrame Demo.ext 32 Demo.driftWorld 5 Mat3.identity Vec3.zero).map (fun r =>
      (r.ret, (r.world.g.features 40).feature3D, (r.world.g.points 0).features2D))
        = some (true, some 0, [0, 10, 40]) ∧
    (addFrame Demo.ext 32 Demo.driftWorld 5 Mat3.identity Vec3.zero).map (fun r =>
      ((r.world.g.features 40).bestPrevMatchId, (r.world.g.features 10).bestNextMatchId))
        = some (0, 0) ∧
    (steady Demo.ext (enterWindow Demo.ext Demo.driftWorld 5) 5 2 Mat3.identity).map (fun st =>
      (st.ok, (st.world.g.features 40).feature3D, (st.world.g.features 40).bestPrevMatchId,
        (st.world.g.features 10).bestNextMatchId)) = some (true, some 0, 0, 0) := by
  refine ⟨by with_unfolding_all decide, by with_unfolding_all decide,
    by with_unfolding_all decide, by with_unfolding_all decide, by with_unfolding_all decide,
    by with_unfolding_all decide, by with_unfolding_all decide, by with_unfolding_all decide,
    by with_unfolding_all decide⟩

/-- C21 (amended): on the third and every later frame on which `addFrame` returns `true`, for
    every correspondence whose earlier feature has a 3D point `p` the reprojection error `e`
    of `p` in the current frame, after its pose has been estimated, is defined; in VO mode
    with `e` above `kReprojErrorThresh` (2.0 px) the correspondence is severed and the 3D link
    of the current feature is left as it was; in every other case, so always outside VO mode,
    the current feature is linked to `p` and is in the observer list of `p`.  The later
    features of the correspondences are pairwise different and none of them is an earlier
    feature; 3D links point to allocated points. -/
theorem tracked_correspondences (ext : Ext) (fuel : Nat) (w : World) (fr : FrameId) (R : Mat3)
    (t : Vec3) (r : AddFrameResult) (cs : List (FeatId × FeatId))
    (h : addFrame ext fuel w fr R t = some r) (hc : 2 ≤ w.ba.mFrameCount)
    (hret : r.ret = true) (hcs : twoViewCorrespondences w fr = some cs)
    (hnd : (cs.map Prod.snd).Nodup) (hfs : ∀ a ∈ cs, ∀ b ∈ cs, a.1 ≠ b.2)
    (ha : w.g.Allocated) :
    ∃ fp w1 st w2, predictPose ext (enterWindow ext w fr) fr fp R t = some w1 ∧
      steady ext w1 fr fp R = some st ∧
      steadyPose ext w1 fr fp R (partitionTriangulated w.g cs).1 = some (true, w2) ∧
      ∀ c ∈ cs, ∀ p, (w.g.features c.1).feature3D = some p →
        ∃ e, observationError ext w2 fr c.2 p = some e ∧
          (w.ba.mMode = Mode.VO → e > kReprojErrorThresh →
            st.world.g.Severed c ∧
            (st.world.g.features c.2).feature3D = (w.g.features c.2).feature3D) ∧
          ((w.ba.mMode ≠ Mode.VO ∨ e ≤ kReprojErrorThresh) →
            (st.world.g.features c.2).feature3D = some p ∧
            c.2 ∈ (st.world.g.points p).features2D) := by
  obtain ⟨fp, w1, st, hpred, hst, hok, _, hcount, hmode, hpo⟩ :=
    addFrame_stage ext fuel w fr R t r h (by omega) hret
  obtain ⟨e1, e2, e3, e4, e5⟩ := poseOnly_fields hpo
  have hne : ¬ w1.ba.mFrameCount = 2 := by rw [hcount]; omega
  rw [if_neg hne] at hst
  have hcs1 : twoViewCorrespondences w1 fr = some cs := by
    rw [twoViewCorrespondences_congr w w1 fr e1 e2 (e5 fr).1]; exact hcs
  obtain ⟨w2, hsp, hall⟩ := steady_tri_outcome ext w1 fr fp R st cs hst hok hcs1 hnd hfs
    (poseOnly_allocated hpo ha)
  rw [partitionTriangulated_congr w.g w1.g e1] at hsp
  refine ⟨fp, w1, st, w2, hpred, hst, hsp, fun c hcm p hlp => ?_⟩
  obtain ⟨e, he, hsev, hext⟩ := hall c hcm p (by rw [e1]; exact hlp)
  refine ⟨e, he, fun hm hgt => ?_, fun hcond => ?_⟩
  · obtain ⟨sv, lk⟩ := hsev ⟨hmode.trans hm, hgt⟩
    exact ⟨sv, by rw [lk, e1]⟩
  · have hn : ¬ (w1.ba.mMode = Mode.VO ∧ e > kReprojErrorThresh) := by
      rintro ⟨hm, hgt⟩
      rcases hcond with hc' | hc'
      · exact hc' (hmode.symm.trans hm)
      · exact absurd hgt (not_lt.mpr hc')
    obtain ⟨_, l2, ob, _⟩ := hext hn
    exact ⟨l2, ob⟩

/-- The amended C21 on the third frame of the VO scene. -/
theorem tracked_correspondences_witness :
    ∃ r, addFrame Demo.ext 32 (Demo.voAfter 2) 3 Mat3.identity Vec3.zero = some r ∧
    ∃ fp w1 st w2,
      predictPose Demo.ext (enterWindow Demo.ext (Demo.voAfter 2) 3) 3 fp Mat3.identity
        Vec3.zero = some w1 ∧
      steady Demo.ext w1 3 fp Mat3.identity = some st ∧
      steadyPose Demo.ext w1 3 fp Mat3.identity
        (partitionTriangulated (Demo.voAfter 2).g
          [(10, 20), (11, 21), (12, 22), (13, 23), (14, 24), (15, 25), (16, 26), (17, 27),
            (18, 28), (19, 29)]).1 = some (true, w2) ∧
      ∀ c ∈ [((10 : FeatId), (20 : FeatId)), (11, 21), (12, 22), (13, 23), (14, 24), (15, 25),
          (16, 26), (17, 27), (18, 28), (19, 29)],
        ∀ p, ((Demo.voAfter 2).g.features c.1).feature3D = some p →
        ∃ e, observationError Demo.ext w2 3 c.2 p = some e ∧
          ((Demo.voAfter 2).ba.mMode = Mode.VO → e > kReprojErrorThresh →
            st.world.g.Severed c ∧
            (st.world.g.features c.2).feature3D = ((Demo.voAfter 2).g.features c.2).feature3D) ∧
          (((Demo.voAfter 2).ba.mMode ≠ Mode.VO ∨ e ≤ kReprojErrorThresh) →
            (st.world.g.features c.2).feature3D = some p ∧
            c.2 ∈ (st.world.g.points p).features2D) := by
  have hsome : (addFrame Demo.ext 32 (Demo.voAfter 2) 3 Mat3.identity Vec3.zero).isSome
      = true := by with_unfolding_all decide
  obtain ⟨r, hr⟩ := Option.isSome_iff_exists.mp hsome
  have hret : r.ret = true := by
    have e : (addFrame Demo.ext 32 (Demo.voAfter 2) 3 Mat3.identity Vec3.zero).map
        (fun r => r.ret) = some true := by with_unfolding_all decide
    rw [hr] at e
    simpa using e
  exact ⟨r, hr, tracked_correspondences Demo.ext 32 (Demo.voAfter 2) 3 Mat3.identity Vec3.zero
    r _ hr (by with_unfolding_all decide) hret (by with_unfolding_all decide)
    (by with_unfolding_all decide) (by with_unfolding_all decide) (voAfter_allocated 2)⟩

/-! ## C22: the correspondences after the bootstrap -/

/-- C22: after a second frame on which `addFrame` returns `true`, at the end of the
    triangulation step every two-view correspondence is in exactly one of two states: its two
    features are linked to the same 3D point, created in this call, whose observer list
    contains both; or it is severed.  A correspondence that the inlier mask of the
    essential-matrix step does not mark is severed.  The correspondences are one-to-one and the
    features of the new frame arrive without 3D links. -/
theorem bootstrap_links_or_severs (ext : Ext) (fuel : Nat) (w : World) (fr : FrameId)
    (R : Mat3) (t : Vec3) (r : AddFrameResult) (l : List (FeatId × FeatId))
    (h : addFrame ext fuel w fr R t = some r) (hc : w.ba.mFrameCount = 1)
    (hret : r.ret = true) (hcs : twoViewCorrespondences w fr = some l) (h11 : OneToOne l)
    (hnew : ∀ c ∈ l, (w.g.features c.2).feature3D = none) :
    ∃ fp w1 st w2 inliers Rt,
      predictPose ext (enterWindow ext w fr) fr fp R t = some w1 ∧
      bootstrap ext w1 fr fp = some st ∧
      bootstrapPose ext w1 fr l = some (w2, inliers, Rt) ∧
      (∀ c ∈ l,
        ((∃ p, w.g.nextPoint ≤ p ∧ st.world.g.Joined c p) ∨ st.world.g.Severed c) ∧
        ¬ ((∃ p, w.g.nextPoint ≤ p ∧ st.world.g.Joined c p) ∧ st.world.g.Severed c)) ∧
      (∀ (i : Nat) (c : FeatId × FeatId), l[i]? = some c → inliers[i]? ≠ some true →
        st.world.g.Severed c) := by
  obtain ⟨fp, w1, st, hpred, hst, hok, _, hcount, _, hpo⟩ :=
    addFrame_stage ext fuel w fr R t r h (by omega) hret
  obtain ⟨e1, e2, e3, e4, e5⟩ := poseOnly_fields hpo
  have h2 : w1.ba.mFrameCount = 2 := by rw [hcount, hc]
  rw [if_pos h2] at hst
  have hcs1 : twoViewCorrespondences w1 fr = some l := by
    rw [twoViewCorrespondences_congr w w1 fr e1 e2 (e5 fr).1]; exact hcs
  obtain ⟨w2, inliers, Rt, ic, hbp, hsel, _, hall⟩ :=
    bootstrap_outcome ext w1 fr fp st l hst hok hcs1 h11
  have hright : ∀ c ∈ l, (st.world.g.features c.2).feature3D = (w1.g.features c.2).feature3D →
      ((w1.g.features c.2).feature3D = none → st.world.g.Severed c) →
      (st.world.g.features c.2).feature3D = none ∧ st.world.g.Severed c := by
    intro c hcm hl hs
    have hn : (w1.g.features c.2).feature3D = none := by rw [e1]; exact hnew c hcm
    exact ⟨hl.trans hn, hs hn⟩
  refine ⟨fp, w1, st, w2, inliers, Rt, hpred, hst, hbp, fun c hcm => ?_, fun i c hi hmask => ?_⟩
  · rcases hall c hcm with ⟨_, p, hp1, _, hj, hb⟩ | ⟨_, hl, hs⟩
    · refine ⟨Or.inl ⟨p, by rw [← e4]; exact hp1, hj⟩, fun hAB => ?_⟩
      have hprev := (twoViewCorrespondences_mem w fr l hcs c hcm).2.2.1
      rw [e1] at hb
      exact hprev (hb.symm.trans hAB.2.2)
    · obtain ⟨hn, hsv⟩ := hright c hcm hl hs
      refine ⟨Or.inr hsv, fun hAB => ?_⟩
      obtain ⟨p, _, hj⟩ := hAB.1
      rw [hj.2.1] at hn
      exact absurd hn (by simp)
  · have hcm : c ∈ l := List.getElem?_mem hi
    rcases hall c hcm with ⟨hic, _⟩ | ⟨_, hl, hs⟩
    · obtain ⟨j, hj1, hj2⟩ := selectInliers_mem l inliers 0 ic hsel c hic
      rw [Nat.zero_add] at hj1
      have hlt : i < l.length := by
        by_contra hge
        rw [List.getElem?_eq_none (by omega)] at hi
        exact absurd hi (by simp)
      have hij : i = j := List.getElem?_inj hlt (oneToOne_apart h11).1 (hi.trans hj1.symm)
      rw [hij] at hmask
      exact absurd hj2 hmask
    · exact (hright c hcm hl hs).2

/-- C22 on the second frame of the pose-anchored scene. -/
theorem bootstrap_links_or_severs_witness :
    ∃ r, addFrame Demo.ext 32 (Demo.sceneAfter 1) 2 Mat3.identity Vec3.zero = some r ∧
    ∃ fp w1 st w2 inliers Rt,
      predictPose Demo.ext (enterWindow Demo.ext (Demo.sceneAfter 1) 2) 2 fp Mat3.identity
        Vec3.zero = some w1 ∧
      bootstrap Demo.ext w1 2 fp = some st ∧
      bootstrapPose Demo.ext w1 2
        [(0, 10), (1, 11), (2, 12), (3, 13), (4, 14), (5, 15), (6, 16), (7, 17), (8, 18),
          (9, 19)] = some (w2, inliers, Rt) ∧
      (∀ c ∈ [((0 : FeatId), (10 : FeatId)), (1, 11), (2, 12), (3, 13), (4, 14), (5, 15),
          (6, 16), (7, 17), (8, 18), (9, 19)],
        ((∃ p, (Demo.sceneAfter 1).g.nextPoint ≤ p ∧ st.world.g.Joined c p) ∨
          st.world.g.Severed c) ∧
        ¬ ((∃ p, (Demo.sceneAfter 1).g.nextPoint ≤ p ∧ st.world.g.Joined c p) ∧
          st.world.g.Severed c)) ∧
      (∀ (i : Nat) (c : FeatId × FeatId),
        [((0 : FeatId), (10 : FeatId)), (1, 11), (2, 12), (3, 13), (4, 14), (5, 15),
          (6, 16), (7, 17), (8, 18), (9, 19)][i]? = some c →
        inliers[i]? ≠ some true → st.world.g.Severed c) := by
  have hsome : (addFrame Demo.ext 32 (Demo.sceneAfter 1) 2 Mat3.identity Vec3.zero).isSome
      = true := by with_unfolding_all decide
  obtain ⟨r, hr⟩ := Option.isSome_iff_exists.mp hsome
  have hret : r.ret = true := by
    have e : (addFrame Demo.ext 32 (Demo.sceneAfter 1) 2 Mat3.identity Vec3.zero).map
        (fun r => r.ret) = some true := by with_unfolding_all decide
    rw [hr] at e
    simpa using e
  have h11 : OneToOne [((0 : FeatId), (10 : FeatId)), (1, 11), (2, 12), (3, 13), (4, 14),
      (5, 15), (6, 16), (7, 17), (8, 18), (9, 19)] :=
    ⟨by decide, by decide, by decide⟩
  exact ⟨r, hr, bootstrap_links_or_severs Demo.ext 32 (Demo.sceneAfter 1) 2 Mat3.identity
    Vec3.zero r _ hr (by with_unfolding_all decide) hret (by with_unfolding_all decide) h11
    (by with_unfolding_all decide)⟩

/-! ## C24: observers and shared 3D points -/

/-- C24: `addFrame` keeps every 2D feature that has a 3D link in the observer list of that 3D
    point (3D links pointing to allocated points); and at the end of the triangulation stage
    of a second or later frame on which it returns `true`, the two features of every
    correspondence that has not been severed are linked to the same 3D point (the
    correspondences being one-to-one and the features of the new frame arriving without 3D
    links). -/
theorem observers_and_shared_points (ext : Ext) (fuel : Nat) (w : World) (fr : FrameId)
    (R : Mat3) (t : Vec3) (r : AddFrameResult) (h : addFrame ext fuel w fr R t = some r)
    (ha : w.g.Allocated) (ho : w.g.Observed) :
    r.world.g.Observed ∧
    ∀ cs, twoViewCorrespondences w fr = some cs → OneToOne cs →
      (∀ c ∈ cs, (w.g.features c.2).feature3D = none) → 1 ≤ w.ba.mFrameCount →
      r.ret = true →
      ∃ fp w1 st, predictPose ext (enterWindow ext w fr) fr fp R t = some w1 ∧
        (if w1.ba.mFrameCount = 2 then bootstrap ext w1 fr fp else steady ext w1 fr fp R)
          = some st ∧
        st.world.g.Observed ∧
        ∀ c ∈ cs, ¬ st.world.g.Severed c →
          ∃ p, (st.world.g.features c.1).feature3D = some p ∧
            (st.world.g.features c.2).feature3D = some p := by
  refine ⟨addFrame_observed ext fuel w fr R t r h ha ho, fun cs hcs h11 hnew hc hret => ?_⟩
  obtain ⟨fp, w1, st, hpred, hst, hok, _, hcount, hmode, hpo⟩ :=
    addFrame_stage ext fuel w fr R t r h hc hret
  obtain ⟨e1, e2, e3, e4, e5⟩ := poseOnly_fields hpo
  have ha1 := poseOnly_allocated hpo ha
  have ho1 := observed_poseOnly hpo ho
  have hcs1 : twoViewCorrespondences w1 fr = some cs := by
    rw [twoViewCorrespondences_congr w w1 fr e1 e2 (e5 fr).1]; exact hcs
  have hnew1 : ∀ c ∈ cs, (w1.g.features c.2).feature3D = none := by
    intro c hcm; rw [e1]; exact hnew c hcm
  refine ⟨fp, w1, st, hpred, hst, ?_, ?_⟩
  · have hstage : ∃ cs' gm, twoViewCorrespondences w1 fr = some cs' ∧
        (gm = w1.g ∨ ∃ q, gm = w1.g.setCameraPose fr (some q)) ∧
        gm.Grows (InCorrespondence cs') st.world.g := by
      split at hst
      · exact bootstrap_grows _ _ _ _ _ hst
      · exact steady_grows _ _ _ _ _ _ hst ha1
    obtain ⟨_, gm, _, hgm, hgrow⟩ := hstage
    exact observed_grows hgrow (poseOnly_allocated hgm ha1) (observed_poseOnly hgm ho1)
  · intro c hcm hkept
    split at hst
    · obtain ⟨_, _, _, _, _, _, _, hall⟩ := bootstrap_outcome ext w1 fr fp st cs hst hok hcs1 h11
      rcases hall c hcm with ⟨_, p, _, _, hj, _⟩ | ⟨_, _, hs⟩
      · exact ⟨p, hj.1, hj.2.1⟩
      · exact absurd (hs (hnew1 c hcm)) hkept
    · cases hl : (w1.g.features c.1).feature3D with
      | some p =>
        obtain ⟨w2, _, hall⟩ := steady_tri_outcome ext w1 fr fp R st cs hst hok hcs1
          h11.2.1 h11.2.2 ha1
        obtain ⟨e, _, hsev, hext⟩ := hall c hcm p hl
        by_cases hcond : w1.ba.mMode = Mode.VO ∧ e > kReprojErrorThresh
        · exact absurd (hsev hcond).1 hkept
        · obtain ⟨l1, l2, _, _⟩ := hext hcond
          exact ⟨p, l1, l2⟩
      | none =>
        rcases steady_untri_outcome ext w1 fr fp R st cs hst hok hcs1 h11 c hcm hl with
          ⟨p, _, _, hj, _⟩ | ⟨_, _, hs⟩
        · exact ⟨p, hj.1, hj.2.1⟩
        · exact absurd (hs (hnew1 c hcm)) hkept

/-- C24 on the second frame of the pose-anchored scene. -/
theorem observers_and_shared_points_witness :
    ∃ r, addFrame Demo.ext 32 (Demo.sceneAfter 1) 2 Mat3.identity Vec3.zero = some r ∧
      r.world.g.Observed ∧
      ∀ cs, twoViewCorrespondences (Demo.sceneAfter 1) 2 = some cs → OneToOne cs →
        (∀ c ∈ cs, ((Demo.sceneAfter 1).g.features c.2).feature3D = none) →
        1 ≤ (Demo.sceneAfter 1).ba.mFrameCount → r.ret = true →
        ∃ fp w1 st,
          predictPose Demo.ext (enterWindow Demo.ext (Demo.sceneAfter 1) 2) 2 fp Mat3.identity
            Vec3.zero = some w1 ∧
          (if w1.ba.mFrameCount = 2 then bootstrap Demo.ext w1 2 fp
            else steady Demo.ext w1 2 fp Mat3.identity) = some st ∧
          st.world.g.Observed ∧
          ∀ c ∈ cs, ¬ st.world.g.Severed c →
            ∃ p, (st.world.g.features c.1).feature3D = some p ∧
              (st.world.g.features c.2).feature3D = some p := by
  have hsome : (addFrame Demo.ext 32 (Demo.sceneAfter 1) 2 Mat3.identity Vec3.zero).isSome
      = true := by with_unfolding_all decide
  obtain ⟨r, hr⟩ := Option.isSome_iff_exists.mp hsome
  exact ⟨r, hr, observers_and_shared_points Demo.ext 32 (Demo.sceneAfter 1) 2 Mat3.identity
    Vec3.zero r hr (sceneAfter_allocated 1) (sceneAfter_observed 1)⟩

end Camodocal
